import Mathlib

/-!
# Quesma query translation core: aggregation planner and SQL serializer

A shallow embedding of `quesma/model/query.go`,
`quesma/queryparser/aggregation_parser.go`, the response reconstruction of
`quesma/queryparser/query_translator.go`, the response formatters of
`quesma/model/metrics_aggregations` and `quesma/model/bucket_aggregations`,
`makeBuckets` of `quesma/clickhouse/quesma_communicator.go`, the date
functions of `quesma/queryparser/aggregation_date_range_parser.go` and the
pipeline of `quesma/quesma/transformations.go`, with theorems about the
embedded functions.

Conventions of the embedding.

* Go `map[string]interface{}` values (`QueryMap`) are association lists (a Go
  map is such a list with distinct keys; the theorems do not need the keys to
  be distinct); a `range` loop over a map visits the entries in list order,
  so quantifying over all lists covers every iteration order Go may choose.
* A Go panic (failed type assertion, index out of range, explicit `panic`)
  is an error value: a function that can panic returns in `Except Panic`; the
  recursive planner, whose depth of recursion is bounded by a fuel argument,
  returns in `Except Abort`.
* Slices are lists with value semantics; the copies that `CopyAggregationFields`
  makes are what justifies it for the plan entries, and that method is also
  embedded on slices with backing arrays (`CopyAggregationFieldsHeap`).
* Functions of the translator whose bodies are not part of the embedded
  sources (`parseQueryMap`, `parseRange`, `and`, ...) are fields of
  `ClickhouseQueryTranslator`, so every theorem holds for all of their
  possible behaviours.
-/

namespace Quesma

/-! ## Go values -/

/-- A Go panic, with its message. -/
structure Panic where
  msg : String
  deriving Repr, DecidableEq

/-- How the recursive planner of the embedding can stop without a result: by a Go panic,
or because the bound on the depth of its recursion was reached. -/
inductive Abort where
  | panic (msg : String)
  | outOfFuel
  deriving Repr, DecidableEq

/-- A computation that can only panic, seen as a step of the recursive planner. -/
def liftPanic {α : Type} : Except Panic α → Except Abort α
  | .ok a => .ok a
  | .error p => .error (.panic p.msg)

/-- A finite `float64`, given exactly as `mant * 2 ^ exp`. -/
structure Float64 where
  mant : Int
  exp : Int
  deriving Repr, DecidableEq

/-- Go conversion `int(f)` of a `float64`: truncation toward zero (for values in
the range of `int`; Go leaves the result of other conversions to the platform). -/
def Float64.toInt (f : Float64) : Int :=
  if 0 ≤ f.exp then f.mant * 2 ^ f.exp.toNat else Int.tdiv f.mant (2 ^ (-f.exp).toNat)

/-- Dynamic values stored in an `interface{}`: what `json.Unmarshal` produces
(`nil`, `bool`, `string`, `float64`, `[]interface{}`, `map[string]interface{}`),
and the Go integers `int` and `int64` that hand-built maps may hold. -/
inductive JsonValue where
  | null
  | bool (b : Bool)
  | str (s : String)
  | int (i : Int)
  | int64 (i : Int)
  | float (f : Float64)
  | arr (xs : List JsonValue)
  | obj (kvs : List (String × JsonValue))

/-- The type `QueryMap = map[string]interface{}`. -/
abbrev QueryMap := List (String × JsonValue)

/-- Map read `m[k]` in its two-result form `v, ok := m[k]`. -/
def QueryMap.get (m : QueryMap) (k : String) : Option JsonValue :=
  match m with
  | [] => none
  | (k', v) :: rest => if k' = k then some v else QueryMap.get rest k

/-- Map read `m[k]` in its one-result form: a missing key gives `nil`. -/
def QueryMap.index (m : QueryMap) (k : String) : JsonValue :=
  (QueryMap.get m k).getD JsonValue.null

/-- The builtin `delete(m, k)`. -/
def QueryMap.delete (m : QueryMap) (k : String) : QueryMap :=
  m.filter (fun kv => kv.1 ≠ k)

/-- Type assertion `v.(QueryMap)`. -/
def JsonValue.asQueryMap : JsonValue → Except Panic QueryMap
  | .obj kvs => .ok kvs
  | _ => .error ⟨"interface conversion: interface is not QueryMap"⟩

/-- Type assertion `v.(string)`. -/
def JsonValue.asString : JsonValue → Except Panic String
  | .str s => .ok s
  | _ => .error ⟨"interface conversion: interface is not string"⟩

/-- Type assertion `v.([]interface{})`. -/
def JsonValue.asArray : JsonValue → Except Panic (List JsonValue)
  | .arr xs => .ok xs
  | _ => .error ⟨"interface conversion: interface is not []interface"⟩

mutual

/-- Nesting depth of maps inside a value. -/
def JsonValue.depth : JsonValue → Nat
  | .obj kvs => JsonValue.mapDepth kvs + 1
  | _ => 0

/-- Largest depth among the values of a map. -/
def JsonValue.mapDepth : List (String × JsonValue) → Nat
  | [] => 0
  | (_, v) :: rest => max (JsonValue.depth v) (JsonValue.mapDepth rest)
end

/-- Slice expression `xs[:len(xs)-1]`, which panics on an empty slice. -/
def dropLastGo {α : Type} (xs : List α) : Except Panic (List α) :=
  if xs.length = 0 then .error ⟨"slice bounds out of range [:-1]"⟩ else .ok xs.dropLast

/-- Index expression `xs[0]`. -/
def index0 {α : Type} : List α → Except Panic α
  | [] => .error ⟨"index out of range [0] with length 0"⟩
  | x :: _ => .ok x

/-! ## Go standard library -/

/-- The function `strconv.IsPrint`, exact for runes up to U+00FF; runes above are taken as
printable (Go consults its Unicode tables there). -/
def strconvIsPrint (r : Char) : Bool :=
  let n := r.toNat
  if n ≤ 0xFF then (0x20 ≤ n && n < 0x7F) || (0xA1 ≤ n && n ≠ 0xAD) else true

/-- Lower-case hexadecimal rendering of `n`, left-padded with zeros to `width` digits. -/
def lowerHex (width n : Nat) : String :=
  let ds := Nat.toDigits 16 n
  String.mk (List.replicate (width - ds.length) (Char.ofNat 48) ++ ds)

/-- Escaping of one rune by `strconv.Quote` (its `appendEscapedRune` with quote `"`). -/
def appendEscapedRune (r : Char) : String :=
  let n := r.toNat
  if n = 34 ∨ n = 92 then String.mk [Char.ofNat 92, r]
  else if strconvIsPrint r then String.mk [r]
  else if n = 7 then "\\a"
  else if n = 8 then "\\b"
  else if n = 12 then "\\f"
  else if n = 10 then "\\n"
  else if n = 13 then "\\r"
  else if n = 9 then "\\t"
  else if n = 11 then "\\v"
  else if n < 32 ∨ n = 127 then "\\x" ++ lowerHex 2 n
  else if n < 65536 then "\\u" ++ lowerHex 4 n
  else "\\U" ++ lowerHex 8 n

/-- The function `strconv.Quote`: a double-quoted Go string literal. -/
def strconvQuote (s : String) : String :=
  "\"" ++ String.join (s.data.map appendEscapedRune) ++ "\""

/-- The function `strconv.Atoi` on a 64-bit platform: the value and whether the error is
non-nil. A syntax error gives 0; a range error gives the nearest bound. -/
def strconvAtoi (s : String) : Int × Bool :=
  let cs := s.data
  let neg := cs.head? = some (Char.ofNat 45)
  let ds := if cs.head? = some (Char.ofNat 45) ∨ cs.head? = some (Char.ofNat 43) then cs.tail else cs
  if ds.isEmpty || !ds.all Char.isDigit then (0, true)
  else
    let n : Int := ds.foldl (fun a c => 10 * a + (c.toNat - 48 : Nat)) (0 : Nat)
    let v : Int := if neg then -n else n
    if v > 2 ^ 63 - 1 then (2 ^ 63 - 1, true)
    else if v < -(2 ^ 63) then (-(2 ^ 63), true)
    else (v, false)

/-- The function `strings.HasSuffix`. -/
def stringsHasSuffix (s suffix : String) : Bool :=
  suffix.data.isSuffixOf s.data

/-- The function `strings.TrimSuffix`. -/
def stringsTrimSuffix (s suffix : String) : String :=
  if stringsHasSuffix s suffix then String.mk (s.data.take (s.data.length - suffix.data.length)) else s

/-- The function `strings.Join`. -/
def stringsJoin (elems : List String) (sep : String) : String :=
  sep.intercalate elems

/-! ## `model/query.go` -/

/-- The constant `RowNumberColumnName`. -/
def RowNumberColumnName : String := "row_number"

/-- The constant `EmptyFieldSelection`: two single quotes, as in `SELECT ''`. -/
def EmptyFieldSelection : String := "''"

/-- The struct `model.Query`. -/
structure Query where
  Fields : List String
  NonSchemaFields : List String
  WhereClause : String
  GroupByFields : List String
  SuffixClauses : List String
  FromClause : String
  CanParse : Bool
  deriving Repr, DecidableEq

/-- Modelled from the spec: the declaration of the trail element used by the planner
(`model.NewAggregatorEmpty`, field `Empty`) is not among the sources. An aggregator
name carrying the flag `empty`, which says that the level itself added no group-by. -/
structure Aggregator where
  Name : String
  Empty : Bool
  deriving Repr, DecidableEq

/-- Modelled from the spec: `model.NewAggregatorEmpty` is not among the sources; it makes
the trail element of a level that has not added a group-by. -/
def NewAggregatorEmpty (name : String) : Aggregator :=
  { Name := name, Empty := true }

/-- The values the planner stores in the interface `QueryType`: `nil` (the zero value),
the types of `metrics_aggregations` and the types of `bucket_aggregations`. -/
inductive QueryType where
  | nil
  | Count
  | Sum
  | Min
  | Max
  | Avg
  | Stats
  | Cardinality
  | Quantile
  | TopHits
  | TopMetrics
  | ValueCount
  | PercentileRanks
  | Histogram
  | DateHistogram (Interval : String)
  | Terms
  deriving Repr, DecidableEq

/-- The struct `model.QueryWithAggregation`, with the trail in the form the planner uses
(`Aggregators`). -/
structure QueryWithAggregation extends Query where
  Aggregators : List Aggregator
  «Type» : QueryType
  deriving Repr, DecidableEq

/-- The names of the aggregator trail, in order. -/
def QueryWithAggregation.AggregatorsNames (q : QueryWithAggregation) : List String :=
  q.Aggregators.map Aggregator.Name

/-- The loop of `Query.String` over `Fields`: every field, quoted unless it is `*` or the
empty selection, followed by a comma unless it is the last item of the select list. -/
def writeFields (nonSchemaLen : Nat) : List String → String
  | [] => ""
  | field :: rest =>
    (if field = "*" ∨ field = EmptyFieldSelection then field else strconvQuote field)
      ++ (if 0 < rest.length ∨ 0 < nonSchemaLen then ", " else "")
      ++ writeFields nonSchemaLen rest

/-- The loops of `Query.String` over `NonSchemaFields` and over `GroupByFields`: every
item verbatim, followed by a comma unless it is the last. -/
def writeVerbatim : List String → String
  | [] => ""
  | field :: rest =>
    field ++ (if 0 < rest.length then ", " else "") ++ writeVerbatim rest

/-- The method `Query.String`. -/
def Query.String (q : Query) : String :=
  let sb := "SELECT "
  let sb := sb ++ writeFields q.NonSchemaFields.length q.Fields
  let sb := sb ++ writeVerbatim q.NonSchemaFields
  let whereKeyword := if q.WhereClause.length = 0 then "" else " WHERE "
  let sb := sb ++ (" FROM " ++ q.FromClause ++ whereKeyword ++ q.WhereClause ++ " "
    ++ stringsJoin q.SuffixClauses " ")
  let sb := if 0 < q.GroupByFields.length
    then sb ++ " GROUP BY (" ++ writeVerbatim q.GroupByFields ++ ")"
    else sb
  sb

/-- The method `CopyAggregationFields`: fresh copies of the four slices of `qwa` (the trail
in the form the planner uses). -/
def QueryWithAggregation.CopyAggregationFields (q qwa : QueryWithAggregation) :
    QueryWithAggregation :=
  { q with
    GroupByFields := qwa.GroupByFields
    Fields := qwa.Fields
    NonSchemaFields := qwa.NonSchemaFields
    Aggregators := qwa.Aggregators }

/-- The method `RemoveEmptyGroupBy`. -/
def QueryWithAggregation.RemoveEmptyGroupBy (q : QueryWithAggregation) : QueryWithAggregation :=
  { q with GroupByFields := q.GroupByFields.filter (fun field => field ≠ EmptyFieldSelection) }

/-- The method `TrimKeywordFromFields`. -/
def QueryWithAggregation.TrimKeywordFromFields (q : QueryWithAggregation) : QueryWithAggregation :=
  { q with
    Fields := q.Fields.map (fun f => stringsTrimSuffix f ".keyword")
    GroupByFields := q.GroupByFields.map (fun f => stringsTrimSuffix f ".keyword") }

/-! ## `queryparser/aggregation_parser.go` -/

/-- Modelled from the spec: the declaration of `Statement` is not among the sources; the
planner reads only its field `Stmt`, the rendered SQL of a predicate. -/
structure Statement where
  Stmt : String
  deriving Repr, DecidableEq

/-- Modelled from the spec: the declaration of `SimpleQuery` is not among the sources; a
predicate `{ sql, canParse, fieldName }` as returned by every combinator of the
predicate builder. -/
structure SimpleQuery where
  Sql : Statement
  CanParse : Bool
  FieldName : String
  deriving Repr, DecidableEq

/-- The struct `metricsAggregation`. `Percentiles` lists the entries of the Go map in the
order in which a `range` loop visits them. -/
structure metricsAggregation where
  AggrType : String
  FieldNames : List String
  Percentiles : List (String × Float64)
  SortBy : String
  Size : Int
  Order : String
  deriving Repr, DecidableEq

/-- The zero value `metricsAggregation{}`. -/
def metricsAggregation.zero : metricsAggregation :=
  { AggrType := "", FieldNames := [], Percentiles := [], SortBy := "", Size := 0, Order := "" }

/-- The table of the translator, through the two methods the planner calls. -/
structure Table where
  FullTableName : String
  ResolveField : String → String

/-- The translator `ClickhouseQueryTranslator`, as the planner sees it: its table, the
methods and functions of the package whose bodies are not among the sources, and
the float conversions of the Go library: `sprintfFloat` is the verb `%f` of `fmt.Sprintf`
(and `%6f`, which pads to six characters and `%f` never writes fewer than eight),
`formatFloat` is `strconv.FormatFloat` with format `f` and precision `-1`, `parseFloat` is
`strconv.ParseFloat` with its error dropped. -/
structure ClickhouseQueryTranslator where
  Table : Table
  parseQueryMap : QueryMap → Except Panic SimpleQuery
  parseRange : QueryMap → Except Panic SimpleQuery
  parseBool : QueryMap → Except Panic SimpleQuery
  and : List Statement → Statement
  extractInterval : QueryMap → Except Panic String
  createHistogramPartOfQuery : QueryMap → Except Panic String
  parsePercentilesAggregation : QueryMap → Except Panic (String × List (String × Float64))
  ParseTopMetricsAggregation : QueryMap → Except Panic metricsAggregation
  sprintfFloat : Float64 → String
  formatFloat : Float64 → String
  parseFloat : String → Float64

/-- The struct `aggrQueryBuilder` (its `ctx` is used for logging only). -/
structure aggrQueryBuilder extends QueryWithAggregation where
  whereBuilder : SimpleQuery
  deriving Repr, DecidableEq

/-- The zero value `aggrQueryBuilder{}`. -/
def aggrQueryBuilder.zero : aggrQueryBuilder :=
  { Fields := [], NonSchemaFields := [], WhereClause := "", GroupByFields := [],
    SuffixClauses := [], FromClause := "", CanParse := false, Aggregators := [],
    «Type» := QueryType.nil,
    whereBuilder := { Sql := { Stmt := "" }, CanParse := false, FieldName := "" } }

/-- The method `buildAggregationCommon`. -/
def buildAggregationCommon (b : aggrQueryBuilder) : QueryWithAggregation :=
  let query := b.toQueryWithAggregation
  let query := { query with WhereClause := b.whereBuilder.Sql.Stmt }
  let query := query.CopyAggregationFields b.toQueryWithAggregation
  let query :=
    if 0 < query.Fields.length ∧ query.Fields.getLast? = some EmptyFieldSelection
    then { query with Fields := query.Fields.dropLast }
    else query
  let query := query.RemoveEmptyGroupBy
  let query := query.TrimKeywordFromFields
  query

/-- The method `buildCountAggregation`. -/
def buildCountAggregation (b : aggrQueryBuilder) : QueryWithAggregation :=
  let query := buildAggregationCommon b
  { query with «Type» := QueryType.Count, NonSchemaFields := query.NonSchemaFields ++ ["count()"] }

/-- The method `buildBucketAggregation`. -/
def buildBucketAggregation (b : aggrQueryBuilder) : QueryWithAggregation :=
  let query := buildAggregationCommon b
  { query with NonSchemaFields := query.NonSchemaFields ++ ["count()"] }

/-- The function `quoteArray`. -/
def quoteArray (array : List String) : List String :=
  array.map strconvQuote

/-- The second `switch` of `buildMetricsAggregation`: the result kind of an aggregation
type; an unknown type leaves the kind as it is. -/
def metricsQueryType (aggrType : String) (current : QueryType) : QueryType :=
  if aggrType = "sum" then QueryType.Sum
  else if aggrType = "min" then QueryType.Min
  else if aggrType = "max" then QueryType.Max
  else if aggrType = "avg" then QueryType.Avg
  else if aggrType = "stats" then QueryType.Stats
  else if aggrType = "cardinality" then QueryType.Cardinality
  else if aggrType = "quantile" then QueryType.Quantile
  else if aggrType = "top_hits" then QueryType.TopHits
  else if aggrType = "top_metrics" then QueryType.TopMetrics
  else if aggrType = "value_count" then QueryType.ValueCount
  else if aggrType = "percentile_ranks" then QueryType.PercentileRanks
  else current

/-- The first `switch` of `buildMetricsAggregation`: the changes an aggregation type makes
to the common query. -/
def metricsSelect (cw : ClickhouseQueryTranslator) (b : aggrQueryBuilder)
    (metricsAggr : metricsAggregation) (query : QueryWithAggregation) :
    Except Panic QueryWithAggregation :=
  if metricsAggr.AggrType = "sum" ∨ metricsAggr.AggrType = "min" ∨ metricsAggr.AggrType = "max"
      ∨ metricsAggr.AggrType = "avg" then do
    let field ← index0 metricsAggr.FieldNames
    pure { query with NonSchemaFields :=
      query.NonSchemaFields ++ [metricsAggr.AggrType ++ "(\"" ++ field ++ "\")"] }
  else if metricsAggr.AggrType = "quantile" then
    metricsAggr.Percentiles.foldlM (fun (query : QueryWithAggregation) p => do
      let field ← index0 metricsAggr.FieldNames
      pure { query with NonSchemaFields := query.NonSchemaFields ++
        ["quantiles(" ++ cw.sprintfFloat p.2 ++ ")(`" ++ field ++ "`) AS `quantile_" ++ p.1 ++ "`"] })
      query
  else if metricsAggr.AggrType = "cardinality" then do
    let field ← index0 metricsAggr.FieldNames
    pure { query with NonSchemaFields :=
      query.NonSchemaFields ++ ["COUNT(DISTINCT \"" ++ field ++ "\")"] }
  else if metricsAggr.AggrType = "value_count" then
    pure { query with NonSchemaFields := query.NonSchemaFields ++ ["count()"] }
  else if metricsAggr.AggrType = "stats" then do
    let field ← index0 metricsAggr.FieldNames
    pure { query with NonSchemaFields := query.NonSchemaFields ++
      ["count(`" ++ field ++ "`)", "min(`" ++ field ++ "`)", "max(`" ++ field ++ "`)",
       "avg(`" ++ field ++ "`)", "sum(`" ++ field ++ "`)"] }
  else if metricsAggr.AggrType = "top_hits" then
    let fieldsAsString := stringsJoin metricsAggr.FieldNames ", "
    pure { query with
      Fields := query.Fields ++ metricsAggr.FieldNames
      FromClause := "(SELECT " ++ fieldsAsString ++ ", ROW_NUMBER() OVER (PARTITION BY "
        ++ fieldsAsString ++ ") AS " ++ RowNumberColumnName ++ " FROM " ++ query.FromClause ++ ")" }
  else if metricsAggr.AggrType = "top_metrics" then
    if 0 < b.GroupByFields.length then
      let ordFunc :=
        if metricsAggr.Order = "asc" then "MAX"
        else if metricsAggr.Order = "desc" then "MIN"
        else ""
      let innerFields := metricsAggr.FieldNames ++ [metricsAggr.SortBy]
      let topSelectFields := innerFields.map (fun field =>
        ordFunc ++ "(\"" ++ field ++ "\") AS \"windowed_" ++ field ++ "\"")
      let partitionBy := stringsJoin b.GroupByFields ""
      let fieldsAsString := stringsJoin (quoteArray innerFields) ", "
      pure { query with
        NonSchemaFields := query.NonSchemaFields ++ topSelectFields
        FromClause := "(SELECT " ++ fieldsAsString ++ ", ROW_NUMBER() OVER (PARTITION BY "
          ++ partitionBy ++ " ORDER BY " ++ strconvQuote metricsAggr.SortBy ++ " "
          ++ metricsAggr.Order ++ ") AS " ++ RowNumberColumnName ++ " FROM " ++ query.FromClause
          ++ " WHERE " ++ b.whereBuilder.Sql.Stmt ++ ")"
        WhereClause := query.WhereClause ++ (" AND " ++ RowNumberColumnName ++ " <= "
          ++ toString metricsAggr.Size) }
    else
      pure { query with
        Fields := metricsAggr.FieldNames ++ [metricsAggr.SortBy]
        SuffixClauses := query.SuffixClauses ++ ["ORDER BY " ++ metricsAggr.SortBy ++ " "
          ++ metricsAggr.Order ++ " LIMIT " ++ toString metricsAggr.Size] }
  else if metricsAggr.AggrType = "percentile_ranks" then do
    let fieldName ← index0 metricsAggr.FieldNames
    pure { query with NonSchemaFields := query.NonSchemaFields ++
      (metricsAggr.FieldNames.drop 1).map (fun cutValueAsString =>
        "count(if(" ++ strconvQuote fieldName ++ "<=" ++ cw.sprintfFloat (cw.parseFloat cutValueAsString)
          ++ ", 1, NULL))/count(*)*100") }
  else
    pure { query with CanParse := false }

/-- The method `buildMetricsAggregation`. -/
def buildMetricsAggregation (cw : ClickhouseQueryTranslator) (b : aggrQueryBuilder)
    (metricsAggr : metricsAggregation) : Except Panic QueryWithAggregation := do
  let query := buildAggregationCommon b
  let query ← metricsSelect cw b metricsAggr query
  pure { query with «Type» := metricsQueryType metricsAggr.AggrType query.«Type» }

/-- The method `combineWheres`. -/
def combineWheres (cw : ClickhouseQueryTranslator) (where1 where2 : SimpleQuery) : SimpleQuery :=
  { Sql := cw.and [where1.Sql, where2.Sql]
    CanParse := where1.CanParse && where2.CanParse
    FieldName := if 0 < where1.FieldName.length then where1.FieldName else where2.FieldName }

/-- The list `metricsAggregations` of `tryMetricsAggregation`. -/
def metricsAggregations : List String :=
  ["sum", "avg", "min", "max", "cardinality", "value_count", "stats"]

/-- The loop of `tryMetricsAggregation` over the cut values of `percentile_ranks`. -/
def appendCutValues (cw : ClickhouseQueryTranslator) (fieldNames : List String) :
    List JsonValue → List String
  | [] => fieldNames
  | JsonValue.float f :: rest => appendCutValues cw (fieldNames ++ [cw.formatFloat f]) rest
  | JsonValue.int64 i :: rest => appendCutValues cw (fieldNames ++ [toString i]) rest
  | _ :: rest => appendCutValues cw fieldNames rest

/-- The loop of `tryMetricsAggregation` over the `includes` of `top_hits`. -/
def fieldsAsStrings : List JsonValue → Except Panic (List String)
  | [] => pure []
  | v :: rest => do
    let s ← v.asString
    let ss ← fieldsAsStrings rest
    pure (s :: ss)

/-- The method `tryMetricsAggregation`. -/
def tryMetricsAggregation (cw : ClickhouseQueryTranslator) (queryMap : QueryMap) :
    Except Panic (metricsAggregation × Bool) :=
  if queryMap.length ≠ 1 then pure (metricsAggregation.zero, false)
  else
    match queryMap.find? (fun kv => metricsAggregations.contains kv.1) with
    | some (k, v) => do
      let params ← v.asQueryMap
      let field ← (params.index "field").asString
      pure ({ metricsAggregation.zero with
        AggrType := k, FieldNames := [cw.Table.ResolveField field] }, true)
    | none =>
    match queryMap.get "percentiles" with
    | some percentile => do
      let params ← percentile.asQueryMap
      let (fieldName, percentiles) ← cw.parsePercentilesAggregation params
      pure ({ metricsAggregation.zero with
        AggrType := "quantile", FieldNames := [fieldName], Percentiles := percentiles }, true)
    | none =>
    match queryMap.get "top_metrics" with
    | some topMetrics => do
      let params ← topMetrics.asQueryMap
      let topMetricsAggrParams ← cw.ParseTopMetricsAggregation params
      pure (topMetricsAggrParams, true)
    | none =>
    match queryMap.get "top_hits" with
    | some topHits => do
      let params ← topHits.asQueryMap
      let source ← (params.index "_source").asQueryMap
      let fields ← (source.index "includes").asArray
      let names ← fieldsAsStrings fields
      pure ({ metricsAggregation.zero with AggrType := "top_hits", FieldNames := names }, true)
    | none =>
    match queryMap.get "percentile_ranks" with
    | some percentileRanks => do
      let params ← percentileRanks.asQueryMap
      let field ← (params.index "field").asString
      let params2 ← percentileRanks.asQueryMap
      let cutValues ← (params2.index "values").asArray
      let fieldNames := appendCutValues cw [cw.Table.ResolveField field] cutValues
      pure ({ metricsAggregation.zero with
        AggrType := "percentile_ranks", FieldNames := fieldNames }, true)
    | none => pure (metricsAggregation.zero, false)

/-- The `switch` of `tryBucketAggregation` on the dynamic type of the histogram interval. -/
def histogramInterval (intervalQueryMap : JsonValue) : Except Panic Int :=
  match intervalQueryMap with
  | JsonValue.str intervalRaw =>
    let (v, err) := strconvAtoi intervalRaw
    if err then pure v else pure 0
  | JsonValue.int intervalRaw => pure intervalRaw
  | JsonValue.float intervalRaw => pure intervalRaw.toInt
  | _ => .error ⟨"unexpected type of interval"⟩

/-- The method `tryBucketAggregation`. The builder and the map are passed by reference
in Go; here the updated builder and map are returned, followed by the two results
`success` and `nonSchemaFieldAdded`. -/
def tryBucketAggregation (cw : ClickhouseQueryTranslator) (currentAggr : aggrQueryBuilder)
    (queryMap : QueryMap) : Except Panic (aggrQueryBuilder × QueryMap × Bool × Bool) :=
  match queryMap.get "histogram" with
  | some histogram => do
    let params ← histogram.asQueryMap
    let field ← (params.index "field").asString
    let fieldName := strconvQuote (cw.Table.ResolveField field)
    let interval ← histogramInterval (params.index "interval")
    let groupByStr :=
      if interval ≠ 1
      then "floor(" ++ fieldName ++ " / " ++ toString interval ++ ") * " ++ toString interval
        ++ " AS " ++ fieldName
      else fieldName
    pure ({ currentAggr with
        «Type» := QueryType.Histogram
        GroupByFields := currentAggr.GroupByFields ++ [groupByStr]
        NonSchemaFields := currentAggr.NonSchemaFields ++ [fieldName] },
      queryMap.delete "histogram", true, true)
  | none =>
  match queryMap.get "date_histogram" with
  | some dateHistogram => do
    let params ← dateHistogram.asQueryMap
    let interval ← cw.extractInterval params
    let histogramPartOfQuery ← cw.createHistogramPartOfQuery params
    pure ({ currentAggr with
        «Type» := QueryType.DateHistogram interval
        GroupByFields := currentAggr.GroupByFields ++ [histogramPartOfQuery]
        NonSchemaFields := currentAggr.NonSchemaFields ++ [histogramPartOfQuery] },
      queryMap.delete "date_histogram", true, true)
  | none =>
  match queryMap.get "terms" with
  | some terms => do
    let params ← terms.asQueryMap
    let field ← (params.index "field").asString
    let fieldName := strconvQuote (cw.Table.ResolveField field)
    pure ({ currentAggr with
        «Type» := QueryType.Terms
        GroupByFields := currentAggr.GroupByFields ++ [fieldName]
        NonSchemaFields := currentAggr.NonSchemaFields ++ [fieldName] },
      queryMap.delete "terms", true, true)
  | none =>
  match queryMap.get "sampler" with
  | some _ =>
    pure ({ currentAggr with «Type» := QueryType.Count }, queryMap.delete "sampler", true, false)
  | none =>
  match queryMap.get "random_sampler" with
  | some _ =>
    pure ({ currentAggr with «Type» := QueryType.Count }, queryMap.delete "random_sampler",
      true, false)
  | none =>
  match queryMap.get "range" with
  | some Range => do
    let params ← Range.asQueryMap
    let parsed ← cw.parseRange params
    pure ({ currentAggr with whereBuilder := combineWheres cw currentAggr.whereBuilder parsed },
      queryMap.delete "range", true, false)
  | none =>
  match queryMap.get "bool" with
  | some Bool => do
    let params ← Bool.asQueryMap
    let parsed ← cw.parseBool params
    pure ({ currentAggr with whereBuilder := combineWheres cw currentAggr.whereBuilder parsed },
      queryMap.delete "bool", true, false)
  | none => pure (currentAggr, queryMap, false, false)

/-- The statement `currentAggr.Aggregators[len(currentAggr.Aggregators)-1].Empty = false`,
which panics on an empty trail. -/
def markLastAggregatorNotEmpty (currentAggr : aggrQueryBuilder) : Except Panic aggrQueryBuilder :=
  match currentAggr.Aggregators.getLast? with
  | none => .error ⟨"index out of range [-1]"⟩
  | some last => pure { currentAggr with
      Aggregators := currentAggr.Aggregators.dropLast ++ [{ last with Empty := false }] }

/-- The loop over named sub-aggregations, in the form in which it occurs both at the end
of `parseAggregation` and in `ParseAggregationJson`: push the name on the trail, parse
the value as an aggregation node with `parse`, pop the name. -/
def parseNamedAggregations
    (parse : aggrQueryBuilder → QueryMap → List QueryWithAggregation →
      Except Abort (aggrQueryBuilder × List QueryWithAggregation)) :
    QueryMap → aggrQueryBuilder → List QueryWithAggregation →
      Except Abort (aggrQueryBuilder × List QueryWithAggregation)
  | [], currentAggr, resultAccumulator => pure (currentAggr, resultAccumulator)
  | (k, v) :: rest, currentAggr, resultAccumulator => do
    let currentAggr := { currentAggr with
      Aggregators := currentAggr.Aggregators ++ [NewAggregatorEmpty k] }
    let node ← liftPanic v.asQueryMap
    let (currentAggr, resultAccumulator) ← parse currentAggr node resultAccumulator
    let trail ← liftPanic (dropLastGo currentAggr.Aggregators)
    parseNamedAggregations parse rest { currentAggr with Aggregators := trail } resultAccumulator

/-- Step 2 of `parseAggregation`: the `filter` key. Returns the builder, the map, the
accumulator and `filterOnThisLevel`. -/
def parseFilterOnThisLevel (cw : ClickhouseQueryTranslator) (currentAggr : aggrQueryBuilder)
    (queryMap : QueryMap) (resultAccumulator : List QueryWithAggregation) :
    Except Panic (aggrQueryBuilder × QueryMap × List QueryWithAggregation × Bool) :=
  match queryMap.get "filter" with
  | some filter => do
    let params ← filter.asQueryMap
    let parsed ← cw.parseQueryMap params
    let currentAggr := { currentAggr with
      «Type» := QueryType.Count
      whereBuilder := combineWheres cw currentAggr.whereBuilder parsed }
    pure (currentAggr, queryMap.delete "filter",
      resultAccumulator ++ [buildCountAggregation currentAggr], true)
  | none => pure (currentAggr, queryMap, resultAccumulator, false)

/-- The end of `parseAggregation`: restore the state of the builder. -/
def restoreAfterNesting (currentAggr : aggrQueryBuilder) (filterOnThisLevel : Bool)
    (whereBeforeNesting : SimpleQuery) (addedNonSchemaField : Bool)
    (queryTypeBeforeNesting : QueryType) : Except Panic aggrQueryBuilder := do
  let currentAggr :=
    if filterOnThisLevel then { currentAggr with whereBuilder := whereBeforeNesting }
    else currentAggr
  let currentAggr ←
    if addedNonSchemaField ∧ 0 < currentAggr.GroupByFields.length then do
      let nonSchemaFields ← dropLastGo currentAggr.NonSchemaFields
      pure { currentAggr with
        GroupByFields := currentAggr.GroupByFields.dropLast
        NonSchemaFields := nonSchemaFields }
    else pure currentAggr
  pure { currentAggr with «Type» := queryTypeBeforeNesting }

/-- Step 4 of `parseAggregation`: the `aggs` key, whose value is parsed with `parse` as an
aggregation node on the same trail. -/
def parseNestedAggs
    (parse : aggrQueryBuilder → QueryMap → List QueryWithAggregation →
      Except Abort (aggrQueryBuilder × List QueryWithAggregation))
    (currentAggr : aggrQueryBuilder) (queryMap : QueryMap)
    (resultAccumulator : List QueryWithAggregation) :
    Except Abort (aggrQueryBuilder × List QueryWithAggregation) :=
  match queryMap.get "aggs" with
  | some aggs => do
    let node ← liftPanic aggs.asQueryMap
    parse currentAggr node resultAccumulator
  | none => pure (currentAggr, resultAccumulator)

/-- The method `parseAggregation`, with the depth of recursion bounded by `fuel`. The
builder and the accumulator are passed by reference in Go; here their final values
are returned. -/
def parseAggregationAux (cw : ClickhouseQueryTranslator) :
    Nat → aggrQueryBuilder → QueryMap → List QueryWithAggregation →
      Except Abort (aggrQueryBuilder × List QueryWithAggregation)
  | 0, _, _, _ => .error .outOfFuel
  | fuel + 1, currentAggr, queryMap, resultAccumulator =>
    if queryMap.length = 0 then pure (currentAggr, resultAccumulator)
    else do
      let whereBeforeNesting := currentAggr.whereBuilder
      let queryTypeBeforeNesting := currentAggr.«Type»
      -- 1. Metrics aggregation => always leaf
      let (metricsAggrResult, ok) ← liftPanic (tryMetricsAggregation cw queryMap)
      if ok then
        let query ← liftPanic (buildMetricsAggregation cw currentAggr metricsAggrResult)
        pure (currentAggr, resultAccumulator ++ [query])
      else
        -- 2. Now process filter(s) first
        let (currentAggr, queryMap, resultAccumulator, filterOnThisLevel) ←
          liftPanic (parseFilterOnThisLevel cw currentAggr queryMap resultAccumulator)
        let filterOnThisLevel := filterOnThisLevel || (queryMap.get "filters").isSome
        let queryMap := queryMap.delete "filters"
        -- 3. Bucket aggregations
        let (currentAggr, queryMap, bucketAggrPresent, addedNonSchemaField) ←
          liftPanic (tryBucketAggregation cw currentAggr queryMap)
        let currentAggr ←
          if addedNonSchemaField then liftPanic (markLastAggregatorNotEmpty currentAggr)
          else pure currentAggr
        let (currentAggr, resultAccumulator) ←
          parseNestedAggs (parseAggregationAux cw fuel) currentAggr queryMap resultAccumulator
        let queryMap := queryMap.delete "aggs"
        let resultAccumulator :=
          if bucketAggrPresent then resultAccumulator ++ [buildBucketAggregation currentAggr]
          else resultAccumulator
        -- 5. At the end, we process subaggregations, introduced via (k, v)
        let (currentAggr, resultAccumulator) ←
          parseNamedAggregations (parseAggregationAux cw fuel) queryMap currentAggr resultAccumulator
        -- restore current state, removing subaggregation state
        let currentAggr ← liftPanic (restoreAfterNesting currentAggr filterOnThisLevel
          whereBeforeNesting addedNonSchemaField queryTypeBeforeNesting)
        pure (currentAggr, resultAccumulator)

/-- The method `parseAggregation`: the recursion is given as much fuel as the map is deep,
which is always enough (`parseAggregationAux_ne_outOfFuel`). -/
def parseAggregation (cw : ClickhouseQueryTranslator) (currentAggr : aggrQueryBuilder)
    (queryMap : QueryMap) (resultAccumulator : List QueryWithAggregation) :
    Except Abort (aggrQueryBuilder × List QueryWithAggregation) :=
  parseAggregationAux cw (JsonValue.mapDepth queryMap + 1) currentAggr queryMap resultAccumulator

/-- The method `ParseAggregationJson`. The argument is the result of `json.Unmarshal` on the
request body: the parsed map, or the text of its error. The result is the pair
`(plan, nil)` as `.ok plan`, or `(nil, error)` as `.error` with the text of the error. -/
def ParseAggregationJson (cw : ClickhouseQueryTranslator) (queryAsJson : Except String QueryMap) :
    Except Abort (Except String (List QueryWithAggregation)) :=
  match queryAsJson with
  | .error err => pure (.error ("unmarshal error: " ++ err))
  | .ok queryAsMap => do
    let currentAggr := { aggrQueryBuilder.zero with FromClause := cw.Table.FullTableName }
    let currentAggr ←
      match queryAsMap.get "query" with
      | some queryPart => do
        let params ← liftPanic queryPart.asQueryMap
        let parsed ← liftPanic (cw.parseQueryMap params)
        pure { currentAggr with whereBuilder := parsed }
      | none => pure currentAggr
    let aggregations := [buildCountAggregation currentAggr]
    match queryAsMap.get "aggs" with
    | some aggs => do
      let named ← liftPanic aggs.asQueryMap
      let (_, aggregations) ←
        parseNamedAggregations (parseAggregation cw) named currentAggr aggregations
      pure (.ok aggregations)
    | none => pure (.error "no aggs")

/-! ## `queryparser/query_translator.go` -/

/-- The value of a finite `float64` as a rational number. -/
def Float64.toRat (f : Float64) : ℚ :=
  f.mant * (2 : ℚ) ^ f.exp

/-- Modelled from the spec: the declaration of the values of result columns is not among
the sources. A value that crosses the SQL boundary, dynamically typed: `nil`, `int64`,
`uint64`, a finite `float64`, `string`, `time.Time` (a value of the struct, given by its
instant in nanoseconds), and `[]float64` for quantiles. -/
inductive Value where
  | null
  | int64 (i : Int)
  | uint64 (n : Nat)
  | float64 (f : Float64)
  | str (s : String)
  | time (unixNano : Int)
  | floats (fs : List Float64)
  deriving Repr, DecidableEq

/-- Modelled from the spec: the declaration of `model.QueryResultCol` is not among the
sources; a pair of a column name and a value. -/
structure QueryResultCol where
  ColName : String
  Value : Value
  deriving Repr, DecidableEq

/-- Modelled from the spec: the declaration of `model.QueryResultRow` is not among the
sources; an ordered vector of columns plus the name of the originating index. -/
structure QueryResultRow where
  Index : String
  Cols : List QueryResultCol
  deriving Repr, DecidableEq

/-- Go equality `==` of two interface values that can be compared: values of different
dynamic types are different, two `float64` are compared as numbers, other values of the
same type are equal if they are the same. -/
def Value.same (a b : Value) : Prop :=
  match a, b with
  | .float64 f, .float64 g => f.toRat = g.toRat
  | a, b => a = b

/-- Go comparison `a != b` of two interface values: it panics if both hold a slice, which
cannot be compared. -/
def Value.ne (a b : Value) : Except Panic Bool :=
  match a, b with
  | .floats _, .floats _ => .error ⟨"runtime error: comparing uncomparable type []float64"⟩
  | .float64 f, .float64 g => pure (decide (f.toRat ≠ g.toRat))
  | a, b => pure (decide (a ≠ b))

/-- Go index expression `xs[i]` on a slice, which panics out of range. -/
def indexGo {α : Type} (xs : List α) (i : Nat) : Except Panic α :=
  match xs.get? i with
  | some x => pure x
  | none => .error ⟨"index out of range"⟩

/-- The loop of `sameGroupByFields`, from column `i` with `n` iterations left. -/
def sameGroupByFieldsFrom (row1 row2 : QueryResultRow) : Nat → Nat → Except Panic Bool
  | _, 0 => pure true
  | i, n + 1 => do
    let col1 ← indexGo row1.Cols i
    let col2 ← indexGo row2.Cols i
    let differ ← col1.Value.ne col2.Value
    if differ then pure false else sameGroupByFieldsFrom row1 row2 (i + 1) n

/-- The method `sameGroupByFields` (its receiver is not used): the loop runs over the
columns `0, ..., level`, none if `level` is negative. -/
def sameGroupByFields (row1 row2 : QueryResultRow) (level : Int) : Except Panic Bool :=
  sameGroupByFieldsFrom row1 row2 0 (level + 1).toNat

/-- The loop of `splitResultSetIntoBuckets` over the rows, with the variables `buckets`,
`curBucket` and `lastRow`. -/
def splitResultSetIntoBucketsLoop (level : Int) :
    List QueryResultRow → List (List QueryResultRow) → Nat → QueryResultRow →
      Except Panic (List (List QueryResultRow))
  | [], buckets, _, _ => pure buckets
  | row :: rest, buckets, curBucket, lastRow => do
    let same ← sameGroupByFields row lastRow level
    if same then
      let bucket ← indexGo buckets curBucket
      splitResultSetIntoBucketsLoop level rest (buckets.set curBucket (bucket ++ [row]))
        curBucket row
    else
      splitResultSetIntoBucketsLoop level rest (buckets ++ [[row]]) (curBucket + 1) row

/-- The method `splitResultSetIntoBuckets` (its receiver is used only to call
`sameGroupByFields`). -/
def splitResultSetIntoBuckets (ResultSet : List QueryResultRow) (level : Int) :
    Except Panic (List (List QueryResultRow)) :=
  match ResultSet with
  | [] => pure []
  | lastRow :: _ => splitResultSetIntoBucketsLoop level ResultSet [[]] 0 lastRow

/-! ## Response values and the formatters of `model/metrics_aggregations` and
`model/bucket_aggregations` -/

/-- The values stored in the `model.JsonMap` of a response by the embedded functions: the
value of a result column, a Go `int`, a `map[string]float64`, a `model.JsonMap` and a
`[]model.JsonMap`. A map is the list of its entries, a `nil` map or slice is the empty
list. -/
inductive ResponseValue where
  | value (v : Value)
  | int (i : Int)
  | floatMap (m : List (String × Float64))
  | map (m : List (String × ResponseValue))
  | maps (ms : List (List (String × ResponseValue)))

/-- The type `JsonMap = map[string]interface{}` of a response. -/
abbrev JsonMap := List (String × ResponseValue)

/-- Map assignment `m[k] = v` on a map given by the list of its entries: the entry of `k`
is replaced, or added at the end if the map has none. -/
def mapSet {β : Type} : List (String × β) → String → β → List (String × β)
  | [], k, v => [(k, v)]
  | (k', v') :: rest, k, v => if k' = k then (k, v) :: rest else (k', v') :: mapSet rest k v

/-- Type assertion `v.(int64)`. -/
def Value.asInt64 : Value → Except Panic Int
  | .int64 i => .ok i
  | _ => .error ⟨"interface conversion: interface is not int64"⟩

/-- Type assertion `v.([]float64)`. -/
def Value.asFloats : Value → Except Panic (List Float64)
  | .floats fs => .ok fs
  | _ => .error ⟨"interface conversion: interface is not []float64"⟩

/-- Go index expression `xs[i]` with an index of type `int`. -/
def indexGoInt {α : Type} (xs : List α) (i : Int) : Except Panic α :=
  if i < 0 then .error ⟨"index out of range"⟩ else indexGo xs i.toNat

/-- Go slice expression `xs[i:]` with an index of type `int`. -/
def sliceFromGo {α : Type} (xs : List α) (i : Int) : Except Panic (List α) :=
  if i < 0 ∨ (xs.length : Int) < i then .error ⟨"slice bounds out of range"⟩
  else .ok (xs.drop i.toNat)

/-- The function `strings.HasPrefix`. -/
def stringsHasPrefix (s pre : String) : Bool :=
  pre.data.isPrefixOf s.data

/-- The function `strings.CutPrefix`. -/
def stringsCutPrefix (s pre : String) : String × Bool :=
  if stringsHasPrefix s pre then (String.mk (s.data.drop pre.data.length), true) else (s, false)

/-- The search of `strings.Index`, from position `i`. -/
def stringsIndexFrom (substr : List Char) : List Char → Nat → Int
  | [], i => if substr = [] then i else -1
  | c :: cs, i => if substr.isPrefixOf (c :: cs) then i else stringsIndexFrom substr cs (i + 1)

/-- The function `strings.Index`, with positions counted in characters. The sources use
the result only to compare it with `-1` and to cut the string at the occurrence, for which
counting bytes or characters gives the same string. -/
def stringsIndex (s substr : String) : Int :=
  stringsIndexFrom substr.data s.data 0

/-- Go slice expression `s[:i]` on a string, for a position `i` returned by
`strings.Index`. -/
def stringUpTo (s : String) (i : Int) : String :=
  String.mk (s.data.take i.toNat)

/-- The method `TranslateSqlResponseToJson` of `QueryTypeDateHistogram`. -/
def QueryTypeDateHistogram.TranslateSqlResponseToJson (rows : List QueryResultRow) (level : Int) :
    Except Panic (List JsonMap) :=
  rows.foldlM (fun (response : List JsonMap) row => do
    let key ← indexGoInt row.Cols level
    let docCount ← indexGoInt row.Cols (level + 1)
    pure (response ++ [[("key", ResponseValue.value key.Value),
      ("doc_count", ResponseValue.value docCount.Value),
      ("key_as_string", ResponseValue.int 1)]])) []

/-- The variable `emptyPercentilesResult`. -/
def emptyPercentilesResult : List JsonMap :=
  [[("values", ResponseValue.int 0)]]

/-- The body of the loop of `Quantile.TranslateSqlResponseToJson` over the columns of the
first row. -/
def quantileColumn (valueMap : List (String × Float64)) (res : QueryResultCol) :
    Except Panic (List (String × Float64)) :=
  if stringsHasPrefix res.ColName "quantile" then do
    let percentile ← res.Value.asFloats
    let (percentileName, _) := stringsCutPrefix res.ColName "quantile_"
    let dotIndex := stringsIndex percentileName "."
    let percentileName := if dotIndex = -1 then percentileName ++ ".0" else percentileName
    let first ← index0 percentile
    pure (mapSet valueMap percentileName first)
  else pure valueMap

/-- The method `TranslateSqlResponseToJson` of `Quantile`. -/
def Quantile.TranslateSqlResponseToJson (rows : List QueryResultRow) (_level : Int) :
    Except Panic (List JsonMap) :=
  match rows with
  | [] => pure emptyPercentilesResult
  | row0 :: _ =>
    if row0.Cols.length = 0 then pure emptyPercentilesResult
    else do
      let valueMap ← row0.Cols.foldlM quantileColumn []
      pure [[("values", ResponseValue.floatMap valueMap)]]

/-- The body of the loop of `Stats.TranslateSqlResponseToJson` over the columns of the
first row. -/
def statsColumn (resultMap : JsonMap) (v : QueryResultCol) : JsonMap :=
  let firstLeftBracketIndex := stringsIndex v.ColName "("
  if firstLeftBracketIndex = -1 then resultMap
  else mapSet resultMap (stringUpTo v.ColName firstLeftBracketIndex) (ResponseValue.value v.Value)

/-- The method `TranslateSqlResponseToJson` of `Stats`. -/
def Stats.TranslateSqlResponseToJson (rows : List QueryResultRow) (level : Int) :
    Except Panic (List JsonMap) :=
  match rows with
  | [] => pure [[]]
  | row0 :: _ => do
    let cols ← sliceFromGo row0.Cols level
    pure [cols.foldl statsColumn []]

/-- The methods `IsBucketAggregation` and `TranslateSqlResponseToJson` of the result kinds
whose declarations are not among the sources. -/
structure QueryTypeMethods where
  IsBucketAggregation : QueryType → Bool
  TranslateSqlResponseToJson : QueryType → List QueryResultRow → Int → Except Panic (List JsonMap)

/-- The method `IsBucketAggregation` of the interface `QueryType`: as in the sources for
`date_histogram`, `quantile` and `stats`, as `other` has it for the other kinds; a call on
the `nil` interface panics. -/
def QueryType.IsBucketAggregation (other : QueryTypeMethods) : QueryType → Except Panic Bool
  | .nil => .error ⟨"invalid memory address or nil pointer dereference"⟩
  | .DateHistogram _ => pure true
  | .Quantile => pure false
  | .Stats => pure false
  | t => pure (other.IsBucketAggregation t)

/-- The method `TranslateSqlResponseToJson` of the interface `QueryType`: as in the sources
for `date_histogram`, `quantile` and `stats`, as `other` has it for the other kinds; a call
on the `nil` interface panics. -/
def QueryType.TranslateSqlResponseToJson (other : QueryTypeMethods) :
    QueryType → List QueryResultRow → Int → Except Panic (List JsonMap)
  | .nil, _, _ => .error ⟨"invalid memory address or nil pointer dereference"⟩
  | .DateHistogram _, rows, level => QueryTypeDateHistogram.TranslateSqlResponseToJson rows level
  | .Quantile, rows, level => Quantile.TranslateSqlResponseToJson rows level
  | .Stats, rows, level => Stats.TranslateSqlResponseToJson rows level
  | t, rows, level => other.TranslateSqlResponseToJson t rows level

/-! ## `queryparser/query_translator.go`: the response -/

/-- The method `finishMakeResponse`. -/
def finishMakeResponse (other : QueryTypeMethods) (query : QueryWithAggregation)
    (ResultSet : List QueryResultRow) (level : Int) : Except Panic (List JsonMap) :=
  if ResultSet.length = 0 then pure []
  else do
    let isBucket ← query.«Type».IsBucketAggregation other
    if isBucket then query.«Type».TranslateSqlResponseToJson other ResultSet level
    else do
      let lastAggregator ←
        indexGoInt query.AggregatorsNames ((query.AggregatorsNames.length : Int) - 1)
      let translated ← query.«Type».TranslateSqlResponseToJson other ResultSet level
      let first ← index0 translated
      pure [[(lastAggregator, ResponseValue.map first)]]

/-- The condition of the first `if` of `makeResponseAggregationRecursive`; `||` and `&&`
evaluate their right operand only if the left one does not decide. -/
def isFinishingLevel (other : QueryTypeMethods) (query : QueryWithAggregation) (level : Int) :
    Except Panic Bool :=
  if level = (query.AggregatorsNames.length : Int) then pure true
  else if level = (query.AggregatorsNames.length : Int) - 1 then do
    let isBucket ← query.«Type».IsBucketAggregation other
    pure (!isBucket)
  else pure false

/-- The loop of `makeResponseAggregationRecursive` over the buckets, with `recurse` for the
recursive call at the next level. -/
def collectBuckets (recurse : List QueryResultRow → Except Abort (List JsonMap)) :
    List (List QueryResultRow) → List JsonMap → Except Abort (List JsonMap)
  | [], bucketsReturnMap => pure bucketsReturnMap
  | bucket :: rest, bucketsReturnMap => do
    let sub ← recurse bucket
    collectBuckets recurse rest (bucketsReturnMap ++ sub)

/-- The method `makeResponseAggregationRecursive`, with the depth of recursion bounded by
`fuel`. -/
def makeResponseAggregationRecursiveAux (other : QueryTypeMethods)
    (query : QueryWithAggregation) :
    Nat → List QueryResultRow → Int → Except Abort (List JsonMap)
  | 0, _, _ => .error .outOfFuel
  | fuel + 1, ResultSet, level => do
    -- either we finish
    let finish ← liftPanic (isFinishingLevel other query level)
    if finish then liftPanic (finishMakeResponse other query ResultSet level)
    else do
      let buckets ← liftPanic (splitResultSetIntoBuckets ResultSet level)
      if buckets.length = 0 then pure []
      else do
        -- or we need to go deeper
        let bucketsReturnMap ← collectBuckets
          (fun bucket => makeResponseAggregationRecursiveAux other query fuel bucket (level + 1))
          buckets []
        let name ← liftPanic (indexGoInt query.AggregatorsNames level)
        pure [[(name, ResponseValue.map [("buckets", ResponseValue.maps bucketsReturnMap)])]]

/-- The largest number of columns of a row. -/
def maxWidth (rows : List QueryResultRow) : Nat :=
  (rows.map (fun row => row.Cols.length)).foldr max 0

/-- The method `makeResponseAggregationRecursive`: the recursion is given as much fuel as
there are levels up to the length of the trail or the width of the rows, which is always
enough (`makeResponseAggregationRecursiveAux_ne_outOfFuel`). -/
def makeResponseAggregationRecursive (other : QueryTypeMethods) (query : QueryWithAggregation)
    (ResultSet : List QueryResultRow) (level : Int) : Except Abort (List JsonMap) :=
  makeResponseAggregationRecursiveAux other query
    ((max (query.AggregatorsNames.length : Int) (maxWidth ResultSet) - level).toNat + 1)
    ResultSet level

/-- The method `MakeResponseAggregation`. -/
def MakeResponseAggregation (other : QueryTypeMethods) (query : QueryWithAggregation)
    (ResultSet : List QueryResultRow) : Except Abort JsonMap := do
  let maps ← makeResponseAggregationRecursive other query ResultSet 0
  liftPanic (index0 maps)

/-! ## `clickhouse/quesma_communicator.go` -/

/-- Modelled from the spec: the constant `model.ResultColKeyIndex` is not among the
sources; the key is the first column of a histogram row (`key`, `doc_count`). -/
def ResultColKeyIndex : Nat := 0

/-- The method `Milliseconds` of `time.Duration`, a number of nanoseconds: the duration in
whole milliseconds, rounded toward zero. -/
def durationMilliseconds (d : Int) : Int :=
  Int.tdiv d 1000000

/-- The value of an integer as an `int64`: arithmetic on `int64` wraps around modulo
`2 ^ 64`. -/
def wrapInt64 (x : Int) : Int :=
  (x + 2 ^ 63) % 2 ^ 64 - 2 ^ 63

/-- The expression `row.Cols[model.ResultColKeyIndex].Value.(int64)`, which panics if the
row has no such column or if its value is not an `int64`. -/
def rowKey (row : QueryResultRow) : Except Panic Int := do
  let col ← indexGo row.Cols ResultColKeyIndex
  col.Value.asInt64

/-- The body of the loop of `makeBuckets`, with `formatUnixMilli timestamp` for
`time.UnixMilli(timestamp).UTC().Format("2006-01-02T15:04:05.000")`. -/
def makeBucket (formatUnixMilli : Int → String) (bucket : Int) (row : QueryResultRow) :
    Except Panic QueryResultRow := do
  let col ← indexGo row.Cols ResultColKeyIndex
  let key ← col.Value.asInt64
  let timestamp := wrapInt64 (key * durationMilliseconds bucket)
  pure { row with Cols := row.Cols.set ResultColKeyIndex { col with Value := Value.int64 timestamp }
    ++ [{ ColName := "key_as_string", Value := Value.str (formatUnixMilli timestamp) }] }

/-- The function `makeBuckets`. `sortSlice` is `sort.Slice`: the rows are sorted with the
comparison of their keys. Every comparison reads the keys of two rows with a type
assertion, and so does the loop after the sort, so the function panics if a row has no
`int64` key; here the keys of all rows are read first and the rows are sorted together with
their keys. -/
def makeBuckets
    (sortSlice : List (Int × QueryResultRow) →
      (Int × QueryResultRow → Int × QueryResultRow → Bool) → List (Int × QueryResultRow))
    (formatUnixMilli : Int → String) (result : List QueryResultRow) (bucket : Int) :
    Except Panic (List QueryResultRow) := do
  let keyed ← result.mapM (fun row => do
    let key ← rowKey row
    pure (key, row))
  let sorted := sortSlice keyed (fun ri rj => decide (ri.1 < rj.1))
  sorted.mapM (fun keyedRow => makeBucket formatUnixMilli bucket keyedRow.2)

/-! ## `queryparser/aggregation_date_range_parser.go` -/

/-- The bytes of the UTF-8 encoding of a character. -/
def utf8Bytes (c : Char) : List Nat :=
  let v := c.toNat
  if v < 0x80 then [v]
  else if v < 0x800 then [0xC0 + v / 64, 0x80 + v % 64]
  else if v < 0x10000 then [0xE0 + v / 4096, 0x80 + v / 64 % 64, 0x80 + v % 64]
  else [0xF0 + v / 262144, 0x80 + v / 4096 % 64, 0x80 + v / 64 % 64, 0x80 + v % 64]

/-- The bytes of a Go string, which `len` counts and an index expression `s[i]` reads. -/
def goBytes (s : String) : List Nat :=
  s.data.flatMap utf8Bytes

/-- The function `unicode.IsDigit` on the runes up to `unicode.MaxLatin1`, which is all
that the conversion of a byte to a rune gives: the decimal digits `0` to `9`. -/
def unicodeIsDigit (r : Nat) : Bool :=
  decide (48 ≤ r ∧ r ≤ 57)

/-- The method `isSimpleDate` (its receiver is not used). -/
def isSimpleDate (dateTime : String) : Bool :=
  if (goBytes dateTime).length ≠ "2024-04-15".length then false
  else if ¬ [0, 1, 2, 3, 5, 6, 8, 9].all (fun idx => unicodeIsDigit ((goBytes dateTime).getD idx 0))
  then false
  else if ¬ [4, 7].all (fun idx => (goBytes dateTime).getD idx 0 = '-'.toNat) then false
  else true

/-- The variable `roundingFunction` of `addRoundingToClickhouseDateTime`, read at a key of
the map. -/
def roundingFunction (r : Nat) : String :=
  if r = 'd'.toNat then "toStartOfDay"
  else if r = 'w'.toNat then "toStartOfWeek"
  else if r = 'M'.toNat then "toStartOfMonth"
  else if r = 'Y'.toNat then "toStartOfYear"
  else ""

/-- The method `addRoundingToClickhouseDateTime` (its receiver is used for logging
only). -/
def addRoundingToClickhouseDateTime (dateTime : String) (parsedWithoutRounding : String) :
    String :=
  let defaultRounding := 'd'.toNat
  let bytes := goBytes dateTime
  if bytes.length < "/d".length ∨ bytes.getD (bytes.length - 2) 0 ≠ '/'.toNat then
    parsedWithoutRounding
  else
    let last := bytes.getD (bytes.length - 1) 0
    if last = 'd'.toNat ∨ last = 'w'.toNat ∨ last = 'M'.toNat ∨ last = 'Y'.toNat then
      roundingFunction last ++ "(" ++ parsedWithoutRounding ++ ")"
    else
      roundingFunction defaultRounding ++ "(" ++ parsedWithoutRounding ++ ")"

/-- The method `parseDateTimeInClickhouseMathLanguage`, with the function
`parseDateMathExpression`, which is not among the sources, as an argument. -/
def parseDateTimeInClickhouseMathLanguage (parseDateMathExpression : String → String)
    (dateTime : String) : String :=
  -- 1. 2024-01-01 format
  if isSimpleDate dateTime then "'" ++ dateTime ++ "'"
  else
    -- 2. expressions like now() or now()-1d
    let parsedWithoutRounding := parseDateMathExpression dateTime
    addRoundingToClickhouseDateTime dateTime parsedWithoutRounding

/-! ## `quesma/transformations.go` -/

/-- A value of the interface `plugins.QueryTransformer`, whose declaration is not among the
sources, through the one method that the pipeline calls: `Transform` takes the queries and
returns queries and an error (`none` is `nil`, `some msg` an error with its text); a call
can panic. The queries behind the pointers of `[]*model.Query` are taken by value. -/
structure QueryTransformer where
  Transform : List Query → Except Panic (List Query × Option String)

/-- The struct `TransformationPipeline`. -/
structure TransformationPipeline where
  transformers : List QueryTransformer

/-- The loop of `TransformationPipeline.Transform` over the transformers, with the variable
`queries`. -/
def transformLoop : List QueryTransformer → List Query → Except Panic (List Query)
  | [], queries => pure queries
  | transformer :: rest, queries => do
    let (queries, _) ← transformer.Transform queries
    transformLoop rest queries

/-- The method `TransformationPipeline.Transform`. -/
def TransformationPipeline.Transform (o : TransformationPipeline) (queries : List Query) :
    Except Panic (List Query × Option String) := do
  let queries ← transformLoop o.transformers queries
  pure (queries, none)

/-! ## Go slices and their backing arrays, and `CopyAggregationFields` on them -/

/-- A Go slice of strings: the number of its backing array, the offset of its first element
in that array, its length and its capacity. -/
structure GoSlice where
  array : Nat
  offset : Nat
  len : Nat
  cap : Nat
  deriving Repr, DecidableEq

/-- The memory of the slices: the backing arrays, in the order of their allocation; the
number of an array is its position. -/
abbrev GoHeap := List (List String)

/-- The elements of a slice. -/
def GoHeap.read (heap : GoHeap) (s : GoSlice) : List String :=
  ((heap.getD s.array []).drop s.offset).take s.len

/-- The assignment of a value to an element of a backing array. -/
def GoHeap.write (heap : GoHeap) (array position : Nat) (v : String) : GoHeap :=
  heap.set array ((heap.getD array []).set position v)

/-- The builtin `make([]string, n)`: a new backing array of `n` empty strings. -/
def goMake (heap : GoHeap) (n : Nat) : GoHeap × GoSlice :=
  (heap ++ [List.replicate n ""], { array := heap.length, offset := 0, len := n, cap := n })

/-- The builtin `copy(dst, src)`: the first `min(len(dst), len(src))` elements of `dst` are
replaced by those of `src`. -/
def goCopy (heap : GoHeap) (dst src : GoSlice) : GoHeap :=
  let values := (heap.read src).take dst.len
  let backing := heap.getD dst.array []
  heap.set dst.array
    (backing.take dst.offset ++ values ++ backing.drop (dst.offset + values.length))

/-- The builtin `append(s, v)`: the value is written behind the elements of the slice if its
capacity allows it; otherwise the elements and the value go to a new backing array, whose
capacity the runtime chooses (`grow`). -/
def goAppend (grow : Nat → Nat) (heap : GoHeap) (s : GoSlice) (v : String) : GoHeap × GoSlice :=
  if s.len < s.cap then
    (heap.write s.array (s.offset + s.len) v, { s with len := s.len + 1 })
  else
    let newCap := max (s.len + 1) (grow s.cap)
    (heap ++ [heap.read s ++ [v] ++ List.replicate (newCap - (s.len + 1)) ""],
      { array := heap.length, offset := 0, len := s.len + 1, cap := newCap })

/-- The four slices of a `QueryWithAggregation` that `CopyAggregationFields` copies. -/
structure AggregationFields where
  GroupByFields : GoSlice
  Fields : GoSlice
  NonSchemaFields : GoSlice
  AggregatorsNames : GoSlice
  deriving Repr, DecidableEq

/-- The method `CopyAggregationFields` on the memory: the memory and the four slices of the
receiver after the call. -/
def CopyAggregationFieldsHeap (heap : GoHeap) (qwa : AggregationFields) :
    GoHeap × AggregationFields :=
  let (heap, groupByFields) := goMake heap qwa.GroupByFields.len
  let heap := goCopy heap groupByFields qwa.GroupByFields
  let (heap, fields) := goMake heap qwa.Fields.len
  let heap := goCopy heap fields qwa.Fields
  let (heap, nonSchemaFields) := goMake heap qwa.NonSchemaFields.len
  let heap := goCopy heap nonSchemaFields qwa.NonSchemaFields
  let (heap, aggregatorsNames) := goMake heap qwa.AggregatorsNames.len
  let heap := goCopy heap aggregatorsNames qwa.AggregatorsNames
  (heap, { GroupByFields := groupByFields, Fields := fields,
           NonSchemaFields := nonSchemaFields, AggregatorsNames := aggregatorsNames })

/-- The names of the four slices. -/
inductive SliceField where
  | GroupByFields
  | Fields
  | NonSchemaFields
  | AggregatorsNames
  deriving Repr, DecidableEq

/-- The slice of a name. -/
def AggregationFields.get (f : AggregationFields) : SliceField → GoSlice
  | .GroupByFields => f.GroupByFields
  | .Fields => f.Fields
  | .NonSchemaFields => f.NonSchemaFields
  | .AggregatorsNames => f.AggregatorsNames

/-- The assignment of a slice to a name. -/
def AggregationFields.put (f : AggregationFields) (field : SliceField) (s : GoSlice) :
    AggregationFields :=
  match field with
  | .GroupByFields => { f with GroupByFields := s }
  | .Fields => { f with Fields := s }
  | .NonSchemaFields => { f with NonSchemaFields := s }
  | .AggregatorsNames => { f with AggregatorsNames := s }

/-- The statements by which the planner changes a list of its builder: `b.X = append(b.X,
v)`, `b.X = b.X[:len(b.X)-1]` and `b.X[i] = v`. -/
inductive ListStatement where
  | append (field : SliceField) (v : String)
  | pop (field : SliceField)
  | assign (field : SliceField) (i : Nat) (v : String)

/-- The execution of a statement on the memory and the slices of the builder. -/
def runStatement (grow : Nat → Nat) (heap : GoHeap) (b : AggregationFields) :
    ListStatement → Except Panic (GoHeap × AggregationFields)
  | .append field v =>
    let (heap, s) := goAppend grow heap (b.get field) v
    pure (heap, b.put field s)
  | .pop field =>
    if (b.get field).len = 0 then .error ⟨"slice bounds out of range [:-1]"⟩
    else pure (heap, b.put field { b.get field with len := (b.get field).len - 1 })
  | .assign field i v =>
    if i < (b.get field).len
    then pure (heap.write (b.get field).array ((b.get field).offset + i) v, b)
    else .error ⟨"index out of range"⟩

/-- The execution of statements one after the other. -/
def runStatements (grow : Nat → Nat) :
    List ListStatement → GoHeap → AggregationFields → Except Panic (GoHeap × AggregationFields)
  | [], heap, b => pure (heap, b)
  | statement :: rest, heap, b => do
    let (heap, b) ← runStatement grow heap b statement
    runStatements grow rest heap b

/-! ## Notions used in the statements -/

/-- The part of the builder that no step of the planner assigns to. -/
def aggrQueryBuilder.fixedPart (b : aggrQueryBuilder) :
    List String × String × List String × String × Bool :=
  (b.Fields, b.WhereClause, b.SuffixClauses, b.FromClause, b.CanParse)

/-- The node has one of the keys with which `tryBucketAggregation` adds a group-by
expression. -/
def hasBucketKey (q : QueryMap) : Bool :=
  (QueryMap.get q "histogram").isSome || (QueryMap.get q "date_histogram").isSome
    || (QueryMap.get q "terms").isSome

/-- The forms of the group-by expression that `tryBucketAggregation` appends: a quoted
column, a `floor` expression, or the expression of `createHistogramPartOfQuery`. -/
def IsBucketExpr (cw : ClickhouseQueryTranslator) (g : String) : Prop :=
  (∃ f, g = strconvQuote f) ∨ (∃ x, g = "floor(" ++ x)
    ∨ (∃ params, cw.createHistogramPartOfQuery params = .ok g)

/-- What `parseAggregation` leaves as it found it: the fixed part, the two stacks, the
result kind, the names of the trail and every trail element but the last. -/
def Framed (b b' : aggrQueryBuilder) : Prop :=
  b'.fixedPart = b.fixedPart ∧ b'.GroupByFields = b.GroupByFields
    ∧ b'.NonSchemaFields = b.NonSchemaFields ∧ b'.«Type» = b.«Type»
    ∧ b'.Aggregators.map Aggregator.Name = b.Aggregators.map Aggregator.Name
    ∧ b'.Aggregators.dropLast = b.Aggregators.dropLast

/-- The accumulator `acc'` extends `acc` by entries that cannot be parsed if the builder
says so. -/
def Extends (b : aggrQueryBuilder) (acc acc' : List QueryWithAggregation) : Prop :=
  ∃ rest, acc' = acc ++ rest ∧ ∀ e ∈ rest, b.CanParse = false → e.CanParse = false

/-- Modelled from the spec: the field resolver is not among the sources; `resolve(name)`
strips a trailing `.keyword` suffix and returns the physical column name. -/
def resolveField (name : String) : String :=
  stringsTrimSuffix name ".keyword"

/-- A translator over the table `t`, used to evaluate the planner on concrete requests.
Fields are resolved by `resolveField`; every `query` part parses to the predicate
`"service"='api'`, every `range` to `"x">1` and every `bool` to `"y"=2`; `and` joins the
non-empty statements with ` AND `. -/
def sampleTranslator : ClickhouseQueryTranslator :=
  { Table := { FullTableName := "t", ResolveField := resolveField }
    parseQueryMap := fun _ =>
      .ok { Sql := { Stmt := "\"service\"='api'" }, CanParse := true, FieldName := "service" }
    parseRange := fun _ =>
      .ok { Sql := { Stmt := "\"x\">1" }, CanParse := true, FieldName := "x" }
    parseBool := fun _ =>
      .ok { Sql := { Stmt := "\"y\"=2" }, CanParse := true, FieldName := "y" }
    and := fun stmts =>
      { Stmt := " AND ".intercalate ((stmts.map Statement.Stmt).filter (fun s => s ≠ "")) }
    extractInterval := fun _ => .ok "1h"
    createHistogramPartOfQuery := fun _ =>
      .ok "toInt64(toUnixTimestamp64Milli(\"@timestamp\")/3600000)"
    parsePercentilesAggregation := fun _ => .ok ("latency", [("50", ⟨50, 0⟩), ("95", ⟨95, 0⟩)])
    ParseTopMetricsAggregation := fun _ =>
      .ok { AggrType := "top_metrics", FieldNames := ["latency"], Percentiles := [],
            SortBy := "@timestamp", Size := 1, Order := "desc" }
    sprintfFloat := fun f => toString f.toInt ++ ".000000"
    formatFloat := fun f => toString f.toInt
    parseFloat := fun _ => ⟨0, 0⟩ }

/-- A metric key `k` with parameters `v` of the shape `tryMetricsAggregation` expects: a
map that, for the seven plain metrics, has a string `field`; for `percentiles` and
`top_metrics`, is accepted by the parser of the kind (which for `top_metrics` yields a
`top_metrics` description); for `top_hits`, has a map `_source` with an array `includes`
of strings; for `percentile_ranks`, has a string `field` and an array `values`. -/
def IsWellFormedMetric (cw : ClickhouseQueryTranslator) (k : String) (v : JsonValue) : Prop :=
  ∃ params, v = JsonValue.obj params ∧
    ((k ∈ metricsAggregations ∧ ∃ field, QueryMap.index params "field" = JsonValue.str field)
    ∨ (k = "percentiles" ∧ ∃ r, cw.parsePercentilesAggregation params = .ok r)
    ∨ (k = "top_metrics" ∧ ∃ m, cw.ParseTopMetricsAggregation params = .ok m
        ∧ m.AggrType = "top_metrics")
    ∨ (k = "top_hits" ∧ ∃ (source : QueryMap) (names : List String),
        QueryMap.index params "_source" = JsonValue.obj source
        ∧ QueryMap.index source "includes" = JsonValue.arr (names.map JsonValue.str))
    ∨ (k = "percentile_ranks" ∧ ∃ field values,
        QueryMap.index params "field" = JsonValue.str field
        ∧ QueryMap.index params "values" = JsonValue.arr values))

/-- The number of trail elements marked non-empty (`Empty = false`): the levels of the
trail that added a group-by expression. -/
def countNotEmpty (trail : List Aggregator) : Nat :=
  (trail.filter (fun a => !a.Empty)).length

/-- Bucket pairing of a plan entry: its group-by list is as long as the number of
non-empty aggregators of its trail. -/
def Paired (e : QueryWithAggregation) : Prop :=
  e.GroupByFields.length = countNotEmpty e.Aggregators

/-- Bucket pairing of the builder, whose group-by list moreover does not hold the empty
selection (which `RemoveEmptyGroupBy` would drop from an entry). -/
def PairedBuilder (b : aggrQueryBuilder) : Prop :=
  EmptyFieldSelection ∉ b.GroupByFields ∧ b.GroupByFields.length = countNotEmpty b.Aggregators

/-- The last element of the trail of the builder is marked empty. -/
def LastIsEmpty (b : aggrQueryBuilder) : Prop :=
  ∃ last, b.Aggregators.getLast? = some last ∧ last.Empty = true

/-- The value of the `aggs` key of the node, if it is a map, has none of the keys
`histogram`, `date_histogram`, `terms`: its keys are names of sub-aggregations. -/
def nestedAggsHaveNoBucketKey (q : QueryMap) : Bool :=
  match QueryMap.get q "aggs" with
  | some (JsonValue.obj node) => !hasBucketKey node
  | _ => true

mutual

/-- No map inside the value holds, under its key `aggs`, a map with one of the keys
`histogram`, `date_histogram`, `terms`. -/
def JsonValue.aggsUnambiguous : JsonValue → Bool
  | .obj kvs => nestedAggsHaveNoBucketKey kvs && JsonValue.mapAggsUnambiguous kvs
  | _ => true

/-- Every value of the map is `aggsUnambiguous`. -/
def JsonValue.mapAggsUnambiguous : List (String × JsonValue) → Bool
  | [] => true
  | (_, v) :: rest => JsonValue.aggsUnambiguous v && JsonValue.mapAggsUnambiguous rest
end

/-- What bucket pairing asks of a function that parses an aggregation node: on a node
with unambiguous `aggs` keys, from a paired builder whose last trail element is empty
if the node has a bucket key, and a paired accumulator, the accumulator stays paired, and
the trail is unchanged if the node has no bucket key. -/
def PairingSpec
    (parse : aggrQueryBuilder → QueryMap → List QueryWithAggregation →
      Except Abort (aggrQueryBuilder × List QueryWithAggregation)) : Prop :=
  ∀ b q acc b' acc', parse b q acc = .ok (b', acc') →
    JsonValue.aggsUnambiguous (JsonValue.obj q) = true → PairedBuilder b →
    (hasBucketKey q = true → LastIsEmpty b) → (∀ e ∈ acc, Paired e) →
    (∀ e ∈ acc', Paired e) ∧ (hasBucketKey q = false → b'.Aggregators = b.Aggregators)

/-- A node with this single key is a metric leaf: the keys that `tryMetricsAggregation`
looks for. -/
def metricKeys : List String :=
  metricsAggregations ++ ["percentiles", "top_metrics", "top_hits", "percentile_ranks"]

/-- The builder with which the planner reaches a `top_metrics` node under a `terms`
aggregation on `host`, for a request whose `query` part parses to `"service"='api'`
(scenario S5). -/
def builderS5 : aggrQueryBuilder :=
  { aggrQueryBuilder.zero with
    FromClause := "t"
    GroupByFields := [strconvQuote "host"]
    NonSchemaFields := [strconvQuote "host"]
    Aggregators := [{ Name := "hosts", Empty := false }, { Name := "latest", Empty := true }]
    «Type» := QueryType.Terms
    whereBuilder :=
      { Sql := { Stmt := "\"service\"='api'" }, CanParse := true, FieldName := "service" } }

/-- The `top_metrics` metric of scenario S5: sort field `@timestamp`, order `desc`,
size 1, over the field `latency`. -/
def topMetricsS5 : metricsAggregation :=
  { metricsAggregation.zero with
    AggrType := "top_metrics", FieldNames := ["latency"], SortBy := "@timestamp", Size := 1,
    Order := "desc" }

/-- The `query` part of the request body is absent, and `w` is the predicate of the zero
builder, or it is a map that the predicate builder parses to `w`. -/
def QueryPartParsed (cw : ClickhouseQueryTranslator) (body : QueryMap) (w : SimpleQuery) : Prop :=
  (QueryMap.get body "query" = none ∧ w = aggrQueryBuilder.zero.whereBuilder)
    ∨ (∃ queryPart, QueryMap.get body "query" = some (JsonValue.obj queryPart)
        ∧ cw.parseQueryMap queryPart = .ok w)

/-- The builder with which `ParseAggregationJson` starts, for a `query` part parsed
to `w`. -/
def rootBuilder (cw : ClickhouseQueryTranslator) (w : SimpleQuery) : aggrQueryBuilder :=
  { aggrQueryBuilder.zero with FromClause := cw.Table.FullTableName, whereBuilder := w }

/-- The interval of a `histogram` has one of the three dynamic types that
`tryBucketAggregation` accepts. -/
def IsHistogramInterval (v : JsonValue) : Prop :=
  (∃ s, v = JsonValue.str s) ∨ (∃ i, v = JsonValue.int i) ∨ (∃ f, v = JsonValue.float f)

/-- The parameters of every bucket kind of the node have the shape that
`tryBucketAggregation` expects: a map, with a string `field` for `histogram` and `terms`,
an interval for `histogram`, and accepted by the parser of the kind for `date_histogram`,
`range` and `bool`. -/
def WellFormedBuckets (cw : ClickhouseQueryTranslator) (q : QueryMap) : Prop :=
  (∀ v, QueryMap.get q "histogram" = some v → ∃ params field, v = JsonValue.obj params
      ∧ QueryMap.index params "field" = JsonValue.str field
      ∧ IsHistogramInterval (QueryMap.index params "interval"))
  ∧ (∀ v, QueryMap.get q "date_histogram" = some v → ∃ params interval expr,
      v = JsonValue.obj params ∧ cw.extractInterval params = .ok interval
      ∧ cw.createHistogramPartOfQuery params = .ok expr)
  ∧ (∀ v, QueryMap.get q "terms" = some v → ∃ params field, v = JsonValue.obj params
      ∧ QueryMap.index params "field" = JsonValue.str field)
  ∧ (∀ v, QueryMap.get q "range" = some v → ∃ params w, v = JsonValue.obj params
      ∧ cw.parseRange params = .ok w)
  ∧ (∀ v, QueryMap.get q "bool" = some v → ∃ params w, v = JsonValue.obj params
      ∧ cw.parseBool params = .ok w)

/-- The key of the bucket kind that `tryBucketAggregation` picks in the node: the first
one present, in the order of its tests. -/
def bucketKey (q : QueryMap) : Option String :=
  ["histogram", "date_histogram", "terms", "sampler", "random_sampler", "range", "bool"].find?
    (fun k => (QueryMap.get q k).isSome)

/-- The entries of the node that `parseAggregation` takes for named sub-aggregations:
what is left once `filter`, `filters`, the key of the bucket kind and `aggs` are
deleted. -/
def namedSubAggregations (q : QueryMap) : QueryMap :=
  let q := (QueryMap.delete q "filter").delete "filters"
  let q := match bucketKey q with
    | some k => QueryMap.delete q k
    | none => q
  QueryMap.delete q "aggs"

/-- A well-formed aggregation node: empty; or a metric leaf with well-formed parameters;
or a level that is not a metric leaf, whose `filter` is a map accepted by the predicate
builder, whose bucket kinds have well-formed parameters, whose `aggs` is a well-formed
node, and whose named sub-aggregations are well-formed nodes. -/
inductive WellFormedNode (cw : ClickhouseQueryTranslator) : QueryMap → Prop
  | empty : WellFormedNode cw []
  | metric (k : String) (v : JsonValue) :
      IsWellFormedMetric cw k v → WellFormedNode cw [(k, v)]
  | level (q : QueryMap) :
      (q.length ≠ 1 ∨ ∃ k v, q = [(k, v)] ∧ k ∉ metricKeys) →
      (∀ v, QueryMap.get q "filter" = some v →
        ∃ params w, v = JsonValue.obj params ∧ cw.parseQueryMap params = .ok w) →
      WellFormedBuckets cw q →
      (∀ v, QueryMap.get q "aggs" = some v → ∃ node, v = JsonValue.obj node) →
      (∀ node, QueryMap.get q "aggs" = some (JsonValue.obj node) → WellFormedNode cw node) →
      (∀ k v, (k, v) ∈ namedSubAggregations q → ∃ node, v = JsonValue.obj node) →
      (∀ k node, (k, JsonValue.obj node) ∈ namedSubAggregations q → WellFormedNode cw node) →
      WellFormedNode cw q

/-- A well-formed aggregation tree, the value of the key `aggs` of a request: every entry
is a name with a well-formed node. -/
def WellFormedTree (cw : ClickhouseQueryTranslator) (named : QueryMap) : Prop :=
  ∀ k v, (k, v) ∈ named → ∃ node, v = JsonValue.obj node ∧ WellFormedNode cw node

/-- How `Query.String` renders an element of `Fields`: verbatim if it is `*` or the empty
selection, double-quoted otherwise. -/
def renderField (field : String) : String :=
  if field = "*" ∨ field = EmptyFieldSelection then field else strconvQuote field

/-- The two rows have columns `0, ..., level`, with the same values in them. -/
def SameKey (row1 row2 : QueryResultRow) (level : Int) : Prop :=
  ∀ i : Nat, (i : Int) ≤ level → ∃ col1 col2, row1.Cols.get? i = some col1
    ∧ row2.Cols.get? i = some col2 ∧ Value.same col1.Value col2.Value

/-- The two rows have different values in one of the columns `0, ..., level`. -/
def DifferInKey (row1 row2 : QueryResultRow) (level : Int) : Prop :=
  ∃ i : Nat, (i : Int) ≤ level ∧ ∃ col1 col2, row1.Cols.get? i = some col1
    ∧ row2.Cols.get? i = some col2 ∧ ¬ Value.same col1.Value col2.Value

/-- No column `0, ..., level` of the row holds a slice, the one kind of value that Go
cannot compare. -/
def ComparableKey (row : QueryResultRow) (level : Int) : Prop :=
  ∀ i : Nat, (i : Int) ≤ level → ∀ col fs, row.Cols.get? i = some col →
    col.Value ≠ Value.floats fs

/-- Two adjacent buckets are separated: the last row of the first differs from the first
row of the second in one of the columns `0, ..., level`. -/
def AdjacentBucketsDiffer (level : Int) (bucket1 bucket2 : List QueryResultRow) : Prop :=
  ∀ l f, bucket1.getLast? = some l → bucket2.head? = some f → DifferInKey l f level

/-- The aggregation tree of scenario S3: a `terms` aggregation on `host` with the
sub-aggregation `avg` of `latency`. -/
def treeS3 : QueryMap :=
  [("hosts", JsonValue.obj
    [("terms", JsonValue.obj [("field", JsonValue.str "host")]),
     ("aggs", JsonValue.obj
      [("latency_avg", JsonValue.obj
        [("avg", JsonValue.obj [("field", JsonValue.str "latency")])])])])]

/-- A plan entry whose only field ends with `.keyword.keyword`. -/
def doubleKeywordEntry : QueryWithAggregation :=
  { Fields := ["a.keyword.keyword"], NonSchemaFields := [], WhereClause := "",
    GroupByFields := [], SuffixClauses := [], FromClause := "t", CanParse := true,
    Aggregators := [], «Type» := QueryType.Count }

/-- The object that the formatter of `date_histogram` emits for a row at a level: the
values of the columns `level` and `level + 1` under `key` and `doc_count`, and the number 1
under `key_as_string`. -/
def IsDateHistogramBucket (level : Int) (row : QueryResultRow) (bucket : JsonMap) : Prop :=
  ∃ key docCount, row.Cols.get? level.toNat = some key
    ∧ row.Cols.get? (level.toNat + 1) = some docCount
    ∧ bucket = [("key", ResponseValue.value key.Value),
        ("doc_count", ResponseValue.value docCount.Value),
        ("key_as_string", ResponseValue.int 1)]

/-- A row of a `date_histogram` with bucket index 473000 and 5 documents. -/
def sampleHistogramRow : QueryResultRow :=
  { Index := "t", Cols := [⟨"key", Value.int64 473000⟩, ⟨"doc_count", Value.uint64 5⟩] }

/-- The key of the `values` object for the percentile name `p`: `p` itself if it contains
a `.`, and `p` followed by `.0` otherwise. -/
def percentileKey (p : String) : String :=
  if '.' ∈ p.data then p else p ++ ".0"

/-- A row of a `percentiles` metric with the columns `quantile_50` and `quantile_95`. -/
def sampleQuantileRow : QueryResultRow :=
  { Index := "t", Cols := [⟨"quantile_50", Value.floats [⟨3, 0⟩]⟩,
      ⟨"quantile_95", Value.floats [⟨7, 0⟩]⟩] }

/-- The bytes are ten, with a decimal digit at the positions 0 to 3, 5, 6, 8 and 9 and a
`-` at the positions 4 and 7. -/
def IsSimpleDateBytes (bytes : List Nat) : Prop :=
  bytes.length = 10
    ∧ (∀ idx ∈ [0, 1, 2, 3, 5, 6, 8, 9], ∃ b, bytes.get? idx = some b ∧ '0'.toNat ≤ b ∧ b ≤ '9'.toNat)
    ∧ (∀ idx ∈ [4, 7], bytes.get? idx = some '-'.toNat)

/-- The requirement of `sort.Slice` on its function `less`: a strict weak ordering. -/
def IsStrictWeakOrdering {α : Type} (less : α → α → Bool) : Prop :=
  (∀ a, less a a = false)
    ∧ (∀ a b c, less a b = true → less b c = true → less a c = true)
    ∧ (∀ a b c, less a b = false → less b c = false → less a c = false)

/-- The contract of the library function `sort.Slice`, which is not stable: the result is a
permutation of the slice, and if `less` is a strict weak ordering then no element of the
result is less than an element before it. -/
def IsSortSlice {α : Type} (sortSlice : List α → (α → α → Bool) → List α) : Prop :=
  ∀ xs less, (sortSlice xs less).Perm xs
    ∧ (IsStrictWeakOrdering less → (sortSlice xs less).Pairwise (fun a b => less b a = false))

/-- A function that meets the contract of `sort.Slice`: the insertion sort. -/
def insertionSortSlice {α : Type} (xs : List α) (less : α → α → Bool) : List α :=
  xs.insertionSort (fun a b => less b a = false)

/-- The integer is in the range of `int64`. -/
def FitsInt64 (x : Int) : Prop :=
  -(2 ^ 63) ≤ x ∧ x < 2 ^ 63

/-- The row `out` is the bucket of the histogram row `row` for the bucket width `bucket`:
its key column holds the bucket index of `row` times the width in whole milliseconds, as an
`int64`, under the same column name; it has one more column than `row`, the last one, named
`key_as_string`, with the formatted timestamp; its other columns and its index name are
those of `row`. -/
def IsBucketOf (formatUnixMilli : Int → String) (bucket : Int) (row out : QueryResultRow) :
    Prop :=
  ∃ keyCol key, row.Cols.get? ResultColKeyIndex = some keyCol
    ∧ keyCol.Value = Value.int64 key
    ∧ out.Cols.get? ResultColKeyIndex
        = some ⟨keyCol.ColName, Value.int64 (wrapInt64 (key * durationMilliseconds bucket))⟩
    ∧ out.Cols.length = row.Cols.length + 1
    ∧ out.Cols.get? row.Cols.length
        = some ⟨"key_as_string",
            Value.str (formatUnixMilli (wrapInt64 (key * durationMilliseconds bucket)))⟩
    ∧ (∀ i, i ≠ ResultColKeyIndex → i < row.Cols.length → out.Cols.get? i = row.Cols.get? i)
    ∧ out.Index = row.Index

/-- Three histogram rows with the bucket indices 3, 1 and 2. -/
def sampleHistogramRows : List QueryResultRow :=
  [{ Index := "t", Cols := [⟨"key", Value.int64 3⟩, ⟨"doc_count", Value.uint64 7⟩] },
   { Index := "t", Cols := [⟨"key", Value.int64 1⟩, ⟨"doc_count", Value.uint64 5⟩] },
   { Index := "t", Cols := [⟨"key", Value.int64 2⟩, ⟨"doc_count", Value.uint64 6⟩] }]

/-- A stand-in for the formatting of a timestamp: the decimal number of milliseconds. -/
def sampleFormatUnixMilli (timestamp : Int) : String :=
  toString timestamp

/-- The level at which `makeResponseAggregationRecursive` finishes on a plan entry: the
length of the trail for a bucket aggregation, one less for a metric. -/
def finishingLevel (query : QueryWithAggregation) (isBucket : Bool) : Int :=
  if isBucket then (query.AggregatorsNames.length : Int)
  else (query.AggregatorsNames.length : Int) - 1

/-- Methods for the result kinds whose declarations are not among the sources, for the
examples: none is a bucket aggregation, and each one formats any rows as one empty
object. -/
def sampleMethods : QueryTypeMethods :=
  { IsBucketAggregation := fun _ => false,
    TranslateSqlResponseToJson := fun _ _ _ => pure [[]] }

/-- A plan entry for the `stats` metric `s` under the bucket aggregation `h`. -/
def statsUnderHistogram : QueryWithAggregation :=
  { Fields := ["key", "count(f)"], NonSchemaFields := [], WhereClause := "",
    GroupByFields := ["key"], SuffixClauses := [], FromClause := "t", CanParse := true,
    Aggregators := [⟨"h", false⟩, ⟨"s", true⟩], «Type» := QueryType.Stats }

/-- Two rows for `statsUnderHistogram`, with the keys 1 and 2. -/
def statsRows : List QueryResultRow :=
  [{ Index := "t", Cols := [⟨"key", Value.int64 1⟩, ⟨"count(f)", Value.uint64 5⟩] },
   { Index := "t", Cols := [⟨"key", Value.int64 2⟩, ⟨"count(f)", Value.uint64 6⟩] }]

/-- The group-by expression of a histogram on the quoted column `col` with the interval
`i`: the column alone if `i` is 1, and `floor(col / i) * i AS col` otherwise. -/
def histogramGroupBy (col : String) (i : Int) : String :=
  if i = 1 then col
  else "floor(" ++ col ++ " / " ++ toString i ++ ") * " ++ toString i ++ " AS " ++ col

/-- A builder inside a `terms` aggregation on `host`: one group-by expression and one
select expression. -/
def hostBuilder : aggrQueryBuilder :=
  { aggrQueryBuilder.zero with GroupByFields := ["\"host\""], NonSchemaFields := ["\"host\""] }

/-- A `sampler` node. -/
def samplerNode : QueryMap :=
  [("sampler", JsonValue.obj [("shard_size", JsonValue.float ⟨5000, 0⟩)])]

/-- The queries `out` are what the transformers give when they are applied in list order,
the first to `queries` and each of the others to the queries that the one before it
returned, whatever errors they return with them; with no transformer, `out` is
`queries`. -/
inductive AppliedInOrder : List QueryTransformer → List Query → List Query → Prop
  | none (queries : List Query) : AppliedInOrder [] queries queries
  | step (transformer : QueryTransformer) (rest : List QueryTransformer)
      (queries mid out : List Query) (err : Option String) :
      transformer.Transform queries = .ok (mid, err) → AppliedInOrder rest mid out →
      AppliedInOrder (transformer :: rest) queries out

/-- A query on the table `t`. -/
def sampleQuery : Query :=
  { Fields := ["*"], NonSchemaFields := [], WhereClause := "", GroupByFields := [],
    SuffixClauses := [], FromClause := "t", CanParse := true }

/-- A transformer that doubles the list of queries and returns an error with it. -/
def doublingTransformer : QueryTransformer :=
  { Transform := fun queries => .ok (queries ++ queries, some "failed") }

/-- A transformer that drops the first query. -/
def droppingTransformer : QueryTransformer :=
  { Transform := fun queries => .ok (queries.tail, none) }

/-- The reference rendering of a query, after the words of the specification: `SELECT `,
the rendered fields and the select expressions joined as one list by `, `, then ` FROM `
and the FROM clause, then ` WHERE ` and the WHERE clause if it is not empty, then a space
and the suffix clauses joined by single spaces, then ` GROUP BY (`, the group-by
expressions joined by `, ` and `)` if there is a group-by expression. -/
def referenceRendering (q : Query) : String :=
  let selectList := q.Fields.map renderField ++ q.NonSchemaFields
  let wherePart := if q.WhereClause ≠ "" then " WHERE " ++ q.WhereClause else ""
  let groupByPart :=
    if q.GroupByFields ≠ [] then " GROUP BY (" ++ ", ".intercalate q.GroupByFields ++ ")"
    else ""
  "SELECT " ++ ", ".intercalate selectList ++ " FROM " ++ q.FromClause ++ wherePart
    ++ " " ++ " ".intercalate q.SuffixClauses ++ groupByPart

/-- A query with one field, two select expressions, a WHERE clause, a suffix clause and a
group-by expression. -/
def sampleFullQuery : Query :=
  { Fields := ["host"], NonSchemaFields := ["count()", "avg(\"x\")"],
    WhereClause := "\"x\">1", GroupByFields := ["\"host\""],
    SuffixClauses := ["ORDER BY \"host\""], FromClause := "t", CanParse := true }

/-- The node of the aggregation `hosts` of scenario S3: a `terms` aggregation on `host`
with the sub-aggregation `avg` of `latency`. -/
def nodeS3 : QueryMap :=
  [("terms", JsonValue.obj [("field", JsonValue.str "host")]),
   ("aggs", JsonValue.obj
    [("latency_avg", JsonValue.obj
      [("avg", JsonValue.obj [("field", JsonValue.str "latency")])])])]

/-- The panic of a slice expression `xs[:len(xs)-1]` on an empty slice, the pop of an
empty list. -/
def popOfEmptyList : Abort :=
  Abort.panic "slice bounds out of range [:-1]"

/-- The slice is well-formed in the memory: its length is at most its capacity, and its
capacity ends within its backing array. A slice with no capacity, as the `nil` slice, needs
no backing array. -/
def WellFormedSlice (heap : GoHeap) (s : GoSlice) : Prop :=
  s.len ≤ s.cap ∧ s.offset + s.cap ≤ (heap.getD s.array []).length

/-- A memory with the backing arrays of a builder: the group-by list `"host"` in an array
with room for one more element, the select list `"host"`, and the trail `hosts`. -/
def sampleHeap : GoHeap :=
  [["\"host\"", ""], ["\"host\""], ["hosts"]]

/-- The slices of the builder in `sampleHeap`; its list `Fields` is the `nil` slice. -/
def sampleBuilderSlices : AggregationFields :=
  { GroupByFields := ⟨0, 0, 1, 2⟩, Fields := ⟨0, 0, 0, 0⟩, NonSchemaFields := ⟨1, 0, 1, 1⟩,
    AggregatorsNames := ⟨2, 0, 1, 1⟩ }

/-- Statements of the builder after an entry has been emitted: a group-by expression is
appended in the room left in the backing array, popped and replaced by another one, the
name on the trail is overwritten, and a select expression is appended. -/
def sampleStatements : List ListStatement :=
  [ListStatement.append SliceField.GroupByFields "\"path\"",
   ListStatement.pop SliceField.GroupByFields,
   ListStatement.append SliceField.GroupByFields "\"code\"",
   ListStatement.assign SliceField.AggregatorsNames 0 "codes",
   ListStatement.append SliceField.NonSchemaFields "\"code\""]

/-! ## Basic facts about the error monads -/

theorem bind_eq_ok {ε α β : Type} (x : Except ε α) (f : α → Except ε β) (b : β) :
    (x >>= f) = .ok b ↔ ∃ a, x = .ok a ∧ f a = .ok b := by
  cases x with
  | error e => simp [bind, Except.bind]
  | ok a => simp [bind, Except.bind]

@[simp] theorem liftPanic_eq_ok {α : Type} (x : Except Panic α) (a : α) :
    liftPanic x = .ok a ↔ x = .ok a := by
  cases x <;> simp [liftPanic]

theorem liftPanic_ne_outOfFuel {α : Type} (x : Except Panic α) :
    liftPanic x ≠ .error .outOfFuel := by
  cases x <;> simp [liftPanic]

/-- One step of `parseAggregationAux` that returns, taken apart. -/
theorem parseAggregationAux_succ_ok (cw : ClickhouseQueryTranslator) (fuel : Nat)
    (b : aggrQueryBuilder) (q : QueryMap) (acc : List QueryWithAggregation)
    (b' : aggrQueryBuilder) (acc' : List QueryWithAggregation)
    (h : parseAggregationAux cw (fuel + 1) b q acc = .ok (b', acc')) :
    (q = [] ∧ b' = b ∧ acc' = acc)
    ∨ (q ≠ [] ∧ ∃ m e, tryMetricsAggregation cw q = .ok (m, true)
        ∧ buildMetricsAggregation cw b m = .ok e ∧ b' = b ∧ acc' = acc ++ [e])
    ∨ (q ≠ [] ∧ ∃ m b1 q1 acc1 f1 b3 q3 present added b4 b5 acc5 b7,
        tryMetricsAggregation cw q = .ok (m, false)
        ∧ parseFilterOnThisLevel cw b q acc = .ok (b1, q1, acc1, f1)
        ∧ tryBucketAggregation cw b1 (q1.delete "filters") = .ok (b3, q3, present, added)
        ∧ (if added then markLastAggregatorNotEmpty b3 else .ok b3) = .ok b4
        ∧ parseNestedAggs (parseAggregationAux cw fuel) b4 q3 acc1 = .ok (b5, acc5)
        ∧ parseNamedAggregations (parseAggregationAux cw fuel) (q3.delete "aggs") b5
            (if present then acc5 ++ [buildBucketAggregation b5] else acc5) = .ok (b7, acc')
        ∧ restoreAfterNesting b7 (f1 || (q1.get "filters").isSome) b.whereBuilder added b.«Type»
            = .ok b') := by
  unfold parseAggregationAux at h
  by_cases hq : q = []
  · subst hq
    simp [pure, Except.pure] at h
    exact Or.inl ⟨rfl, h.1.symm, h.2.symm⟩
  · have hlen : q.length ≠ 0 := by simpa using hq
    simp only [hlen, if_false] at h
    rw [bind_eq_ok] at h
    obtain ⟨⟨m, ok⟩, hm, h⟩ := h
    rw [liftPanic_eq_ok] at hm
    cases ok with
    | true =>
      simp only [if_true] at h
      rw [bind_eq_ok] at h
      obtain ⟨e, he, h⟩ := h
      rw [liftPanic_eq_ok] at he
      simp only [pure, Except.pure, Except.ok.injEq, Prod.mk.injEq] at h
      exact Or.inr (Or.inl ⟨hq, m, e, hm, he, h.1.symm, h.2.symm⟩)
    | false =>
      simp only [Bool.false_eq_true, if_false] at h
      rw [bind_eq_ok] at h
      obtain ⟨⟨b1, q1, acc1, f1⟩, hf, h⟩ := h
      rw [liftPanic_eq_ok] at hf
      simp only at h
      rw [bind_eq_ok] at h
      obtain ⟨⟨b3, q3, present, added⟩, hb, h⟩ := h
      rw [liftPanic_eq_ok] at hb
      have key : ∃ b4, (if added then markLastAggregatorNotEmpty b3 else .ok b3) = .ok b4 ∧
          (do
            let __discr ← parseNestedAggs (parseAggregationAux cw fuel) b4 q3 acc1
            let __discr ←
              parseNamedAggregations (parseAggregationAux cw fuel) (q3.delete "aggs") __discr.1
                (if present = true then __discr.2 ++ [buildBucketAggregation __discr.1] else __discr.2)
            let currentAggr ←
              liftPanic (restoreAfterNesting __discr.1 (f1 || (q1.get "filters").isSome)
                b.whereBuilder added b.«Type»)
            pure (currentAggr, __discr.2)) = Except.ok (b', acc') := by
        cases added with
        | true =>
          simp only [if_true] at h
          rw [bind_eq_ok] at h
          obtain ⟨b4, h4, h⟩ := h
          rw [liftPanic_eq_ok] at h4
          exact ⟨b4, by simpa using h4, h⟩
        | false =>
          simp only [Bool.false_eq_true, if_false] at h
          rw [bind_eq_ok] at h
          obtain ⟨b4, h4, h⟩ := h
          simp only [pure, Except.pure, Except.ok.injEq] at h4
          subst h4
          exact ⟨b3, by simp, h⟩
      obtain ⟨b4, h4, h⟩ := key
      rw [bind_eq_ok] at h
      obtain ⟨⟨b5, acc5⟩, h5, h⟩ := h
      simp only at h
      rw [bind_eq_ok] at h
      obtain ⟨⟨b7, acc7⟩, h7, h⟩ := h
      simp only at h
      rw [bind_eq_ok] at h
      obtain ⟨b8, h8, h⟩ := h
      rw [liftPanic_eq_ok] at h8
      simp only [pure, Except.pure, Except.ok.injEq, Prod.mk.injEq] at h
      obtain ⟨rfl, rfl⟩ := h
      exact Or.inr (Or.inr ⟨hq, m, b1, q1, acc1, f1, b3, q3, present, added, b4, b5, acc5, b7,
        hm, hf, hb, h4, h5, h7, h8⟩)

/-! ## Maps -/

theorem QueryMap.delete_cons (k0 : String) (v : JsonValue) (rest : QueryMap) (k : String) :
    QueryMap.delete ((k0, v) :: rest) k
      = if k0 = k then QueryMap.delete rest k else (k0, v) :: QueryMap.delete rest k := by
  by_cases h : k0 = k <;> simp [QueryMap.delete, List.filter_cons, h]

theorem QueryMap.get_cons (k0 : String) (v : JsonValue) (rest : QueryMap) (k : String) :
    QueryMap.get ((k0, v) :: rest) k = if k0 = k then some v else QueryMap.get rest k := by
  rfl

theorem QueryMap.get_delete_ne (q : QueryMap) (k k' : String) (hk : k ≠ k') :
    QueryMap.get (QueryMap.delete q k') k = QueryMap.get q k := by
  induction q with
  | nil => rfl
  | cons kv rest ih =>
    obtain ⟨k0, v⟩ := kv
    rw [QueryMap.delete_cons, QueryMap.get_cons]
    by_cases h0 : k0 = k'
    · have hne : k0 ≠ k := by rw [h0]; exact fun h => hk h.symm
      rw [if_pos h0, if_neg hne]
      exact ih
    · rw [if_neg h0, QueryMap.get_cons, ih]

theorem QueryMap.get_delete_self (q : QueryMap) (k : String) :
    QueryMap.get (QueryMap.delete q k) k = none := by
  induction q with
  | nil => rfl
  | cons kv rest ih =>
    obtain ⟨k0, v⟩ := kv
    rw [QueryMap.delete_cons]
    by_cases h0 : k0 = k
    · rw [if_pos h0]; exact ih
    · rw [if_neg h0, QueryMap.get_cons, if_neg h0]; exact ih

theorem QueryMap.delete_subset (q : QueryMap) (k : String) : QueryMap.delete q k ⊆ q := by
  intro x hx
  unfold QueryMap.delete at hx
  exact (List.mem_filter.mp hx).1

theorem QueryMap.get_mem (q : QueryMap) (k : String) (v : JsonValue)
    (h : QueryMap.get q k = some v) : (k, v) ∈ q := by
  induction q with
  | nil => simp [QueryMap.get] at h
  | cons kv rest ih =>
    obtain ⟨k0, v0⟩ := kv
    by_cases h0 : k0 = k
    · simp [QueryMap.get, h0] at h
      simp [h0, h]
    · simp [QueryMap.get, h0] at h
      exact List.mem_cons_of_mem _ (ih h)

theorem JsonValue.asQueryMap_eq_ok (v : JsonValue) (m : QueryMap) :
    v.asQueryMap = .ok m ↔ v = JsonValue.obj m := by
  cases v <;> simp [JsonValue.asQueryMap]

theorem JsonValue.asString_eq_ok (v : JsonValue) (s : String) :
    v.asString = .ok s ↔ v = JsonValue.str s := by
  cases v <;> simp [JsonValue.asString]

/-! ## The steps of `parseAggregation`, taken apart -/

theorem parseFilterOnThisLevel_ok (cw : ClickhouseQueryTranslator) (b : aggrQueryBuilder)
    (q : QueryMap) (acc : List QueryWithAggregation) (b1 : aggrQueryBuilder) (q1 : QueryMap)
    (acc1 : List QueryWithAggregation) (f1 : Bool)
    (h : parseFilterOnThisLevel cw b q acc = .ok (b1, q1, acc1, f1)) :
    (QueryMap.get q "filter" = none ∧ b1 = b ∧ q1 = q ∧ acc1 = acc ∧ f1 = false)
    ∨ (∃ params parsed, QueryMap.get q "filter" = some (JsonValue.obj params)
        ∧ cw.parseQueryMap params = .ok parsed
        ∧ b1 = { b with «Type» := QueryType.Count,
                        whereBuilder := combineWheres cw b.whereBuilder parsed }
        ∧ q1 = QueryMap.delete q "filter" ∧ acc1 = acc ++ [buildCountAggregation b1]
        ∧ f1 = true) := by
  unfold parseFilterOnThisLevel at h
  cases hg : QueryMap.get q "filter" with
  | none =>
    simp only [hg, pure, Except.pure, Except.ok.injEq, Prod.mk.injEq] at h
    obtain ⟨h1, h2, h3, h4⟩ := h
    exact Or.inl ⟨rfl, h1.symm, h2.symm, h3.symm, h4.symm⟩
  | some filter =>
    simp only [hg] at h
    rw [bind_eq_ok] at h
    obtain ⟨params, hp, h⟩ := h
    rw [JsonValue.asQueryMap_eq_ok] at hp
    rw [bind_eq_ok] at h
    obtain ⟨parsed, hparsed, h⟩ := h
    simp only [pure, Except.pure, Except.ok.injEq, Prod.mk.injEq] at h
    obtain ⟨h1, h2, h3, h4⟩ := h
    subst hp
    refine Or.inr ⟨params, parsed, rfl, hparsed, h1.symm, h2.symm, ?_, h4.symm⟩
    rw [← h3, ← h1]

theorem parseNestedAggs_ok
    (parse : aggrQueryBuilder → QueryMap → List QueryWithAggregation →
      Except Abort (aggrQueryBuilder × List QueryWithAggregation))
    (b : aggrQueryBuilder) (q : QueryMap) (acc : List QueryWithAggregation)
    (b' : aggrQueryBuilder) (acc' : List QueryWithAggregation)
    (h : parseNestedAggs parse b q acc = .ok (b', acc')) :
    (QueryMap.get q "aggs" = none ∧ b' = b ∧ acc' = acc)
    ∨ (∃ node, QueryMap.get q "aggs" = some (JsonValue.obj node)
        ∧ parse b node acc = .ok (b', acc')) := by
  unfold parseNestedAggs at h
  cases hg : QueryMap.get q "aggs" with
  | none =>
    simp only [hg, pure, Except.pure, Except.ok.injEq, Prod.mk.injEq] at h
    exact Or.inl ⟨rfl, h.1.symm, h.2.symm⟩
  | some aggs =>
    simp only [hg] at h
    rw [bind_eq_ok] at h
    obtain ⟨node, hn, h⟩ := h
    rw [liftPanic_eq_ok, JsonValue.asQueryMap_eq_ok] at hn
    subst hn
    exact Or.inr ⟨node, rfl, h⟩

theorem parseNamedAggregations_cons_ok
    (parse : aggrQueryBuilder → QueryMap → List QueryWithAggregation →
      Except Abort (aggrQueryBuilder × List QueryWithAggregation))
    (k : String) (v : JsonValue) (rest : QueryMap)
    (b : aggrQueryBuilder) (acc : List QueryWithAggregation)
    (b' : aggrQueryBuilder) (acc' : List QueryWithAggregation)
    (h : parseNamedAggregations parse ((k, v) :: rest) b acc = .ok (b', acc')) :
    ∃ node b2 acc2, v = JsonValue.obj node
      ∧ parse { b with Aggregators := b.Aggregators ++ [NewAggregatorEmpty k] } node acc
          = .ok (b2, acc2)
      ∧ b2.Aggregators ≠ []
      ∧ parseNamedAggregations parse rest { b2 with Aggregators := b2.Aggregators.dropLast } acc2
          = .ok (b', acc') := by
  unfold parseNamedAggregations at h
  rw [bind_eq_ok] at h
  obtain ⟨node, hn, h⟩ := h
  rw [liftPanic_eq_ok, JsonValue.asQueryMap_eq_ok] at hn
  rw [bind_eq_ok] at h
  obtain ⟨⟨b2, acc2⟩, h2, h⟩ := h
  simp only at h
  rw [bind_eq_ok] at h
  obtain ⟨trail, ht, h⟩ := h
  rw [liftPanic_eq_ok] at ht
  unfold dropLastGo at ht
  by_cases hl : b2.Aggregators.length = 0
  · simp [hl] at ht
  · simp only [hl, if_false, Except.ok.injEq] at ht
    subst ht
    refine ⟨node, b2, acc2, hn, h2, ?_, h⟩
    intro hnil
    exact hl (by simp [hnil])

theorem hasBucketKey_delete (q : QueryMap) (k : String) (h1 : k ≠ "histogram")
    (h2 : k ≠ "date_histogram") (h3 : k ≠ "terms") :
    hasBucketKey (QueryMap.delete q k) = hasBucketKey q := by
  unfold hasBucketKey
  rw [QueryMap.get_delete_ne _ _ _ (Ne.symm h1), QueryMap.get_delete_ne _ _ _ (Ne.symm h2),
    QueryMap.get_delete_ne _ _ _ (Ne.symm h3)]

theorem tryBucketAggregation_ok (cw : ClickhouseQueryTranslator) (b : aggrQueryBuilder)
    (q : QueryMap) (b' : aggrQueryBuilder) (q' : QueryMap) (present added : Bool)
    (h : tryBucketAggregation cw b q = .ok (b', q', present, added)) :
    q' ⊆ q ∧ QueryMap.get q' "aggs" = QueryMap.get q "aggs"
    ∧ b'.fixedPart = b.fixedPart ∧ b'.Aggregators = b.Aggregators
    ∧ ((added = true ∧ present = true ∧ hasBucketKey q = true
          ∧ b'.whereBuilder = b.whereBuilder
          ∧ ∃ g s, b'.GroupByFields = b.GroupByFields ++ [g]
              ∧ b'.NonSchemaFields = b.NonSchemaFields ++ [s] ∧ IsBucketExpr cw g)
       ∨ (added = false ∧ b'.GroupByFields = b.GroupByFields
          ∧ b'.NonSchemaFields = b.NonSchemaFields)) := by
  unfold tryBucketAggregation at h
  cases h1 : QueryMap.get q "histogram" with
  | some histogram =>
    simp only [h1] at h
    rw [bind_eq_ok] at h; obtain ⟨params, -, h⟩ := h
    rw [bind_eq_ok] at h; obtain ⟨field, -, h⟩ := h
    rw [bind_eq_ok] at h; obtain ⟨interval, -, h⟩ := h
    simp only [pure, Except.pure, Except.ok.injEq, Prod.mk.injEq] at h
    obtain ⟨rfl, rfl, rfl, rfl⟩ := h
    refine ⟨QueryMap.delete_subset _ _, QueryMap.get_delete_ne _ _ _ (by decide), rfl, rfl,
      Or.inl ⟨rfl, rfl, by simp [hasBucketKey, h1], rfl, _, _, rfl, rfl, ?_⟩⟩
    by_cases hi : interval = 1
    · exact Or.inl ⟨cw.Table.ResolveField field, by simp [hi]⟩
    · refine Or.inr (Or.inl ?_)
      simp only [ne_eq, hi, not_false_eq_true, if_true, String.append_assoc]
      exact ⟨_, rfl⟩
  | none =>
  simp only [h1] at h
  cases h2 : QueryMap.get q "date_histogram" with
  | some dateHistogram =>
    simp only [h2] at h
    rw [bind_eq_ok] at h; obtain ⟨params, -, h⟩ := h
    rw [bind_eq_ok] at h; obtain ⟨interval, -, h⟩ := h
    rw [bind_eq_ok] at h; obtain ⟨part, hpart, h⟩ := h
    simp only [pure, Except.pure, Except.ok.injEq, Prod.mk.injEq] at h
    obtain ⟨rfl, rfl, rfl, rfl⟩ := h
    exact ⟨QueryMap.delete_subset _ _, QueryMap.get_delete_ne _ _ _ (by decide), rfl, rfl,
      Or.inl ⟨rfl, rfl, by simp [hasBucketKey, h2], rfl, _, _, rfl, rfl,
        Or.inr (Or.inr ⟨params, hpart⟩)⟩⟩
  | none =>
  simp only [h2] at h
  cases h3 : QueryMap.get q "terms" with
  | some terms =>
    simp only [h3] at h
    rw [bind_eq_ok] at h; obtain ⟨params, -, h⟩ := h
    rw [bind_eq_ok] at h; obtain ⟨field, -, h⟩ := h
    simp only [pure, Except.pure, Except.ok.injEq, Prod.mk.injEq] at h
    obtain ⟨rfl, rfl, rfl, rfl⟩ := h
    exact ⟨QueryMap.delete_subset _ _, QueryMap.get_delete_ne _ _ _ (by decide), rfl, rfl,
      Or.inl ⟨rfl, rfl, by simp [hasBucketKey, h3], rfl, _, _, rfl, rfl, Or.inl ⟨_, rfl⟩⟩⟩
  | none =>
  simp only [h3] at h
  cases h4 : QueryMap.get q "sampler" with
  | some sampler =>
    simp only [h4, pure, Except.pure, Except.ok.injEq, Prod.mk.injEq] at h
    obtain ⟨rfl, rfl, rfl, rfl⟩ := h
    exact ⟨QueryMap.delete_subset _ _, QueryMap.get_delete_ne _ _ _ (by decide), rfl, rfl,
      Or.inr ⟨rfl, rfl, rfl⟩⟩
  | none =>
  simp only [h4] at h
  cases h5 : QueryMap.get q "random_sampler" with
  | some sampler =>
    simp only [h5, pure, Except.pure, Except.ok.injEq, Prod.mk.injEq] at h
    obtain ⟨rfl, rfl, rfl, rfl⟩ := h
    exact ⟨QueryMap.delete_subset _ _, QueryMap.get_delete_ne _ _ _ (by decide), rfl, rfl,
      Or.inr ⟨rfl, rfl, rfl⟩⟩
  | none =>
  simp only [h5] at h
  cases h6 : QueryMap.get q "range" with
  | some range =>
    simp only [h6] at h
    rw [bind_eq_ok] at h; obtain ⟨params, -, h⟩ := h
    rw [bind_eq_ok] at h; obtain ⟨parsed, -, h⟩ := h
    simp only [pure, Except.pure, Except.ok.injEq, Prod.mk.injEq] at h
    obtain ⟨rfl, rfl, rfl, rfl⟩ := h
    exact ⟨QueryMap.delete_subset _ _, QueryMap.get_delete_ne _ _ _ (by decide), rfl, rfl,
      Or.inr ⟨rfl, rfl, rfl⟩⟩
  | none =>
  simp only [h6] at h
  cases h7 : QueryMap.get q "bool" with
  | some bool =>
    simp only [h7] at h
    rw [bind_eq_ok] at h; obtain ⟨params, -, h⟩ := h
    rw [bind_eq_ok] at h; obtain ⟨parsed, -, h⟩ := h
    simp only [pure, Except.pure, Except.ok.injEq, Prod.mk.injEq] at h
    obtain ⟨rfl, rfl, rfl, rfl⟩ := h
    exact ⟨QueryMap.delete_subset _ _, QueryMap.get_delete_ne _ _ _ (by decide), rfl, rfl,
      Or.inr ⟨rfl, rfl, rfl⟩⟩
  | none =>
    simp only [h7, pure, Except.pure, Except.ok.injEq, Prod.mk.injEq] at h
    obtain ⟨rfl, rfl, rfl, rfl⟩ := h
    exact ⟨fun _ hx => hx, rfl, rfl, rfl, Or.inr ⟨rfl, rfl, rfl⟩⟩

theorem markLastAggregatorNotEmpty_ok (b b' : aggrQueryBuilder)
    (h : markLastAggregatorNotEmpty b = .ok b') :
    ∃ last, b.Aggregators.getLast? = some last
      ∧ b' = { b with Aggregators := b.Aggregators.dropLast ++ [{ last with Empty := false }] } := by
  unfold markLastAggregatorNotEmpty at h
  cases hl : b.Aggregators.getLast? with
  | none => simp [hl] at h
  | some last =>
    simp only [hl, pure, Except.pure, Except.ok.injEq] at h
    exact ⟨last, rfl, h.symm⟩

theorem restoreAfterNesting_ok (b : aggrQueryBuilder) (f : Bool) (w : SimpleQuery) (added : Bool)
    (t : QueryType) (b' : aggrQueryBuilder) (h : restoreAfterNesting b f w added t = .ok b') :
    b'.fixedPart = b.fixedPart ∧ b'.Aggregators = b.Aggregators ∧ b'.«Type» = t
    ∧ b'.whereBuilder = (if f then w else b.whereBuilder)
    ∧ ((added = true ∧ 0 < b.GroupByFields.length ∧ b.NonSchemaFields ≠ []
          ∧ b'.GroupByFields = b.GroupByFields.dropLast
          ∧ b'.NonSchemaFields = b.NonSchemaFields.dropLast)
       ∨ (¬ (added = true ∧ 0 < b.GroupByFields.length)
          ∧ b'.GroupByFields = b.GroupByFields ∧ b'.NonSchemaFields = b.NonSchemaFields)) := by
  unfold restoreAfterNesting at h
  have hw : (if f = true then { b with whereBuilder := w } else b)
      = { b with whereBuilder := if f then w else b.whereBuilder } := by
    cases f <;> rfl
  rw [hw] at h
  by_cases hc : added = true ∧ 0 < b.GroupByFields.length
  · simp only [hc, and_self, if_true] at h
    unfold dropLastGo at h
    by_cases hl : b.NonSchemaFields.length = 0
    · simp [hl, bind, Except.bind] at h
    · simp only [hl, if_false, bind, Except.bind, pure, Except.pure, Except.ok.injEq] at h
      subst h
      have hne : b.NonSchemaFields ≠ [] := by
        intro hnil
        exact hl (by simp [hnil])
      exact ⟨rfl, rfl, rfl, rfl, Or.inl ⟨hc.1, hc.2, hne, rfl, rfl⟩⟩
  · simp only [hc, if_false, bind, Except.bind, pure, Except.pure, Except.ok.injEq] at h
    subst h
    exact ⟨rfl, rfl, rfl, rfl, Or.inr ⟨hc, rfl, rfl⟩⟩

/-! ## The entries built from a builder -/

theorem buildAggregationCommon_proj (b : aggrQueryBuilder) :
    (buildAggregationCommon b).CanParse = b.CanParse
    ∧ (buildAggregationCommon b).Aggregators = b.Aggregators
    ∧ (buildAggregationCommon b).«Type» = b.«Type»
    ∧ (buildAggregationCommon b).WhereClause = b.whereBuilder.Sql.Stmt
    ∧ (buildAggregationCommon b).NonSchemaFields = b.NonSchemaFields
    ∧ (buildAggregationCommon b).FromClause = b.FromClause
    ∧ (buildAggregationCommon b).SuffixClauses = b.SuffixClauses
    ∧ (buildAggregationCommon b).GroupByFields
        = (b.GroupByFields.filter (fun field => field ≠ EmptyFieldSelection)).map
            (fun f => stringsTrimSuffix f ".keyword") := by
  unfold buildAggregationCommon
  simp only [QueryWithAggregation.CopyAggregationFields, QueryWithAggregation.RemoveEmptyGroupBy,
    QueryWithAggregation.TrimKeywordFromFields]
  split <;> exact ⟨rfl, rfl, rfl, rfl, rfl, rfl, rfl, rfl⟩

theorem metricsSelect_quantile_proj (cw : ClickhouseQueryTranslator) (fieldNames : List String)
    (ps : List (String × Float64)) (query e : QueryWithAggregation)
    (h : ps.foldlM (fun (query : QueryWithAggregation) p => do
        let field ← index0 fieldNames
        pure { query with NonSchemaFields := query.NonSchemaFields ++
          ["quantiles(" ++ cw.sprintfFloat p.2 ++ ")(`" ++ field ++ "`) AS `quantile_" ++ p.1 ++ "`"] })
        query = .ok e) :
    e.GroupByFields = query.GroupByFields ∧ e.Aggregators = query.Aggregators
      ∧ e.CanParse = query.CanParse ∧ e.«Type» = query.«Type» := by
  induction ps generalizing query with
  | nil =>
    simp only [List.foldlM, pure, Except.pure, Except.ok.injEq] at h
    subst h
    exact ⟨rfl, rfl, rfl, rfl⟩
  | cons p rest ih =>
    simp only [List.foldlM] at h
    rw [bind_eq_ok] at h
    obtain ⟨q2, h2, h⟩ := h
    rw [bind_eq_ok] at h2
    obtain ⟨field, -, h2⟩ := h2
    simp only [pure, Except.pure, Except.ok.injEq] at h2
    subst h2
    obtain ⟨a1, a2, a3, a4⟩ := ih _ h
    exact ⟨a1, a2, a3, a4⟩

theorem metricsSelect_proj (cw : ClickhouseQueryTranslator) (b : aggrQueryBuilder)
    (m : metricsAggregation) (query e : QueryWithAggregation)
    (h : metricsSelect cw b m query = .ok e) :
    e.GroupByFields = query.GroupByFields ∧ e.Aggregators = query.Aggregators
      ∧ (e.CanParse = query.CanParse ∨ e.CanParse = false) ∧ e.«Type» = query.«Type» := by
  unfold metricsSelect at h
  by_cases c1 : m.AggrType = "sum" ∨ m.AggrType = "min" ∨ m.AggrType = "max" ∨ m.AggrType = "avg"
  · rw [if_pos c1, bind_eq_ok] at h
    obtain ⟨field, -, h⟩ := h
    simp only [pure, Except.pure, Except.ok.injEq] at h
    subst h
    exact ⟨rfl, rfl, Or.inl rfl, rfl⟩
  rw [if_neg c1] at h
  by_cases c2 : m.AggrType = "quantile"
  · rw [if_pos c2] at h
    obtain ⟨h1, h2, h3, h4⟩ := metricsSelect_quantile_proj cw _ _ _ _ h
    exact ⟨h1, h2, Or.inl h3, h4⟩
  rw [if_neg c2] at h
  by_cases c3 : m.AggrType = "cardinality"
  · rw [if_pos c3, bind_eq_ok] at h
    obtain ⟨field, -, h⟩ := h
    simp only [pure, Except.pure, Except.ok.injEq] at h
    subst h
    exact ⟨rfl, rfl, Or.inl rfl, rfl⟩
  rw [if_neg c3] at h
  by_cases c4 : m.AggrType = "value_count"
  · rw [if_pos c4] at h
    simp only [pure, Except.pure, Except.ok.injEq] at h
    subst h
    exact ⟨rfl, rfl, Or.inl rfl, rfl⟩
  rw [if_neg c4] at h
  by_cases c5 : m.AggrType = "stats"
  · rw [if_pos c5, bind_eq_ok] at h
    obtain ⟨field, -, h⟩ := h
    simp only [pure, Except.pure, Except.ok.injEq] at h
    subst h
    exact ⟨rfl, rfl, Or.inl rfl, rfl⟩
  rw [if_neg c5] at h
  by_cases c6 : m.AggrType = "top_hits"
  · rw [if_pos c6] at h
    simp only [pure, Except.pure, Except.ok.injEq] at h
    subst h
    exact ⟨rfl, rfl, Or.inl rfl, rfl⟩
  rw [if_neg c6] at h
  by_cases c7 : m.AggrType = "top_metrics"
  · rw [if_pos c7] at h
    by_cases c8 : 0 < b.GroupByFields.length
    · rw [if_pos c8] at h
      simp only [pure, Except.pure, Except.ok.injEq] at h
      subst h
      exact ⟨rfl, rfl, Or.inl rfl, rfl⟩
    · rw [if_neg c8] at h
      simp only [pure, Except.pure, Except.ok.injEq] at h
      subst h
      exact ⟨rfl, rfl, Or.inl rfl, rfl⟩
  rw [if_neg c7] at h
  by_cases c9 : m.AggrType = "percentile_ranks"
  · rw [if_pos c9, bind_eq_ok] at h
    obtain ⟨field, -, h⟩ := h
    simp only [pure, Except.pure, Except.ok.injEq] at h
    subst h
    exact ⟨rfl, rfl, Or.inl rfl, rfl⟩
  rw [if_neg c9] at h
  simp only [pure, Except.pure, Except.ok.injEq] at h
  subst h
  exact ⟨rfl, rfl, Or.inr rfl, rfl⟩

theorem buildMetricsAggregation_proj (cw : ClickhouseQueryTranslator) (b : aggrQueryBuilder)
    (m : metricsAggregation) (e : QueryWithAggregation)
    (h : buildMetricsAggregation cw b m = .ok e) :
    e.GroupByFields = (buildAggregationCommon b).GroupByFields
      ∧ e.Aggregators = b.Aggregators
      ∧ (e.CanParse = b.CanParse ∨ e.CanParse = false) := by
  unfold buildMetricsAggregation at h
  rw [bind_eq_ok] at h
  obtain ⟨q2, h2, h⟩ := h
  simp only [pure, Except.pure, Except.ok.injEq] at h
  subst h
  obtain ⟨h1, h3, h4, -⟩ := metricsSelect_proj cw b m _ _ h2
  have hc := buildAggregationCommon_proj b
  refine ⟨h1, h3.trans hc.2.1, ?_⟩
  rcases h4 with h4 | h4
  · exact Or.inl (h4.trans hc.1)
  · exact Or.inr h4

/-! ## What `parseAggregation` leaves unchanged -/

theorem fixedPart_canParse (b b' : aggrQueryBuilder) (h : b'.fixedPart = b.fixedPart) :
    b'.CanParse = b.CanParse :=
  congrArg (fun p => p.2.2.2.2) h

theorem framed_refl (b : aggrQueryBuilder) : Framed b b :=
  ⟨rfl, rfl, rfl, rfl, rfl, rfl⟩

theorem framed_trans {b1 b2 b3 : aggrQueryBuilder} (h12 : Framed b1 b2) (h23 : Framed b2 b3) :
    Framed b1 b3 :=
  ⟨h23.1.trans h12.1, h23.2.1.trans h12.2.1, h23.2.2.1.trans h12.2.2.1,
    h23.2.2.2.1.trans h12.2.2.2.1, h23.2.2.2.2.1.trans h12.2.2.2.2.1,
    h23.2.2.2.2.2.trans h12.2.2.2.2.2⟩

theorem extends_refl (b : aggrQueryBuilder) (acc : List QueryWithAggregation) :
    Extends b acc acc :=
  ⟨[], by simp, by simp⟩

theorem extends_trans {b b1 : aggrQueryBuilder} {acc acc1 acc2 : List QueryWithAggregation}
    (hb : b1.fixedPart = b.fixedPart) (h1 : Extends b acc acc1) (h2 : Extends b1 acc1 acc2) :
    Extends b acc acc2 := by
  obtain ⟨r1, rfl, hr1⟩ := h1
  obtain ⟨r2, rfl, hr2⟩ := h2
  refine ⟨r1 ++ r2, by simp, ?_⟩
  intro e he hc
  rcases List.mem_append.mp he with he | he
  · exact hr1 e he hc
  · exact hr2 e he ((fixedPart_canParse b b1 hb).trans hc)

theorem extends_snoc (b : aggrQueryBuilder) (acc : List QueryWithAggregation)
    (e : QueryWithAggregation) (he : e.CanParse = b.CanParse ∨ e.CanParse = false) :
    Extends b acc (acc ++ [e]) := by
  refine ⟨[e], rfl, ?_⟩
  intro e' he' hc
  rw [List.mem_singleton] at he'
  subst he'
  rcases he with he | he
  · exact he.trans hc
  · exact he

theorem extends_ite_snoc (b : aggrQueryBuilder) (acc : List QueryWithAggregation)
    (e : QueryWithAggregation) (c : Bool) (he : e.CanParse = b.CanParse ∨ e.CanParse = false) :
    Extends b acc (if c then acc ++ [e] else acc) := by
  cases c
  · exact extends_refl b acc
  · exact extends_snoc b acc e he

theorem markLast_names (xs : List Aggregator) (last : Aggregator)
    (h : xs.getLast? = some last) :
    (xs.dropLast ++ [{ last with Empty := false }]).map Aggregator.Name = xs.map Aggregator.Name
    ∧ (xs.dropLast ++ [{ last with Empty := false }]).dropLast = xs.dropLast := by
  have hx : xs.dropLast ++ [last] = xs := List.dropLast_append_getLast? last h
  constructor
  · conv_rhs => rw [← hx]
    simp
  · simp

theorem parseNamedAggregations_frame
    (parse : aggrQueryBuilder → QueryMap → List QueryWithAggregation →
      Except Abort (aggrQueryBuilder × List QueryWithAggregation))
    (hparse : ∀ b q acc b' acc', parse b q acc = .ok (b', acc') →
      Framed b b' ∧ Extends b acc acc') :
    ∀ (named : QueryMap) (b : aggrQueryBuilder) (acc : List QueryWithAggregation)
      (b' : aggrQueryBuilder) (acc' : List QueryWithAggregation),
      parseNamedAggregations parse named b acc = .ok (b', acc') →
      Framed b b' ∧ b'.Aggregators = b.Aggregators ∧ Extends b acc acc' := by
  intro named
  induction named with
  | nil =>
    intro b acc b' acc' h
    simp only [parseNamedAggregations, pure, Except.pure, Except.ok.injEq, Prod.mk.injEq] at h
    obtain ⟨rfl, rfl⟩ := h
    exact ⟨framed_refl _, rfl, extends_refl _ _⟩
  | cons kv rest ih =>
    intro b acc b' acc' h
    obtain ⟨k, v⟩ := kv
    obtain ⟨node, b2, acc2, -, h2, hne, h3⟩ := parseNamedAggregations_cons_ok parse k v rest b acc b' acc' h
    obtain ⟨hf2, he2⟩ := hparse _ _ _ _ _ h2
    obtain ⟨hf3, ha3, he3⟩ := ih _ _ _ _ h3
    have hdrop : b2.Aggregators.dropLast = b.Aggregators := by
      have := hf2.2.2.2.2.2
      simpa using this
    have hfr : Framed b { b2 with Aggregators := b2.Aggregators.dropLast } := by
      refine ⟨hf2.1, hf2.2.1, hf2.2.2.1, hf2.2.2.2.1, ?_, ?_⟩
      · show (b2.Aggregators.dropLast).map Aggregator.Name = _
        rw [hdrop]
      · show (b2.Aggregators.dropLast).dropLast = _
        rw [hdrop]
    refine ⟨framed_trans hfr hf3, ha3.trans hdrop, ?_⟩
    have e1 : Extends b acc acc2 := he2
    have hfp : ({ b2 with Aggregators := b2.Aggregators.dropLast } : aggrQueryBuilder).fixedPart
        = b.fixedPart := hf2.1
    exact extends_trans hfp e1 he3

theorem buildCountAggregation_canParse (b : aggrQueryBuilder) :
    (buildCountAggregation b).CanParse = b.CanParse :=
  (buildAggregationCommon_proj b).1

theorem buildBucketAggregation_canParse (b : aggrQueryBuilder) :
    (buildBucketAggregation b).CanParse = b.CanParse :=
  (buildAggregationCommon_proj b).1

theorem parseAggregationAux_frame (cw : ClickhouseQueryTranslator) :
    ∀ (fuel : Nat) (b : aggrQueryBuilder) (q : QueryMap) (acc : List QueryWithAggregation)
      (b' : aggrQueryBuilder) (acc' : List QueryWithAggregation),
      parseAggregationAux cw fuel b q acc = .ok (b', acc') →
      Framed b b' ∧ Extends b acc acc' := by
  intro fuel
  induction fuel with
  | zero =>
    intro b q acc b' acc' h
    simp [parseAggregationAux] at h
  | succ fuel ih =>
    intro b q acc b' acc' h
    rcases parseAggregationAux_succ_ok cw fuel b q acc b' acc' h with
      ⟨-, rfl, rfl⟩ | ⟨-, m, e, -, he, rfl, rfl⟩ |
      ⟨-, m, b1, q1, acc1, f1, b3, q3, present, added, b4, b5, acc5, b7, -, hf, hb, h4, h5, h7, h8⟩
    · exact ⟨framed_refl _, extends_refl _ _⟩
    · exact ⟨framed_refl _, extends_snoc _ _ _ (buildMetricsAggregation_proj cw _ m e he).2.2⟩
    · -- step 2
      have s1 : b1.fixedPart = b.fixedPart ∧ b1.GroupByFields = b.GroupByFields
          ∧ b1.NonSchemaFields = b.NonSchemaFields ∧ b1.Aggregators = b.Aggregators
          ∧ Extends b acc acc1 := by
        rcases parseFilterOnThisLevel_ok cw b q acc b1 q1 acc1 f1 hf with
          ⟨-, rfl, -, rfl, -⟩ | ⟨params, parsed, -, -, hb1, -, hacc1, -⟩
        · exact ⟨rfl, rfl, rfl, rfl, extends_refl _ _⟩
        · have hfp : b1.fixedPart = b.fixedPart := by rw [hb1]; rfl
          refine ⟨hfp, by rw [hb1], by rw [hb1], by rw [hb1], ?_⟩
          rw [hacc1]
          exact extends_snoc _ _ _
            (Or.inl ((buildCountAggregation_canParse b1).trans (fixedPart_canParse b b1 hfp)))
      obtain ⟨s1fp, s1gb, s1nsf, s1ag, s1ext⟩ := s1
      -- step 3
      obtain ⟨-, -, s3fp, s3ag, s3st⟩ := tryBucketAggregation_ok cw b1 _ b3 q3 present added hb
      have s4 : b4.fixedPart = b3.fixedPart ∧ b4.GroupByFields = b3.GroupByFields
          ∧ b4.NonSchemaFields = b3.NonSchemaFields
          ∧ b4.Aggregators.map Aggregator.Name = b3.Aggregators.map Aggregator.Name
          ∧ b4.Aggregators.dropLast = b3.Aggregators.dropLast := by
        cases added with
        | false =>
          simp only [Bool.false_eq_true, if_false, Except.ok.injEq] at h4
          subst h4
          exact ⟨rfl, rfl, rfl, rfl, rfl⟩
        | true =>
          simp only [if_true] at h4
          obtain ⟨last, hl, rfl⟩ := markLastAggregatorNotEmpty_ok b3 b4 h4
          obtain ⟨hn, hd⟩ := markLast_names b3.Aggregators last hl
          exact ⟨rfl, rfl, rfl, hn, hd⟩
      obtain ⟨s4fp, s4gb, s4nsf, s4names, s4drop⟩ := s4
      -- step 4
      have s5 : Framed b4 b5 ∧ Extends b4 acc1 acc5 := by
        rcases parseNestedAggs_ok _ b4 q3 acc1 b5 acc5 h5 with ⟨-, rfl, rfl⟩ | ⟨node, -, hn⟩
        · exact ⟨framed_refl _, extends_refl _ _⟩
        · exact ih _ _ _ _ _ hn
      obtain ⟨s5fr, s5ext⟩ := s5
      -- step 5
      obtain ⟨s7fr, s7ag, s7ext⟩ := parseNamedAggregations_frame _ ih _ _ _ _ _ h7
      -- restore
      obtain ⟨s8fp, s8ag, s8ty, -, s8st⟩ := restoreAfterNesting_ok _ _ _ _ _ _ h8
      have fp4 : b4.fixedPart = b.fixedPart := s4fp.trans (s3fp.trans s1fp)
      have fp5 : b5.fixedPart = b.fixedPart := s5fr.1.trans fp4
      have gb7 : b7.GroupByFields = b3.GroupByFields :=
        s7fr.2.1.trans (s5fr.2.1.trans s4gb)
      have nsf7 : b7.NonSchemaFields = b3.NonSchemaFields :=
        s7fr.2.2.1.trans (s5fr.2.2.1.trans s4nsf)
      have hstk : b'.GroupByFields = b.GroupByFields ∧ b'.NonSchemaFields = b.NonSchemaFields := by
        rcases s3st with ⟨hadd, -, -, -, g, sel, hg, hs, -⟩ | ⟨hadd, hg, hs⟩
        · rcases s8st with ⟨-, -, -, h8g, h8n⟩ | ⟨hno, -, -⟩
          · constructor
            · rw [h8g, gb7, hg, s1gb]; simp
            · rw [h8n, nsf7, hs, s1nsf]; simp
          · exfalso
            apply hno
            refine ⟨hadd, ?_⟩
            rw [gb7, hg]
            simp
        · rcases s8st with ⟨hadd', -, -, -, -⟩ | ⟨-, h8g, h8n⟩
          · rw [hadd] at hadd'
            exact absurd hadd' (by decide)
          · exact ⟨h8g.trans (gb7.trans (hg.trans s1gb)), h8n.trans (nsf7.trans (hs.trans s1nsf))⟩
      refine ⟨⟨s8fp.trans (s7fr.1.trans fp5), hstk.1, hstk.2, s8ty, ?_, ?_⟩, ?_⟩
      · rw [s8ag, s7ag, s5fr.2.2.2.2.1, s4names, s3ag, s1ag]
      · rw [s8ag, s7ag, s5fr.2.2.2.2.2, s4drop, s3ag, s1ag]
      · have e5 : Extends b acc acc5 := extends_trans fp4 s1ext s5ext
        have e6 : Extends b5 acc5 (if present then acc5 ++ [buildBucketAggregation b5] else acc5) :=
          extends_ite_snoc _ _ _ _ (Or.inl (buildBucketAggregation_canParse b5))
        exact extends_trans fp5 e5 (extends_trans rfl e6 s7ext)

/-! ## The fuel given by `parseAggregation` is enough -/

theorem bind_ne_outOfFuel {α β : Type} (x : Except Abort α) (f : α → Except Abort β)
    (hx : x ≠ .error .outOfFuel) (hf : ∀ a, x = .ok a → f a ≠ .error .outOfFuel) :
    (x >>= f) ≠ .error .outOfFuel := by
  cases x with
  | error e => simpa [bind, Except.bind] using hx
  | ok a => simpa [bind, Except.bind] using hf a rfl

theorem depth_le_mapDepth (q : QueryMap) (k : String) (v : JsonValue) (h : (k, v) ∈ q) :
    JsonValue.depth v ≤ JsonValue.mapDepth q := by
  induction q with
  | nil => simp at h
  | cons kv rest ih =>
    obtain ⟨k0, v0⟩ := kv
    simp only [JsonValue.mapDepth]
    rcases List.mem_cons.mp h with h | h
    · simp only [Prod.mk.injEq] at h
      rw [h.2]
      exact Nat.le_max_left _ _
    · exact Nat.le_trans (ih h) (Nat.le_max_right _ _)

theorem parseNestedAggs_ne_outOfFuel
    (parse : aggrQueryBuilder → QueryMap → List QueryWithAggregation →
      Except Abort (aggrQueryBuilder × List QueryWithAggregation))
    (fuel : Nat)
    (hparse : ∀ b q acc, JsonValue.mapDepth q < fuel → parse b q acc ≠ .error .outOfFuel)
    (b : aggrQueryBuilder) (q : QueryMap) (acc : List QueryWithAggregation)
    (hq : JsonValue.mapDepth q ≤ fuel) :
    parseNestedAggs parse b q acc ≠ .error .outOfFuel := by
  unfold parseNestedAggs
  cases hg : QueryMap.get q "aggs" with
  | none => simp [pure, Except.pure]
  | some aggs =>
    simp only
    refine bind_ne_outOfFuel _ _ (liftPanic_ne_outOfFuel _) ?_
    intro node hn
    rw [liftPanic_eq_ok, JsonValue.asQueryMap_eq_ok] at hn
    subst hn
    apply hparse
    have := depth_le_mapDepth q "aggs" _ (QueryMap.get_mem q "aggs" _ hg)
    simp only [JsonValue.depth] at this
    omega

theorem parseNamedAggregations_ne_outOfFuel
    (parse : aggrQueryBuilder → QueryMap → List QueryWithAggregation →
      Except Abort (aggrQueryBuilder × List QueryWithAggregation))
    (fuel : Nat)
    (hparse : ∀ b q acc, JsonValue.mapDepth q < fuel → parse b q acc ≠ .error .outOfFuel) :
    ∀ (named : QueryMap) (b : aggrQueryBuilder) (acc : List QueryWithAggregation),
      JsonValue.mapDepth named ≤ fuel →
      parseNamedAggregations parse named b acc ≠ .error .outOfFuel := by
  intro named
  induction named with
  | nil => intro b acc _; simp [parseNamedAggregations, pure, Except.pure]
  | cons kv rest ih =>
    intro b acc hd
    obtain ⟨k, v⟩ := kv
    simp only [JsonValue.mapDepth] at hd
    unfold parseNamedAggregations
    refine bind_ne_outOfFuel _ _ (liftPanic_ne_outOfFuel _) ?_
    intro node hn
    rw [liftPanic_eq_ok, JsonValue.asQueryMap_eq_ok] at hn
    subst hn
    simp only [JsonValue.depth] at hd
    refine bind_ne_outOfFuel _ _ (hparse _ _ _ (by omega)) ?_
    rintro ⟨b2, acc2⟩ -
    refine bind_ne_outOfFuel _ _ (liftPanic_ne_outOfFuel _) ?_
    intro trail _
    exact ih _ _ (by omega)

theorem mapDepth_mono (q q' : QueryMap) (h : q' ⊆ q) :
    JsonValue.mapDepth q' ≤ JsonValue.mapDepth q := by
  induction q' with
  | nil => simp [JsonValue.mapDepth]
  | cons kv rest ih =>
    obtain ⟨k, v⟩ := kv
    simp only [JsonValue.mapDepth]
    exact Nat.max_le.mpr ⟨depth_le_mapDepth q k v (h (List.mem_cons_self _ _)),
      ih (fun x hx => h (List.mem_cons_of_mem _ hx))⟩

/-- With more fuel than the map is deep, `parseAggregationAux` does not run out of fuel: it
returns or it panics. -/
theorem parseAggregationAux_ne_outOfFuel (cw : ClickhouseQueryTranslator) :
    ∀ (fuel : Nat) (b : aggrQueryBuilder) (q : QueryMap) (acc : List QueryWithAggregation),
      JsonValue.mapDepth q < fuel → parseAggregationAux cw fuel b q acc ≠ .error .outOfFuel := by
  intro fuel
  induction fuel with
  | zero => intro b q acc h; omega
  | succ fuel ih =>
    intro b q acc hd
    unfold parseAggregationAux
    by_cases hq : q.length = 0
    · simp [hq, pure, Except.pure]
    · simp only [hq, if_false]
      refine bind_ne_outOfFuel _ _ (liftPanic_ne_outOfFuel _) ?_
      rintro ⟨m, ok⟩ -
      cases ok with
      | true =>
        simp only [if_true]
        refine bind_ne_outOfFuel _ _ (liftPanic_ne_outOfFuel _) ?_
        intro e _
        simp [pure, Except.pure]
      | false =>
        simp only [Bool.false_eq_true, if_false]
        refine bind_ne_outOfFuel _ _ (liftPanic_ne_outOfFuel _) ?_
        rintro ⟨b1, q1, acc1, f1⟩ hf
        rw [liftPanic_eq_ok] at hf
        have hq1 : q1 ⊆ q := by
          rcases parseFilterOnThisLevel_ok cw b q acc b1 q1 acc1 f1 hf with
            ⟨-, -, rfl, -, -⟩ | ⟨_, _, -, -, -, rfl, -, -⟩
          · exact fun _ hx => hx
          · exact QueryMap.delete_subset _ _
        simp only
        refine bind_ne_outOfFuel _ _ (liftPanic_ne_outOfFuel _) ?_
        rintro ⟨b3, q3, present, added⟩ hb
        rw [liftPanic_eq_ok] at hb
        obtain ⟨hq3, -⟩ := tryBucketAggregation_ok cw b1 _ b3 q3 present added hb
        have hd3 : JsonValue.mapDepth q3 ≤ fuel := by
          have := mapDepth_mono q q3
            (fun x hx => hq1 (QueryMap.delete_subset _ _ (hq3 hx)))
          omega
        have hd4 : JsonValue.mapDepth (QueryMap.delete q3 "aggs") ≤ fuel :=
          Nat.le_trans (mapDepth_mono _ _ (QueryMap.delete_subset _ _)) hd3
        have rest : ∀ b4 : aggrQueryBuilder,
            (do
              let __discr ← parseNestedAggs (parseAggregationAux cw fuel) b4 q3 acc1
              let __discr ←
                parseNamedAggregations (parseAggregationAux cw fuel) (q3.delete "aggs") __discr.1
                  (if present = true then __discr.2 ++ [buildBucketAggregation __discr.1]
                   else __discr.2)
              let currentAggr ←
                liftPanic (restoreAfterNesting __discr.1 (f1 || (q1.get "filters").isSome)
                  b.whereBuilder added b.«Type»)
              pure (currentAggr, __discr.2)) ≠ Except.error Abort.outOfFuel := by
          intro b4
          refine bind_ne_outOfFuel _ _ (parseNestedAggs_ne_outOfFuel _ fuel ih _ _ _ hd3) ?_
          rintro ⟨b5, acc5⟩ -
          refine bind_ne_outOfFuel _ _
            (parseNamedAggregations_ne_outOfFuel _ fuel ih _ _ _ hd4) ?_
          rintro ⟨b7, acc7⟩ -
          refine bind_ne_outOfFuel _ _ (liftPanic_ne_outOfFuel _) ?_
          intro b8 _
          simp [pure, Except.pure]
        cases added with
        | true =>
          simp only [if_true]
          refine bind_ne_outOfFuel _ _ (liftPanic_ne_outOfFuel _) ?_
          intro b4 _
          exact rest b4
        | false =>
          simp only [Bool.false_eq_true, if_false]
          refine bind_ne_outOfFuel _ _ (by simp [pure, Except.pure]) ?_
          intro b4 _
          exact rest b4

/-- The method `parseAggregation` returns or panics: it never runs out of fuel. -/
theorem parseAggregation_ne_outOfFuel (cw : ClickhouseQueryTranslator) (b : aggrQueryBuilder)
    (q : QueryMap) (acc : List QueryWithAggregation) :
    parseAggregation cw b q acc ≠ .error .outOfFuel :=
  parseAggregationAux_ne_outOfFuel cw _ b q acc (Nat.lt_succ_self _)

theorem bind_congr_ok {ε α β : Type} (x : Except ε α) (f g : α → Except ε β)
    (h : ∀ a, x = .ok a → f a = g a) : (x >>= f) = (x >>= g) := by
  cases x with
  | error e => rfl
  | ok a => exact h a rfl

theorem parseNestedAggs_congr
    (parse parse' : aggrQueryBuilder → QueryMap → List QueryWithAggregation →
      Except Abort (aggrQueryBuilder × List QueryWithAggregation))
    (fuel : Nat)
    (hparse : ∀ b q acc, JsonValue.mapDepth q < fuel → parse b q acc = parse' b q acc)
    (b : aggrQueryBuilder) (q : QueryMap) (acc : List QueryWithAggregation)
    (hq : JsonValue.mapDepth q ≤ fuel) :
    parseNestedAggs parse b q acc = parseNestedAggs parse' b q acc := by
  unfold parseNestedAggs
  cases hg : QueryMap.get q "aggs" with
  | none => rfl
  | some aggs =>
    simp only
    refine bind_congr_ok _ _ _ ?_
    intro node hn
    rw [liftPanic_eq_ok, JsonValue.asQueryMap_eq_ok] at hn
    subst hn
    apply hparse
    have := depth_le_mapDepth q "aggs" _ (QueryMap.get_mem q "aggs" _ hg)
    simp only [JsonValue.depth] at this
    omega

theorem parseNamedAggregations_congr
    (parse parse' : aggrQueryBuilder → QueryMap → List QueryWithAggregation →
      Except Abort (aggrQueryBuilder × List QueryWithAggregation))
    (fuel : Nat)
    (hparse : ∀ b q acc, JsonValue.mapDepth q < fuel → parse b q acc = parse' b q acc) :
    ∀ (named : QueryMap) (b : aggrQueryBuilder) (acc : List QueryWithAggregation),
      JsonValue.mapDepth named ≤ fuel →
      parseNamedAggregations parse named b acc = parseNamedAggregations parse' named b acc := by
  intro named
  induction named with
  | nil => intro b acc _; rfl
  | cons kv rest ih =>
    intro b acc hd
    obtain ⟨k, v⟩ := kv
    simp only [JsonValue.mapDepth] at hd
    unfold parseNamedAggregations
    refine bind_congr_ok _ _ _ ?_
    intro node hn
    rw [liftPanic_eq_ok, JsonValue.asQueryMap_eq_ok] at hn
    subst hn
    simp only [JsonValue.depth] at hd
    rw [hparse _ _ _ (by omega)]
    refine bind_congr_ok _ _ _ ?_
    rintro ⟨b2, acc2⟩ -
    refine bind_congr_ok _ _ _ ?_
    intro trail _
    exact ih _ _ (by omega)

/-- With more fuel than the map is deep, one more unit of fuel does not change the result
of `parseAggregationAux`. -/
theorem parseAggregationAux_succ_fuel (cw : ClickhouseQueryTranslator) :
    ∀ (fuel : Nat) (b : aggrQueryBuilder) (q : QueryMap) (acc : List QueryWithAggregation),
      JsonValue.mapDepth q < fuel →
      parseAggregationAux cw fuel b q acc = parseAggregationAux cw (fuel + 1) b q acc := by
  intro fuel
  induction fuel with
  | zero => intro b q acc h; omega
  | succ fuel ih =>
    intro b q acc hd
    rw [parseAggregationAux, parseAggregationAux]
    by_cases hq : q.length = 0
    · simp [hq]
    · simp only [hq, if_false]
      refine bind_congr_ok _ _ _ ?_
      rintro ⟨m, ok⟩ -
      cases ok with
      | true => rfl
      | false =>
        simp only [Bool.false_eq_true, if_false]
        refine bind_congr_ok _ _ _ ?_
        rintro ⟨b1, q1, acc1, f1⟩ hf
        rw [liftPanic_eq_ok] at hf
        have hq1 : q1 ⊆ q := by
          rcases parseFilterOnThisLevel_ok cw b q acc b1 q1 acc1 f1 hf with
            ⟨-, -, rfl, -, -⟩ | ⟨_, _, -, -, -, rfl, -, -⟩
          · exact fun _ hx => hx
          · exact QueryMap.delete_subset _ _
        simp only
        refine bind_congr_ok _ _ _ ?_
        rintro ⟨b3, q3, present, added⟩ hb
        rw [liftPanic_eq_ok] at hb
        obtain ⟨hq3, -⟩ := tryBucketAggregation_ok cw b1 _ b3 q3 present added hb
        have hd3 : JsonValue.mapDepth q3 ≤ fuel := by
          have := mapDepth_mono q q3
            (fun x hx => hq1 (QueryMap.delete_subset _ _ (hq3 hx)))
          omega
        have hd4 : JsonValue.mapDepth (QueryMap.delete q3 "aggs") ≤ fuel :=
          Nat.le_trans (mapDepth_mono _ _ (QueryMap.delete_subset _ _)) hd3
        have hnested : ∀ b4, parseNestedAggs (parseAggregationAux cw fuel) b4 q3 acc1
            = parseNestedAggs (parseAggregationAux cw (fuel + 1)) b4 q3 acc1 :=
          fun b4 => parseNestedAggs_congr _ _ fuel ih b4 q3 acc1 hd3
        have hnamed : ∀ b5 acc5,
            parseNamedAggregations (parseAggregationAux cw fuel) (QueryMap.delete q3 "aggs") b5 acc5
            = parseNamedAggregations (parseAggregationAux cw (fuel + 1))
                (QueryMap.delete q3 "aggs") b5 acc5 :=
          fun b5 acc5 => parseNamedAggregations_congr _ _ fuel ih _ b5 acc5 hd4
        simp only [hnested, hnamed]

/-- With more fuel than the map is deep, `parseAggregationAux` computes `parseAggregation`. -/
theorem parseAggregationAux_eq_parseAggregation (cw : ClickhouseQueryTranslator)
    (fuel : Nat) (b : aggrQueryBuilder) (q : QueryMap) (acc : List QueryWithAggregation)
    (h : JsonValue.mapDepth q < fuel) :
    parseAggregationAux cw fuel b q acc = parseAggregation cw b q acc := by
  unfold parseAggregation
  induction fuel with
  | zero => omega
  | succ n ih =>
    by_cases hn : JsonValue.mapDepth q < n
    · rw [← parseAggregationAux_succ_fuel cw n b q acc hn]
      exact ih hn
    · have : n = JsonValue.mapDepth q := by omega
      rw [this]

/-! ## Claims about the state of the builder -/

/-- What `parseAggregation` does restore: when it returns, the group-by stack, the select
stack, the names of the trail and the result kind of the builder are as at entry, and the
accumulator has only grown. -/
theorem parseAggregation_restores_stacks (cw : ClickhouseQueryTranslator) (b : aggrQueryBuilder)
    (q : QueryMap) (acc : List QueryWithAggregation) (b' : aggrQueryBuilder)
    (acc' : List QueryWithAggregation) (h : parseAggregation cw b q acc = .ok (b', acc')) :
    b'.GroupByFields = b.GroupByFields ∧ b'.NonSchemaFields = b.NonSchemaFields
      ∧ b'.AggregatorsNames = b.AggregatorsNames ∧ b'.«Type» = b.«Type»
      ∧ ∃ rest, acc' = acc ++ rest := by
  obtain ⟨hf, rest, hrest, -⟩ := parseAggregationAux_frame cw _ b q acc b' acc' h
  exact ⟨hf.2.1, hf.2.2.1, hf.2.2.2.2.1, hf.2.2.2.1, rest, hrest⟩

/-- C1 (defect in the code): a node with a `range` key and no `filter` key makes
`parseAggregation` return with the WHERE of the builder replaced by its conjunction with
the range predicate, so the WHERE at return differs from the WHERE at entry. -/
theorem parseAggregation_range_where_not_restored (cw : ClickhouseQueryTranslator)
    (b : aggrQueryBuilder) (params : QueryMap) (parsed : SimpleQuery)
    (acc : List QueryWithAggregation) (hp : cw.parseRange params = .ok parsed)
    (hne : combineWheres cw b.whereBuilder parsed ≠ b.whereBuilder) :
    ∃ b' acc', parseAggregation cw b [("range", JsonValue.obj params)] acc = .ok (b', acc')
      ∧ b'.whereBuilder = combineWheres cw b.whereBuilder parsed
      ∧ b'.whereBuilder ≠ b.whereBuilder := by
  refine ⟨{ b with whereBuilder := combineWheres cw b.whereBuilder parsed },
    acc ++ [buildBucketAggregation
      { b with whereBuilder := combineWheres cw b.whereBuilder parsed }], ?_, rfl, hne⟩
  simp [parseAggregation, parseAggregationAux, tryMetricsAggregation, metricsAggregations,
    QueryMap.get, parseFilterOnThisLevel, QueryMap.delete, tryBucketAggregation, hp,
    JsonValue.asQueryMap, parseNestedAggs, parseNamedAggregations, restoreAfterNesting,
    liftPanic, bind, Except.bind, pure, Except.pure]

/-- Witness of C1: the node `{"range": {}}` on the zero builder of `sampleTranslator`. -/
theorem parseAggregation_range_where_not_restored_witness :
    ∃ b' acc', parseAggregation sampleTranslator aggrQueryBuilder.zero
        [("range", JsonValue.obj [])] [] = .ok (b', acc')
      ∧ b'.whereBuilder = combineWheres sampleTranslator aggrQueryBuilder.zero.whereBuilder
          { Sql := { Stmt := "\"x\">1" }, CanParse := true, FieldName := "x" }
      ∧ b'.whereBuilder ≠ aggrQueryBuilder.zero.whereBuilder :=
  parseAggregation_range_where_not_restored sampleTranslator aggrQueryBuilder.zero []
    { Sql := { Stmt := "\"x\">1" }, CanParse := true, FieldName := "x" } [] rfl (by decide)

/-- C2 (defect in the code, the one of C1): with the siblings visited in the order `a`, `b`,
where `a` is a `range` node and `b` a `sum` metric, the entry planned for `b` carries the
range predicate of `a` in its WHERE clause; without `a` in the tree the WHERE clause of
the entry for `b` is empty. -/
theorem where_of_sibling_depends_on_range_sibling (cw : ClickhouseQueryTranslator)
    (params : QueryMap) (parsed : SimpleQuery) (field : String)
    (hp : cw.parseRange params = .ok parsed)
    (hne : (cw.and [{ Stmt := "" }, parsed.Sql]).Stmt ≠ "") :
    ∃ root ea eb eb',
      ParseAggregationJson cw (.ok [("aggs", JsonValue.obj
          [("a", JsonValue.obj [("range", JsonValue.obj params)]),
           ("b", JsonValue.obj [("sum", JsonValue.obj [("field", JsonValue.str field)])])])])
        = .ok (.ok [root, ea, eb])
      ∧ ParseAggregationJson cw (.ok [("aggs", JsonValue.obj
          [("b", JsonValue.obj [("sum", JsonValue.obj [("field", JsonValue.str field)])])])])
        = .ok (.ok [root, eb'])
      ∧ eb.AggregatorsNames = ["b"] ∧ eb'.AggregatorsNames = ["b"]
      ∧ eb.WhereClause = (cw.and [{ Stmt := "" }, parsed.Sql]).Stmt
      ∧ eb'.WhereClause = ""
      ∧ eb.WhereClause ≠ eb'.WhereClause := by
  refine ⟨buildCountAggregation { aggrQueryBuilder.zero with FromClause := cw.Table.FullTableName },
    buildBucketAggregation { aggrQueryBuilder.zero with
      FromClause := cw.Table.FullTableName
      Aggregators := [NewAggregatorEmpty "a"]
      whereBuilder := combineWheres cw aggrQueryBuilder.zero.whereBuilder parsed },
    { buildAggregationCommon { aggrQueryBuilder.zero with
        FromClause := cw.Table.FullTableName
        Aggregators := [NewAggregatorEmpty "b"]
        whereBuilder := combineWheres cw aggrQueryBuilder.zero.whereBuilder parsed } with
      NonSchemaFields := ["sum(\"" ++ cw.Table.ResolveField field ++ "\")"]
      «Type» := QueryType.Sum },
    { buildAggregationCommon { aggrQueryBuilder.zero with
        FromClause := cw.Table.FullTableName
        Aggregators := [NewAggregatorEmpty "b"] } with
      NonSchemaFields := ["sum(\"" ++ cw.Table.ResolveField field ++ "\")"]
      «Type» := QueryType.Sum },
    ?_, ?_, rfl, rfl, rfl, rfl, hne⟩
  · simp [ParseAggregationJson, parseAggregation, parseAggregationAux, tryMetricsAggregation,
      metricsAggregations, QueryMap.get, QueryMap.index, parseFilterOnThisLevel, QueryMap.delete,
      tryBucketAggregation, hp, JsonValue.asQueryMap, JsonValue.asString, parseNestedAggs,
      parseNamedAggregations, restoreAfterNesting, dropLastGo, NewAggregatorEmpty,
      buildMetricsAggregation, metricsSelect, index0, metricsQueryType, metricsAggregation.zero,
      aggrQueryBuilder.zero, buildAggregationCommon, buildBucketAggregation,
      QueryWithAggregation.CopyAggregationFields, QueryWithAggregation.RemoveEmptyGroupBy,
      QueryWithAggregation.TrimKeywordFromFields, combineWheres,
      liftPanic, bind, Except.bind, pure, Except.pure]
  · simp [ParseAggregationJson, parseAggregation, parseAggregationAux, tryMetricsAggregation,
      metricsAggregations, QueryMap.get, QueryMap.index, JsonValue.asQueryMap,
      JsonValue.asString, parseNamedAggregations, dropLastGo, NewAggregatorEmpty,
      buildMetricsAggregation, metricsSelect, index0, metricsQueryType, metricsAggregation.zero,
      aggrQueryBuilder.zero, buildAggregationCommon,
      QueryWithAggregation.CopyAggregationFields, QueryWithAggregation.RemoveEmptyGroupBy,
      QueryWithAggregation.TrimKeywordFromFields,
      liftPanic, bind, Except.bind, pure, Except.pure]

/-- Witness of C2: the siblings `a = {"range": {}}` and `b = {"sum": {"field": "f"}}`
planned by `sampleTranslator`. -/
theorem where_of_sibling_depends_on_range_sibling_witness :
    ∃ root ea eb eb',
      ParseAggregationJson sampleTranslator (.ok [("aggs", JsonValue.obj
          [("a", JsonValue.obj [("range", JsonValue.obj [])]),
           ("b", JsonValue.obj [("sum", JsonValue.obj [("field", JsonValue.str "f")])])])])
        = .ok (.ok [root, ea, eb])
      ∧ ParseAggregationJson sampleTranslator (.ok [("aggs", JsonValue.obj
          [("b", JsonValue.obj [("sum", JsonValue.obj [("field", JsonValue.str "f")])])])])
        = .ok (.ok [root, eb'])
      ∧ eb.AggregatorsNames = ["b"] ∧ eb'.AggregatorsNames = ["b"]
      ∧ eb.WhereClause = (sampleTranslator.and [{ Stmt := "" },
          { Stmt := "\"x\">1" }]).Stmt
      ∧ eb'.WhereClause = ""
      ∧ eb.WhereClause ≠ eb'.WhereClause :=
  where_of_sibling_depends_on_range_sibling sampleTranslator []
    { Sql := { Stmt := "\"x\">1" }, CanParse := true, FieldName := "x" } "f" rfl (by decide)

theorem tryMetricsAggregation_filter (cw : ClickhouseQueryTranslator) (q : QueryMap)
    (m : metricsAggregation) (ok : Bool) (hf : (QueryMap.get q "filter").isSome = true)
    (h : tryMetricsAggregation cw q = .ok (m, ok)) : ok = false := by
  unfold tryMetricsAggregation at h
  by_cases hl : q.length ≠ 1
  · rw [if_pos hl] at h
    simp only [pure, Except.pure, Except.ok.injEq, Prod.mk.injEq] at h
    exact h.2.symm
  · rw [if_neg hl] at h
    have hl1 : q.length = 1 := not_not.mp hl
    match q, hl1 with
    | [(k, v)], _ =>
      have hk : k = "filter" := by
        by_contra hk
        simp [QueryMap.get, hk] at hf
      subst hk
      simp [metricsAggregations, QueryMap.get, pure, Except.pure] at h
      exact h.2

/-- C6: on a node with a `filter` key, `parseAggregation`, when it returns, has appended
first, before every entry of the sub-aggregations, an entry of result kind Count whose
WHERE clause is the conjunction (`combineWheres`) of the WHERE at entry with the predicate
parsed from the filter and whose select list ends with `count()`; and the WHERE of the
builder at return is the WHERE at entry. -/
theorem parseAggregation_filter (cw : ClickhouseQueryTranslator) (b : aggrQueryBuilder)
    (q : QueryMap) (acc : List QueryWithAggregation) (b' : aggrQueryBuilder)
    (acc' : List QueryWithAggregation) (hf : (QueryMap.get q "filter").isSome = true)
    (h : parseAggregation cw b q acc = .ok (b', acc')) :
    ∃ params parsed e rest, QueryMap.get q "filter" = some (JsonValue.obj params)
      ∧ cw.parseQueryMap params = .ok parsed
      ∧ acc' = acc ++ e :: rest
      ∧ e.«Type» = QueryType.Count
      ∧ e.WhereClause = (combineWheres cw b.whereBuilder parsed).Sql.Stmt
      ∧ e.NonSchemaFields.getLast? = some "count()"
      ∧ b'.whereBuilder = b.whereBuilder := by
  unfold parseAggregation at h
  rcases parseAggregationAux_succ_ok cw _ b q acc b' acc' h with
    ⟨rfl, -, -⟩ | ⟨-, m, e, hm, -, -, -⟩ |
    ⟨-, m, b1, q1, acc1, f1, b3, q3, present, added, b4, b5, acc5, b7, -, hfl, hb, h4, h5, h7, h8⟩
  · simp [QueryMap.get] at hf
  · exact absurd (tryMetricsAggregation_filter cw q m true hf hm) (by decide)
  · rcases parseFilterOnThisLevel_ok cw b q acc b1 q1 acc1 f1 hfl with
      ⟨hnone, -, -, -, -⟩ | ⟨params, parsed, hget, hparsed, hb1, -, hacc1, hf1⟩
    · rw [hnone] at hf
      simp at hf
    · have e5 : ∃ r5, acc5 = acc1 ++ r5 := by
        rcases parseNestedAggs_ok _ b4 q3 acc1 b5 acc5 h5 with ⟨-, -, rfl⟩ | ⟨node, -, hn⟩
        · exact ⟨[], by simp⟩
        · obtain ⟨-, r, hr, -⟩ := parseAggregationAux_frame cw _ _ _ _ _ _ hn
          exact ⟨r, hr⟩
      obtain ⟨r5, rfl⟩ := e5
      obtain ⟨-, -, r7, hr7, -⟩ :=
        parseNamedAggregations_frame _ (parseAggregationAux_frame cw _) _ _ _ _ _ h7
      obtain ⟨-, -, -, hw, -⟩ := restoreAfterNesting_ok _ _ _ _ _ _ h8
      refine ⟨params, parsed, buildCountAggregation b1,
        r5 ++ (if present then [buildBucketAggregation b5] else []) ++ r7,
        hget, hparsed, ?_, rfl, ?_, ?_, ?_⟩
      · rw [hr7, hacc1]
        cases present <;> simp
      · rw [hb1]
        exact (buildAggregationCommon_proj _).2.2.2.1
      · simp [buildCountAggregation]
      · rw [hw, hf1]
        simp

/-- Witness of C6: the node `{"filter": {...}, "aggs": {"n": {"sum": {"field": "f"}}}}` on
the zero builder of `sampleTranslator`. -/
theorem parseAggregation_filter_witness :
    ∃ params parsed e rest,
      QueryMap.get [("filter", JsonValue.obj [("term", JsonValue.obj [("level", JsonValue.str "error")])]),
          ("aggs", JsonValue.obj
            [("n", JsonValue.obj [("sum", JsonValue.obj [("field", JsonValue.str "f")])])])]
          "filter" = some (JsonValue.obj params)
      ∧ sampleTranslator.parseQueryMap params = .ok parsed
      ∧ [buildCountAggregation { aggrQueryBuilder.zero with
            «Type» := QueryType.Count
            whereBuilder := { Sql := { Stmt := "\"service\"='api'" }, CanParse := false,
                              FieldName := "service" } },
         { Fields := [], NonSchemaFields := ["sum(\"f\")"], WhereClause := "\"service\"='api'",
           GroupByFields := [], SuffixClauses := [], FromClause := "", CanParse := false,
           Aggregators := [{ Name := "n", Empty := true }], «Type» := QueryType.Sum }]
          = [] ++ e :: rest
      ∧ e.«Type» = QueryType.Count
      ∧ e.WhereClause = (combineWheres sampleTranslator aggrQueryBuilder.zero.whereBuilder
          parsed).Sql.Stmt
      ∧ e.NonSchemaFields.getLast? = some "count()"
      ∧ aggrQueryBuilder.zero.whereBuilder = aggrQueryBuilder.zero.whereBuilder :=
  parseAggregation_filter sampleTranslator aggrQueryBuilder.zero
    [("filter", JsonValue.obj [("term", JsonValue.obj [("level", JsonValue.str "error")])]),
     ("aggs", JsonValue.obj
        [("n", JsonValue.obj [("sum", JsonValue.obj [("field", JsonValue.str "f")])])])]
    [] aggrQueryBuilder.zero _ (by decide) rfl


/-! ## Claims about bucket detection -/

/-- C3 (counterexample): for a histogram on column `c` with interval 5, the expression
appended to the group-by list is not the expression appended to the select list. -/
theorem tryBucketAggregation_histogram_exprs_differ :
    ∃ b', tryBucketAggregation sampleTranslator aggrQueryBuilder.zero
        [("histogram", JsonValue.obj
          [("field", JsonValue.str "c"), ("interval", JsonValue.float ⟨5, 0⟩)])]
        = .ok (b', [], true, true)
      ∧ b'.GroupByFields = ["floor(\"c\" / 5) * 5 AS \"c\""]
      ∧ b'.NonSchemaFields = ["\"c\""]
      ∧ ¬ ∃ e, b'.GroupByFields = aggrQueryBuilder.zero.GroupByFields ++ [e]
          ∧ b'.NonSchemaFields = aggrQueryBuilder.zero.NonSchemaFields ++ [e] :=
  ⟨_, rfl, by decide, by decide, by
    rintro ⟨e, h1, h2⟩
    have h3 : ["floor(\"c\" / 5) * 5 AS \"c\""] = [e] := h1
    have h4 : ["\"c\""] = [e] := h2
    rw [← h3] at h4
    exact absurd h4 (by decide)⟩

/-- C3 (amended): on a node with a `histogram`, `date_histogram` or `terms` key,
`tryBucketAggregation`, when it returns, has appended exactly one expression `g` to the
group-by list and exactly one expression `s` to the select list. The two are the same
string unless the node is a histogram whose interval `i` is not 1; then `s` is the quoted
column and `g` is `floor(s / i) * i AS s`. -/
theorem tryBucketAggregation_appends_one (cw : ClickhouseQueryTranslator) (b : aggrQueryBuilder)
    (q : QueryMap) (b' : aggrQueryBuilder) (q' : QueryMap) (present added : Bool)
    (hq : hasBucketKey q = true)
    (h : tryBucketAggregation cw b q = .ok (b', q', present, added)) :
    ∃ g s, b'.GroupByFields = b.GroupByFields ++ [g]
      ∧ b'.NonSchemaFields = b.NonSchemaFields ++ [s]
      ∧ (QueryMap.get q "histogram" = none → g = s)
      ∧ (∀ params i, QueryMap.get q "histogram" = some (JsonValue.obj params) →
          histogramInterval (QueryMap.index params "interval") = .ok i →
          (i = 1 → g = s)
          ∧ (i ≠ 1 → g = "floor(" ++ s ++ " / " ++ toString i ++ ") * " ++ toString i
                ++ " AS " ++ s)) := by
  unfold tryBucketAggregation at h
  cases h1 : QueryMap.get q "histogram" with
  | some histogram =>
    simp only [h1] at h
    rw [bind_eq_ok] at h; obtain ⟨params, hparams, h⟩ := h
    rw [bind_eq_ok] at h; obtain ⟨field, -, h⟩ := h
    rw [bind_eq_ok] at h; obtain ⟨interval, hint, h⟩ := h
    simp only [pure, Except.pure, Except.ok.injEq, Prod.mk.injEq] at h
    obtain ⟨rfl, -, -, -⟩ := h
    rw [JsonValue.asQueryMap_eq_ok] at hparams
    subst hparams
    refine ⟨_, _, rfl, rfl, by simp, ?_⟩
    intro params' i hp hi
    simp only [Option.some.injEq, JsonValue.obj.injEq] at hp
    subst hp
    rw [hint] at hi
    simp only [Except.ok.injEq] at hi
    subst hi
    constructor
    · intro h1
      simp [h1]
    · intro hne
      simp [hne]
  | none =>
  simp only [h1] at h
  cases h2 : QueryMap.get q "date_histogram" with
  | some dateHistogram =>
    simp only [h2] at h
    rw [bind_eq_ok] at h; obtain ⟨params, -, h⟩ := h
    rw [bind_eq_ok] at h; obtain ⟨interval, -, h⟩ := h
    rw [bind_eq_ok] at h; obtain ⟨part, -, h⟩ := h
    simp only [pure, Except.pure, Except.ok.injEq, Prod.mk.injEq] at h
    obtain ⟨rfl, -, -, -⟩ := h
    exact ⟨_, _, rfl, rfl, fun _ => rfl, by simp⟩
  | none =>
  simp only [h2] at h
  cases h3 : QueryMap.get q "terms" with
  | some terms =>
    simp only [h3] at h
    rw [bind_eq_ok] at h; obtain ⟨params, -, h⟩ := h
    rw [bind_eq_ok] at h; obtain ⟨field, -, h⟩ := h
    simp only [pure, Except.pure, Except.ok.injEq, Prod.mk.injEq] at h
    obtain ⟨rfl, -, -, -⟩ := h
    exact ⟨_, _, rfl, rfl, fun _ => rfl, by simp⟩
  | none =>
    simp [hasBucketKey, h1, h2, h3] at hq

/-- Witness of C3 (amended): the histogram on `c` with interval 5. -/
theorem tryBucketAggregation_appends_one_witness :
    ∃ g s, ["floor(\"c\" / 5) * 5 AS \"c\""] = aggrQueryBuilder.zero.GroupByFields ++ [g]
      ∧ ["\"c\""] = aggrQueryBuilder.zero.NonSchemaFields ++ [s]
      ∧ (QueryMap.get [("histogram", JsonValue.obj
            [("field", JsonValue.str "c"), ("interval", JsonValue.float ⟨5, 0⟩)])] "histogram"
          = none → g = s)
      ∧ (∀ params i, QueryMap.get [("histogram", JsonValue.obj
            [("field", JsonValue.str "c"), ("interval", JsonValue.float ⟨5, 0⟩)])] "histogram"
            = some (JsonValue.obj params) →
          histogramInterval (QueryMap.index params "interval") = .ok i →
          (i = 1 → g = s)
          ∧ (i ≠ 1 → g = "floor(" ++ s ++ " / " ++ toString i ++ ") * " ++ toString i
                ++ " AS " ++ s)) :=
  tryBucketAggregation_appends_one sampleTranslator aggrQueryBuilder.zero
    [("histogram", JsonValue.obj
      [("field", JsonValue.str "c"), ("interval", JsonValue.float ⟨5, 0⟩)])]
    { aggrQueryBuilder.zero with
      «Type» := QueryType.Histogram
      GroupByFields := ["floor(\"c\" / 5) * 5 AS \"c\""]
      NonSchemaFields := ["\"c\""] }
    [] true true (by decide) rfl

/-! ## Claims about whole plans -/

/-- C7 (defect in the code): for the request `{"aggs": {"x": {"geo_bounds": {"field": "f"}}}}`
planning panics. The unknown key `geo_bounds` is taken for the name of a sub-aggregation,
then `field` is, and the type assertion of its value `"f"` to a map fails; no plan is
returned. -/
theorem ParseAggregationJson_unknown_kind_panics (cw : ClickhouseQueryTranslator) :
    ParseAggregationJson cw (.ok [("aggs", JsonValue.obj
        [("x", JsonValue.obj [("geo_bounds", JsonValue.obj [("field", JsonValue.str "f")])])])])
      = .error (.panic "interface conversion: interface is not QueryMap") := by
  simp [ParseAggregationJson, parseAggregation, parseAggregationAux, tryMetricsAggregation,
    metricsAggregations, QueryMap.get, QueryMap.index, parseFilterOnThisLevel, QueryMap.delete,
    tryBucketAggregation, JsonValue.asQueryMap, JsonValue.asString, parseNestedAggs,
    parseNamedAggregations, restoreAfterNesting, dropLastGo, NewAggregatorEmpty,
    JsonValue.mapDepth, JsonValue.depth,
    liftPanic, bind, Except.bind, pure, Except.pure]

/-- C9 (counterexample): for scenario S1 the plan has two entries, not one. -/
theorem ParseAggregationJson_S1_not_one_entry :
    ∃ plan, ParseAggregationJson sampleTranslator (.ok
        [("query", JsonValue.obj [("term", JsonValue.obj [("service", JsonValue.str "api")])]),
         ("aggs", JsonValue.obj
          [("c", JsonValue.obj [("value_count", JsonValue.obj [("field", JsonValue.str "id")])])])])
        = .ok (.ok plan)
      ∧ plan.length = 2 ∧ ¬ plan.length = 1 :=
  ⟨_, rfl, by decide, by decide⟩

/-- C9 (amended): for a request with a query part and the aggregation tree
`{"c": {"value_count": {"field": f}}}` the plan has exactly two entries: the Count entry of
the whole request, with the empty trail, and the entry of the metric, with trail `[c]` and
result kind ValueCount. The select list of each is exactly `count()`, and the WHERE clause
of each is the predicate of the query part. -/
theorem ParseAggregationJson_value_count (cw : ClickhouseQueryTranslator) (queryPart : QueryMap)
    (parsed : SimpleQuery) (field : String) (hq : cw.parseQueryMap queryPart = .ok parsed) :
    ∃ e0 e1, ParseAggregationJson cw (.ok
        [("query", JsonValue.obj queryPart),
         ("aggs", JsonValue.obj
          [("c", JsonValue.obj [("value_count", JsonValue.obj [("field", JsonValue.str field)])])])])
        = .ok (.ok [e0, e1])
      ∧ e0.Fields = [] ∧ e0.NonSchemaFields = ["count()"]
      ∧ e1.Fields = [] ∧ e1.NonSchemaFields = ["count()"]
      ∧ e0.AggregatorsNames = [] ∧ e1.AggregatorsNames = ["c"]
      ∧ e0.«Type» = QueryType.Count ∧ e1.«Type» = QueryType.ValueCount
      ∧ e0.WhereClause = parsed.Sql.Stmt ∧ e1.WhereClause = parsed.Sql.Stmt := by
  refine ⟨buildCountAggregation { aggrQueryBuilder.zero with
      FromClause := cw.Table.FullTableName, whereBuilder := parsed },
    { buildAggregationCommon { aggrQueryBuilder.zero with
        FromClause := cw.Table.FullTableName
        Aggregators := [NewAggregatorEmpty "c"]
        whereBuilder := parsed } with
      NonSchemaFields := ["count()"]
      «Type» := QueryType.ValueCount },
    ?_, rfl, rfl, rfl, rfl, rfl, rfl, rfl, rfl, rfl, rfl⟩
  simp [ParseAggregationJson, parseAggregation, parseAggregationAux, tryMetricsAggregation,
    metricsAggregations, QueryMap.get, QueryMap.index, JsonValue.asQueryMap, hq,
    JsonValue.asString, parseNamedAggregations, dropLastGo, NewAggregatorEmpty,
    buildMetricsAggregation, metricsSelect, index0, metricsQueryType, metricsAggregation.zero,
    aggrQueryBuilder.zero, buildAggregationCommon,
    QueryWithAggregation.CopyAggregationFields, QueryWithAggregation.RemoveEmptyGroupBy,
    QueryWithAggregation.TrimKeywordFromFields,
    liftPanic, bind, Except.bind, pure, Except.pure]

/-- Witness of C9 (amended): scenario S1 planned by `sampleTranslator`. -/
theorem ParseAggregationJson_value_count_witness :
    ∃ e0 e1, ParseAggregationJson sampleTranslator (.ok
        [("query", JsonValue.obj [("term", JsonValue.obj [("service", JsonValue.str "api")])]),
         ("aggs", JsonValue.obj
          [("c", JsonValue.obj [("value_count", JsonValue.obj [("field", JsonValue.str "id")])])])])
        = .ok (.ok [e0, e1])
      ∧ e0.Fields = [] ∧ e0.NonSchemaFields = ["count()"]
      ∧ e1.Fields = [] ∧ e1.NonSchemaFields = ["count()"]
      ∧ e0.AggregatorsNames = [] ∧ e1.AggregatorsNames = ["c"]
      ∧ e0.«Type» = QueryType.Count ∧ e1.«Type» = QueryType.ValueCount
      ∧ e0.WhereClause = "\"service\"='api'" ∧ e1.WhereClause = "\"service\"='api'" :=
  ParseAggregationJson_value_count sampleTranslator
    [("term", JsonValue.obj [("service", JsonValue.str "api")])]
    { Sql := { Stmt := "\"service\"='api'" }, CanParse := true, FieldName := "service" } "id" rfl

/-- C10 (counterexample): in scenario S3 the rendering of the entry planned for the `avg`
metric has no `count()` in its select list and has two spaces before `GROUP BY`; it is
not the string of the scenario. -/
theorem ParseAggregationJson_S3_rendering_differs :
    ∃ root avg bucket, ParseAggregationJson sampleTranslator (.ok [("aggs", JsonValue.obj
        [("hosts", JsonValue.obj
          [("terms", JsonValue.obj [("field", JsonValue.str "host")]),
           ("aggs", JsonValue.obj
            [("latency_avg", JsonValue.obj
              [("avg", JsonValue.obj [("field", JsonValue.str "latency")])])])])])])
        = .ok (.ok [root, avg, bucket])
      ∧ avg.AggregatorsNames = ["hosts", "latency_avg"]
      ∧ avg.«Type» = QueryType.Avg
      ∧ avg.toQuery.String = "SELECT \"host\", avg(\"latency\") FROM t  GROUP BY (\"host\")"
      ∧ avg.toQuery.String
          ≠ "SELECT \"host\", count(), avg(\"latency\") FROM t GROUP BY (\"host\")" :=
  ⟨_, _, _, rfl, by decide, by decide, by decide, by decide⟩

/-- C10 (amended): in scenario S3, over a table `t` whose resolver maps `host` and `latency`
to themselves, the plan has three entries: the Count entry of the request, the entry of
the `avg` metric and the entry of the `terms` bucket. The entry of the metric has trail
`[hosts, latency_avg]` and renders as `SELECT "host", avg("latency") FROM t  GROUP BY ("host")`
(no `count()`, two spaces before `GROUP BY`); the entry of the bucket has trail `[hosts]`
and renders as `SELECT "host", count() FROM t  GROUP BY ("host")`. -/
theorem ParseAggregationJson_terms_avg (cw : ClickhouseQueryTranslator)
    (ht : cw.Table.FullTableName = "t") (hhost : cw.Table.ResolveField "host" = "host")
    (hlat : cw.Table.ResolveField "latency" = "latency") :
    ∃ root avg bucket, ParseAggregationJson cw (.ok [("aggs", JsonValue.obj
        [("hosts", JsonValue.obj
          [("terms", JsonValue.obj [("field", JsonValue.str "host")]),
           ("aggs", JsonValue.obj
            [("latency_avg", JsonValue.obj
              [("avg", JsonValue.obj [("field", JsonValue.str "latency")])])])])])])
        = .ok (.ok [root, avg, bucket])
      ∧ avg.AggregatorsNames = ["hosts", "latency_avg"]
      ∧ avg.«Type» = QueryType.Avg
      ∧ avg.toQuery.String = "SELECT \"host\", avg(\"latency\") FROM t  GROUP BY (\"host\")"
      ∧ bucket.AggregatorsNames = ["hosts"]
      ∧ bucket.toQuery.String = "SELECT \"host\", count() FROM t  GROUP BY (\"host\")" := by
  refine ⟨buildCountAggregation { aggrQueryBuilder.zero with FromClause := "t" },
    { buildAggregationCommon { aggrQueryBuilder.zero with
        FromClause := "t"
        «Type» := QueryType.Terms
        GroupByFields := [strconvQuote "host"]
        NonSchemaFields := [strconvQuote "host"]
        Aggregators := [{ Name := "hosts", Empty := false }, NewAggregatorEmpty "latency_avg"] } with
      NonSchemaFields := [strconvQuote "host", "avg(\"latency\")"]
      «Type» := QueryType.Avg },
    buildBucketAggregation { aggrQueryBuilder.zero with
        FromClause := "t"
        «Type» := QueryType.Terms
        GroupByFields := [strconvQuote "host"]
        NonSchemaFields := [strconvQuote "host"]
        Aggregators := [{ Name := "hosts", Empty := false }] },
    ?_, by decide, rfl, by decide, by decide, by decide⟩
  simp [ParseAggregationJson, parseAggregation, parseAggregationAux, tryMetricsAggregation,
    metricsAggregations, QueryMap.get, QueryMap.index, parseFilterOnThisLevel, QueryMap.delete,
    tryBucketAggregation, JsonValue.asQueryMap, JsonValue.asString, parseNestedAggs,
    parseNamedAggregations, restoreAfterNesting, dropLastGo, NewAggregatorEmpty,
    markLastAggregatorNotEmpty, ht, hhost, hlat,
    buildMetricsAggregation, metricsSelect, index0, metricsQueryType, metricsAggregation.zero,
    aggrQueryBuilder.zero, buildAggregationCommon, buildBucketAggregation,
    QueryWithAggregation.CopyAggregationFields, QueryWithAggregation.RemoveEmptyGroupBy,
    QueryWithAggregation.TrimKeywordFromFields,
    liftPanic, bind, Except.bind, pure, Except.pure]

/-- Witness of C10 (amended): scenario S3 planned by `sampleTranslator`. -/
theorem ParseAggregationJson_terms_avg_witness :
    ∃ root avg bucket, ParseAggregationJson sampleTranslator (.ok [("aggs", JsonValue.obj
        [("hosts", JsonValue.obj
          [("terms", JsonValue.obj [("field", JsonValue.str "host")]),
           ("aggs", JsonValue.obj
            [("latency_avg", JsonValue.obj
              [("avg", JsonValue.obj [("field", JsonValue.str "latency")])])])])])])
        = .ok (.ok [root, avg, bucket])
      ∧ avg.AggregatorsNames = ["hosts", "latency_avg"]
      ∧ avg.«Type» = QueryType.Avg
      ∧ avg.toQuery.String = "SELECT \"host\", avg(\"latency\") FROM t  GROUP BY (\"host\")"
      ∧ bucket.AggregatorsNames = ["hosts"]
      ∧ bucket.toQuery.String = "SELECT \"host\", count() FROM t  GROUP BY (\"host\")" :=
  ParseAggregationJson_terms_avg sampleTranslator rfl (by decide) (by decide)

/-- The tail of `ParseAggregationJson`: the entries planned by the loop over the named
aggregations, after the Count entry of the request, cannot be parsed either. -/
theorem parseNamedAggregations_canParse_false (cw : ClickhouseQueryTranslator)
    (named : QueryMap) (b0 b' : aggrQueryBuilder) (plan : List QueryWithAggregation)
    (hc : b0.CanParse = false)
    (hl : parseNamedAggregations (parseAggregation cw) named b0 [buildCountAggregation b0]
      = .ok (b', plan)) :
    ∀ e ∈ plan, e.CanParse = false := by
  obtain ⟨-, -, rest, hrest, hcp⟩ := parseNamedAggregations_frame (parseAggregation cw)
    (fun b q acc b' acc' hp => parseAggregationAux_frame cw _ b q acc b' acc' hp)
    named b0 _ b' plan hl
  intro e he
  rw [hrest] at he
  rcases List.mem_append.mp he with he | he
  · rw [List.mem_singleton] at he
    rw [he]
    exact (buildCountAggregation_canParse b0).trans hc
  · exact hcp e he hc

/-- C8 (defect in the code): no entry of any plan returned by `ParseAggregationJson` has
`CanParse = true`, whatever the request: the builder starts from the zero value, whose
`CanParse` is false, and nothing in the planner sets the flag to true. -/
theorem ParseAggregationJson_canParse_false (cw : ClickhouseQueryTranslator)
    (queryAsJson : Except String QueryMap) (plan : List QueryWithAggregation)
    (h : ParseAggregationJson cw queryAsJson = .ok (.ok plan)) :
    ∀ e ∈ plan, e.CanParse = false := by
  unfold ParseAggregationJson at h
  cases queryAsJson with
  | error err => simp [pure, Except.pure] at h
  | ok queryAsMap =>
    simp only at h
    cases ha : QueryMap.get queryAsMap "aggs" with
    | none =>
      cases hq : QueryMap.get queryAsMap "query" with
      | none => simp [ha, hq, bind, Except.bind, pure, Except.pure] at h
      | some queryPart =>
        simp only [ha, hq] at h
        rw [bind_eq_ok] at h
        obtain ⟨params, -, h⟩ := h
        rw [bind_eq_ok] at h
        obtain ⟨parsed, -, h⟩ := h
        simp [bind, Except.bind, pure, Except.pure] at h
    | some aggs =>
      cases hq : QueryMap.get queryAsMap "query" with
      | none =>
        simp only [ha, hq] at h
        rw [bind_eq_ok] at h
        obtain ⟨b0, hb0, h⟩ := h
        simp only [pure, Except.pure, Except.ok.injEq] at hb0
        subst hb0
        rw [bind_eq_ok] at h
        obtain ⟨named, -, h⟩ := h
        rw [bind_eq_ok] at h
        obtain ⟨⟨b', acc'⟩, hl, h⟩ := h
        simp only [pure, Except.pure, Except.ok.injEq] at h
        subst h
        exact parseNamedAggregations_canParse_false cw named _ b' acc' rfl hl
      | some queryPart =>
        simp only [ha, hq] at h
        rw [bind_eq_ok] at h
        obtain ⟨params, -, h⟩ := h
        rw [bind_eq_ok] at h
        obtain ⟨parsed, -, h⟩ := h
        rw [bind_eq_ok] at h
        obtain ⟨b0, hb0, h⟩ := h
        simp only [pure, Except.pure, Except.ok.injEq] at hb0
        subst hb0
        rw [bind_eq_ok] at h
        obtain ⟨named, -, h⟩ := h
        rw [bind_eq_ok] at h
        obtain ⟨⟨b', acc'⟩, hl, h⟩ := h
        simp only [pure, Except.pure, Except.ok.injEq] at h
        subst h
        exact parseNamedAggregations_canParse_false cw named _ b' acc' rfl hl

/-- Witness of C8: the request `{"aggs": {"s": {"sum": {"field": "f"}}}}`, which consists of
one recognized metric, planned by `sampleTranslator`. -/
theorem ParseAggregationJson_canParse_false_witness :
    ∃ plan, ParseAggregationJson sampleTranslator (.ok [("aggs", JsonValue.obj
        [("s", JsonValue.obj [("sum", JsonValue.obj [("field", JsonValue.str "f")])])])])
        = .ok (.ok plan)
      ∧ plan.length = 2 ∧ ∀ e ∈ plan, e.CanParse = false :=
  ⟨[{ Fields := [], NonSchemaFields := ["count()"], WhereClause := "",
      GroupByFields := [], SuffixClauses := [], FromClause := "t", CanParse := false,
      Aggregators := [], «Type» := QueryType.Count },
    { Fields := [], NonSchemaFields := ["sum(\"f\")"], WhereClause := "",
      GroupByFields := [], SuffixClauses := [], FromClause := "t", CanParse := false,
      Aggregators := [{ Name := "s", Empty := true }], «Type» := QueryType.Sum }],
    rfl, rfl,
    ParseAggregationJson_canParse_false sampleTranslator (.ok [("aggs", JsonValue.obj
      [("s", JsonValue.obj [("sum", JsonValue.obj [("field", JsonValue.str "f")])])])]) _ rfl⟩

/-! ## Claims about metric nodes -/

theorem parseAggregationAux_metric (cw : ClickhouseQueryTranslator) (fuel : Nat)
    (b : aggrQueryBuilder) (k : String) (v : JsonValue) (acc : List QueryWithAggregation)
    (m : metricsAggregation) (e : QueryWithAggregation)
    (hm : tryMetricsAggregation cw [(k, v)] = .ok (m, true))
    (he : buildMetricsAggregation cw b m = .ok e) :
    parseAggregationAux cw (fuel + 1) b [(k, v)] acc = .ok (b, acc ++ [e]) := by
  simp [parseAggregationAux, hm, he, liftPanic, bind, Except.bind, pure, Except.pure]

theorem fieldsAsStrings_map_str (names : List String) :
    fieldsAsStrings (names.map JsonValue.str) = .ok names := by
  induction names with
  | nil => rfl
  | cons n rest ih =>
    simp [fieldsAsStrings, JsonValue.asString, ih, bind, Except.bind, pure, Except.pure]

theorem appendCutValues_head (cw : ClickhouseQueryTranslator) (values : List JsonValue) :
    ∀ (x : String) (xs : List String), ∃ t, appendCutValues cw (x :: xs) values = x :: t := by
  induction values with
  | nil => intro x xs; exact ⟨xs, rfl⟩
  | cons v rest ih =>
    intro x xs
    cases v with
    | float f => simpa [appendCutValues] using ih x (xs ++ [cw.formatFloat f])
    | int64 i => simpa [appendCutValues] using ih x (xs ++ [toString i])
    | null => simpa [appendCutValues] using ih x xs
    | bool _ => simpa [appendCutValues] using ih x xs
    | str _ => simpa [appendCutValues] using ih x xs
    | int _ => simpa [appendCutValues] using ih x xs
    | arr _ => simpa [appendCutValues] using ih x xs
    | obj _ => simpa [appendCutValues] using ih x xs

theorem quantile_fold_ok (cw : ClickhouseQueryTranslator) (field : String)
    (ps : List (String × Float64)) :
    ∀ query : QueryWithAggregation, ∃ e,
      ps.foldlM (fun (query : QueryWithAggregation) p => do
        let field ← index0 [field]
        pure { query with NonSchemaFields := query.NonSchemaFields ++
          ["quantiles(" ++ cw.sprintfFloat p.2 ++ ")(`" ++ field ++ "`) AS `quantile_" ++ p.1 ++ "`"] })
        query = Except.ok e := by
  induction ps with
  | nil => intro query; exact ⟨query, rfl⟩
  | cons p rest ih =>
    intro query
    simp only [List.foldlM, index0, bind, Except.bind, pure, Except.pure]
    exact ih _

theorem wellFormedMetric_builds (cw : ClickhouseQueryTranslator) (b : aggrQueryBuilder)
    (k : String) (v : JsonValue) (hw : IsWellFormedMetric cw k v) :
    ∃ m e, tryMetricsAggregation cw [(k, v)] = .ok (m, true)
      ∧ buildMetricsAggregation cw b m = .ok e := by
  obtain ⟨params, rfl, hw⟩ := hw
  rcases hw with ⟨hk, field, hf⟩ | ⟨rfl, r, hr⟩ | ⟨rfl, m, hm, hty⟩ | ⟨rfl, source, names, hs, hn⟩
    | ⟨rfl, field, values, hf, hv⟩
  · refine ⟨{ metricsAggregation.zero with
        AggrType := k, FieldNames := [cw.Table.ResolveField field] }, ?_⟩
    simp only [metricsAggregations, List.mem_cons, List.mem_singleton, List.mem_nil_iff,
      or_false] at hk
    rcases hk with rfl | rfl | rfl | rfl | rfl | rfl | rfl <;>
      exact ⟨_, by simp [tryMetricsAggregation, metricsAggregations, JsonValue.asQueryMap, hf,
        JsonValue.asString, bind, Except.bind, pure, Except.pure],
        by simp [buildMetricsAggregation, metricsSelect, index0, bind, Except.bind, pure,
          Except.pure]; rfl⟩
  · obtain ⟨fieldName, percentiles⟩ := r
    obtain ⟨e, he⟩ := quantile_fold_ok cw fieldName percentiles (buildAggregationCommon b)
    refine ⟨{ metricsAggregation.zero with
        AggrType := "quantile", FieldNames := [fieldName], Percentiles := percentiles },
      { e with «Type» := QueryType.Quantile }, ?_, ?_⟩
    · simp [tryMetricsAggregation, metricsAggregations, QueryMap.get, JsonValue.asQueryMap, hr,
        bind, Except.bind, pure, Except.pure]
    · unfold buildMetricsAggregation metricsSelect
      have h1 : ¬ (("quantile" : String) = "sum" ∨ ("quantile" : String) = "min"
          ∨ ("quantile" : String) = "max" ∨ ("quantile" : String) = "avg") := by decide
      simp only [h1, if_false, if_true, he]
      rfl
  · have hb : ∃ e, buildMetricsAggregation cw b m = .ok e := by
      unfold buildMetricsAggregation metricsSelect
      rw [hty]
      by_cases hg : 0 < b.GroupByFields.length <;>
        simp [hg, bind, Except.bind, pure, Except.pure]
    obtain ⟨e, he⟩ := hb
    exact ⟨m, e, by simp [tryMetricsAggregation, metricsAggregations, QueryMap.get,
      JsonValue.asQueryMap, hm, bind, Except.bind, pure, Except.pure], he⟩
  · refine ⟨{ metricsAggregation.zero with AggrType := "top_hits", FieldNames := names }, ?_⟩
    have hb : ∃ e, buildMetricsAggregation cw b
        { metricsAggregation.zero with AggrType := "top_hits", FieldNames := names } = .ok e := by
      unfold buildMetricsAggregation metricsSelect
      simp [bind, Except.bind, pure, Except.pure]
    obtain ⟨e, he⟩ := hb
    exact ⟨e, by simp [tryMetricsAggregation, metricsAggregations, QueryMap.get,
      JsonValue.asQueryMap, JsonValue.asArray, hs, hn, fieldsAsStrings_map_str,
      bind, Except.bind, pure, Except.pure], he⟩
  · obtain ⟨t, ht⟩ := appendCutValues_head cw values (cw.Table.ResolveField field) []
    refine ⟨{ metricsAggregation.zero with
        AggrType := "percentile_ranks", FieldNames := cw.Table.ResolveField field :: t }, ?_⟩
    have hb : ∃ e, buildMetricsAggregation cw b { metricsAggregation.zero with
        AggrType := "percentile_ranks", FieldNames := cw.Table.ResolveField field :: t }
          = .ok e := by
      unfold buildMetricsAggregation metricsSelect
      simp [index0, bind, Except.bind, pure, Except.pure]
    obtain ⟨e, he⟩ := hb
    exact ⟨e, by simp [tryMetricsAggregation, metricsAggregations, QueryMap.get,
      JsonValue.asQueryMap, JsonValue.asArray, JsonValue.asString, hf, hv, ht,
      bind, Except.bind, pure, Except.pure], he⟩

/-- C5: on a node whose only key is a metric name with well-formed parameters,
`parseAggregation` appends exactly one plan entry to the accumulator and leaves the builder
as it was; one unit of fuel is enough for it, so it does not recurse. -/
theorem parseAggregation_metric_leaf (cw : ClickhouseQueryTranslator) (b : aggrQueryBuilder)
    (k : String) (v : JsonValue) (acc : List QueryWithAggregation)
    (hw : IsWellFormedMetric cw k v) :
    ∃ e, parseAggregation cw b [(k, v)] acc = .ok (b, acc ++ [e])
      ∧ parseAggregationAux cw 1 b [(k, v)] acc = .ok (b, acc ++ [e]) := by
  obtain ⟨m, e, hm, he⟩ := wellFormedMetric_builds cw b k v hw
  exact ⟨e, parseAggregationAux_metric cw _ b k v acc m e hm he,
    parseAggregationAux_metric cw 0 b k v acc m e hm he⟩

/-- Witness of C5: the node `{"avg": {"field": "latency"}}` on the zero builder of
`sampleTranslator`. -/
theorem parseAggregation_metric_leaf_witness :
    ∃ e, parseAggregation sampleTranslator aggrQueryBuilder.zero
        [("avg", JsonValue.obj [("field", JsonValue.str "latency")])] []
        = .ok (aggrQueryBuilder.zero, [] ++ [e])
      ∧ parseAggregationAux sampleTranslator 1 aggrQueryBuilder.zero
        [("avg", JsonValue.obj [("field", JsonValue.str "latency")])] []
        = .ok (aggrQueryBuilder.zero, [] ++ [e]) :=
  parseAggregation_metric_leaf sampleTranslator aggrQueryBuilder.zero "avg"
    (JsonValue.obj [("field", JsonValue.str "latency")]) []
    ⟨[("field", JsonValue.str "latency")], rfl, Or.inl ⟨by decide, "latency", rfl⟩⟩

/-! ## Bucket pairing -/

theorem mapAggsUnambiguous_iff (q : QueryMap) :
    JsonValue.mapAggsUnambiguous q = true ↔ ∀ kv ∈ q, JsonValue.aggsUnambiguous kv.2 = true := by
  induction q with
  | nil => simp [JsonValue.mapAggsUnambiguous]
  | cons kv rest ih =>
    obtain ⟨k, v⟩ := kv
    simp [JsonValue.mapAggsUnambiguous, ih]

theorem aggsUnambiguous_obj (q : QueryMap) :
    JsonValue.aggsUnambiguous (JsonValue.obj q) = true ↔
      nestedAggsHaveNoBucketKey q = true ∧ ∀ kv ∈ q, JsonValue.aggsUnambiguous kv.2 = true := by
  rw [← mapAggsUnambiguous_iff]
  simp [JsonValue.aggsUnambiguous]

theorem strconvQuote_ne_empty (f : String) : strconvQuote f ≠ EmptyFieldSelection := by
  intro h
  have h2 := congrArg (fun s => s.data.head?) h
  simp [strconvQuote, EmptyFieldSelection] at h2

theorem floor_ne_empty (x : String) : "floor(" ++ x ≠ EmptyFieldSelection := by
  intro h
  have h2 := congrArg (fun s => s.data.head?) h
  simp [EmptyFieldSelection] at h2

theorem isBucketExpr_ne_empty (cw : ClickhouseQueryTranslator)
    (hcw : ∀ params s, cw.createHistogramPartOfQuery params = .ok s → s ≠ EmptyFieldSelection)
    (g : String) (hg : IsBucketExpr cw g) : g ≠ EmptyFieldSelection := by
  rcases hg with ⟨f, rfl⟩ | ⟨x, rfl⟩ | ⟨params, hp⟩
  · exact strconvQuote_ne_empty f
  · exact floor_ne_empty x
  · exact hcw params g hp

theorem countNotEmpty_append (xs ys : List Aggregator) :
    countNotEmpty (xs ++ ys) = countNotEmpty xs + countNotEmpty ys := by
  simp [countNotEmpty]

theorem countNotEmpty_markLast (xs : List Aggregator) (last : Aggregator)
    (h : xs.getLast? = some last) (he : last.Empty = true) :
    countNotEmpty (xs.dropLast ++ [{ last with Empty := false }]) = countNotEmpty xs + 1 := by
  have hx : xs.dropLast ++ [last] = xs := List.dropLast_append_getLast? last h
  conv_rhs => rw [← hx]
  rw [countNotEmpty_append, countNotEmpty_append]
  simp [countNotEmpty, he]

theorem paired_of_common (b : aggrQueryBuilder) (e : QueryWithAggregation)
    (hb : PairedBuilder b) (hg : e.GroupByFields = (buildAggregationCommon b).GroupByFields)
    (ha : e.Aggregators = b.Aggregators) : Paired e := by
  unfold Paired
  rw [hg, ha, (buildAggregationCommon_proj b).2.2.2.2.2.2.2, List.length_map, ← hb.2]
  congr 1
  rw [List.filter_eq_self]
  intro a ha'
  have : a ≠ EmptyFieldSelection := fun h => hb.1 (h ▸ ha')
  simpa using this

theorem paired_buildCount (b : aggrQueryBuilder) (hb : PairedBuilder b) :
    Paired (buildCountAggregation b) :=
  paired_of_common b _ hb rfl (buildAggregationCommon_proj b).2.1

theorem paired_buildBucket (b : aggrQueryBuilder) (hb : PairedBuilder b) :
    Paired (buildBucketAggregation b) :=
  paired_of_common b _ hb rfl (buildAggregationCommon_proj b).2.1

theorem paired_snoc (acc : List QueryWithAggregation) (e : QueryWithAggregation)
    (hacc : ∀ x ∈ acc, Paired x) (he : Paired e) : ∀ x ∈ acc ++ [e], Paired x := by
  intro x hx
  rcases List.mem_append.mp hx with hx | hx
  · exact hacc x hx
  · rw [List.mem_singleton] at hx
    rw [hx]
    exact he

theorem parseNamedAggregations_pairing
    (parse : aggrQueryBuilder → QueryMap → List QueryWithAggregation →
      Except Abort (aggrQueryBuilder × List QueryWithAggregation))
    (hframe : ∀ b q acc b' acc', parse b q acc = .ok (b', acc') →
      Framed b b' ∧ Extends b acc acc')
    (hpair : PairingSpec parse) :
    ∀ (named : QueryMap) (b : aggrQueryBuilder) (acc : List QueryWithAggregation)
      (b' : aggrQueryBuilder) (acc' : List QueryWithAggregation),
      parseNamedAggregations parse named b acc = .ok (b', acc') →
      (∀ kv ∈ named, JsonValue.aggsUnambiguous kv.2 = true) → PairedBuilder b →
      (∀ e ∈ acc, Paired e) → ∀ e ∈ acc', Paired e := by
  intro named
  induction named with
  | nil =>
    intro b acc b' acc' h _ _ hacc
    simp only [parseNamedAggregations, pure, Except.pure, Except.ok.injEq, Prod.mk.injEq] at h
    obtain ⟨-, rfl⟩ := h
    exact hacc
  | cons kv rest ih =>
    intro b acc b' acc' h hnamed hb hacc
    obtain ⟨k, v⟩ := kv
    obtain ⟨node, b2, acc2, hv, h2, -, h3⟩ :=
      parseNamedAggregations_cons_ok parse k v rest b acc b' acc' h
    have hnode : JsonValue.aggsUnambiguous (JsonValue.obj node) = true := by
      have := hnamed (k, v) (List.mem_cons_self _ _)
      rw [hv] at this
      exact this
    have hbp : PairedBuilder { b with Aggregators := b.Aggregators ++ [NewAggregatorEmpty k] } := by
      refine ⟨hb.1, ?_⟩
      show b.GroupByFields.length = countNotEmpty (b.Aggregators ++ [NewAggregatorEmpty k])
      rw [countNotEmpty_append, hb.2]
      simp [countNotEmpty, NewAggregatorEmpty]
    have hlast : LastIsEmpty { b with Aggregators := b.Aggregators ++ [NewAggregatorEmpty k] } :=
      ⟨NewAggregatorEmpty k, by simp, rfl⟩
    obtain ⟨hacc2, -⟩ := hpair _ _ _ _ _ h2 hnode hbp (fun _ => hlast) hacc
    obtain ⟨hf2, -⟩ := hframe _ _ _ _ _ h2
    have hdrop : b2.Aggregators.dropLast = b.Aggregators := by
      have := hf2.2.2.2.2.2
      simpa using this
    have hb3 : PairedBuilder { b2 with Aggregators := b2.Aggregators.dropLast } := by
      refine ⟨?_, ?_⟩
      · show EmptyFieldSelection ∉ b2.GroupByFields
        rw [hf2.2.1]
        exact hb.1
      · show b2.GroupByFields.length = countNotEmpty b2.Aggregators.dropLast
        rw [hf2.2.1, hdrop]
        exact hb.2
    exact ih _ _ _ _ h3 (fun kv hkv => hnamed kv (List.mem_cons_of_mem _ hkv)) hb3 hacc2

theorem parseAggregationAux_pairing (cw : ClickhouseQueryTranslator)
    (hcw : ∀ params s, cw.createHistogramPartOfQuery params = .ok s → s ≠ EmptyFieldSelection) :
    ∀ fuel : Nat, PairingSpec (parseAggregationAux cw fuel) := by
  intro fuel
  induction fuel with
  | zero =>
    intro b q acc b' acc' h
    simp [parseAggregationAux] at h
  | succ fuel ih =>
    intro b q acc b' acc' h hq hb hlast hacc
    rw [aggsUnambiguous_obj] at hq
    obtain ⟨hnested, hvalues⟩ := hq
    rcases parseAggregationAux_succ_ok cw fuel b q acc b' acc' h with
      ⟨-, rfl, rfl⟩ | ⟨-, m, e, -, he, rfl, rfl⟩ |
      ⟨-, m, b1, q1, acc1, f1, b3, q3, present, added, b4, b5, acc5, b7, -, hf, hbk, h4, h5, h7, h8⟩
    · exact ⟨hacc, fun _ => rfl⟩
    · obtain ⟨hg, ha, -⟩ := buildMetricsAggregation_proj cw _ m e he
      exact ⟨paired_snoc acc e hacc (paired_of_common _ e hb hg ha), fun _ => rfl⟩
    · -- step 2: the filter
      have s1 : b1.GroupByFields = b.GroupByFields ∧ b1.Aggregators = b.Aggregators
          ∧ (∀ e ∈ acc1, Paired e)
          ∧ hasBucketKey (QueryMap.delete q1 "filters") = hasBucketKey q
          ∧ QueryMap.get (QueryMap.delete q1 "filters") "aggs" = QueryMap.get q "aggs"
          ∧ QueryMap.delete q1 "filters" ⊆ q := by
        rcases parseFilterOnThisLevel_ok cw b q acc b1 q1 acc1 f1 hf with
          ⟨-, rfl, rfl, rfl, -⟩ | ⟨params, parsed, -, -, hb1, rfl, hacc1, -⟩
        · exact ⟨rfl, rfl, hacc,
            hasBucketKey_delete _ _ (by decide) (by decide) (by decide),
            QueryMap.get_delete_ne _ _ _ (by decide), QueryMap.delete_subset _ _⟩
        · have hpb1 : PairedBuilder b1 := by rw [hb1]; exact hb
          refine ⟨by rw [hb1], by rw [hb1], ?_, ?_, ?_, ?_⟩
          · rw [hacc1]
            exact paired_snoc acc _ hacc (paired_buildCount b1 hpb1)
          · rw [hasBucketKey_delete _ _ (by decide) (by decide) (by decide),
              hasBucketKey_delete _ _ (by decide) (by decide) (by decide)]
          · rw [QueryMap.get_delete_ne _ _ _ (by decide), QueryMap.get_delete_ne _ _ _ (by decide)]
          · exact fun x hx => QueryMap.delete_subset _ _ (QueryMap.delete_subset _ _ hx)
      obtain ⟨s1gb, s1ag, s1acc, s1key, s1aggs, s1sub⟩ := s1
      -- step 3: the bucket
      obtain ⟨s3sub, s3aggs, -, s3ag, s3st⟩ := tryBucketAggregation_ok cw b1 _ b3 q3 present added hbk
      have s4 : PairedBuilder b4 ∧ (hasBucketKey q = false → b4.Aggregators = b.Aggregators) := by
        rcases s3st with ⟨hadd, -, hkey, -, g, sel, hg, -, hexpr⟩ | ⟨hadd, hg, -⟩
        · subst hadd
          simp only [if_true] at h4
          obtain ⟨last, hl, rfl⟩ := markLastAggregatorNotEmpty_ok b3 b4 h4
          rw [s1key] at hkey
          obtain ⟨last', hl', hempty⟩ := hlast hkey
          rw [s3ag, s1ag, hl'] at hl
          simp only [Option.some.injEq] at hl
          subst hl
          refine ⟨⟨?_, ?_⟩, ?_⟩
          · show EmptyFieldSelection ∉ b3.GroupByFields
            rw [hg, s1gb]
            intro hmem
            rcases List.mem_append.mp hmem with hmem | hmem
            · exact hb.1 hmem
            · rw [List.mem_singleton] at hmem
              exact isBucketExpr_ne_empty cw hcw g hexpr hmem.symm
          · show b3.GroupByFields.length
              = countNotEmpty (b3.Aggregators.dropLast ++ [{ last' with Empty := false }])
            rw [s3ag, s1ag, countNotEmpty_markLast _ _ hl' hempty, hg, s1gb, ← hb.2]
            simp
          · intro hno
            rw [hno] at hkey
            exact absurd hkey (by decide)
        · subst hadd
          simp only [Bool.false_eq_true, if_false, Except.ok.injEq] at h4
          subst h4
          refine ⟨⟨?_, ?_⟩, fun _ => s3ag.trans s1ag⟩
          · rw [hg, s1gb]; exact hb.1
          · rw [hg, s1gb, s3ag, s1ag]; exact hb.2
      obtain ⟨s4pb, s4ag⟩ := s4
      -- step 4: the nested aggs
      have s5 : PairedBuilder b5 ∧ b5.Aggregators = b4.Aggregators ∧ ∀ e ∈ acc5, Paired e := by
        rcases parseNestedAggs_ok _ b4 q3 acc1 b5 acc5 h5 with ⟨-, rfl, rfl⟩ | ⟨node, hget, hn⟩
        · exact ⟨s4pb, rfl, s1acc⟩
        · rw [s3aggs, s1aggs] at hget
          have hnokey : hasBucketKey node = false := by
            simpa [nestedAggsHaveNoBucketKey, hget] using hnested
          have hnodeok : JsonValue.aggsUnambiguous (JsonValue.obj node) = true :=
            hvalues _ (QueryMap.get_mem q "aggs" _ hget)
          obtain ⟨hp5, ha5⟩ := ih _ _ _ _ _ hn hnodeok s4pb
            (fun hk => by rw [hnokey] at hk; exact absurd hk (by decide)) s1acc
          obtain ⟨hf5, -⟩ := parseAggregationAux_frame cw _ _ _ _ _ _ hn
          have ha5' := ha5 hnokey
          exact ⟨⟨by rw [hf5.2.1]; exact s4pb.1, by rw [hf5.2.1, ha5']; exact s4pb.2⟩, ha5', hp5⟩
      obtain ⟨s5pb, s5ag, s5acc⟩ := s5
      -- emission of the bucket entry and step 5: the named sub-aggregations
      have s6 : ∀ e ∈ (if present then acc5 ++ [buildBucketAggregation b5] else acc5), Paired e := by
        cases present
        · exact s5acc
        · exact paired_snoc acc5 _ s5acc (paired_buildBucket b5 s5pb)
      have s7 : ∀ e ∈ acc', Paired e :=
        parseNamedAggregations_pairing _ (parseAggregationAux_frame cw fuel) ih _ _ _ _ _ h7
          (fun kv hkv => hvalues kv (s1sub (s3sub (QueryMap.delete_subset _ _ hkv)))) s5pb s6
      obtain ⟨-, s7ag, -⟩ :=
        parseNamedAggregations_frame _ (parseAggregationAux_frame cw fuel) _ _ _ _ _ h7
      obtain ⟨-, s8ag, -, -, -⟩ := restoreAfterNesting_ok _ _ _ _ _ _ h8
      exact ⟨s7, fun hno => by rw [s8ag, s7ag, s5ag]; exact s4ag hno⟩

/-- C4 (counterexample): in the request
`{"aggs": {"x": {"terms": {"field": "a"}, "aggs": {"terms": {"field": "b"}}}}}` the key
`terms` of the inner `aggs` map is taken for a second bucket on the trail `[x]`; the entry
that `buildBucketAggregation` emits for it has two group-by expressions and one non-empty
aggregator in its trail. -/
theorem ParseAggregationJson_bucket_entry_not_paired :
    ∃ root inner outer, ParseAggregationJson sampleTranslator (.ok [("aggs", JsonValue.obj
        [("x", JsonValue.obj
          [("terms", JsonValue.obj [("field", JsonValue.str "a")]),
           ("aggs", JsonValue.obj [("terms", JsonValue.obj [("field", JsonValue.str "b")])])])])])
        = .ok (.ok [root, inner, outer])
      ∧ inner = buildBucketAggregation { aggrQueryBuilder.zero with
          FromClause := "t"
          «Type» := QueryType.Terms
          GroupByFields := ["\"a\"", "\"b\""]
          NonSchemaFields := ["\"a\"", "\"b\""]
          Aggregators := [{ Name := "x", Empty := false }] }
      ∧ inner.GroupByFields.length = 2
      ∧ countNotEmpty inner.Aggregators = 1
      ∧ ¬ Paired inner :=
  ⟨{ Fields := [], NonSchemaFields := ["count()"], WhereClause := "", GroupByFields := [],
     SuffixClauses := [], FromClause := "t", CanParse := false, Aggregators := [],
     «Type» := QueryType.Count },
   { Fields := [], NonSchemaFields := ["\"a\"", "\"b\"", "count()"], WhereClause := "",
     GroupByFields := ["\"a\"", "\"b\""], SuffixClauses := [], FromClause := "t",
     CanParse := false, Aggregators := [{ Name := "x", Empty := false }],
     «Type» := QueryType.Terms },
   { Fields := [], NonSchemaFields := ["\"a\"", "count()"], WhereClause := "",
     GroupByFields := ["\"a\""], SuffixClauses := [], FromClause := "t",
     CanParse := false, Aggregators := [{ Name := "x", Empty := false }],
     «Type» := QueryType.Terms },
   rfl, by decide, by decide, by decide,
   fun h => absurd (show (2 : Nat) = 1 from h) (by decide)⟩

/-- C4 (amended): let no map of the aggregation tree hold, under its key `aggs`, a map with
a key `histogram`, `date_histogram` or `terms`, and let `createHistogramPartOfQuery` never
return the empty selection. Then, planning the tree from a builder with empty group-by
list and empty trail, every entry added to a paired accumulator, in particular every entry
emitted by `buildBucketAggregation`, has as many group-by expressions as its trail has
aggregators marked non-empty. -/
theorem plan_entries_paired (cw : ClickhouseQueryTranslator)
    (hcw : ∀ params s, cw.createHistogramPartOfQuery params = .ok s → s ≠ EmptyFieldSelection)
    (b0 : aggrQueryBuilder) (hgb : b0.GroupByFields = []) (htrail : b0.Aggregators = [])
    (tree : QueryMap) (htree : JsonValue.mapAggsUnambiguous tree = true)
    (acc : List QueryWithAggregation) (hacc : ∀ e ∈ acc, Paired e)
    (b' : aggrQueryBuilder) (plan : List QueryWithAggregation)
    (h : parseNamedAggregations (parseAggregation cw) tree b0 acc = .ok (b', plan)) :
    ∀ e ∈ plan, Paired e := by
  have hb0 : PairedBuilder b0 := by
    refine ⟨?_, ?_⟩
    · rw [hgb]; simp
    · rw [hgb, htrail]; rfl
  exact parseNamedAggregations_pairing (parseAggregation cw)
    (fun b q acc b' acc' hp => parseAggregationAux_frame cw _ b q acc b' acc' hp)
    (fun b q acc b' acc' hp => parseAggregationAux_pairing cw hcw _ b q acc b' acc' hp)
    tree b0 acc b' plan h ((mapAggsUnambiguous_iff tree).mp htree) hb0 hacc

/-- Witness of C4 (amended): the tree of scenario S3 planned by `sampleTranslator` from the
zero builder. -/
theorem plan_entries_paired_witness :
    ∃ b' plan, parseNamedAggregations (parseAggregation sampleTranslator)
        [("hosts", JsonValue.obj
          [("terms", JsonValue.obj [("field", JsonValue.str "host")]),
           ("aggs", JsonValue.obj
            [("latency_avg", JsonValue.obj
              [("avg", JsonValue.obj [("field", JsonValue.str "latency")])])])])]
        aggrQueryBuilder.zero [] = .ok (b', plan)
      ∧ plan.length = 2 ∧ ∀ e ∈ plan, Paired e :=
  ⟨aggrQueryBuilder.zero,
    [{ Fields := [], NonSchemaFields := ["\"host\"", "avg(\"latency\")"], WhereClause := "",
       GroupByFields := ["\"host\""], SuffixClauses := [], FromClause := "", CanParse := false,
       Aggregators := [{ Name := "hosts", Empty := false }, { Name := "latency_avg", Empty := true }],
       «Type» := QueryType.Avg },
     { Fields := [], NonSchemaFields := ["\"host\"", "count()"], WhereClause := "",
       GroupByFields := ["\"host\""], SuffixClauses := [], FromClause := "", CanParse := false,
       Aggregators := [{ Name := "hosts", Empty := false }], «Type» := QueryType.Terms }],
    rfl, rfl,
    plan_entries_paired sampleTranslator
      (fun params s hs => by
        simp only [sampleTranslator, Except.ok.injEq] at hs
        rw [← hs]
        decide)
      aggrQueryBuilder.zero rfl rfl
      [("hosts", JsonValue.obj
        [("terms", JsonValue.obj [("field", JsonValue.str "host")]),
         ("aggs", JsonValue.obj
          [("latency_avg", JsonValue.obj
            [("avg", JsonValue.obj [("field", JsonValue.str "latency")])])])])]
      (by decide) [] (by simp) aggrQueryBuilder.zero _ rfl⟩

/-- Bucket pairing for the plans of `ParseAggregationJson`: if no map of the value of the
key `aggs` holds, under its own key `aggs`, a map with a bucket key, every entry of the plan
is paired. -/
theorem ParseAggregationJson_entries_paired (cw : ClickhouseQueryTranslator)
    (hcw : ∀ params s, cw.createHistogramPartOfQuery params = .ok s → s ≠ EmptyFieldSelection)
    (queryAsMap tree : QueryMap) (haggs : QueryMap.get queryAsMap "aggs" = some (JsonValue.obj tree))
    (htree : JsonValue.mapAggsUnambiguous tree = true) (plan : List QueryWithAggregation)
    (h : ParseAggregationJson cw (.ok queryAsMap) = .ok (.ok plan)) :
    ∀ e ∈ plan, Paired e := by
  unfold ParseAggregationJson at h
  simp only [haggs] at h
  have tail : ∀ b0 : aggrQueryBuilder, b0.GroupByFields = [] → b0.Aggregators = [] →
      ∀ b', parseNamedAggregations (parseAggregation cw) tree b0 [buildCountAggregation b0]
        = .ok (b', plan) → ∀ e ∈ plan, Paired e := by
    intro b0 hgb htrail b' hl
    have hb0 : PairedBuilder b0 := ⟨by rw [hgb]; simp, by rw [hgb, htrail]; rfl⟩
    refine parseNamedAggregations_pairing (parseAggregation cw)
      (fun b q acc b' acc' hp => parseAggregationAux_frame cw _ b q acc b' acc' hp)
      (fun b q acc b' acc' hp => parseAggregationAux_pairing cw hcw _ b q acc b' acc' hp)
      tree b0 _ b' plan hl ((mapAggsUnambiguous_iff tree).mp htree) hb0 ?_
    intro e he
    rw [List.mem_singleton] at he
    rw [he]
    exact paired_buildCount b0 hb0
  cases hq : QueryMap.get queryAsMap "query" with
  | none =>
    simp only [hq] at h
    rw [bind_eq_ok] at h
    obtain ⟨b0, hb0, h⟩ := h
    simp only [pure, Except.pure, Except.ok.injEq] at hb0
    subst hb0
    rw [bind_eq_ok] at h
    obtain ⟨named, hnamed, h⟩ := h
    rw [liftPanic_eq_ok, JsonValue.asQueryMap_eq_ok] at hnamed
    simp only [JsonValue.obj.injEq] at hnamed
    subst hnamed
    rw [bind_eq_ok] at h
    obtain ⟨⟨b', acc'⟩, hl, h⟩ := h
    simp only [pure, Except.pure, Except.ok.injEq] at h
    subst h
    exact tail _ rfl rfl b' hl
  | some queryPart =>
    simp only [hq] at h
    rw [bind_eq_ok] at h
    obtain ⟨params, -, h⟩ := h
    rw [bind_eq_ok] at h
    obtain ⟨parsed, -, h⟩ := h
    rw [bind_eq_ok] at h
    obtain ⟨b0, hb0, h⟩ := h
    simp only [pure, Except.pure, Except.ok.injEq] at hb0
    subst hb0
    rw [bind_eq_ok] at h
    obtain ⟨named, hnamed, h⟩ := h
    rw [liftPanic_eq_ok, JsonValue.asQueryMap_eq_ok] at hnamed
    simp only [JsonValue.obj.injEq] at hnamed
    subst hnamed
    rw [bind_eq_ok] at h
    obtain ⟨⟨b', acc'⟩, hl, h⟩ := h
    simp only [pure, Except.pure, Except.ok.injEq] at h
    subst h
    exact tail _ rfl rfl b' hl

/-! ## Claims about `top_metrics` entries -/

theorem buildMetricsAggregation_top_metrics (cw : ClickhouseQueryTranslator)
    (b : aggrQueryBuilder) (m : metricsAggregation) (ht : m.AggrType = "top_metrics")
    (hg : 0 < b.GroupByFields.length) :
    ∃ e, buildMetricsAggregation cw b m = .ok e
      ∧ e.«Type» = QueryType.TopMetrics
      ∧ e.FromClause = "(SELECT " ++ stringsJoin (quoteArray (m.FieldNames ++ [m.SortBy])) ", "
          ++ ", ROW_NUMBER() OVER (PARTITION BY " ++ stringsJoin b.GroupByFields ""
          ++ " ORDER BY " ++ strconvQuote m.SortBy ++ " " ++ m.Order ++ ") AS row_number FROM "
          ++ b.FromClause ++ " WHERE " ++ b.whereBuilder.Sql.Stmt ++ ")"
      ∧ e.WhereClause = b.whereBuilder.Sql.Stmt ++ " AND row_number <= " ++ toString m.Size := by
  have hc := buildAggregationCommon_proj b
  obtain ⟨-, -, -, hw, -, hf, -, -⟩ := hc
  have hsel : metricsSelect cw b m (buildAggregationCommon b) = .ok
      { buildAggregationCommon b with
        NonSchemaFields := (buildAggregationCommon b).NonSchemaFields
          ++ (m.FieldNames ++ [m.SortBy]).map (fun field =>
            (if m.Order = "asc" then "MAX" else if m.Order = "desc" then "MIN" else "")
              ++ "(\"" ++ field ++ "\") AS \"windowed_" ++ field ++ "\"")
        FromClause := "(SELECT " ++ stringsJoin (quoteArray (m.FieldNames ++ [m.SortBy])) ", "
          ++ ", ROW_NUMBER() OVER (PARTITION BY "
          ++ stringsJoin b.GroupByFields "" ++ " ORDER BY " ++ strconvQuote m.SortBy ++ " "
          ++ m.Order ++ ") AS " ++ RowNumberColumnName ++ " FROM "
          ++ (buildAggregationCommon b).FromClause
          ++ " WHERE " ++ b.whereBuilder.Sql.Stmt ++ ")"
        WhereClause := (buildAggregationCommon b).WhereClause ++ (" AND " ++ RowNumberColumnName
          ++ " <= " ++ toString m.Size) } := by
    unfold metricsSelect
    have n1 : ¬ (m.AggrType = "sum" ∨ m.AggrType = "min" ∨ m.AggrType = "max"
        ∨ m.AggrType = "avg") := by rw [ht]; decide
    have n2 : ¬ m.AggrType = "quantile" := by rw [ht]; decide
    have n3 : ¬ m.AggrType = "cardinality" := by rw [ht]; decide
    have n4 : ¬ m.AggrType = "value_count" := by rw [ht]; decide
    have n5 : ¬ m.AggrType = "stats" := by rw [ht]; decide
    have n6 : ¬ m.AggrType = "top_hits" := by rw [ht]; decide
    rw [if_neg n1, if_neg n2, if_neg n3, if_neg n4, if_neg n5, if_neg n6, if_pos ht, if_pos hg]
    rfl
  obtain ⟨q2, hq2, hF, hW⟩ : ∃ q2, metricsSelect cw b m (buildAggregationCommon b) = .ok q2
      ∧ q2.FromClause = "(SELECT " ++ stringsJoin (quoteArray (m.FieldNames ++ [m.SortBy])) ", "
          ++ ", ROW_NUMBER() OVER (PARTITION BY "
          ++ stringsJoin b.GroupByFields "" ++ " ORDER BY " ++ strconvQuote m.SortBy ++ " "
          ++ m.Order ++ ") AS " ++ RowNumberColumnName ++ " FROM "
          ++ (buildAggregationCommon b).FromClause
          ++ " WHERE " ++ b.whereBuilder.Sql.Stmt ++ ")"
      ∧ q2.WhereClause = (buildAggregationCommon b).WhereClause ++ (" AND " ++ RowNumberColumnName
          ++ " <= " ++ toString m.Size) := ⟨_, hsel, rfl, rfl⟩
  refine ⟨{ q2 with «Type» := metricsQueryType m.AggrType q2.«Type» }, ?_, ?_, ?_, ?_⟩
  · unfold buildMetricsAggregation
    simp only [hq2, bind, Except.bind, pure, Except.pure]
  · show metricsQueryType m.AggrType q2.«Type» = QueryType.TopMetrics
    rw [ht]
    rfl
  · show q2.FromClause = _
    rw [hF, hf]
    apply String.ext
    simp only [RowNumberColumnName, String.data_append, List.append_assoc]
    rfl
  · show q2.WhereClause = _
    rw [hW, hw]
    apply String.ext
    simp only [RowNumberColumnName, String.data_append, List.append_assoc]
    rfl

/-- C11 (amended): for a `top_metrics` metric with sort field `@timestamp`, order
`desc` and size 1, built while the group-by list of the builder is the quoted column
`"host"`, `buildMetricsAggregation` returns an entry whose FROM clause contains
`ROW_NUMBER() OVER (PARTITION BY "host" ORDER BY "@timestamp" desc)` and whose outer
WHERE clause is the WHERE of the builder followed by ` AND row_number <= 1`: the row
number column is called `row_number` (the constant `RowNumberColumnName`). -/
theorem buildMetricsAggregation_S5 (cw : ClickhouseQueryTranslator) (b : aggrQueryBuilder)
    (m : metricsAggregation) (hg : b.GroupByFields = [strconvQuote "host"])
    (ht : m.AggrType = "top_metrics") (hs : m.SortBy = "@timestamp") (ho : m.Order = "desc")
    (hz : m.Size = 1) :
    ∃ e before after, buildMetricsAggregation cw b m = .ok e
      ∧ e.FromClause = before
          ++ "ROW_NUMBER() OVER (PARTITION BY \"host\" ORDER BY \"@timestamp\" desc)" ++ after
      ∧ e.WhereClause = b.whereBuilder.Sql.Stmt ++ " AND " ++ RowNumberColumnName ++ " <= 1"
      ∧ RowNumberColumnName = "row_number" := by
  obtain ⟨e, he, -, hf, hw⟩ := buildMetricsAggregation_top_metrics cw b m ht
    (by rw [hg]; decide)
  refine ⟨e, "(SELECT " ++ stringsJoin (quoteArray (m.FieldNames ++ [m.SortBy])) ", " ++ ", ",
    " AS row_number FROM " ++ b.FromClause ++ " WHERE " ++ b.whereBuilder.Sql.Stmt ++ ")",
    he, ?_, ?_, rfl⟩
  · rw [hf, hg, hs, ho]
    have h1 : stringsJoin [strconvQuote "host"] "" = "\"host\"" := by decide
    have h2 : strconvQuote "@timestamp" = "\"@timestamp\"" := by decide
    rw [h1, h2]
    apply String.ext
    simp only [String.data_append, List.append_assoc]
    rfl
  · rw [hw, hz]
    apply String.ext
    simp only [RowNumberColumnName, String.data_append, List.append_assoc]
    rfl

/-- Witness of C11 (amended): the builder and the metric of scenario S5. -/
theorem buildMetricsAggregation_S5_witness :
    ∃ e before after, buildMetricsAggregation sampleTranslator builderS5 topMetricsS5 = .ok e
      ∧ e.FromClause = before
          ++ "ROW_NUMBER() OVER (PARTITION BY \"host\" ORDER BY \"@timestamp\" desc)" ++ after
      ∧ e.WhereClause = builderS5.whereBuilder.Sql.Stmt ++ " AND " ++ RowNumberColumnName ++ " <= 1"
      ∧ RowNumberColumnName = "row_number" :=
  buildMetricsAggregation_S5 sampleTranslator builderS5 topMetricsS5 rfl rfl rfl rfl rfl

/-- C11 (counterexample): in scenario S5 the outer WHERE clause of the entry is
`"service"='api' AND row_number <= 1`, which does not end with `rn <= 1`. -/
theorem buildMetricsAggregation_S5_where_not_rn :
    (buildMetricsAggregation sampleTranslator builderS5 topMetricsS5).map
        (fun e => (e.WhereClause, stringsHasSuffix e.WhereClause "rn <= 1"))
      = .ok ("\"service\"='api' AND row_number <= 1", false) := by
  rfl

/-- C12 (defect in the code): for a `top_metrics` metric built while the builder has a
group-by expression and an empty WHERE, the outer WHERE clause of the entry is
` AND row_number <= size`, which begins with `AND` and is not the bare bound
`row_number <= size`, and the subquery in its FROM clause ends with an empty WHERE clause,
` WHERE )`. -/
theorem buildMetricsAggregation_top_metrics_empty_where (cw : ClickhouseQueryTranslator)
    (b : aggrQueryBuilder) (m : metricsAggregation) (ht : m.AggrType = "top_metrics")
    (hg : 0 < b.GroupByFields.length) (hw : b.whereBuilder.Sql.Stmt = "") :
    ∃ e subquery, buildMetricsAggregation cw b m = .ok e
      ∧ e.WhereClause = " AND row_number <= " ++ toString m.Size
      ∧ e.WhereClause ≠ "row_number <= " ++ toString m.Size
      ∧ e.FromClause = subquery ++ " FROM " ++ b.FromClause ++ " WHERE )" := by
  obtain ⟨e, he, -, hf, hwc⟩ := buildMetricsAggregation_top_metrics cw b m ht hg
  rw [hw] at hf hwc
  have hwc2 : e.WhereClause = " AND row_number <= " ++ toString m.Size := by
    rw [hwc]
    apply String.ext
    simp only [String.data_append, List.append_assoc]
    rfl
  refine ⟨e, "(SELECT " ++ stringsJoin (quoteArray (m.FieldNames ++ [m.SortBy])) ", "
      ++ ", ROW_NUMBER() OVER (PARTITION BY " ++ stringsJoin b.GroupByFields ""
      ++ " ORDER BY " ++ strconvQuote m.SortBy ++ " " ++ m.Order ++ ") AS row_number",
    he, hwc2, ?_, ?_⟩
  · rw [hwc2]
    intro h
    have h2 := congrArg (fun s => s.data.head?) h
    simp [String.data_append] at h2
  · rw [hf]
    apply String.ext
    simp only [String.data_append, List.append_assoc]
    rfl

/-- Witness of C12: the builder of scenario S5 without a `query` part, so with an empty
WHERE. -/
theorem buildMetricsAggregation_top_metrics_empty_where_witness :
    ∃ e subquery, buildMetricsAggregation sampleTranslator
        { builderS5 with whereBuilder := aggrQueryBuilder.zero.whereBuilder } topMetricsS5 = .ok e
      ∧ e.WhereClause = " AND row_number <= " ++ toString topMetricsS5.Size
      ∧ e.WhereClause ≠ "row_number <= " ++ toString topMetricsS5.Size
      ∧ e.FromClause = subquery ++ " FROM "
          ++ ({ builderS5 with whereBuilder := aggrQueryBuilder.zero.whereBuilder } :
              aggrQueryBuilder).FromClause
          ++ " WHERE )" :=
  buildMetricsAggregation_top_metrics_empty_where sampleTranslator
    { builderS5 with whereBuilder := aggrQueryBuilder.zero.whereBuilder } topMetricsS5
    rfl (by decide) rfl

/-- The request `{"aggs": {"hosts": {"terms": {"field": "host"}, "aggs": {"latest":
{"top_metrics": {}}}}}}`, which has no `query` part, planned by `sampleTranslator`: the
`top_metrics` entry has the WHERE clause ` AND row_number <= 1`, which `Query.String` writes
after ` WHERE `, and a subquery that ends with `WHERE )`. -/
theorem ParseAggregationJson_top_metrics_without_query :
    ∃ root latest bucket, ParseAggregationJson sampleTranslator (.ok [("aggs", JsonValue.obj
        [("hosts", JsonValue.obj [("terms", JsonValue.obj [("field", JsonValue.str "host")]),
          ("aggs", JsonValue.obj [("latest", JsonValue.obj
            [("top_metrics", JsonValue.obj [])])])])])])
        = .ok (.ok [root, latest, bucket])
      ∧ latest.«Type» = QueryType.TopMetrics
      ∧ latest.WhereClause = " AND row_number <= 1"
      ∧ latest.FromClause = "(SELECT \"latency\", \"@timestamp\", ROW_NUMBER() OVER (PARTITION BY \"host\" ORDER BY \"@timestamp\" desc) AS row_number FROM t WHERE )" :=
  ⟨_, _, _, rfl, by decide, by decide, by decide⟩

/-! ## Claims about `ParseAggregationJson` -/

theorem ParseAggregationJson_no_aggs (cw : ClickhouseQueryTranslator) (body : QueryMap)
    (w : SimpleQuery) (hq : QueryPartParsed cw body w)
    (ha : QueryMap.get body "aggs" = none) :
    ParseAggregationJson cw (.ok body) = .ok (.error "no aggs") := by
  unfold ParseAggregationJson
  rcases hq with ⟨hq, -⟩ | ⟨queryPart, hq, hp⟩
  · simp [hq, ha, bind, Except.bind, pure, Except.pure]
  · simp [hq, ha, hp, JsonValue.asQueryMap, liftPanic, bind, Except.bind, pure, Except.pure]

theorem ParseAggregationJson_of_named (cw : ClickhouseQueryTranslator) (body : QueryMap)
    (w : SimpleQuery) (hq : QueryPartParsed cw body w) (named : QueryMap)
    (ha : QueryMap.get body "aggs" = some (JsonValue.obj named))
    (b' : aggrQueryBuilder) (plan : List QueryWithAggregation)
    (hn : parseNamedAggregations (parseAggregation cw) named (rootBuilder cw w)
      [buildCountAggregation (rootBuilder cw w)] = .ok (b', plan)) :
    ParseAggregationJson cw (.ok body) = .ok (.ok plan) := by
  unfold ParseAggregationJson
  unfold rootBuilder at hn
  rcases hq with ⟨hq, rfl⟩ | ⟨queryPart, hq, hp⟩
  · simp only [hq, ha, JsonValue.asQueryMap, liftPanic, bind, Except.bind, pure, Except.pure]
    simp only [aggrQueryBuilder.zero] at hn ⊢
    rw [hn]
  · simp only [hq, ha, hp, JsonValue.asQueryMap, liftPanic, bind, Except.bind, pure, Except.pure]
    rw [hn]

theorem ParseAggregationJson_ok_inv (cw : ClickhouseQueryTranslator)
    (queryAsJson : Except String QueryMap) (plan : List QueryWithAggregation)
    (h : ParseAggregationJson cw queryAsJson = .ok (.ok plan)) :
    ∃ body w named b', queryAsJson = .ok body ∧ QueryPartParsed cw body w
      ∧ QueryMap.get body "aggs" = some (JsonValue.obj named)
      ∧ parseNamedAggregations (parseAggregation cw) named (rootBuilder cw w)
          [buildCountAggregation (rootBuilder cw w)] = .ok (b', plan) := by
  unfold ParseAggregationJson at h
  cases queryAsJson with
  | error err => simp [pure, Except.pure] at h
  | ok queryAsMap =>
    simp only at h
    cases ha : QueryMap.get queryAsMap "aggs" with
    | none =>
      cases hq : QueryMap.get queryAsMap "query" with
      | none => simp [ha, hq, bind, Except.bind, pure, Except.pure] at h
      | some queryPart =>
        simp only [ha, hq] at h
        rw [bind_eq_ok] at h
        obtain ⟨params, -, h⟩ := h
        rw [bind_eq_ok] at h
        obtain ⟨parsed, -, h⟩ := h
        simp [bind, Except.bind, pure, Except.pure] at h
    | some aggs =>
      cases hq : QueryMap.get queryAsMap "query" with
      | none =>
        simp only [ha, hq] at h
        rw [bind_eq_ok] at h
        obtain ⟨b0, hb0, h⟩ := h
        simp only [pure, Except.pure, Except.ok.injEq] at hb0
        subst hb0
        rw [bind_eq_ok] at h
        obtain ⟨named, hnamed, h⟩ := h
        rw [liftPanic_eq_ok, JsonValue.asQueryMap_eq_ok] at hnamed
        subst hnamed
        rw [bind_eq_ok] at h
        obtain ⟨⟨b', acc'⟩, hl, h⟩ := h
        simp only [pure, Except.pure, Except.ok.injEq] at h
        subst h
        exact ⟨queryAsMap, aggrQueryBuilder.zero.whereBuilder, named, b', rfl,
          Or.inl ⟨hq, rfl⟩, ha, hl⟩
      | some queryPart =>
        simp only [ha, hq] at h
        rw [bind_eq_ok] at h
        obtain ⟨params, hparams, h⟩ := h
        rw [liftPanic_eq_ok, JsonValue.asQueryMap_eq_ok] at hparams
        subst hparams
        rw [bind_eq_ok] at h
        obtain ⟨parsed, hparsed, h⟩ := h
        rw [liftPanic_eq_ok] at hparsed
        rw [bind_eq_ok] at h
        obtain ⟨b0, hb0, h⟩ := h
        simp only [pure, Except.pure, Except.ok.injEq] at hb0
        subst hb0
        rw [bind_eq_ok] at h
        obtain ⟨named, hnamed, h⟩ := h
        rw [liftPanic_eq_ok, JsonValue.asQueryMap_eq_ok] at hnamed
        subst hnamed
        rw [bind_eq_ok] at h
        obtain ⟨⟨b', acc'⟩, hl, h⟩ := h
        simp only [pure, Except.pure, Except.ok.injEq] at h
        subst h
        exact ⟨queryAsMap, parsed, named, b', rfl, Or.inr ⟨params, hq, hparsed⟩, ha, hl⟩

/-- C13 (counterexample): for the tree `{"m": {"value_count": {"field": "f"}}}`,
the body with the tree under `aggregations` gets the error `no aggs`, the body with the
tree under `aggs` gets a plan of two entries. -/
theorem ParseAggregationJson_aggregations_not_aggs :
    ParseAggregationJson sampleTranslator (.ok [("aggregations", JsonValue.obj
        [("m", JsonValue.obj [("value_count", JsonValue.obj [("field", JsonValue.str "f")])])])])
      = .ok (.error "no aggs")
    ∧ ∃ plan, ParseAggregationJson sampleTranslator (.ok [("aggs", JsonValue.obj
        [("m", JsonValue.obj [("value_count", JsonValue.obj [("field", JsonValue.str "f")])])])])
        = .ok (.ok plan) ∧ plan.length = 2 :=
  ⟨rfl, _, rfl, rfl⟩

/-- C13 (amended): `ParseAggregationJson` looks up the key `aggs` only. For every
tree and every `query` part that the predicate builder parses, the body that carries the
tree under `aggregations`, with or without the `query` part, gets no plan: the result is
the error `no aggs`. -/
theorem ParseAggregationJson_aggregations_key (cw : ClickhouseQueryTranslator)
    (tree : JsonValue) (queryPart : QueryMap) (w : SimpleQuery)
    (hq : cw.parseQueryMap queryPart = .ok w) :
    ParseAggregationJson cw (.ok [("query", JsonValue.obj queryPart), ("aggregations", tree)])
        = .ok (.error "no aggs")
      ∧ ParseAggregationJson cw (.ok [("aggregations", tree)]) = .ok (.error "no aggs") :=
  ⟨ParseAggregationJson_no_aggs cw _ w (Or.inr ⟨queryPart, rfl, hq⟩) rfl,
   ParseAggregationJson_no_aggs cw _ _ (Or.inl ⟨rfl, rfl⟩) rfl⟩

/-- Witness of C13 (amended): the tree `{"m": {"value_count": {"field": "f"}}}` and an empty `query`
part, planned by `sampleTranslator`. -/
theorem ParseAggregationJson_aggregations_key_witness :
    ParseAggregationJson sampleTranslator (.ok [("query", JsonValue.obj []),
        ("aggregations", JsonValue.obj
          [("m", JsonValue.obj [("value_count", JsonValue.obj [("field", JsonValue.str "f")])])])])
        = .ok (.error "no aggs")
      ∧ ParseAggregationJson sampleTranslator (.ok [("aggregations", JsonValue.obj
          [("m", JsonValue.obj [("value_count", JsonValue.obj [("field", JsonValue.str "f")])])])])
        = .ok (.error "no aggs") :=
  ParseAggregationJson_aggregations_key sampleTranslator _ []
    { Sql := { Stmt := "\"service\"='api'" }, CanParse := true, FieldName := "service" } rfl

/-- C15: the first entry of every plan that `ParseAggregationJson` returns is the Count
entry of the request: its kind is `Count`, its select list is `count()` alone, its group-by
list, its suffix clauses and its trail are empty, its FROM is the name of the table and
its WHERE is the predicate `w` parsed from the `query` part of the body, the empty
predicate if the body has no `query` part. -/
theorem ParseAggregationJson_first_entry (cw : ClickhouseQueryTranslator)
    (queryAsJson : Except String QueryMap) (plan : List QueryWithAggregation)
    (h : ParseAggregationJson cw queryAsJson = .ok (.ok plan)) :
    ∃ body w root rest, queryAsJson = .ok body ∧ QueryPartParsed cw body w
      ∧ (QueryMap.get body "query" = none → w.Sql.Stmt = "")
      ∧ plan = root :: rest
      ∧ root.«Type» = QueryType.Count ∧ root.Fields = [] ∧ root.NonSchemaFields = ["count()"]
      ∧ root.GroupByFields = [] ∧ root.SuffixClauses = [] ∧ root.Aggregators = []
      ∧ root.FromClause = cw.Table.FullTableName ∧ root.WhereClause = w.Sql.Stmt := by
  obtain ⟨body, w, named, b', rfl, hq, -, hn⟩ := ParseAggregationJson_ok_inv cw _ _ h
  obtain ⟨-, -, rest, hrest, -⟩ := parseNamedAggregations_frame (parseAggregation cw)
    (fun b q acc b1 acc1 hp => parseAggregationAux_frame cw _ b q acc b1 acc1 hp)
    named _ _ b' plan hn
  refine ⟨body, w, buildCountAggregation (rootBuilder cw w), rest, rfl, hq, ?_, hrest,
    rfl, rfl, rfl, rfl, rfl, rfl, rfl, rfl⟩
  intro hnone
  rcases hq with ⟨-, rfl⟩ | ⟨queryPart, hq, -⟩
  · rfl
  · rw [hnone] at hq
    exact absurd hq (by simp)

/-- Witness of C15: the request `{"query": {}, "aggs": {"s": {"sum": {"field": "f"}}}}`,
planned by `sampleTranslator`. -/
theorem ParseAggregationJson_first_entry_witness :
    ∃ body w, ∃ (root : QueryWithAggregation) (rest : List QueryWithAggregation),
      (.ok [("query", JsonValue.obj []), ("aggs", JsonValue.obj
        [("s", JsonValue.obj [("sum", JsonValue.obj [("field", JsonValue.str "f")])])])]
        : Except String QueryMap) = .ok body
      ∧ QueryPartParsed sampleTranslator body w
      ∧ (QueryMap.get body "query" = none → w.Sql.Stmt = "")
      ∧ ([{ Fields := [], NonSchemaFields := ["count()"], WhereClause := "\"service\"='api'",
            GroupByFields := [], SuffixClauses := [], FromClause := "t", CanParse := false,
            Aggregators := [], «Type» := QueryType.Count },
          { Fields := [], NonSchemaFields := ["sum(\"f\")"], WhereClause := "\"service\"='api'",
            GroupByFields := [], SuffixClauses := [], FromClause := "t", CanParse := false,
            Aggregators := [{ Name := "s", Empty := true }], «Type» := QueryType.Sum }]
          : List QueryWithAggregation) = root :: rest
      ∧ root.«Type» = QueryType.Count ∧ root.Fields = [] ∧ root.NonSchemaFields = ["count()"]
      ∧ root.GroupByFields = [] ∧ root.SuffixClauses = [] ∧ root.Aggregators = []
      ∧ root.FromClause = sampleTranslator.Table.FullTableName
      ∧ root.WhereClause = w.Sql.Stmt :=
  ParseAggregationJson_first_entry sampleTranslator (.ok [("query", JsonValue.obj []),
    ("aggs", JsonValue.obj
      [("s", JsonValue.obj [("sum", JsonValue.obj [("field", JsonValue.str "f")])])])]) _ rfl

/-! ## Claims about `Query.String` -/

theorem intercalate_go_append (sep : String) :
    ∀ (elems : List String) (x acc : String),
      String.intercalate.go (x ++ acc) sep elems = x ++ String.intercalate.go acc sep elems := by
  intro elems
  induction elems with
  | nil => intro x acc; rfl
  | cons a rest ih =>
    intro x acc
    simp only [String.intercalate.go]
    rw [String.append_assoc, String.append_assoc, ih, String.append_assoc]

theorem stringsJoin_cons_cons (a b : String) (rest : List String) (sep : String) :
    stringsJoin (a :: b :: rest) sep = a ++ sep ++ stringsJoin (b :: rest) sep := by
  simp only [stringsJoin, String.intercalate, String.intercalate.go]
  rw [intercalate_go_append]

theorem stringsJoin_cons_of_ne_nil (a : String) (rest : List String) (sep : String)
    (h : rest ≠ []) : stringsJoin (a :: rest) sep = a ++ sep ++ stringsJoin rest sep := by
  cases rest with
  | nil => exact absurd rfl h
  | cons b rest => exact stringsJoin_cons_cons a b rest sep

theorem stringsJoin_singleton (a sep : String) : stringsJoin [a] sep = a := rfl

theorem writeVerbatim_eq_join (fields : List String) :
    writeVerbatim fields = stringsJoin fields ", " := by
  induction fields with
  | nil => rfl
  | cons a rest ih =>
    cases rest with
    | nil =>
      simp only [writeVerbatim, List.length_nil, Nat.lt_irrefl, if_false, stringsJoin_singleton]
      simp
    | cons b rest =>
      rw [stringsJoin_cons_cons, ← ih]
      simp [writeVerbatim]

theorem writeFields_append_writeVerbatim (fields nonSchemaFields : List String) :
    writeFields nonSchemaFields.length fields ++ writeVerbatim nonSchemaFields
      = stringsJoin (fields.map renderField ++ nonSchemaFields) ", " := by
  induction fields with
  | nil =>
    simp only [writeFields, List.map_nil, List.nil_append, writeVerbatim_eq_join]
    simp
  | cons a rest ih =>
    by_cases hne : rest.map renderField ++ nonSchemaFields = []
    · obtain ⟨h1, h2⟩ := List.append_eq_nil.mp hne
      have h1 : rest = [] := by simpa using h1
      subst h1
      subst h2
      simp [writeFields, writeVerbatim, stringsJoin_singleton, renderField]
    · have hsep : (0 < rest.length ∨ 0 < nonSchemaFields.length) := by
        by_contra hc
        apply hne
        have hr : rest = [] := by
          cases rest with
          | nil => rfl
          | cons _ _ => exact absurd (Or.inl (Nat.succ_pos _)) hc
        have hn : nonSchemaFields = [] := by
          cases nonSchemaFields with
          | nil => rfl
          | cons _ _ => exact absurd (Or.inr (Nat.succ_pos _)) hc
        simp [hr, hn]
      rw [List.map_cons, List.cons_append, stringsJoin_cons_of_ne_nil _ _ _ hne, ← ih]
      simp only [writeFields, hsep, if_true, renderField, String.append_assoc]

theorem Query_String_eq (q : Query) :
    q.String = "SELECT " ++ stringsJoin (q.Fields.map renderField ++ q.NonSchemaFields) ", "
      ++ " FROM " ++ q.FromClause ++ (if q.WhereClause = "" then "" else " WHERE ")
      ++ q.WhereClause ++ " " ++ stringsJoin q.SuffixClauses " "
      ++ (if q.GroupByFields = [] then ""
          else " GROUP BY (" ++ stringsJoin q.GroupByFields ", " ++ ")") := by
  have hw : (q.WhereClause.length = 0) = (q.WhereClause = "") := by
    apply propext
    constructor
    · intro h
      apply String.ext
      exact List.length_eq_zero.mp h
    · intro h
      rw [h]
      rfl
  have hg : (0 < q.GroupByFields.length) = ¬ (q.GroupByFields = []) := by
    apply propext
    rw [List.length_pos]
  unfold Query.String
  simp only [hw, hg, ← writeFields_append_writeVerbatim, writeVerbatim_eq_join]
  by_cases h : q.GroupByFields = []
  · simp only [h, not_true_eq_false, if_false, if_true, String.append_assoc]
    simp
  · simp only [h, not_false_eq_true, if_false, if_true, String.append_assoc]

/-- C16: the select list that `Query.String` writes after `SELECT ` is the elements of
`Fields`, each rendered by `renderField`, followed by the elements of `NonSchemaFields`
verbatim, separated by `, `; `renderField` leaves `*` and the sentinel `''` as they are and
applies `strconv.Quote` to every other field. What follows the select list is the text
that the rest of the method writes, starting with ` FROM `. -/
theorem Query_String_select_list (q : Query) :
    q.String = "SELECT " ++ stringsJoin (q.Fields.map renderField ++ q.NonSchemaFields) ", "
        ++ (" FROM " ++ q.FromClause ++ (if q.WhereClause.length = 0 then "" else " WHERE ")
          ++ q.WhereClause ++ " " ++ stringsJoin q.SuffixClauses " ")
        ++ (if 0 < q.GroupByFields.length
            then " GROUP BY (" ++ writeVerbatim q.GroupByFields ++ ")" else "")
      ∧ ∀ field ∈ q.Fields,
          ((field = "*" ∨ field = "''") → renderField field = field)
          ∧ (¬ (field = "*" ∨ field = "''") → renderField field = strconvQuote field) := by
  constructor
  · unfold Query.String
    simp only [← writeFields_append_writeVerbatim]
    by_cases h : 0 < q.GroupByFields.length
    · simp only [h, if_true, String.append_assoc]
    · simp only [h, if_false, String.append_assoc]
      simp
  · intro field _
    constructor
    · intro h
      unfold renderField EmptyFieldSelection
      rw [if_pos h]
    · intro h
      unfold renderField EmptyFieldSelection
      rw [if_neg h]

/-- C17: for a query with an empty `WhereClause`, `Query.String` writes, after ` FROM ` and
the FROM clause, a space, the suffix clauses joined by spaces and, if there are group-by
fields, the GROUP BY clause: it inserts neither ` WHERE ` nor a predicate. -/
theorem Query_String_empty_where (q : Query) (hw : q.WhereClause = "") :
    q.String = "SELECT " ++ stringsJoin (q.Fields.map renderField ++ q.NonSchemaFields) ", "
      ++ " FROM " ++ q.FromClause ++ " " ++ stringsJoin q.SuffixClauses " "
      ++ (if q.GroupByFields = [] then ""
          else " GROUP BY (" ++ stringsJoin q.GroupByFields ", " ++ ")") := by
  rw [Query_String_eq, hw]
  simp only [if_true, String.append_assoc]
  simp

/-- Witness of C17: a query with an empty WHERE, a suffix clause and a group-by field. -/
theorem Query_String_empty_where_witness :
    ({ Fields := ["host"], NonSchemaFields := ["count()"], WhereClause := "",
       GroupByFields := ["\"host\""], SuffixClauses := ["LIMIT 5"], FromClause := "t",
       CanParse := true } : Query).String
      = "SELECT " ++ stringsJoin (["host"].map renderField ++ ["count()"]) ", "
      ++ " FROM " ++ "t" ++ " " ++ stringsJoin ["LIMIT 5"] " "
      ++ (if ["\"host\""] = ([] : List String) then ""
          else " GROUP BY (" ++ stringsJoin ["\"host\""] ", " ++ ")") :=
  Query_String_empty_where
    { Fields := ["host"], NonSchemaFields := ["count()"], WhereClause := "",
      GroupByFields := ["\"host\""], SuffixClauses := ["LIMIT 5"], FromClause := "t",
      CanParse := true } rfl

/-- C18 (defect in the code): for a query with group-by fields and suffix clauses,
`Query.String` writes the suffix clauses before the `GROUP BY (...)` clause, which ends
the text: the order is SELECT, FROM, WHERE, suffix clauses (ORDER BY, LIMIT), GROUP BY. -/
theorem Query_String_group_by_after_suffix (q : Query) (hg : q.GroupByFields ≠ [])
    (hs : q.SuffixClauses ≠ []) :
    ∃ first more, q.SuffixClauses = first :: more
      ∧ q.String = "SELECT "
        ++ stringsJoin (q.Fields.map renderField ++ q.NonSchemaFields) ", "
        ++ " FROM " ++ q.FromClause ++ (if q.WhereClause = "" then "" else " WHERE ")
        ++ q.WhereClause ++ " " ++ stringsJoin (first :: more) " "
        ++ " GROUP BY (" ++ stringsJoin q.GroupByFields ", " ++ ")" := by
  have hq := Query_String_eq q
  rw [if_neg hg] at hq
  cases hc : q.SuffixClauses with
  | nil => exact absurd hc hs
  | cons first more =>
    refine ⟨first, more, rfl, ?_⟩
    rw [hq, hc]
    simp only [String.append_assoc]

/-- Witness of C18: a query with the group-by field `"host"` and the suffix clauses
`ORDER BY count() DESC` and `LIMIT 5`, which renders as
`SELECT "host", count() FROM t ORDER BY count() DESC LIMIT 5 GROUP BY ("host")`. -/
theorem Query_String_group_by_after_suffix_witness :
    (∃ first more, ["ORDER BY count() DESC", "LIMIT 5"] = first :: more
      ∧ ({ Fields := ["host"], NonSchemaFields := ["count()"], WhereClause := "",
           GroupByFields := ["\"host\""], SuffixClauses := ["ORDER BY count() DESC", "LIMIT 5"],
           FromClause := "t", CanParse := true } : Query).String = "SELECT "
        ++ stringsJoin (["host"].map renderField ++ ["count()"]) ", "
        ++ " FROM " ++ "t" ++ (if "" = "" then "" else " WHERE ")
        ++ "" ++ " " ++ stringsJoin (first :: more) " "
        ++ " GROUP BY (" ++ stringsJoin ["\"host\""] ", " ++ ")")
    ∧ ({ Fields := ["host"], NonSchemaFields := ["count()"], WhereClause := "",
         GroupByFields := ["\"host\""], SuffixClauses := ["ORDER BY count() DESC", "LIMIT 5"],
         FromClause := "t", CanParse := true } : Query).String
        = "SELECT \"host\", count() FROM t ORDER BY count() DESC LIMIT 5 GROUP BY (\"host\")" :=
  ⟨Query_String_group_by_after_suffix
    { Fields := ["host"], NonSchemaFields := ["count()"], WhereClause := "",
      GroupByFields := ["\"host\""], SuffixClauses := ["ORDER BY count() DESC", "LIMIT 5"],
      FromClause := "t", CanParse := true } (by decide) (by decide), by decide⟩

/-! ## Well-formed aggregation trees are planned -/

theorem QueryMap.delete_of_get_none (q : QueryMap) (k : String)
    (h : QueryMap.get q k = none) : QueryMap.delete q k = q := by
  induction q with
  | nil => rfl
  | cons kv rest ih =>
    obtain ⟨k0, v0⟩ := kv
    rw [QueryMap.get_cons] at h
    by_cases hk : k0 = k
    · simp [hk] at h
    · simp only [hk, if_false] at h
      rw [QueryMap.delete_cons]
      simp [hk, ih h]

theorem parseAggregationAux_succ_of_steps (cw : ClickhouseQueryTranslator) (fuel : Nat)
    (b : aggrQueryBuilder) (q : QueryMap) (acc : List QueryWithAggregation)
    (m : metricsAggregation) (b1 : aggrQueryBuilder) (q1 : QueryMap)
    (acc1 : List QueryWithAggregation) (f1 : Bool) (b3 : aggrQueryBuilder) (q3 : QueryMap)
    (present added : Bool) (b4 b5 : aggrQueryBuilder) (acc5 : List QueryWithAggregation)
    (b7 : aggrQueryBuilder) (acc7 : List QueryWithAggregation) (b8 : aggrQueryBuilder)
    (hq : q ≠ [])
    (hm : tryMetricsAggregation cw q = .ok (m, false))
    (hf : parseFilterOnThisLevel cw b q acc = .ok (b1, q1, acc1, f1))
    (hb : tryBucketAggregation cw b1 (q1.delete "filters") = .ok (b3, q3, present, added))
    (h4 : (if added then markLastAggregatorNotEmpty b3 else .ok b3) = .ok b4)
    (h5 : parseNestedAggs (parseAggregationAux cw fuel) b4 q3 acc1 = .ok (b5, acc5))
    (h7 : parseNamedAggregations (parseAggregationAux cw fuel) (q3.delete "aggs") b5
        (if present then acc5 ++ [buildBucketAggregation b5] else acc5) = .ok (b7, acc7))
    (h8 : restoreAfterNesting b7 (f1 || (q1.get "filters").isSome) b.whereBuilder added
        b.«Type» = .ok b8) :
    parseAggregationAux cw (fuel + 1) b q acc = .ok (b8, acc7) := by
  unfold parseAggregationAux
  have hlen : q.length ≠ 0 := by simpa using hq
  simp only [hlen, if_false, hm, hf, hb, liftPanic, bind, Except.bind, Bool.false_eq_true]
  cases added with
  | true =>
    simp only [if_true] at h4
    simp only [if_true, h4, liftPanic, h5, h7, h8, pure, Except.pure]
  | false =>
    simp only [Bool.false_eq_true, if_false, Except.ok.injEq] at h4
    subst h4
    simp only [Bool.false_eq_true, if_false, h5, h7, h8, liftPanic, pure, Except.pure]

theorem tryMetricsAggregation_not_metric (cw : ClickhouseQueryTranslator) (q : QueryMap)
    (h : q.length ≠ 1 ∨ ∃ k v, q = [(k, v)] ∧ k ∉ metricKeys) :
    tryMetricsAggregation cw q = .ok (metricsAggregation.zero, false) := by
  rcases h with h | ⟨k, v, rfl, hk⟩
  · unfold tryMetricsAggregation
    rw [if_pos h]
    rfl
  · simp only [metricKeys, metricsAggregations, List.cons_append, List.nil_append,
      List.mem_cons, List.mem_singleton, List.mem_nil_iff, or_false, not_or] at hk
    obtain ⟨k1, k2, k3, k4, k5, k6, k7, k8, k9, k10, k11⟩ := hk
    simp [tryMetricsAggregation, metricsAggregations, QueryMap.get, k1, k2, k3, k4, k5, k6, k7,
      k8, k9, k10, k11, pure, Except.pure]

theorem parseFilterOnThisLevel_total (cw : ClickhouseQueryTranslator) (b : aggrQueryBuilder)
    (q : QueryMap) (acc : List QueryWithAggregation)
    (h : ∀ v, QueryMap.get q "filter" = some v →
      ∃ params w, v = JsonValue.obj params ∧ cw.parseQueryMap params = .ok w) :
    ∃ b1 acc1 f1, parseFilterOnThisLevel cw b q acc = .ok (b1, q.delete "filter", acc1, f1)
      ∧ b1.Aggregators = b.Aggregators := by
  unfold parseFilterOnThisLevel
  cases hg : QueryMap.get q "filter" with
  | none =>
    rw [QueryMap.delete_of_get_none q "filter" hg]
    exact ⟨b, acc, false, rfl, rfl⟩
  | some v =>
    obtain ⟨params, w, rfl, hw⟩ := h v hg
    simp only [JsonValue.asQueryMap, hw, bind, Except.bind, pure, Except.pure]
    exact ⟨_, _, true, rfl, rfl⟩

theorem histogramInterval_total (v : JsonValue) (h : IsHistogramInterval v) :
    ∃ i, histogramInterval v = .ok i := by
  rcases h with ⟨s, rfl⟩ | ⟨i, rfl⟩ | ⟨f, rfl⟩
  · simp only [histogramInterval]
    split <;> exact ⟨_, rfl⟩
  · exact ⟨_, rfl⟩
  · exact ⟨_, rfl⟩

theorem tryBucketAggregation_total (cw : ClickhouseQueryTranslator) (b : aggrQueryBuilder)
    (q : QueryMap) (h : WellFormedBuckets cw q) :
    ∃ b' present added, tryBucketAggregation cw b q
      = .ok (b', (match bucketKey q with
          | some k => QueryMap.delete q k
          | none => q), present, added) := by
  obtain ⟨hh, hd, ht, hr, hbo⟩ := h
  unfold tryBucketAggregation
  cases h1 : QueryMap.get q "histogram" with
  | some v =>
    obtain ⟨params, field, rfl, hf, hi⟩ := hh v h1
    obtain ⟨i, hi⟩ := histogramInterval_total _ hi
    have hk : bucketKey q = some "histogram" := by simp [bucketKey, h1]
    simp only [hk, JsonValue.asQueryMap, hf, JsonValue.asString, hi, bind, Except.bind, pure,
      Except.pure]
    exact ⟨_, _, _, rfl⟩
  | none =>
  cases h2 : QueryMap.get q "date_histogram" with
  | some v =>
    obtain ⟨params, interval, expr, rfl, hi, he⟩ := hd v h2
    have hk : bucketKey q = some "date_histogram" := by simp [bucketKey, h1, h2]
    simp only [hk, JsonValue.asQueryMap, hi, he, bind, Except.bind, pure, Except.pure]
    exact ⟨_, _, _, rfl⟩
  | none =>
  cases h3 : QueryMap.get q "terms" with
  | some v =>
    obtain ⟨params, field, rfl, hf⟩ := ht v h3
    have hk : bucketKey q = some "terms" := by simp [bucketKey, h1, h2, h3]
    simp only [hk, JsonValue.asQueryMap, hf, JsonValue.asString, bind, Except.bind, pure,
      Except.pure]
    exact ⟨_, _, _, rfl⟩
  | none =>
  cases h4 : QueryMap.get q "sampler" with
  | some v =>
    have hk : bucketKey q = some "sampler" := by simp [bucketKey, h1, h2, h3, h4]
    simp only [hk, pure, Except.pure]
    exact ⟨_, _, _, rfl⟩
  | none =>
  cases h5 : QueryMap.get q "random_sampler" with
  | some v =>
    have hk : bucketKey q = some "random_sampler" := by simp [bucketKey, h1, h2, h3, h4, h5]
    simp only [hk, pure, Except.pure]
    exact ⟨_, _, _, rfl⟩
  | none =>
  cases h6 : QueryMap.get q "range" with
  | some v =>
    obtain ⟨params, w, rfl, hw⟩ := hr v h6
    have hk : bucketKey q = some "range" := by simp [bucketKey, h1, h2, h3, h4, h5, h6]
    simp only [hk, JsonValue.asQueryMap, hw, bind, Except.bind, pure, Except.pure]
    exact ⟨_, _, _, rfl⟩
  | none =>
  cases h7 : QueryMap.get q "bool" with
  | some v =>
    obtain ⟨params, w, rfl, hw⟩ := hbo v h7
    have hk : bucketKey q = some "bool" := by simp [bucketKey, h1, h2, h3, h4, h5, h6, h7]
    simp only [hk, JsonValue.asQueryMap, hw, bind, Except.bind, pure, Except.pure]
    exact ⟨_, _, _, rfl⟩
  | none =>
    have hk : bucketKey q = none := by simp [bucketKey, h1, h2, h3, h4, h5, h6, h7]
    simp only [hk, pure, Except.pure]
    exact ⟨_, _, _, rfl⟩

theorem wellFormedBuckets_delete (cw : ClickhouseQueryTranslator) (q : QueryMap) (k : String)
    (hk : k ∉ ["histogram", "date_histogram", "terms", "range", "bool"])
    (h : WellFormedBuckets cw q) : WellFormedBuckets cw (QueryMap.delete q k) := by
  simp only [List.mem_cons, List.mem_singleton, List.mem_nil_iff, or_false, not_or] at hk
  obtain ⟨k1, k2, k3, k4, k5⟩ := hk
  obtain ⟨hh, hd, ht, hr, hbo⟩ := h
  refine ⟨?_, ?_, ?_, ?_, ?_⟩
  · intro v hv
    rw [QueryMap.get_delete_ne _ _ _ (Ne.symm k1)] at hv
    exact hh v hv
  · intro v hv
    rw [QueryMap.get_delete_ne _ _ _ (Ne.symm k2)] at hv
    exact hd v hv
  · intro v hv
    rw [QueryMap.get_delete_ne _ _ _ (Ne.symm k3)] at hv
    exact ht v hv
  · intro v hv
    rw [QueryMap.get_delete_ne _ _ _ (Ne.symm k4)] at hv
    exact hr v hv
  · intro v hv
    rw [QueryMap.get_delete_ne _ _ _ (Ne.symm k5)] at hv
    exact hbo v hv

theorem markLastAggregatorNotEmpty_total (b : aggrQueryBuilder) (h : b.Aggregators ≠ []) :
    ∃ b', markLastAggregatorNotEmpty b = .ok b' := by
  unfold markLastAggregatorNotEmpty
  cases hl : b.Aggregators.getLast? with
  | none => exact absurd (List.getLast?_eq_none_iff.mp hl) h
  | some last => exact ⟨_, rfl⟩

theorem restoreAfterNesting_total (b : aggrQueryBuilder) (f : Bool) (w : SimpleQuery)
    (added : Bool) (t : QueryType) (h : added = true → b.NonSchemaFields ≠ []) :
    ∃ b', restoreAfterNesting b f w added t = .ok b' := by
  unfold restoreAfterNesting
  have hw : (if f = true then { b with whereBuilder := w } else b)
      = { b with whereBuilder := if f then w else b.whereBuilder } := by
    cases f <;> rfl
  rw [hw]
  by_cases hc : added = true ∧ 0 < b.GroupByFields.length
  · have hl : ¬ b.NonSchemaFields.length = 0 := by
      intro hl
      exact h hc.1 (List.length_eq_zero.mp hl)
    simp only [hc, and_self, if_true, dropLastGo, hl, if_false, bind, Except.bind, pure,
      Except.pure]
    exact ⟨_, rfl⟩
  · simp only [hc, if_false, bind, Except.bind, pure, Except.pure]
    exact ⟨_, rfl⟩
theorem parseNamedAggregations_total
    (parse : aggrQueryBuilder → QueryMap → List QueryWithAggregation →
      Except Abort (aggrQueryBuilder × List QueryWithAggregation))
    (hframe : ∀ b q acc b' acc', parse b q acc = .ok (b', acc') →
      Framed b b' ∧ Extends b acc acc') :
    ∀ (named : QueryMap) (b : aggrQueryBuilder) (acc : List QueryWithAggregation),
      (∀ k v, (k, v) ∈ named → ∃ node, v = JsonValue.obj node
        ∧ ∀ b acc, b.Aggregators ≠ [] → ∃ r, parse b node acc = .ok r) →
      ∃ r, parseNamedAggregations parse named b acc = .ok r := by
  intro named
  induction named with
  | nil => intro b acc _; exact ⟨_, rfl⟩
  | cons kv rest ih =>
    intro b acc h
    obtain ⟨k, v⟩ := kv
    obtain ⟨node, rfl, hnode⟩ := h k v (List.mem_cons_self _ _)
    obtain ⟨⟨b2, acc2⟩, hp⟩ := hnode
      { b with Aggregators := b.Aggregators ++ [NewAggregatorEmpty k] } acc (by simp)
    obtain ⟨⟨-, -, -, -, hnames, -⟩, -⟩ := hframe _ _ _ _ _ hp
    have hne : ¬ b2.Aggregators.length = 0 := by
      have := congrArg List.length hnames
      simp only [List.length_map, List.length_append, List.length_singleton] at this
      omega
    obtain ⟨r, hr⟩ := ih { b2 with Aggregators := b2.Aggregators.dropLast } acc2
      (fun k' v' hm => h k' v' (List.mem_cons_of_mem _ hm))
    refine ⟨r, ?_⟩
    unfold parseNamedAggregations
    simp only [JsonValue.asQueryMap, liftPanic, bind, Except.bind, hp, dropLastGo, hne, if_false]
    exact hr

/-- A well-formed node is planned: with more fuel than the node is deep, from a builder
with a non-empty trail, `parseAggregationAux` returns. -/
theorem parseAggregationAux_wellFormed (cw : ClickhouseQueryTranslator) (q : QueryMap)
    (hwf : WellFormedNode cw q) :
    ∀ (fuel : Nat) (b : aggrQueryBuilder) (acc : List QueryWithAggregation),
      JsonValue.mapDepth q < fuel → b.Aggregators ≠ [] →
      ∃ r, parseAggregationAux cw fuel b q acc = .ok r := by
  induction hwf with
  | empty =>
    intro fuel b acc hfuel _
    cases fuel with
    | zero => omega
    | succ fuel => exact ⟨(b, acc), by simp [parseAggregationAux, pure, Except.pure]⟩
  | metric k v hm =>
    intro fuel b acc hfuel _
    cases fuel with
    | zero => omega
    | succ fuel =>
      obtain ⟨m, e, hm, he⟩ := wellFormedMetric_builds cw b k v hm
      exact ⟨_, parseAggregationAux_metric cw fuel b k v acc m e hm he⟩
  | level q hnm hfilter hbuckets haggsObj _ hnamedObj _ ih_aggs ih_named =>
    intro fuel b acc hfuel htrail
    cases fuel with
    | zero => omega
    | succ fuel =>
      by_cases hq : q = []
      · subst hq
        exact ⟨(b, acc), by simp [parseAggregationAux, pure, Except.pure]⟩
      have hm := tryMetricsAggregation_not_metric cw q hnm
      obtain ⟨b1, acc1, f1, hf, hb1A⟩ := parseFilterOnThisLevel_total cw b q acc hfilter
      have hwb2 : WellFormedBuckets cw ((QueryMap.delete q "filter").delete "filters") :=
        wellFormedBuckets_delete cw _ _ (by decide)
          (wellFormedBuckets_delete cw _ _ (by decide) hbuckets)
      obtain ⟨b3, present, added, hb⟩ := tryBucketAggregation_total cw b1 _ hwb2
      obtain ⟨hsub3, haggs3, -, hb3A, hadd⟩ := tryBucketAggregation_ok cw _ _ _ _ _ _ hb
      have hsubq : ∀ x, x ∈ (match bucketKey ((QueryMap.delete q "filter").delete "filters") with
          | some k => QueryMap.delete ((QueryMap.delete q "filter").delete "filters") k
          | none => (QueryMap.delete q "filter").delete "filters") → x ∈ q :=
        fun x hx => QueryMap.delete_subset _ _ (QueryMap.delete_subset _ _ (hsub3 hx))
      have haggsq : QueryMap.get (match bucketKey ((QueryMap.delete q "filter").delete "filters") with
          | some k => QueryMap.delete ((QueryMap.delete q "filter").delete "filters") k
          | none => (QueryMap.delete q "filter").delete "filters") "aggs"
          = QueryMap.get q "aggs" := by
        rw [haggs3, QueryMap.get_delete_ne _ _ _ (by decide),
          QueryMap.get_delete_ne _ _ _ (by decide)]
      have hb3ne : b3.Aggregators ≠ [] := by rw [hb3A, hb1A]; exact htrail
      -- the trail element of the level is marked
      obtain ⟨b4, h4, hb4ne, hb4N⟩ : ∃ b4,
          (if added then markLastAggregatorNotEmpty b3 else .ok b3) = .ok b4
          ∧ b4.Aggregators ≠ [] ∧ b4.NonSchemaFields = b3.NonSchemaFields := by
        cases added with
        | true =>
          obtain ⟨b4, h4⟩ := markLastAggregatorNotEmpty_total b3 hb3ne
          obtain ⟨last, -, hb4⟩ := markLastAggregatorNotEmpty_ok b3 b4 h4
          refine ⟨b4, by simpa using h4, ?_, ?_⟩
          · rw [hb4]; simp
          · rw [hb4]
        | false => exact ⟨b3, by simp, hb3ne, rfl⟩
      -- the node under `aggs`
      obtain ⟨b5, acc5, h5⟩ : ∃ b5 acc5, parseNestedAggs (parseAggregationAux cw fuel) b4
          (match bucketKey ((QueryMap.delete q "filter").delete "filters") with
            | some k => QueryMap.delete ((QueryMap.delete q "filter").delete "filters") k
            | none => (QueryMap.delete q "filter").delete "filters") acc1 = .ok (b5, acc5) := by
        unfold parseNestedAggs
        rw [haggsq]
        cases hg : QueryMap.get q "aggs" with
        | none => exact ⟨_, _, rfl⟩
        | some v =>
          obtain ⟨node, rfl⟩ := haggsObj v hg
          have hd := depth_le_mapDepth q "aggs" _ (QueryMap.get_mem q "aggs" _ hg)
          simp only [JsonValue.depth] at hd
          obtain ⟨⟨b5, acc5⟩, h5⟩ := ih_aggs node hg fuel b4 acc1 (by omega) hb4ne
          exact ⟨b5, acc5, by
            simp only [JsonValue.asQueryMap, liftPanic, bind, Except.bind]
            exact h5⟩
      have hfr5 : Framed b4 b5 := by
        unfold parseNestedAggs at h5
        rw [haggsq] at h5
        cases hg : QueryMap.get q "aggs" with
        | none =>
          simp only [hg, pure, Except.pure, Except.ok.injEq, Prod.mk.injEq] at h5
          rw [← h5.1]
          exact framed_refl _
        | some v =>
          obtain ⟨node, rfl⟩ := haggsObj v hg
          simp only [hg, JsonValue.asQueryMap, liftPanic, bind, Except.bind] at h5
          exact (parseAggregationAux_frame cw fuel _ _ _ _ _ h5).1
      -- the named sub-aggregations
      obtain ⟨⟨b7, acc7⟩, h7⟩ := parseNamedAggregations_total (parseAggregationAux cw fuel)
        (parseAggregationAux_frame cw fuel)
        (QueryMap.delete (match bucketKey ((QueryMap.delete q "filter").delete "filters") with
          | some k => QueryMap.delete ((QueryMap.delete q "filter").delete "filters") k
          | none => (QueryMap.delete q "filter").delete "filters") "aggs") b5
        (if present then acc5 ++ [buildBucketAggregation b5] else acc5)
        (by
          intro k v hmem
          obtain ⟨node, rfl⟩ := hnamedObj k v hmem
          refine ⟨node, rfl, ?_⟩
          intro b' acc' hb'
          have hd := depth_le_mapDepth q k _ (hsubq _ (QueryMap.delete_subset _ _ hmem))
          simp only [JsonValue.depth] at hd
          exact ih_named k node hmem fuel b' acc' (by omega) hb')
      obtain ⟨hfr7, -, -⟩ := parseNamedAggregations_frame (parseAggregationAux cw fuel)
        (parseAggregationAux_frame cw fuel) _ _ _ _ _ h7
      -- the state of the builder is restored
      obtain ⟨b8, h8⟩ := restoreAfterNesting_total b7
        (f1 || (QueryMap.get (QueryMap.delete q "filter") "filters").isSome) b.whereBuilder added
        b.«Type» (by
          intro hadded
          rw [hfr7.2.2.1, hfr5.2.2.1, hb4N]
          rcases hadd with ⟨-, -, -, -, g, s, -, hs, -⟩ | ⟨hfalse, -⟩
          · rw [hs]; simp
          · rw [hadded] at hfalse; exact absurd hfalse (by simp))
      exact ⟨_, parseAggregationAux_succ_of_steps cw fuel b q acc _ b1 _ acc1 f1 b3 _ present
        added b4 b5 acc5 b7 acc7 b8 hq hm hf hb h4 h5 h7 h8⟩
theorem parseAggregation_wellFormed (cw : ClickhouseQueryTranslator) (q : QueryMap)
    (hwf : WellFormedNode cw q) (b : aggrQueryBuilder) (acc : List QueryWithAggregation)
    (hb : b.Aggregators ≠ []) : ∃ r, parseAggregation cw b q acc = .ok r :=
  parseAggregationAux_wellFormed cw q hwf _ b acc (Nat.lt_succ_self _) hb

theorem ParseAggregationJson_wellFormed (cw : ClickhouseQueryTranslator) (body : QueryMap)
    (w : SimpleQuery) (hq : QueryPartParsed cw body w) (tree : QueryMap)
    (ha : QueryMap.get body "aggs" = some (JsonValue.obj tree))
    (hwf : WellFormedTree cw tree) :
    ∃ plan, ParseAggregationJson cw (.ok body) = .ok (.ok plan) ∧ plan ≠ [] := by
  have hframe : ∀ b q acc b' acc', parseAggregation cw b q acc = .ok (b', acc') →
      Framed b b' ∧ Extends b acc acc' :=
    fun b q acc b1 acc1 hp => parseAggregationAux_frame cw _ b q acc b1 acc1 hp
  obtain ⟨⟨b', plan⟩, hn⟩ := parseNamedAggregations_total (parseAggregation cw) hframe tree
    (rootBuilder cw w) [buildCountAggregation (rootBuilder cw w)]
    (by
      intro k v hmem
      obtain ⟨node, rfl, hnode⟩ := hwf k v hmem
      exact ⟨node, rfl, fun b acc hb => parseAggregation_wellFormed cw node hnode b acc hb⟩)
  obtain ⟨-, -, rest, hrest, -⟩ := parseNamedAggregations_frame (parseAggregation cw) hframe
    tree _ _ b' plan hn
  refine ⟨plan, ParseAggregationJson_of_named cw body w hq tree ha b' plan hn, ?_⟩
  rw [hrest]
  simp

/-- C14: for a request body whose `query` part is absent or parsed by the predicate
builder, `ParseAggregationJson` returns the error `no aggs` and no plan if the body has no
key `aggs`, and returns a plan, which is not empty, and no error if the body has under
`aggs` a well-formed aggregation tree. -/
theorem ParseAggregationJson_plan_or_error (cw : ClickhouseQueryTranslator) (body : QueryMap)
    (w : SimpleQuery) (hq : QueryPartParsed cw body w) :
    (QueryMap.get body "aggs" = none →
        ParseAggregationJson cw (.ok body) = .ok (.error "no aggs"))
      ∧ (∀ tree, QueryMap.get body "aggs" = some (JsonValue.obj tree) → WellFormedTree cw tree →
          ∃ plan, ParseAggregationJson cw (.ok body) = .ok (.ok plan) ∧ plan ≠ []) :=
  ⟨ParseAggregationJson_no_aggs cw body w hq,
   fun tree ha hwf => ParseAggregationJson_wellFormed cw body w hq tree ha hwf⟩

theorem wellFormedBuckets_of_none (cw : ClickhouseQueryTranslator) (q : QueryMap)
    (h1 : QueryMap.get q "histogram" = none) (h2 : QueryMap.get q "date_histogram" = none)
    (h3 : ∀ v, QueryMap.get q "terms" = some v → ∃ params field, v = JsonValue.obj params
      ∧ QueryMap.index params "field" = JsonValue.str field)
    (h4 : QueryMap.get q "range" = none) (h5 : QueryMap.get q "bool" = none) :
    WellFormedBuckets cw q := by
  refine ⟨?_, ?_, h3, ?_, ?_⟩
  · intro v hv; rw [h1] at hv; cases hv
  · intro v hv; rw [h2] at hv; cases hv
  · intro v hv; rw [h4] at hv; cases hv
  · intro v hv; rw [h5] at hv; cases hv

/-- The tree of scenario S3 is well-formed, for every translator. -/
theorem treeS3_wellFormed (cw : ClickhouseQueryTranslator) : WellFormedTree cw treeS3 := by
  intro k v hmem
  simp only [treeS3, List.mem_singleton, Prod.mk.injEq] at hmem
  obtain ⟨-, rfl⟩ := hmem
  refine ⟨_, rfl, ?_⟩
  apply WellFormedNode.level
  · exact Or.inl (by decide)
  · intro v hv; cases hv
  · refine wellFormedBuckets_of_none cw _ ?_ ?_ ?_ ?_ ?_
    · rfl
    · rfl
    · intro v hv
      cases hv
      exact ⟨_, "host", rfl, rfl⟩
    · rfl
    · rfl
  · intro v hv
    cases hv
    exact ⟨_, rfl⟩
  · intro node hv
    cases hv
    apply WellFormedNode.level
    · exact Or.inr ⟨"latency_avg", _, rfl, by decide⟩
    · intro v hv; cases hv
    · refine wellFormedBuckets_of_none cw _ ?_ ?_ ?_ ?_ ?_
      · rfl
      · rfl
      · intro v hv
        cases hv
      · rfl
      · rfl
    · intro v hv; cases hv
    · intro node hv; cases hv
    · intro k v hmem
      have e : namedSubAggregations [("latency_avg", JsonValue.obj
          [("avg", JsonValue.obj [("field", JsonValue.str "latency")])])]
          = [("latency_avg", JsonValue.obj
          [("avg", JsonValue.obj [("field", JsonValue.str "latency")])])] := rfl
      rw [e] at hmem
      simp only [List.mem_singleton, Prod.mk.injEq] at hmem
      exact ⟨_, hmem.2⟩
    · intro k node hmem
      have e : namedSubAggregations [("latency_avg", JsonValue.obj
          [("avg", JsonValue.obj [("field", JsonValue.str "latency")])])]
          = [("latency_avg", JsonValue.obj
          [("avg", JsonValue.obj [("field", JsonValue.str "latency")])])] := rfl
      rw [e] at hmem
      simp only [List.mem_singleton, Prod.mk.injEq, JsonValue.obj.injEq] at hmem
      rw [hmem.2]
      exact WellFormedNode.metric _ _ ⟨_, rfl, Or.inl ⟨by decide, "latency", rfl⟩⟩
  · intro k v hmem
    exact absurd hmem (by
      show ¬ (k, v) ∈ ([] : QueryMap)
      simp)
  · intro k node hmem
    exact absurd hmem (by
      show ¬ (k, JsonValue.obj node) ∈ ([] : QueryMap)
      simp)

/-- Witness of C14: the body `{"query": {}, "aggs": T}` with the tree `T` of scenario S3,
planned by `sampleTranslator`. -/
theorem ParseAggregationJson_plan_or_error_witness :
    QueryPartParsed sampleTranslator [("query", JsonValue.obj []), ("aggs", JsonValue.obj treeS3)]
        { Sql := { Stmt := "\"service\"='api'" }, CanParse := true, FieldName := "service" }
      ∧ WellFormedTree sampleTranslator treeS3
      ∧ ∃ plan, ParseAggregationJson sampleTranslator
          (.ok [("query", JsonValue.obj []), ("aggs", JsonValue.obj treeS3)]) = .ok (.ok plan)
        ∧ plan ≠ [] :=
  ⟨Or.inr ⟨[], rfl, rfl⟩, treeS3_wellFormed sampleTranslator,
   (ParseAggregationJson_plan_or_error sampleTranslator
      [("query", JsonValue.obj []), ("aggs", JsonValue.obj treeS3)]
      { Sql := { Stmt := "\"service\"='api'" }, CanParse := true, FieldName := "service" }
      (Or.inr ⟨[], rfl, rfl⟩)).2 treeS3 rfl (treeS3_wellFormed sampleTranslator)⟩

/-! ## Splitting rows into buckets -/

theorem Value.same_refl (a : Value) : Value.same a a := by
  cases a <;> simp [Value.same]

theorem Value.same_symm {a b : Value} (h : Value.same a b) : Value.same b a := by
  cases a <;> cases b <;> simp_all [Value.same]

theorem Value.same_trans {a b c : Value} (hab : Value.same a b) (hbc : Value.same b c) :
    Value.same a c := by
  cases a <;> cases b <;> cases c <;> simp_all [Value.same]

theorem Value.ne_eq_ok (a b : Value) (d : Bool) (h : Value.ne a b = .ok d) :
    (d = true ↔ ¬ Value.same a b) := by
  cases a <;> cases b <;>
    simp_all [Value.ne, Value.same, pure, Except.pure] <;>
    (cases d <;> simp_all)

theorem Value.ne_total (a b : Value) (ha : ∀ fs, a ≠ Value.floats fs) :
    ∃ d, Value.ne a b = .ok d := by
  cases a <;> cases b <;> first
    | exact ⟨_, rfl⟩
    | exact absurd rfl (ha _)

theorem indexGo_eq_ok {α : Type} (xs : List α) (i : Nat) (x : α) :
    indexGo xs i = .ok x ↔ xs.get? i = some x := by
  unfold indexGo
  cases h : xs.get? i <;> simp [pure, Except.pure]

theorem indexGo_append_length {α : Type} (pre : List α) (x : α) :
    indexGo (pre ++ [x]) pre.length = .ok x := by
  rw [indexGo_eq_ok]
  simp

theorem set_append_length {α : Type} (pre : List α) (x y : α) :
    (pre ++ [x]).set pre.length y = pre ++ [y] := by
  induction pre with
  | nil => rfl
  | cons a rest ih => simp [List.set, ih]

theorem sameGroupByFieldsFrom_true (row1 row2 : QueryResultRow) :
    ∀ (n i : Nat), sameGroupByFieldsFrom row1 row2 i n = .ok true →
      ∀ j, i ≤ j → j < i + n → ∃ col1 col2, row1.Cols.get? j = some col1
        ∧ row2.Cols.get? j = some col2 ∧ Value.same col1.Value col2.Value := by
  intro n
  induction n with
  | zero => intro i _ j h1 h2; omega
  | succ n ih =>
    intro i h j h1 h2
    unfold sameGroupByFieldsFrom at h
    rw [bind_eq_ok] at h
    obtain ⟨col1, hc1, h⟩ := h
    rw [bind_eq_ok] at h
    obtain ⟨col2, hc2, h⟩ := h
    rw [bind_eq_ok] at h
    obtain ⟨differ, hd, h⟩ := h
    rw [indexGo_eq_ok] at hc1 hc2
    cases differ with
    | true => simp [pure, Except.pure] at h
    | false =>
      simp only [Bool.false_eq_true, if_false] at h
      by_cases hj : j = i
      · subst hj
        refine ⟨col1, col2, hc1, hc2, ?_⟩
        have := Value.ne_eq_ok _ _ _ hd
        simpa using this
      · exact ih (i + 1) h j (by omega) (by omega)

theorem sameGroupByFieldsFrom_false (row1 row2 : QueryResultRow) :
    ∀ (n i : Nat), sameGroupByFieldsFrom row1 row2 i n = .ok false →
      ∃ j, i ≤ j ∧ j < i + n ∧ ∃ col1 col2, row1.Cols.get? j = some col1
        ∧ row2.Cols.get? j = some col2 ∧ ¬ Value.same col1.Value col2.Value := by
  intro n
  induction n with
  | zero => intro i h; simp [sameGroupByFieldsFrom, pure, Except.pure] at h
  | succ n ih =>
    intro i h
    unfold sameGroupByFieldsFrom at h
    rw [bind_eq_ok] at h
    obtain ⟨col1, hc1, h⟩ := h
    rw [bind_eq_ok] at h
    obtain ⟨col2, hc2, h⟩ := h
    rw [bind_eq_ok] at h
    obtain ⟨differ, hd, h⟩ := h
    rw [indexGo_eq_ok] at hc1 hc2
    cases differ with
    | true =>
      exact ⟨i, Nat.le_refl _, by omega, col1, col2, hc1, hc2,
        (Value.ne_eq_ok _ _ _ hd).mp rfl⟩
    | false =>
      simp only [Bool.false_eq_true, if_false] at h
      obtain ⟨j, h1, h2, hj⟩ := ih (i + 1) h
      exact ⟨j, by omega, by omega, hj⟩

theorem sameGroupByFieldsFrom_total (row1 row2 : QueryResultRow) :
    ∀ (n i : Nat), i + n ≤ row1.Cols.length → i + n ≤ row2.Cols.length →
      (∀ j, i ≤ j → j < i + n → ∀ col fs, row1.Cols.get? j = some col →
        col.Value ≠ Value.floats fs) →
      ∃ s, sameGroupByFieldsFrom row1 row2 i n = .ok s := by
  intro n
  induction n with
  | zero => intro i _ _ _; exact ⟨true, rfl⟩
  | succ n ih =>
    intro i h1 h2 hc
    unfold sameGroupByFieldsFrom
    obtain ⟨col1, hc1⟩ : ∃ col1, row1.Cols.get? i = some col1 :=
      ⟨_, List.get?_eq_get (by omega)⟩
    obtain ⟨col2, hc2⟩ : ∃ col2, row2.Cols.get? i = some col2 :=
      ⟨_, List.get?_eq_get (by omega)⟩
    obtain ⟨d, hd⟩ := Value.ne_total col1.Value col2.Value
      (fun fs => hc i (Nat.le_refl _) (by omega) col1 fs hc1)
    rw [(indexGo_eq_ok _ _ _).mpr hc1, (indexGo_eq_ok _ _ _).mpr hc2]
    simp only [bind, Except.bind, hd]
    cases d with
    | true => exact ⟨false, rfl⟩
    | false =>
      simp only [Bool.false_eq_true, if_false]
      exact ih (i + 1) (by omega) (by omega)
        (fun j hj1 hj2 => hc j (by omega) (by omega))

theorem sameGroupByFields_true (row1 row2 : QueryResultRow) (level : Int)
    (h : sameGroupByFields row1 row2 level = .ok true) : SameKey row1 row2 level := by
  intro i hi
  exact sameGroupByFieldsFrom_true row1 row2 _ 0 h i (Nat.zero_le _) (by omega)

theorem sameGroupByFields_false (row1 row2 : QueryResultRow) (level : Int)
    (h : sameGroupByFields row1 row2 level = .ok false) : DifferInKey row1 row2 level := by
  obtain ⟨j, -, h2, hj⟩ := sameGroupByFieldsFrom_false row1 row2 _ 0 h
  exact ⟨j, by omega, hj⟩

theorem sameKey_symm {row1 row2 : QueryResultRow} {level : Int}
    (h : SameKey row1 row2 level) : SameKey row2 row1 level := by
  intro i hi
  obtain ⟨c1, c2, h1, h2, hs⟩ := h i hi
  exact ⟨c2, c1, h2, h1, Value.same_symm hs⟩

theorem sameKey_trans {row1 row2 row3 : QueryResultRow} {level : Int}
    (h12 : SameKey row1 row2 level) (h23 : SameKey row2 row3 level) :
    SameKey row1 row3 level := by
  intro i hi
  obtain ⟨c1, c2, h1, h2, hs⟩ := h12 i hi
  obtain ⟨c2', c3, h2', h3, hs'⟩ := h23 i hi
  rw [h2] at h2'
  cases h2'
  exact ⟨c1, c3, h1, h3, Value.same_trans hs hs'⟩

theorem sameKey_refl (row : QueryResultRow) (level : Int) (h : level < row.Cols.length) :
    SameKey row row level := by
  intro i hi
  have hlt : i < row.Cols.length := by omega
  exact ⟨_, _, List.get?_eq_get hlt, List.get?_eq_get hlt, Value.same_refl _⟩

theorem differInKey_symm {row1 row2 : QueryResultRow} {level : Int}
    (h : DifferInKey row1 row2 level) : DifferInKey row2 row1 level := by
  obtain ⟨i, hi, c1, c2, h1, h2, hs⟩ := h
  exact ⟨i, hi, c2, c1, h2, h1, fun h => hs (Value.same_symm h)⟩

theorem not_sameKey_of_differInKey {row1 row2 : QueryResultRow} {level : Int}
    (h : DifferInKey row1 row2 level) : ¬ SameKey row1 row2 level := by
  intro hs
  obtain ⟨i, hi, c1, c2, h1, h2, hd⟩ := h
  obtain ⟨c1', c2', h1', h2', hs'⟩ := hs i hi
  rw [h1] at h1'
  rw [h2] at h2'
  cases h1'
  cases h2'
  exact hd hs'

theorem sameGroupByFields_self (row : QueryResultRow) (level : Int) (s : Bool)
    (h : sameGroupByFields row row level = .ok s) : s = true := by
  cases s with
  | true => rfl
  | false =>
    obtain ⟨i, -, c1, c2, h1, h2, hd⟩ := sameGroupByFields_false row row level h
    rw [h1] at h2
    cases h2
    exact absurd (Value.same_refl _) hd

theorem sameGroupByFields_total (row1 row2 : QueryResultRow) (level : Int)
    (h1 : level < row1.Cols.length) (h2 : level < row2.Cols.length)
    (hc : ComparableKey row1 level) :
    ∃ s, sameGroupByFields row1 row2 level = .ok s := by
  apply sameGroupByFieldsFrom_total row1 row2 _ 0 (by omega) (by omega)
  intro j _ hj col fs hcol
  exact hc j (by omega) col fs hcol

/-- The loop of `splitResultSetIntoBuckets`, started with the buckets `pre ++ [bkt]` and the
index of `bkt`: what it returns, if it returns. -/
theorem splitResultSetIntoBucketsLoop_ok (level : Int) :
    ∀ (rows : List QueryResultRow) (pre : List (List QueryResultRow))
      (bkt : List QueryResultRow) (last : QueryResultRow) (out : List (List QueryResultRow)),
      splitResultSetIntoBucketsLoop level rows (pre ++ [bkt]) pre.length last = .ok out →
      (∀ row ∈ rows, level < row.Cols.length) →
      (∀ l, bkt.getLast? = some l → l = last) →
      (∀ r ∈ bkt, SameKey r last level) →
      ∃ bkt' more, out = pre ++ [bkt ++ bkt'] ++ more ∧ bkt' ++ more.flatten = rows
        ∧ (∀ b ∈ more, b ≠ [])
        ∧ (bkt' ≠ [] ∨ rows = []
            ∨ ∃ row, rows.head? = some row ∧ sameGroupByFields row last level = .ok false)
        ∧ (∀ r ∈ bkt ++ bkt', SameKey r last level)
        ∧ (∀ b ∈ more, ∀ r1 ∈ b, ∀ r2 ∈ b, SameKey r1 r2 level)
        ∧ List.Chain' (AdjacentBucketsDiffer level) ((bkt ++ bkt') :: more) := by
  intro rows
  induction rows with
  | nil =>
    intro pre bkt last out h _ _ hs
    simp only [splitResultSetIntoBucketsLoop, pure, Except.pure, Except.ok.injEq] at h
    subst h
    exact ⟨[], [], by simp, rfl, by simp, Or.inr (Or.inl rfl), by simpa using hs, by simp,
      List.chain'_singleton _⟩
  | cons row rest ih =>
    intro pre bkt last out h hcols hlast hs
    unfold splitResultSetIntoBucketsLoop at h
    rw [bind_eq_ok] at h
    obtain ⟨same, hsame, h⟩ := h
    have hrest : ∀ r ∈ rest, level < r.Cols.length :=
      fun r hr => hcols r (List.mem_cons_of_mem _ hr)
    cases same with
    | true =>
      simp only [if_true] at h
      rw [indexGo_append_length] at h
      simp only [bind, Except.bind, set_append_length] at h
      have hrow : SameKey row last level := sameGroupByFields_true _ _ _ hsame
      obtain ⟨bkt', more, hout, hjoin, hne, -, hall, huni, hchain⟩ :=
        ih pre (bkt ++ [row]) row out h hrest
          (by intro l hl; simpa using hl.symm)
          (by
            intro r hr
            rcases List.mem_append.mp hr with hr | hr
            · exact sameKey_trans (hs r hr) (sameKey_symm hrow)
            · rw [List.mem_singleton.mp hr]
              exact sameKey_trans hrow (sameKey_symm hrow))
      refine ⟨row :: bkt', more, ?_, ?_, hne, Or.inl (by simp), ?_, huni, ?_⟩
      · rw [hout]; simp
      · simp [hjoin]
      · intro r hr
        have hr2 : r ∈ bkt ++ [row] ++ bkt' := by simpa using hr
        exact sameKey_trans (hall r hr2) hrow
      · have e : bkt ++ row :: bkt' = bkt ++ [row] ++ bkt' := by simp
        rw [e]
        exact hchain
    | false =>
      simp only [Bool.false_eq_true, if_false] at h
      have hlen : pre.length + 1 = (pre ++ [bkt]).length := by simp
      rw [hlen] at h
      have hrr : SameKey row row level :=
        sameKey_refl row level (hcols row (List.mem_cons_self _ _))
      obtain ⟨bkt', more, hout, hjoin, hne, -, hall, huni, hchain⟩ :=
        ih (pre ++ [bkt]) [row] row out h hrest
          (by intro l hl; simpa using hl.symm)
          (by intro r hr; rw [List.mem_singleton.mp hr]; exact hrr)
      have hallp : ∀ r1 ∈ [row] ++ bkt', ∀ r2 ∈ [row] ++ bkt', SameKey r1 r2 level :=
        fun r1 h1 r2 h2 => sameKey_trans (hall r1 h1) (sameKey_symm (hall r2 h2))
      refine ⟨[], ([row] ++ bkt') :: more, ?_, ?_, ?_, Or.inr (Or.inr ⟨row, rfl, hsame⟩), ?_,
        ?_, ?_⟩
      · rw [hout]; simp
      · simpa using hjoin
      · intro b hb
        rcases List.mem_cons.mp hb with hb | hb
        · rw [hb]; simp
        · exact hne b hb
      · simpa using hs
      · intro b hb
        rcases List.mem_cons.mp hb with hb | hb
        · rw [hb]; exact hallp
        · exact huni b hb
      · rw [List.append_nil]
        refine List.Chain'.cons ?_ hchain
        intro l f hl hf
        have hl2 := hlast l hl
        subst hl2
        have hf2 : f = row := by simpa using hf.symm
        subst hf2
        exact differInKey_symm (sameGroupByFields_false _ _ _ hsame)

theorem splitResultSetIntoBucketsLoop_total (level : Int) :
    ∀ (rows : List QueryResultRow) (pre : List (List QueryResultRow))
      (bkt : List QueryResultRow) (last : QueryResultRow),
      (∀ row ∈ rows, level < row.Cols.length ∧ ComparableKey row level) →
      level < last.Cols.length →
      ∃ out, splitResultSetIntoBucketsLoop level rows (pre ++ [bkt]) pre.length last
        = .ok out := by
  intro rows
  induction rows with
  | nil => intro pre bkt last _ _; exact ⟨_, rfl⟩
  | cons row rest ih =>
    intro pre bkt last hrows hlast
    obtain ⟨hrow, hcomp⟩ := hrows row (List.mem_cons_self _ _)
    have hrest : ∀ r ∈ rest, level < r.Cols.length ∧ ComparableKey r level :=
      fun r hr => hrows r (List.mem_cons_of_mem _ hr)
    obtain ⟨s, hs⟩ := sameGroupByFields_total row last level hrow hlast hcomp
    unfold splitResultSetIntoBucketsLoop
    simp only [hs, bind, Except.bind]
    cases s with
    | true =>
      simp only [if_true, indexGo_append_length, set_append_length]
      exact ih pre (bkt ++ [row]) row hrest hrow
    | false =>
      simp only [Bool.false_eq_true, if_false]
      have hlen : pre.length + 1 = (pre ++ [bkt]).length := by simp
      rw [hlen]
      exact ih (pre ++ [bkt]) [row] row hrest hrow

theorem splitResultSetIntoBuckets_ok (rows : List QueryResultRow) (level : Int)
    (buckets : List (List QueryResultRow))
    (hcols : ∀ row ∈ rows, level < row.Cols.length)
    (h : splitResultSetIntoBuckets rows level = .ok buckets) :
    buckets.flatten = rows ∧ (∀ b ∈ buckets, b ≠ [])
      ∧ (∀ b ∈ buckets, ∀ r1 ∈ b, ∀ r2 ∈ b, SameKey r1 r2 level)
      ∧ List.Chain' (AdjacentBucketsDiffer level) buckets := by
  cases rows with
  | nil =>
    simp only [splitResultSetIntoBuckets, pure, Except.pure, Except.ok.injEq] at h
    subst h
    simp
  | cons row rest =>
    simp only [splitResultSetIntoBuckets] at h
    obtain ⟨bkt', more, hout, hjoin, hne, hfirst, hall, huni, hchain⟩ :=
      splitResultSetIntoBucketsLoop_ok level (row :: rest) [] [] row buckets h hcols
        (by simp) (by simp)
    simp only [List.nil_append] at hout hall hchain
    subst hout
    have hb : bkt' ≠ [] := by
      rcases hfirst with h1 | h1 | ⟨r, hr, hf⟩
      · exact h1
      · simp at h1
      · simp only [List.head?_cons, Option.some.injEq] at hr
        subst hr
        exact absurd (sameGroupByFields_self _ _ _ hf) (by simp)
    refine ⟨by simpa using hjoin, ?_, ?_, hchain⟩
    · intro b hb2
      rcases List.mem_cons.mp hb2 with h1 | h1
      · rw [h1]; exact hb
      · exact hne b h1
    · intro b hb2
      rcases List.mem_cons.mp hb2 with h1 | h1
      · rw [h1]
        exact fun r1 h1 r2 h2 => sameKey_trans (hall r1 h1) (sameKey_symm (hall r2 h2))
      · exact huni b h1

theorem stringsHasSuffix_iff (s suffix : String) :
    stringsHasSuffix s suffix = true ↔ ∃ t, s.data = t ++ suffix.data := by
  unfold stringsHasSuffix
  rw [List.isSuffixOf_iff_suffix]
  constructor
  · rintro ⟨t, ht⟩
    exact ⟨t, ht.symm⟩
  · rintro ⟨t, ht⟩
    exact ⟨t, ht.symm⟩

theorem stringsTrimSuffix_data_of_append (s suffix : String) (t : List Char)
    (h : s.data = t ++ suffix.data) : (stringsTrimSuffix s suffix).data = t := by
  unfold stringsTrimSuffix
  rw [if_pos ((stringsHasSuffix_iff s suffix).mpr ⟨t, h⟩), h]
  simp

theorem stringsTrimSuffix_of_not_suffix (s suffix : String)
    (h : stringsHasSuffix s suffix = false) : stringsTrimSuffix s suffix = s := by
  unfold stringsTrimSuffix
  simp [h]

theorem stringsTrimSuffix_eq_self_iff (s suffix : String) (hne : suffix.data ≠ []) :
    stringsTrimSuffix s suffix = s ↔ stringsHasSuffix s suffix = false := by
  constructor
  · intro h
    by_contra hc
    have hc : stringsHasSuffix s suffix = true := by simpa using hc
    obtain ⟨t, ht⟩ := (stringsHasSuffix_iff s suffix).mp hc
    have hd := stringsTrimSuffix_data_of_append s suffix t ht
    rw [h, ht] at hd
    have hl := congrArg List.length hd
    simp only [List.length_append] at hl
    have : suffix.data.length ≠ 0 := fun h0 => hne (List.length_eq_zero.mp h0)
    omega
  · exact stringsTrimSuffix_of_not_suffix s suffix

theorem stringsHasSuffix_trim_iff (s suffix : String) :
    stringsHasSuffix (stringsTrimSuffix s suffix) suffix = true
      ↔ stringsHasSuffix s (suffix ++ suffix) = true := by
  rw [stringsHasSuffix_iff, stringsHasSuffix_iff]
  constructor
  · rintro ⟨t, ht⟩
    by_cases hs : stringsHasSuffix s suffix = true
    · obtain ⟨u, hu⟩ := (stringsHasSuffix_iff s suffix).mp hs
      rw [stringsTrimSuffix_data_of_append s suffix u hu] at ht
      exact ⟨t, by rw [hu, ht]; simp⟩
    · have hs : stringsHasSuffix s suffix = false := by simpa using hs
      rw [stringsTrimSuffix_of_not_suffix s suffix hs] at ht
      rw [(stringsHasSuffix_iff s suffix).mpr ⟨t, ht⟩] at hs
      exact absurd hs (by simp)
  · rintro ⟨t, ht⟩
    have hu : s.data = (t ++ suffix.data) ++ suffix.data := by
      rw [ht]; simp
    exact ⟨t, stringsTrimSuffix_data_of_append s suffix _ hu⟩

theorem stringsTrimSuffix_keyword_idem_iff (x : String) :
    stringsTrimSuffix (stringsTrimSuffix x ".keyword") ".keyword" = stringsTrimSuffix x ".keyword"
      ↔ stringsHasSuffix x ".keyword.keyword" = false := by
  rw [stringsTrimSuffix_eq_self_iff _ _ (by decide)]
  have h := stringsHasSuffix_trim_iff x ".keyword"
  have e : (".keyword" : String) ++ ".keyword" = ".keyword.keyword" := by decide
  rw [e] at h
  cases h1 : stringsHasSuffix (stringsTrimSuffix x ".keyword") ".keyword" <;>
    cases h2 : stringsHasSuffix x ".keyword.keyword" <;> simp_all

/-- C28 (counterexample): on an entry with the field `a.keyword.keyword`, one application
of `TrimKeywordFromFields` leaves the field `a.keyword`, two applications leave the
field `a`. -/
theorem TrimKeywordFromFields_not_idempotent :
    doubleKeywordEntry.TrimKeywordFromFields.Fields = ["a.keyword"]
      ∧ doubleKeywordEntry.TrimKeywordFromFields.TrimKeywordFromFields.Fields = ["a"]
      ∧ doubleKeywordEntry.TrimKeywordFromFields.TrimKeywordFromFields
          ≠ doubleKeywordEntry.TrimKeywordFromFields := by
  decide

/-- C28 (amended): `TrimKeywordFromFields` strips one trailing `.keyword` from every
element of `Fields` and `GroupByFields`, so applying it twice gives the same entry as
applying it once if and only if no element of `Fields` or `GroupByFields` ends with
`.keyword.keyword`. -/
theorem TrimKeywordFromFields_twice (e : QueryWithAggregation) :
    e.TrimKeywordFromFields.TrimKeywordFromFields = e.TrimKeywordFromFields
      ↔ ∀ x ∈ e.Fields ++ e.GroupByFields, stringsHasSuffix x ".keyword.keyword" = false := by
  have key : ∀ l : List String,
      (l.map (fun f => stringsTrimSuffix f ".keyword")).map (fun f => stringsTrimSuffix f ".keyword")
        = l.map (fun f => stringsTrimSuffix f ".keyword")
      ↔ ∀ x ∈ l, stringsHasSuffix x ".keyword.keyword" = false := by
    intro l
    rw [List.map_map, List.map_inj_left]
    constructor
    · intro h x hx
      exact (stringsTrimSuffix_keyword_idem_iff x).mp (h x hx)
    · intro h x hx
      exact (stringsTrimSuffix_keyword_idem_iff x).mpr (h x hx)
  constructor
  · intro h x hx
    rcases List.mem_append.mp hx with hx | hx
    · exact (key e.Fields).mp (congrArg (fun q => q.Fields) h) x hx
    · exact (key e.GroupByFields).mp (congrArg (fun q => q.GroupByFields) h) x hx
  · intro h
    have h1 := (key e.Fields).mpr (fun x hx => h x (List.mem_append_left _ hx))
    have h2 := (key e.GroupByFields).mpr (fun x hx => h x (List.mem_append_right _ hx))
    unfold QueryWithAggregation.TrimKeywordFromFields
    simp only [h1, h2]

/-! ## Claims about the response formatters -/

theorem indexGoInt_eq_ok {α : Type} (xs : List α) (i : Int) (x : α) :
    indexGoInt xs i = .ok x ↔ 0 ≤ i ∧ xs.get? i.toNat = some x := by
  unfold indexGoInt
  by_cases h : i < 0
  · simp only [h, if_true]
    constructor
    · intro h2; cases h2
    · rintro ⟨h2, -⟩; omega
  · simp only [h, if_false, indexGo_eq_ok]
    constructor
    · intro h2; exact ⟨by omega, h2⟩
    · rintro ⟨-, h2⟩; exact h2

theorem indexGoInt_of_lt {α : Type} (xs : List α) (i : Int) (h0 : 0 ≤ i)
    (h : i < xs.length) : ∃ x, indexGoInt xs i = .ok x ∧ xs.get? i.toNat = some x := by
  have hlt : i.toNat < xs.length := by omega
  exact ⟨_, (indexGoInt_eq_ok xs i _).mpr ⟨h0, List.get?_eq_get hlt⟩, List.get?_eq_get hlt⟩

theorem dateHistogram_fold (level : Int) (h0 : 0 ≤ level) :
    ∀ (rows : List QueryResultRow) (response : List JsonMap),
      (∀ row ∈ rows, level + 2 ≤ row.Cols.length) →
      ∃ maps, rows.foldlM (fun (response : List JsonMap) row => do
          let key ← indexGoInt row.Cols level
          let docCount ← indexGoInt row.Cols (level + 1)
          pure (response ++ [[("key", ResponseValue.value key.Value),
            ("doc_count", ResponseValue.value docCount.Value),
            ("key_as_string", ResponseValue.int 1)]])) response = .ok (response ++ maps)
        ∧ List.Forall₂ (IsDateHistogramBucket level) rows maps := by
  intro rows
  induction rows with
  | nil =>
    intro response _
    exact ⟨[], by simp [List.foldlM, pure, Except.pure], List.Forall₂.nil⟩
  | cons row rest ih =>
    intro response hw
    have hrow := hw row (List.mem_cons_self _ _)
    obtain ⟨key, hk, hk2⟩ := indexGoInt_of_lt row.Cols level h0 (by omega)
    obtain ⟨docCount, hd, hd2⟩ := indexGoInt_of_lt row.Cols (level + 1) (by omega) (by omega)
    have e : (level + 1).toNat = level.toNat + 1 := by omega
    rw [e] at hd2
    obtain ⟨maps, hm, hf⟩ := ih (response ++ [[("key", ResponseValue.value key.Value),
        ("doc_count", ResponseValue.value docCount.Value),
        ("key_as_string", ResponseValue.int 1)]])
      (fun r hr => hw r (List.mem_cons_of_mem _ hr))
    refine ⟨_ :: maps, ?_, List.Forall₂.cons ⟨key, docCount, hk2, hd2, rfl⟩ hf⟩
    simp only [List.foldlM, hk, hd, bind, Except.bind, pure, Except.pure]
    rw [show response ++ [("key", ResponseValue.value key.Value),
        ("doc_count", ResponseValue.value docCount.Value),
        ("key_as_string", ResponseValue.int 1)] :: maps
      = (response ++ [[("key", ResponseValue.value key.Value),
        ("doc_count", ResponseValue.value docCount.Value),
        ("key_as_string", ResponseValue.int 1)]]) ++ maps by simp]
    exact hm

/-- C25 (defect in the code): for rows with at least `level + 2` columns, the formatter of
`date_histogram` emits one object per row, in row order, with the keys `key`, `doc_count`
and `key_as_string`; `key` is the value of column `level` as it is in the row, not
multiplied by the interval, and `key_as_string` is the number 1 (the source line carries
the comment `TODO fill this`). -/
theorem dateHistogram_TranslateSqlResponseToJson (rows : List QueryResultRow) (level : Int)
    (h0 : 0 ≤ level) (hw : ∀ row ∈ rows, level + 2 ≤ row.Cols.length) :
    ∃ maps, QueryTypeDateHistogram.TranslateSqlResponseToJson rows level = .ok maps
      ∧ List.Forall₂ (IsDateHistogramBucket level) rows maps := by
  obtain ⟨maps, hm, hf⟩ := dateHistogram_fold level h0 rows [] hw
  exact ⟨maps, by simpa [QueryTypeDateHistogram.TranslateSqlResponseToJson] using hm, hf⟩

/-- Witness of C25: the row with bucket index 473000 and 5 documents, at level 0, gives
the object `{"key": 473000, "doc_count": 5, "key_as_string": 1}`. -/
theorem dateHistogram_TranslateSqlResponseToJson_witness :
    QueryTypeDateHistogram.TranslateSqlResponseToJson [sampleHistogramRow] 0
        = .ok [[("key", ResponseValue.value (Value.int64 473000)),
          ("doc_count", ResponseValue.value (Value.uint64 5)),
          ("key_as_string", ResponseValue.int 1)]]
      ∧ ∃ maps, QueryTypeDateHistogram.TranslateSqlResponseToJson [sampleHistogramRow] 0 = .ok maps
        ∧ List.Forall₂ (IsDateHistogramBucket 0) [sampleHistogramRow] maps :=
  ⟨rfl, dateHistogram_TranslateSqlResponseToJson [sampleHistogramRow] 0 (by decide) (by decide)⟩

theorem stringsIndexFrom_char_of_not_mem (c : Char) (post : List Char) :
    ∀ (pre : List Char) (i : Nat), c ∉ pre →
      stringsIndexFrom [c] (pre ++ c :: post) i = ((i + pre.length : Nat) : Int) := by
  intro pre
  induction pre with
  | nil => intro i _; simp [stringsIndexFrom, List.isPrefixOf]
  | cons a pre ih =>
    intro i hc
    have hne : ¬ c = a := fun h => hc (by simp [h])
    have hc2 : c ∉ pre := fun h => hc (List.mem_cons_of_mem _ h)
    have hp : List.isPrefixOf [c] (a :: (pre ++ c :: post)) = false := by
      simp [List.isPrefixOf, hne]
    show stringsIndexFrom [c] (a :: (pre ++ c :: post)) i = _
    unfold stringsIndexFrom
    rw [hp, ih (i + 1) hc2]
    simp only [Bool.false_eq_true, if_false, List.length_cons]
    congr 1
    omega

theorem stringsIndexFrom_char_eq_neg_one_iff (c : Char) :
    ∀ (s : List Char) (i : Nat), stringsIndexFrom [c] s i = -1 ↔ c ∉ s := by
  intro s
  induction s with
  | nil => intro i; simp [stringsIndexFrom]
  | cons a s ih =>
    intro i
    by_cases h : c = a
    · subst h
      have hp : List.isPrefixOf [c] (c :: s) = true := by simp [List.isPrefixOf]
      unfold stringsIndexFrom
      rw [hp]
      simp only [if_true, List.mem_cons, true_or, not_true_eq_false, iff_false]
      omega
    · have hp : List.isPrefixOf [c] (a :: s) = false := by simp [List.isPrefixOf, h]
      unfold stringsIndexFrom
      rw [hp]
      simp only [Bool.false_eq_true, if_false, List.mem_cons, h, false_or]
      exact ih (i + 1)

theorem sliceFromGo_zero {α : Type} (xs : List α) : sliceFromGo xs 0 = .ok xs := by
  simp [sliceFromGo]

/-- The column name `name(rest` is cut by `statsColumn` at its first left bracket. -/
theorem statsColumn_of_name (resultMap : JsonMap) (name rest : String) (v : Value)
    (h : '(' ∉ name.data) :
    statsColumn resultMap ⟨name ++ "(" ++ rest, v⟩ = mapSet resultMap name (ResponseValue.value v) := by
  have hd : (name ++ "(" ++ rest).data = name.data ++ '(' :: rest.data := by
    simp [String.data_append]
  have hi : stringsIndex (name ++ "(" ++ rest) "(" = (name.data.length : Int) := by
    unfold stringsIndex
    rw [hd]
    have := stringsIndexFrom_char_of_not_mem '(' rest.data name.data 0 h
    simpa using this
  unfold statsColumn
  simp only [hi]
  have hne : ¬ ((name.data.length : Int) = -1) := by omega
  rw [if_neg hne]
  congr 1
  unfold stringUpTo
  rw [hd]
  simp

/-- C24: the five select expressions that the planner emits for a `stats` metric on a
field `f` are `count`, `min`, `max`, `avg` and `sum` of the back-quoted field, and on a row
whose columns have these names the formatter of `stats` at level 0 returns one object,
with exactly the keys `count`, `min`, `max`, `avg` and `sum`, each with the value of its
column. -/
theorem stats_TranslateSqlResponseToJson (f : String) :
    (∀ (cw : ClickhouseQueryTranslator) (b : aggrQueryBuilder) (query : QueryWithAggregation),
      metricsSelect cw b { metricsAggregation.zero with AggrType := "stats", FieldNames := [f] }
          query
        = .ok { query with NonSchemaFields := query.NonSchemaFields ++
            ["count(`" ++ f ++ "`)", "min(`" ++ f ++ "`)", "max(`" ++ f ++ "`)",
             "avg(`" ++ f ++ "`)", "sum(`" ++ f ++ "`)"] })
    ∧ ∀ (index : String) (count min max avg sum : Value) (rest : List QueryResultRow),
      Stats.TranslateSqlResponseToJson
          ({ Index := index,
             Cols := [⟨"count(`" ++ f ++ "`)", count⟩, ⟨"min(`" ++ f ++ "`)", min⟩,
               ⟨"max(`" ++ f ++ "`)", max⟩, ⟨"avg(`" ++ f ++ "`)", avg⟩,
               ⟨"sum(`" ++ f ++ "`)", sum⟩] } :: rest) 0
        = .ok [[("count", ResponseValue.value count), ("min", ResponseValue.value min),
          ("max", ResponseValue.value max), ("avg", ResponseValue.value avg),
          ("sum", ResponseValue.value sum)]] := by
  constructor
  · intro cw b query
    simp [metricsSelect, metricsAggregation.zero, index0, bind, Except.bind, pure, Except.pure]
  · intro index count min max avg sum rest
    have e : ∀ name : String, name ++ "(`" ++ f ++ "`)" = name ++ "(" ++ ("`" ++ f ++ "`)") := by
      intro name
      apply String.ext
      simp only [String.data_append, List.append_assoc]
      rfl
    have e1 : "count(`" ++ f ++ "`)" = "count" ++ "(" ++ ("`" ++ f ++ "`)") := e "count"
    have e2 : "min(`" ++ f ++ "`)" = "min" ++ "(" ++ ("`" ++ f ++ "`)") := e "min"
    have e3 : "max(`" ++ f ++ "`)" = "max" ++ "(" ++ ("`" ++ f ++ "`)") := e "max"
    have e4 : "avg(`" ++ f ++ "`)" = "avg" ++ "(" ++ ("`" ++ f ++ "`)") := e "avg"
    have e5 : "sum(`" ++ f ++ "`)" = "sum" ++ "(" ++ ("`" ++ f ++ "`)") := e "sum"
    rw [e1, e2, e3, e4, e5]
    simp only [Stats.TranslateSqlResponseToJson, sliceFromGo_zero, bind, Except.bind, pure,
      Except.pure, List.foldl]
    rw [statsColumn_of_name _ "count" _ _ (by decide), statsColumn_of_name _ "min" _ _ (by decide),
      statsColumn_of_name _ "max" _ _ (by decide), statsColumn_of_name _ "avg" _ _ (by decide),
      statsColumn_of_name _ "sum" _ _ (by decide)]
    simp [mapSet]

theorem mem_mapSet {β : Type} (k : String) (v : β) :
    ∀ (m : List (String × β)) (kv : String × β), kv ∈ mapSet m k v → kv ∈ m ∨ kv = (k, v) := by
  intro m
  induction m with
  | nil => intro kv h; simpa [mapSet] using h
  | cons e rest ih =>
    intro kv h
    obtain ⟨k', v'⟩ := e
    unfold mapSet at h
    by_cases hk : k' = k
    · rw [if_pos hk] at h
      rcases List.mem_cons.mp h with h | h
      · exact Or.inr h
      · exact Or.inl (List.mem_cons_of_mem _ h)
    · rw [if_neg hk] at h
      rcases List.mem_cons.mp h with h | h
      · exact Or.inl (by rw [h]; exact List.mem_cons_self _ _)
      · rcases ih kv h with h | h
        · exact Or.inl (List.mem_cons_of_mem _ h)
        · exact Or.inr h

theorem mapSet_mem {β : Type} (k : String) (v : β) :
    ∀ (m : List (String × β)), (k, v) ∈ mapSet m k v := by
  intro m
  induction m with
  | nil => simp [mapSet]
  | cons e rest ih =>
    obtain ⟨k', v'⟩ := e
    unfold mapSet
    by_cases hk : k' = k
    · rw [if_pos hk]; exact List.mem_cons_self _ _
    · rw [if_neg hk]; exact List.mem_cons_of_mem _ ih

theorem mapSet_keeps_keys {β : Type} (k : String) (v : β) :
    ∀ (m : List (String × β)) (kv : String × β), kv ∈ m → ∃ v', (kv.1, v') ∈ mapSet m k v := by
  intro m
  induction m with
  | nil => intro kv h; simp at h
  | cons e rest ih =>
    intro kv h
    obtain ⟨k', v'⟩ := e
    unfold mapSet
    by_cases hk : k' = k
    · rw [if_pos hk]
      rcases List.mem_cons.mp h with h | h
      · rw [h]; exact ⟨v, by rw [hk]; exact List.mem_cons_self _ _⟩
      · exact ⟨kv.2, List.mem_cons_of_mem _ h⟩
    · rw [if_neg hk]
      rcases List.mem_cons.mp h with h | h
      · rw [h]; exact ⟨v', List.mem_cons_self _ _⟩
      · obtain ⟨v'', hv⟩ := ih kv h
        exact ⟨v'', List.mem_cons_of_mem _ hv⟩

theorem stringsIndex_dot_iff (s : String) : stringsIndex s "." = -1 ↔ '.' ∉ s.data := by
  unfold stringsIndex
  exact stringsIndexFrom_char_eq_neg_one_iff '.' s.data 0

theorem stringsHasPrefix_append (pre rest : String) : stringsHasPrefix (pre ++ rest) pre = true := by
  unfold stringsHasPrefix
  rw [List.isPrefixOf_iff_prefix, String.data_append]
  exact List.prefix_append _ _

theorem stringsCutPrefix_append (pre rest : String) :
    stringsCutPrefix (pre ++ rest) pre = (rest, true) := by
  unfold stringsCutPrefix
  rw [if_pos (stringsHasPrefix_append pre rest)]
  simp [String.data_append]

theorem quantileColumn_ok (valueMap : List (String × Float64)) (res : QueryResultCol)
    (h : stringsHasPrefix res.ColName "quantile" = true →
      ∃ f fs, res.Value = Value.floats (f :: fs)) :
    ∃ valueMap', quantileColumn valueMap res = .ok valueMap'
      ∧ (∀ kv ∈ valueMap', kv ∈ valueMap ∨ '.' ∈ kv.1.data)
      ∧ (∀ kv ∈ valueMap, ∃ v, (kv.1, v) ∈ valueMap')
      ∧ (∀ p, res.ColName = "quantile_" ++ p → ∃ v, (percentileKey p, v) ∈ valueMap') := by
  unfold quantileColumn
  by_cases hp : stringsHasPrefix res.ColName "quantile" = true
  · obtain ⟨f, fs, hv⟩ := h hp
    rw [if_pos hp]
    simp only [hv, Value.asFloats, index0, bind, Except.bind, pure, Except.pure]
    refine ⟨_, rfl, ?_, ?_, ?_⟩
    · intro kv hkv
      rcases mem_mapSet _ _ _ kv hkv with hkv | hkv
      · exact Or.inl hkv
      · right
        rw [hkv]
        by_cases hd : stringsIndex (stringsCutPrefix res.ColName "quantile_").1 "." = -1
        · simp only [hd, if_true, String.data_append]
          exact List.mem_append_right _ (by decide)
        · simp only [hd, if_false]
          by_contra hc
          exact hd ((stringsIndex_dot_iff _).mpr hc)
    · intro kv hkv
      exact mapSet_keeps_keys _ _ _ kv hkv
    · intro p hname
      refine ⟨f, ?_⟩
      rw [hname, stringsCutPrefix_append]
      have e : (if stringsIndex p "." = -1 then p ++ ".0" else p) = percentileKey p := by
        unfold percentileKey
        by_cases hd : '.' ∈ p.data
        · rw [if_pos hd, if_neg (fun hc => (stringsIndex_dot_iff p).mp hc hd)]
        · rw [if_neg hd, if_pos ((stringsIndex_dot_iff p).mpr hd)]
      simp only [e]
      exact mapSet_mem _ _ _
  · have hp : stringsHasPrefix res.ColName "quantile" = false := by simpa using hp
    simp only [hp, Bool.false_eq_true, if_false, pure, Except.pure]
    refine ⟨valueMap, rfl, fun kv hkv => Or.inl hkv, fun kv hkv => ⟨kv.2, hkv⟩, ?_⟩
    intro p hname
    have e : "quantile_" ++ p = "quantile" ++ ("_" ++ p) := by
      apply String.ext
      simp only [String.data_append, List.append_assoc]
      rfl
    rw [hname, e, stringsHasPrefix_append] at hp
    exact absurd hp (by simp)

theorem quantile_fold_columns :
    ∀ (cols : List QueryResultCol) (valueMap : List (String × Float64)),
      (∀ col ∈ cols, stringsHasPrefix col.ColName "quantile" = true →
        ∃ f fs, col.Value = Value.floats (f :: fs)) →
      ∃ valueMap', cols.foldlM quantileColumn valueMap = .ok valueMap'
        ∧ (∀ kv ∈ valueMap', (∃ v, (kv.1, v) ∈ valueMap) ∨ '.' ∈ kv.1.data)
        ∧ (∀ kv ∈ valueMap, ∃ v, (kv.1, v) ∈ valueMap')
        ∧ (∀ col ∈ cols, ∀ p, col.ColName = "quantile_" ++ p →
            ∃ v, (percentileKey p, v) ∈ valueMap') := by
  intro cols
  induction cols with
  | nil =>
    intro valueMap _
    exact ⟨valueMap, rfl, fun kv hkv => Or.inl ⟨kv.2, hkv⟩, fun kv hkv => ⟨kv.2, hkv⟩,
      by simp⟩
  | cons col rest ih =>
    intro valueMap h
    obtain ⟨vm1, h1, hdot1, hkeep1, hname1⟩ :=
      quantileColumn_ok valueMap col (h col (List.mem_cons_self _ _))
    obtain ⟨vm2, h2, hdot2, hkeep2, hname2⟩ :=
      ih vm1 (fun c hc => h c (List.mem_cons_of_mem _ hc))
    refine ⟨vm2, by simp only [List.foldlM, h1, bind, Except.bind]; exact h2, ?_, ?_, ?_⟩
    · intro kv hkv
      rcases hdot2 kv hkv with ⟨v, hv⟩ | hd
      · rcases hdot1 _ hv with hv | hd
        · exact Or.inl ⟨v, hv⟩
        · exact Or.inr hd
      · exact Or.inr hd
    · intro kv hkv
      obtain ⟨v, hv⟩ := hkeep1 kv hkv
      exact hkeep2 (kv.1, v) hv
    · intro c hc p hp
      rcases List.mem_cons.mp hc with hc | hc
      · subst hc
        obtain ⟨v, hv⟩ := hname1 p hp
        exact hkeep2 (percentileKey p, v) hv
      · exact hname2 c hc p hp

/-- C23: for a non-empty row list whose first row has a column and whose columns with the
prefix `quantile` hold non-empty arrays of floats, `Quantile.TranslateSqlResponseToJson`
returns one object with the key `values`, every key of the `values` object contains a `.`,
and a column named `quantile_<p>` gives the key `<p>` if `<p>` contains a `.` and `<p>.0`
otherwise. -/
theorem quantile_TranslateSqlResponseToJson (row0 : QueryResultRow) (rest : List QueryResultRow)
    (level : Int) (hcols : row0.Cols ≠ [])
    (hq : ∀ col ∈ row0.Cols, stringsHasPrefix col.ColName "quantile" = true →
      ∃ f fs, col.Value = Value.floats (f :: fs)) :
    ∃ valueMap, Quantile.TranslateSqlResponseToJson (row0 :: rest) level
        = .ok [[("values", ResponseValue.floatMap valueMap)]]
      ∧ (∀ kv ∈ valueMap, '.' ∈ kv.1.data)
      ∧ (∀ col ∈ row0.Cols, ∀ p, col.ColName = "quantile_" ++ p →
          ∃ v, (percentileKey p, v) ∈ valueMap) := by
  obtain ⟨valueMap, hf, hdot, -, hname⟩ := quantile_fold_columns row0.Cols [] hq
  have hlen : ¬ row0.Cols.length = 0 := fun h => hcols (List.length_eq_zero.mp h)
  refine ⟨valueMap, ?_, ?_, hname⟩
  · simp only [Quantile.TranslateSqlResponseToJson, hlen, if_false, hf, bind, Except.bind, pure,
      Except.pure]
  · intro kv hkv
    rcases hdot kv hkv with ⟨v, hv⟩ | hd
    · simp at hv
    · exact hd

/-- Witness of C23: the row with the columns `quantile_50` and `quantile_95` gives the keys
`50.0` and `95.0`. -/
theorem quantile_TranslateSqlResponseToJson_witness :
    Quantile.TranslateSqlResponseToJson [sampleQuantileRow] 0
        = .ok [[("values", ResponseValue.floatMap [("50.0", ⟨3, 0⟩), ("95.0", ⟨7, 0⟩)])]]
      ∧ ∃ valueMap, Quantile.TranslateSqlResponseToJson (sampleQuantileRow :: []) 0
          = .ok [[("values", ResponseValue.floatMap valueMap)]]
        ∧ (∀ kv ∈ valueMap, '.' ∈ kv.1.data)
        ∧ (∀ col ∈ sampleQuantileRow.Cols, ∀ p, col.ColName = "quantile_" ++ p →
            ∃ v, (percentileKey p, v) ∈ valueMap) :=
  ⟨rfl, quantile_TranslateSqlResponseToJson sampleQuantileRow [] 0 (by decide)
    (by
      intro col hcol _
      simp only [sampleQuantileRow, List.mem_cons, List.mem_singleton, List.mem_nil_iff,
        or_false] at hcol
      rcases hcol with rfl | rfl
      · exact ⟨_, _, rfl⟩
      · exact ⟨_, _, rfl⟩)⟩

/-! ## Claims about the date functions -/

theorem get?_eq_some_getD (bs : List Nat) (idx : Nat) (h : idx < bs.length) :
    bs.get? idx = some (bs.getD idx 0) := by
  rw [List.getD_eq_getD_get?, List.get?_eq_get h]
  rfl

theorem isSimpleDate_iff_bytes (s : String) :
    isSimpleDate s = true ↔ IsSimpleDateBytes (goBytes s) := by
  unfold isSimpleDate IsSimpleDateBytes
  have hl : ("2024-04-15" : String).length = 10 := by decide
  rw [hl]
  by_cases hlen : (goBytes s).length = 10
  · have g : ∀ idx, idx < 10 → (goBytes s).get? idx = some ((goBytes s).getD idx 0) :=
      fun idx hi => get?_eq_some_getD _ _ (by omega)
    simp only [hlen, ne_eq, not_true_eq_false, if_false, List.all_cons, List.all_nil,
      Bool.and_true, List.mem_cons, List.mem_singleton, List.mem_nil_iff, or_false,
      forall_eq_or_imp, forall_eq, true_and, unicodeIsDigit]
    rw [g 0 (by omega), g 1 (by omega), g 2 (by omega), g 3 (by omega), g 4 (by omega),
      g 5 (by omega), g 6 (by omega), g 7 (by omega), g 8 (by omega), g 9 (by omega)]
    have e0 : ('0' : Char).toNat = 48 := by decide
    have e9 : ('9' : Char).toNat = 57 := by decide
    simp only [e0, e9, Option.some.injEq, exists_eq_left']
    constructor
    · intro h
      split_ifs at h with hA hB
      simp only [Bool.and_eq_true, decide_eq_true_eq] at hA hB
      tauto
    · intro h
      rw [if_neg, if_neg]
      · simp only [Bool.and_eq_true, decide_eq_true_eq]
        tauto
      · simp only [Bool.and_eq_true, decide_eq_true_eq]
        tauto
  · simp [hlen]

/-- C29: `isSimpleDate` holds exactly when the string is 10 bytes long with a decimal digit
at the positions 0 to 3, 5, 6, 8 and 9 and a `-` at the positions 4 and 7; for every such
string, `parseDateTimeInClickhouseMathLanguage` returns the string between single quotes,
whatever the parser of date-math expressions is, with no rounding function. -/
theorem isSimpleDate_exact (s : String) :
    (isSimpleDate s = true ↔ IsSimpleDateBytes (goBytes s))
      ∧ (IsSimpleDateBytes (goBytes s) →
          ∀ parseDateMathExpression : String → String,
            parseDateTimeInClickhouseMathLanguage parseDateMathExpression s
              = "'" ++ s ++ "'") := by
  refine ⟨isSimpleDate_iff_bytes s, ?_⟩
  intro h parseDateMathExpression
  have hs := (isSimpleDate_iff_bytes s).mpr h
  unfold parseDateTimeInClickhouseMathLanguage
  rw [hs]
  rfl

/-- Witness of C29: the date `2024-04-15` is rendered as `'2024-04-15'`. -/
theorem isSimpleDate_exact_witness :
    isSimpleDate "2024-04-15" = true
      ∧ parseDateTimeInClickhouseMathLanguage (fun _ => "") "2024-04-15" = "'2024-04-15'" :=
  ⟨by decide,
    (isSimpleDate_exact "2024-04-15").2
      ((isSimpleDate_exact "2024-04-15").1.mp (by decide)) (fun _ => "")⟩

theorem mapM_eq_ok {ε α β : Type} (f : α → Except ε β) :
    ∀ (xs : List α) (ys : List β),
      xs.mapM f = .ok ys ↔ List.Forall₂ (fun x y => f x = .ok y) xs ys := by
  intro xs
  induction xs with
  | nil =>
    intro ys
    rw [List.mapM_nil]
    constructor
    · intro h
      cases h
      exact List.Forall₂.nil
    · intro h
      cases h
      rfl
  | cons x xs ih =>
    intro ys
    rw [List.mapM_cons]
    constructor
    · intro h
      obtain ⟨y, hy, h⟩ := (bind_eq_ok _ _ _).mp h
      obtain ⟨ys2, hys, h⟩ := (bind_eq_ok _ _ _).mp h
      cases h
      exact List.Forall₂.cons hy ((ih ys2).mp hys)
    · intro h
      cases h with
      | cons hy hrest =>
        rw [hy, (ih _).mpr hrest]
        rfl

theorem mapM_total {ε α β : Type} (f : α → Except ε β) :
    ∀ (xs : List α), (∀ x ∈ xs, ∃ y, f x = .ok y) → ∃ ys, xs.mapM f = .ok ys := by
  intro xs
  induction xs with
  | nil => intro _; exact ⟨[], by rw [List.mapM_nil]; rfl⟩
  | cons x xs ih =>
    intro h
    obtain ⟨y, hy⟩ := h x (List.mem_cons_self _ _)
    obtain ⟨ys, hys⟩ := ih (fun x2 hx2 => h x2 (List.mem_cons_of_mem _ hx2))
    exact ⟨y :: ys, by rw [List.mapM_cons, hy, hys]; rfl⟩

theorem forall₂_mem_right {α β : Type} {R : α → β → Prop} {xs : List α} {ys : List β}
    (h : List.Forall₂ R xs ys) : ∀ y ∈ ys, ∃ x ∈ xs, R x y := by
  induction h with
  | nil => intro y hy; cases hy
  | cons hab _ ih =>
    intro y hy
    rcases List.mem_cons.mp hy with rfl | hy
    · exact ⟨_, List.mem_cons_self _ _, hab⟩
    · obtain ⟨x, hx, hr⟩ := ih y hy
      exact ⟨x, List.mem_cons_of_mem _ hx, hr⟩

theorem forall₂_and_mem {α β : Type} {R : α → β → Prop} (S : List α) {xs : List α}
    {ys : List β} (h : List.Forall₂ R xs ys) :
    (∀ x ∈ xs, x ∈ S) → List.Forall₂ (fun x y => x ∈ S ∧ R x y) xs ys := by
  induction h with
  | nil => intro _; exact List.Forall₂.nil
  | cons hab _ ih =>
    intro hsub
    exact List.Forall₂.cons ⟨hsub _ (List.mem_cons_self _ _), hab⟩
      (ih (fun x hx => hsub x (List.mem_cons_of_mem _ hx)))

theorem pairwise_of_forall₂ {α β : Type} {R : α → β → Prop} {P : α → α → Prop}
    {Q : β → β → Prop} (hPQ : ∀ a a2 b b2, R a b → R a2 b2 → P a a2 → Q b b2)
    {xs : List α} {ys : List β} (h : List.Forall₂ R xs ys) :
    xs.Pairwise P → ys.Pairwise Q := by
  induction h with
  | nil => intro _; exact List.Pairwise.nil
  | cons hab hrest ih =>
    intro hp
    rw [List.pairwise_cons] at hp ⊢
    refine ⟨?_, ih hp.2⟩
    intro b2 hb2
    obtain ⟨a2, ha2, hr⟩ := forall₂_mem_right hrest b2 hb2
    exact hPQ _ _ _ _ hab hr (hp.1 a2 ha2)

theorem rowKey_eq_ok (row : QueryResultRow) (key : Int) :
    rowKey row = .ok key
      ↔ ∃ keyCol, row.Cols.get? ResultColKeyIndex = some keyCol
          ∧ keyCol.Value = Value.int64 key := by
  unfold rowKey
  constructor
  · intro h
    obtain ⟨col, hcol, h⟩ := (bind_eq_ok _ _ _).mp h
    refine ⟨col, (indexGo_eq_ok _ _ _).mp hcol, ?_⟩
    cases hv : col.Value <;> rw [hv] at h <;> simp [Value.asInt64] at h
    rw [h]
  · rintro ⟨col, hcol, hv⟩
    rw [(indexGo_eq_ok _ _ _).mpr hcol]
    show col.Value.asInt64 = _
    rw [hv]
    rfl

theorem makeBucket_of_key (formatUnixMilli : Int → String) (bucket : Int)
    (row : QueryResultRow) (key : Int) (h : rowKey row = .ok key) :
    ∃ out, makeBucket formatUnixMilli bucket row = .ok out
      ∧ IsBucketOf formatUnixMilli bucket row out
      ∧ rowKey out = .ok (wrapInt64 (key * durationMilliseconds bucket)) := by
  obtain ⟨col, hcol, hv⟩ := (rowKey_eq_ok row key).mp h
  have hlt : ResultColKeyIndex < row.Cols.length := by
    rcases Nat.lt_or_ge ResultColKeyIndex row.Cols.length with h1 | h1
    · exact h1
    · rw [List.get?_eq_none.mpr h1] at hcol
      cases hcol
  have hout : makeBucket formatUnixMilli bucket row
      = .ok ⟨row.Index, row.Cols.set ResultColKeyIndex
          ⟨col.ColName, Value.int64 (wrapInt64 (key * durationMilliseconds bucket))⟩
        ++ [⟨"key_as_string",
              Value.str (formatUnixMilli (wrapInt64 (key * durationMilliseconds bucket)))⟩]⟩ := by
    unfold makeBucket
    rw [(indexGo_eq_ok _ _ _).mpr hcol]
    show (col.Value.asInt64 >>= _) = _
    rw [hv]
    rfl
  have hget0 : (row.Cols.set ResultColKeyIndex
        ⟨col.ColName, Value.int64 (wrapInt64 (key * durationMilliseconds bucket))⟩
        ++ [(⟨"key_as_string",
              Value.str (formatUnixMilli (wrapInt64 (key * durationMilliseconds bucket)))⟩ :
                QueryResultCol)]).get? ResultColKeyIndex
      = some ⟨col.ColName,
          Value.int64 (wrapInt64 (key * durationMilliseconds bucket))⟩ := by
    rw [List.get?_eq_getElem?,
      List.getElem?_append_left (by rw [List.length_set]; exact hlt),
      List.getElem?_set_self hlt]
  refine ⟨_, hout, ⟨col, key, hcol, hv, hget0, ?_, ?_, ?_, rfl⟩, ?_⟩
  · simp
  · show List.get? (_ ++ _) row.Cols.length = _
    rw [List.get?_eq_getElem?, List.getElem?_append_right (by simp)]
    simp
  · intro i hi hil
    show List.get? (_ ++ _) i = _
    rw [List.get?_eq_getElem?, List.get?_eq_getElem?,
      List.getElem?_append_left (by rw [List.length_set]; exact hil),
      List.getElem?_set_ne (Ne.symm hi)]
  · exact (rowKey_eq_ok _ _).mpr ⟨_, hget0, rfl⟩

theorem lessKey_strictWeak :
    IsStrictWeakOrdering
      (fun (ri rj : Int × QueryResultRow) => decide (ri.1 < rj.1)) := by
  refine ⟨?_, ?_, ?_⟩
  · intro a
    simp
  · intro a b c h1 h2
    simp only [decide_eq_true_eq] at h1 h2 ⊢
    omega
  · intro a b c h1 h2
    simp only [decide_eq_false_iff_not] at h1 h2 ⊢
    omega

theorem insertionSortSlice_isSortSlice {α : Type} :
    IsSortSlice (insertionSortSlice : List α → (α → α → Bool) → List α) := by
  intro xs less
  refine ⟨List.perm_insertionSort _ xs, ?_⟩
  rintro ⟨hirr, htrans, hneg⟩
  haveI : IsTotal α (fun a b => less b a = false) := ⟨by
    intro a b
    cases h1 : less b a
    · exact Or.inl rfl
    · right
      cases h2 : less a b
      · rfl
      · have := htrans a b a h2 h1
        rw [hirr a] at this
        cases this⟩
  haveI : IsTrans α (fun a b => less b a = false) := ⟨by
    intro a b c h1 h2
    exact hneg c b a h2 h1⟩
  exact List.sorted_insertionSort (fun a b => less b a = false) xs

/-- What `makeBuckets` returns on rows with `int64` keys: the buckets of the rows, in the
order that `sort.Slice` gives to the rows paired with their keys. -/
theorem makeBuckets_ok
    (sortSlice : List (Int × QueryResultRow) →
      (Int × QueryResultRow → Int × QueryResultRow → Bool) → List (Int × QueryResultRow))
    (hsort : IsSortSlice sortSlice)
    (formatUnixMilli : Int → String) (result : List QueryResultRow) (bucket : Int)
    (hkeys : ∀ row ∈ result, ∃ key, rowKey row = .ok key) :
    ∃ keyed sorted out,
      keyed.map Prod.snd = result
      ∧ (∀ kr ∈ keyed, rowKey kr.2 = .ok kr.1)
      ∧ sorted = sortSlice keyed (fun ri rj => decide (ri.1 < rj.1))
      ∧ makeBuckets sortSlice formatUnixMilli result bucket = .ok out
      ∧ List.Forall₂ (fun kr o => makeBucket formatUnixMilli bucket kr.2 = .ok o)
          sorted out := by
  obtain ⟨keyed, hkeyed⟩ := mapM_total (fun row => do
      let key ← rowKey row
      pure (key, row)) result (by
    intro row hrow
    obtain ⟨key, hkey⟩ := hkeys row hrow
    exact ⟨(key, row), by
      show (rowKey row >>= _) = _
      rw [hkey]
      rfl⟩)
  have hf := (mapM_eq_ok _ _ _).mp hkeyed
  have hsnd : keyed.map Prod.snd = result := by
    clear hkeyed hkeys
    induction hf with
    | nil => rfl
    | cons hab _ ih =>
      obtain ⟨key, _, h⟩ := (bind_eq_ok _ _ _).mp hab
      cases h
      rw [List.map_cons, ih]
  have hmem : ∀ kr ∈ keyed, rowKey kr.2 = .ok kr.1 := by
    intro kr hkr
    obtain ⟨row, _, h⟩ := forall₂_mem_right hf kr hkr
    obtain ⟨key, hkey, h⟩ := (bind_eq_ok _ _ _).mp h
    cases h
    exact hkey
  obtain ⟨out, hout⟩ := mapM_total
    (fun (keyedRow : Int × QueryResultRow) => makeBucket formatUnixMilli bucket keyedRow.2)
    (sortSlice keyed (fun ri rj => decide (ri.1 < rj.1))) (by
      intro kr hkr
      have hk := hmem kr (((hsort keyed _).1).subset hkr)
      obtain ⟨o, ho, _⟩ := makeBucket_of_key formatUnixMilli bucket kr.2 kr.1 hk
      exact ⟨o, ho⟩)
  refine ⟨keyed, _, out, hsnd, hmem, rfl, ?_, (mapM_eq_ok _ _ _).mp hout⟩
  unfold makeBuckets
  rw [hkeyed]
  exact hout

/-- C27: on histogram rows, whatever the bucket width, `makeBuckets` returns one row for
each row of a permutation of its argument, in order; in that row, the key column (index 0)
holds the bucket index of the row times the width in whole milliseconds, modulo 2^64 as a
signed 64-bit integer, exactly one more column, named `key_as_string`, is appended at the
end, and all the other columns are unchanged. -/
theorem makeBuckets_rows
    (sortSlice : List (Int × QueryResultRow) →
      (Int × QueryResultRow → Int × QueryResultRow → Bool) → List (Int × QueryResultRow))
    (hsort : IsSortSlice sortSlice)
    (formatUnixMilli : Int → String) (result : List QueryResultRow) (bucket : Int)
    (hkeys : ∀ row ∈ result, ∃ key, rowKey row = .ok key) :
    ∃ out sortedRows, makeBuckets sortSlice formatUnixMilli result bucket = .ok out
      ∧ sortedRows.Perm result
      ∧ List.Forall₂ (IsBucketOf formatUnixMilli bucket) sortedRows out := by
  obtain ⟨keyed, sorted, out, hsnd, hmem, hsorted, hout, hf⟩ :=
    makeBuckets_ok sortSlice hsort formatUnixMilli result bucket hkeys
  have hperm : sorted.Perm keyed := by
    rw [hsorted]
    exact (hsort keyed _).1
  refine ⟨out, sorted.map Prod.snd, hout, ?_, ?_⟩
  · rw [← hsnd]
    exact hperm.map _
  · rw [List.forall₂_map_left_iff]
    have hall : ∀ kr ∈ sorted, rowKey kr.2 = .ok kr.1 :=
      fun kr hkr => hmem kr (hperm.subset hkr)
    clear hsorted hperm hout
    induction hf with
    | nil => exact List.Forall₂.nil
    | cons hab _ ih =>
      refine List.Forall₂.cons ?_ (ih (fun kr hkr => hall kr (List.mem_cons_of_mem _ hkr)))
      obtain ⟨o, ho, hb, _⟩ := makeBucket_of_key formatUnixMilli bucket _ _
        (hall _ (List.mem_cons_self _ _))
      rw [ho] at hab
      cases hab
      exact hb

theorem wrapInt64_of_fits (x : Int) (h : FitsInt64 x) : wrapInt64 x = x := by
  unfold FitsInt64 at h
  unfold wrapInt64
  have h1 : (x + 2 ^ 63) % 2 ^ 64 = x + 2 ^ 63 :=
    Int.emod_eq_of_lt (by omega) (by omega)
  rw [h1]
  omega

/-- C26: on histogram rows with integer bucket indices, for a bucket width that is not
negative and such that every index times the width in milliseconds fits in a signed 64-bit
integer, the rows that `makeBuckets` returns are in non-decreasing order of their final key,
and they are the buckets of a permutation of the rows of the argument. -/
theorem makeBuckets_sorted
    (sortSlice : List (Int × QueryResultRow) →
      (Int × QueryResultRow → Int × QueryResultRow → Bool) → List (Int × QueryResultRow))
    (hsort : IsSortSlice sortSlice)
    (formatUnixMilli : Int → String) (result : List QueryResultRow) (bucket : Int)
    (hkeys : ∀ row ∈ result, ∃ key, rowKey row = .ok key)
    (hbucket : 0 ≤ bucket)
    (hfit : ∀ row ∈ result, ∀ key, rowKey row = .ok key →
      FitsInt64 (key * durationMilliseconds bucket)) :
    ∃ out, makeBuckets sortSlice formatUnixMilli result bucket = .ok out
      ∧ out.Pairwise (fun a b => ∃ ka kb, rowKey a = .ok ka ∧ rowKey b = .ok kb ∧ ka ≤ kb)
      ∧ ∃ sortedRows : List QueryResultRow, sortedRows.Perm result
          ∧ sortedRows.mapM (makeBucket formatUnixMilli bucket) = .ok out := by
  obtain ⟨keyed, sorted, out, hsnd, hmem, hsorted, hout, hf⟩ :=
    makeBuckets_ok sortSlice hsort formatUnixMilli result bucket hkeys
  have hperm : sorted.Perm keyed := by
    rw [hsorted]
    exact (hsort keyed _).1
  have hpair : sorted.Pairwise (fun a b => decide (b.1 < a.1) = false) := by
    rw [hsorted]
    exact (hsort keyed _).2 lessKey_strictWeak
  have hms : 0 ≤ durationMilliseconds bucket := by
    unfold durationMilliseconds
    exact Int.tdiv_nonneg hbucket (by decide)
  have hall : ∀ kr ∈ sorted, rowKey kr.2 = .ok kr.1 ∧ kr.2 ∈ result := by
    intro kr hkr
    have hk := hperm.subset hkr
    refine ⟨hmem kr hk, ?_⟩
    rw [← hsnd]
    exact List.mem_map_of_mem _ hk
  refine ⟨out, hout, ?_, sorted.map Prod.snd, ?_, ?_⟩
  · have hf2 : List.Forall₂ (fun kr o => kr ∈ sorted
        ∧ makeBucket formatUnixMilli bucket kr.2 = .ok o) sorted out :=
      forall₂_and_mem sorted hf (fun _ h => h)
    refine pairwise_of_forall₂ ?_ hf2 hpair
    rintro a a2 b b2 ⟨ha, hab⟩ ⟨ha2, hab2⟩ hle
    obtain ⟨hka, hra⟩ := hall a ha
    obtain ⟨hka2, hra2⟩ := hall a2 ha2
    obtain ⟨o, ho, _, hko⟩ := makeBucket_of_key formatUnixMilli bucket a.2 a.1 hka
    obtain ⟨o2, ho2, _, hko2⟩ := makeBucket_of_key formatUnixMilli bucket a2.2 a2.1 hka2
    rw [ho] at hab
    rw [ho2] at hab2
    cases hab
    cases hab2
    rw [wrapInt64_of_fits _ (hfit _ hra _ hka)] at hko
    rw [wrapInt64_of_fits _ (hfit _ hra2 _ hka2)] at hko2
    refine ⟨_, _, hko, hko2, ?_⟩
    simp only [decide_eq_false_iff_not, not_lt] at hle
    exact Int.mul_le_mul_of_nonneg_right hle hms
  · rw [← hsnd]
    exact hperm.map _
  · rw [mapM_eq_ok, List.forall₂_map_left_iff]
    exact hf

theorem sampleHistogramRows_keys :
    ∀ row ∈ sampleHistogramRows, ∃ key, rowKey row = .ok key ∧ (key = 3 ∨ key = 1 ∨ key = 2) := by
  intro row hrow
  simp only [sampleHistogramRows, List.mem_cons, List.mem_singleton, List.mem_nil_iff,
    or_false] at hrow
  rcases hrow with rfl | rfl | rfl
  · exact ⟨3, rfl, by decide⟩
  · exact ⟨1, rfl, by decide⟩
  · exact ⟨2, rfl, by decide⟩

theorem sampleHistogramRows_fit :
    ∀ row ∈ sampleHistogramRows, ∀ key, rowKey row = .ok key →
      FitsInt64 (key * durationMilliseconds 30000000000) := by
  intro row hrow key hkey
  obtain ⟨k, hk, h3⟩ := sampleHistogramRows_keys row hrow
  rw [hk] at hkey
  cases hkey
  rcases h3 with rfl | rfl | rfl <;> exact ⟨by decide, by decide⟩

/-- Witness of C27: the rows with the bucket indices 3, 1 and 2 and a bucket width of 30
seconds give the rows with the keys 30000, 60000 and 90000. -/
theorem makeBuckets_rows_witness :
    makeBuckets insertionSortSlice sampleFormatUnixMilli sampleHistogramRows 30000000000
        = .ok [⟨"t", [⟨"key", Value.int64 30000⟩, ⟨"doc_count", Value.uint64 5⟩,
                  ⟨"key_as_string", Value.str "30000"⟩]⟩,
               ⟨"t", [⟨"key", Value.int64 60000⟩, ⟨"doc_count", Value.uint64 6⟩,
                  ⟨"key_as_string", Value.str "60000"⟩]⟩,
               ⟨"t", [⟨"key", Value.int64 90000⟩, ⟨"doc_count", Value.uint64 7⟩,
                  ⟨"key_as_string", Value.str "90000"⟩]⟩]
      ∧ ∃ out sortedRows,
          makeBuckets insertionSortSlice sampleFormatUnixMilli sampleHistogramRows 30000000000
            = .ok out
          ∧ sortedRows.Perm sampleHistogramRows
          ∧ List.Forall₂ (IsBucketOf sampleFormatUnixMilli 30000000000) sortedRows out :=
  ⟨rfl,
    makeBuckets_rows insertionSortSlice insertionSortSlice_isSortSlice sampleFormatUnixMilli
      sampleHistogramRows 30000000000
      (fun row hrow => (sampleHistogramRows_keys row hrow).imp (fun _ h => h.1))⟩

/-- Witness of C26: the rows with the bucket indices 3, 1 and 2 and a bucket width of 30
seconds. -/
theorem makeBuckets_sorted_witness :
    ∃ out,
      makeBuckets insertionSortSlice sampleFormatUnixMilli sampleHistogramRows 30000000000
        = .ok out
      ∧ out.Pairwise (fun a b => ∃ ka kb, rowKey a = .ok ka ∧ rowKey b = .ok kb ∧ ka ≤ kb)
      ∧ ∃ sortedRows : List QueryResultRow, sortedRows.Perm sampleHistogramRows
          ∧ sortedRows.mapM (makeBucket sampleFormatUnixMilli 30000000000) = .ok out :=
  makeBuckets_sorted insertionSortSlice insertionSortSlice_isSortSlice sampleFormatUnixMilli
    sampleHistogramRows 30000000000
    (fun row hrow => (sampleHistogramRows_keys row hrow).imp (fun _ h => h.1))
    (by decide) sampleHistogramRows_fit

/-! ## Claims about the response of an aggregation -/

theorem splitResultSetIntoBucketsLoop_mem (level : Int) :
    ∀ (rows : List QueryResultRow) (buckets : List (List QueryResultRow)) (cur : Nat)
      (last : QueryResultRow) (out : List (List QueryResultRow)),
      splitResultSetIntoBucketsLoop level rows buckets cur last = .ok out →
      buckets.length ≤ out.length
        ∧ ∀ b ∈ out, ∀ r ∈ b, r ∈ rows ∨ ∃ b2 ∈ buckets, r ∈ b2 := by
  intro rows
  induction rows with
  | nil =>
    intro buckets cur last out h
    simp only [splitResultSetIntoBucketsLoop, pure, Except.pure, Except.ok.injEq] at h
    subst h
    exact ⟨le_refl _, fun b hb r hr => Or.inr ⟨b, hb, hr⟩⟩
  | cons row rest ih =>
    intro buckets cur last out h
    unfold splitResultSetIntoBucketsLoop at h
    rw [bind_eq_ok] at h
    obtain ⟨same, -, h⟩ := h
    cases same with
    | true =>
      simp only [if_true] at h
      rw [bind_eq_ok] at h
      obtain ⟨bucket, hbucket, h⟩ := h
      obtain ⟨hlen, hmem⟩ := ih _ _ _ _ h
      rw [List.length_set] at hlen
      refine ⟨hlen, ?_⟩
      intro b hb r hr
      rcases hmem b hb r hr with h1 | ⟨b2, hb2, hr2⟩
      · exact Or.inl (List.mem_cons_of_mem _ h1)
      · rcases List.mem_or_eq_of_mem_set hb2 with h3 | h3
        · exact Or.inr ⟨b2, h3, hr2⟩
        · rw [h3] at hr2
          rcases List.mem_append.mp hr2 with h4 | h4
          · exact Or.inr ⟨bucket, List.get?_mem ((indexGo_eq_ok _ _ _).mp hbucket), h4⟩
          · rw [List.mem_singleton.mp h4]
            exact Or.inl (List.mem_cons_self _ _)
    | false =>
      simp only [Bool.false_eq_true, if_false] at h
      obtain ⟨hlen, hmem⟩ := ih _ _ _ _ h
      rw [List.length_append] at hlen
      refine ⟨by omega, ?_⟩
      intro b hb r hr
      rcases hmem b hb r hr with h1 | ⟨b2, hb2, hr2⟩
      · exact Or.inl (List.mem_cons_of_mem _ h1)
      · rcases List.mem_append.mp hb2 with h3 | h3
        · exact Or.inr ⟨b2, h3, hr2⟩
        · rw [List.mem_singleton.mp h3] at hr2
          rw [List.mem_singleton.mp hr2]
          exact Or.inl (List.mem_cons_self _ _)

/-- The rows of the buckets are rows of the result set, and a result set with a row has a
bucket, whatever the columns of the rows. -/
theorem splitResultSetIntoBuckets_mem (rows : List QueryResultRow) (level : Int)
    (buckets : List (List QueryResultRow))
    (h : splitResultSetIntoBuckets rows level = .ok buckets) :
    (∀ b ∈ buckets, ∀ r ∈ b, r ∈ rows) ∧ (rows ≠ [] → buckets ≠ []) := by
  cases rows with
  | nil =>
    simp only [splitResultSetIntoBuckets, pure, Except.pure, Except.ok.injEq] at h
    subst h
    simp
  | cons row rest =>
    simp only [splitResultSetIntoBuckets] at h
    obtain ⟨hlen, hmem⟩ := splitResultSetIntoBucketsLoop_mem level _ _ _ _ _ h
    constructor
    · intro b hb r hr
      rcases hmem b hb r hr with h1 | ⟨b2, hb2, hr2⟩
      · exact h1
      · rw [List.mem_singleton.mp hb2] at hr2
        cases hr2
    · intro _ hnil
      rw [hnil] at hlen
      simp at hlen

/-- If the split of a result set returns then the first row has the columns
`0, ..., level`. -/
theorem splitResultSetIntoBuckets_first_width (row : QueryResultRow)
    (rest : List QueryResultRow) (level : Int) (buckets : List (List QueryResultRow))
    (h : splitResultSetIntoBuckets (row :: rest) level = .ok buckets) (h0 : 0 ≤ level) :
    level < row.Cols.length := by
  simp only [splitResultSetIntoBuckets] at h
  unfold splitResultSetIntoBucketsLoop at h
  rw [bind_eq_ok] at h
  obtain ⟨same, hsame, -⟩ := h
  have hs := sameGroupByFields_self _ _ _ hsame
  subst hs
  obtain ⟨c1, -, h1, -, -⟩ := sameGroupByFields_true _ _ _ hsame level.toNat (by omega)
  have hlt : level.toNat < row.Cols.length := by
    rcases Nat.lt_or_ge level.toNat row.Cols.length with h2 | h2
    · exact h2
    · rw [List.get?_eq_none.mpr h2] at h1
      cases h1
  omega

theorem splitResultSetIntoBuckets_total (rows : List QueryResultRow) (level : Int)
    (hcols : ∀ row ∈ rows, level < row.Cols.length ∧ ComparableKey row level) :
    ∃ buckets, splitResultSetIntoBuckets rows level = .ok buckets := by
  cases rows with
  | nil => exact ⟨[], rfl⟩
  | cons row rest =>
    exact splitResultSetIntoBucketsLoop_total level (row :: rest) [] [] row hcols
      (hcols row (List.mem_cons_self _ _)).1

theorem le_maxWidth (rows : List QueryResultRow) :
    ∀ r ∈ rows, r.Cols.length ≤ maxWidth rows := by
  induction rows with
  | nil => intro r hr; cases hr
  | cons row rest ih =>
    intro r hr
    have e : maxWidth (row :: rest) = max row.Cols.length (maxWidth rest) := rfl
    rw [e]
    rcases List.mem_cons.mp hr with h | h
    · rw [h]
      exact le_max_left _ _
    · exact le_trans (ih r h) (le_max_right _ _)

theorem maxWidth_le_of_subset (rows : List QueryResultRow) :
    ∀ b : List QueryResultRow, (∀ r ∈ b, r ∈ rows) → maxWidth b ≤ maxWidth rows := by
  intro b
  induction b with
  | nil => intro _; exact Nat.zero_le _
  | cons row rest ih =>
    intro h
    have e : maxWidth (row :: rest) = max row.Cols.length (maxWidth rest) := rfl
    rw [e]
    exact max_le (le_maxWidth rows row (h row (List.mem_cons_self _ _)))
      (ih (fun r hr => h r (List.mem_cons_of_mem _ hr)))

theorem collectBuckets_ne_outOfFuel
    (recurse : List QueryResultRow → Except Abort (List JsonMap)) :
    ∀ (buckets : List (List QueryResultRow)) (acc : List JsonMap),
      (∀ b ∈ buckets, recurse b ≠ .error .outOfFuel) →
      collectBuckets recurse buckets acc ≠ .error .outOfFuel := by
  intro buckets
  induction buckets with
  | nil => intro acc _ h; cases h
  | cons b rest ih =>
    intro acc hall
    unfold collectBuckets
    cases hb : recurse b with
    | error e =>
      intro h
      exact hall b (List.mem_cons_self _ _) (by rw [hb]; exact h)
    | ok sub => exact ih _ (fun b2 hb2 => hall b2 (List.mem_cons_of_mem _ hb2))

theorem collectBuckets_total
    (recurse : List QueryResultRow → Except Abort (List JsonMap)) :
    ∀ (buckets : List (List QueryResultRow)) (acc : List JsonMap),
      (∀ b ∈ buckets, ∃ maps, recurse b = .ok maps) →
      ∃ out, collectBuckets recurse buckets acc = .ok out := by
  intro buckets
  induction buckets with
  | nil => intro acc _; exact ⟨acc, rfl⟩
  | cons b rest ih =>
    intro acc hall
    obtain ⟨sub, hsub⟩ := hall b (List.mem_cons_self _ _)
    obtain ⟨out, hout⟩ := ih (acc ++ sub) (fun b2 hb2 => hall b2 (List.mem_cons_of_mem _ hb2))
    refine ⟨out, ?_⟩
    unfold collectBuckets
    rw [hsub]
    exact hout

/-- One call of `makeResponseAggregationRecursive` at a level that is not a finishing
level, on rows that are split into at least one bucket. -/
theorem makeResponseAggregationRecursiveAux_deeper (other : QueryTypeMethods)
    (query : QueryWithAggregation) (fuel : Nat) (rows : List QueryResultRow) (level : Int)
    (buckets : List (List QueryResultRow))
    (hfin : isFinishingLevel other query level = .ok false)
    (hsplit : splitResultSetIntoBuckets rows level = .ok buckets) (hne : buckets ≠ []) :
    makeResponseAggregationRecursiveAux other query (fuel + 1) rows level
      = (collectBuckets
          (fun bucket => makeResponseAggregationRecursiveAux other query fuel bucket (level + 1))
          buckets [] >>= fun bucketsReturnMap =>
        liftPanic (indexGoInt query.AggregatorsNames level) >>= fun name =>
        pure [[(name, ResponseValue.map
          [("buckets", ResponseValue.maps bucketsReturnMap)])]]) := by
  have hlen : ¬ buckets.length = 0 := fun h => hne (List.length_eq_zero.mp h)
  rw [makeResponseAggregationRecursiveAux, hfin, hsplit]
  simp only [liftPanic, bind, Except.bind, Bool.false_eq_true, if_false, hlen]

/-- The fuel that `makeResponseAggregationRecursive` gives to the recursion is enough: the
recursion stops at the latest below the length of the trail or the width of the rows. -/
theorem makeResponseAggregationRecursiveAux_ne_outOfFuel (other : QueryTypeMethods)
    (query : QueryWithAggregation) :
    ∀ (fuel : Nat) (rows : List QueryResultRow) (level : Int),
      (max (query.AggregatorsNames.length : Int) (maxWidth rows) - level).toNat + 1 ≤ fuel →
      makeResponseAggregationRecursiveAux other query fuel rows level ≠ .error .outOfFuel := by
  intro fuel
  induction fuel with
  | zero => intro rows level h; omega
  | succ fuel ih =>
    intro rows level hfuel
    cases hfin : isFinishingLevel other query level with
    | error e =>
      unfold makeResponseAggregationRecursiveAux
      rw [hfin]
      intro h
      cases h
    | ok finish =>
      cases finish with
      | true =>
        unfold makeResponseAggregationRecursiveAux
        rw [hfin]
        exact liftPanic_ne_outOfFuel _
      | false =>
        cases hsplit : splitResultSetIntoBuckets rows level with
        | error e =>
          unfold makeResponseAggregationRecursiveAux
          rw [hfin, hsplit]
          intro h
          cases h
        | ok buckets =>
          by_cases hne : buckets = []
          · unfold makeResponseAggregationRecursiveAux
            rw [hfin, hsplit, hne]
            intro h
            cases h
          · rw [makeResponseAggregationRecursiveAux_deeper other query fuel rows level buckets
              hfin hsplit hne]
            obtain ⟨hmem, -⟩ := splitResultSetIntoBuckets_mem rows level buckets hsplit
            have hpos : level < max (query.AggregatorsNames.length : Int) (maxWidth rows) := by
              by_cases h0 : 0 ≤ level
              · cases rows with
                | nil =>
                  simp only [splitResultSetIntoBuckets, pure, Except.pure,
                    Except.ok.injEq] at hsplit
                  exact absurd hsplit.symm hne
                | cons row rest =>
                  have h1 := splitResultSetIntoBuckets_first_width row rest level buckets
                    hsplit h0
                  have h2 := le_maxWidth (row :: rest) row (List.mem_cons_self _ _)
                  have h3 := le_max_right (query.AggregatorsNames.length : Int)
                    (maxWidth (row :: rest))
                  omega
              · have h3 := le_max_left (query.AggregatorsNames.length : Int) (maxWidth rows)
                omega
            have hrec : ∀ b ∈ buckets,
                makeResponseAggregationRecursiveAux other query fuel b (level + 1)
                  ≠ .error .outOfFuel := by
              intro b hb
              apply ih
              have hw := maxWidth_le_of_subset rows b (hmem b hb)
              have hmax : max (query.AggregatorsNames.length : Int) (maxWidth b)
                  ≤ max (query.AggregatorsNames.length : Int) (maxWidth rows) :=
                max_le_max (le_refl _) (by exact_mod_cast hw)
              omega
            cases hcb : collectBuckets
                (fun bucket =>
                  makeResponseAggregationRecursiveAux other query fuel bucket (level + 1))
                buckets [] with
            | error e =>
              intro h
              have h2 : e = Abort.outOfFuel := by
                simp only [bind, Except.bind] at h
                cases h
                rfl
              rw [h2] at hcb
              exact collectBuckets_ne_outOfFuel _ buckets [] hrec hcb
            | ok maps =>
              cases hname : indexGoInt query.AggregatorsNames level with
              | error e =>
                intro h
                simp only [bind, Except.bind, liftPanic] at h
                cases h
              | ok name =>
                intro h
                simp only [bind, Except.bind, liftPanic, pure, Except.pure] at h
                cases h

theorem makeResponseAggregationRecursive_ne_outOfFuel (other : QueryTypeMethods)
    (query : QueryWithAggregation) (rows : List QueryResultRow) (level : Int) :
    makeResponseAggregationRecursive other query rows level ≠ .error .outOfFuel :=
  makeResponseAggregationRecursiveAux_ne_outOfFuel other query _ rows level (le_refl _)

theorem isFinishingLevel_eq (other : QueryTypeMethods) (query : QueryWithAggregation)
    (isBucket : Bool) (hb : query.«Type».IsBucketAggregation other = .ok isBucket)
    (level : Int) :
    isFinishingLevel other query level
      = .ok (decide (level = finishingLevel query isBucket)
          || decide (level = (query.AggregatorsNames.length : Int))) := by
  unfold isFinishingLevel finishingLevel
  rw [hb]
  by_cases h1 : level = (query.AggregatorsNames.length : Int)
  · rw [if_pos h1]
    simp [h1, pure, Except.pure]
  · rw [if_neg h1]
    by_cases h2 : level = (query.AggregatorsNames.length : Int) - 1
    · rw [if_pos h2]
      cases isBucket <;> simp [h1, h2, pure, Except.pure, bind, Except.bind]
    · rw [if_neg h2]
      cases isBucket <;> simp [h1, h2, pure, Except.pure]

theorem comparableKey_mono (row : QueryResultRow) (level level2 : Int) (h : level ≤ level2)
    (hc : ComparableKey row level2) : ComparableKey row level :=
  fun i hi => hc i (by omega)

/-- The recursion returns from every level up to the finishing level, on rows that have a
column for each level below it, with values that Go can compare, if `finishMakeResponse`
returns at the finishing level. -/
theorem makeResponseAggregationRecursiveAux_total (other : QueryTypeMethods)
    (query : QueryWithAggregation) (isBucket : Bool)
    (hb : query.«Type».IsBucketAggregation other = .ok isBucket)
    (ResultSet : List QueryResultRow)
    (hwide : ∀ row ∈ ResultSet, finishingLevel query isBucket ≤ row.Cols.length
      ∧ ComparableKey row (finishingLevel query isBucket - 1))
    (hfinish : ∀ rows : List QueryResultRow, rows ≠ [] → (∀ r ∈ rows, r ∈ ResultSet) →
      ∃ maps, finishMakeResponse other query rows (finishingLevel query isBucket) = .ok maps) :
    ∀ (k fuel : Nat) (rows : List QueryResultRow) (level : Int),
      0 ≤ level → level + k = finishingLevel query isBucket → k + 1 ≤ fuel →
      rows ≠ [] → (∀ r ∈ rows, r ∈ ResultSet) →
      ∃ maps, makeResponseAggregationRecursiveAux other query fuel rows level = .ok maps := by
  have hFn : finishingLevel query isBucket ≤ (query.AggregatorsNames.length : Int) := by
    unfold finishingLevel
    split <;> omega
  intro k
  induction k with
  | zero =>
    intro fuel rows level h0 hk hfuel hne hsub
    obtain ⟨fuel, rfl⟩ : ∃ f, fuel = f + 1 := ⟨fuel - 1, by omega⟩
    have hl : level = finishingLevel query isBucket := by omega
    have hfin : isFinishingLevel other query level = .ok true := by
      rw [isFinishingLevel_eq other query isBucket hb]
      simp [hl]
    obtain ⟨maps, hmaps⟩ := hfinish rows hne hsub
    refine ⟨maps, ?_⟩
    rw [makeResponseAggregationRecursiveAux, hfin, hl, hmaps]
    rfl
  | succ k ih =>
    intro fuel rows level h0 hk hfuel hne hsub
    obtain ⟨fuel, rfl⟩ : ∃ f, fuel = f + 1 := ⟨fuel - 1, by omega⟩
    have hfin : isFinishingLevel other query level = .ok false := by
      rw [isFinishingLevel_eq other query isBucket hb]
      have h1 : ¬ level = finishingLevel query isBucket := by omega
      have h2 : ¬ level = (query.AggregatorsNames.length : Int) := by omega
      simp [h1, h2]
    have hcols : ∀ row ∈ rows, level < row.Cols.length ∧ ComparableKey row level := by
      intro row hrow
      obtain ⟨hw, hc⟩ := hwide row (hsub row hrow)
      exact ⟨by omega, comparableKey_mono row level _ (by omega) hc⟩
    obtain ⟨buckets, hsplit⟩ := splitResultSetIntoBuckets_total rows level hcols
    obtain ⟨hmem, hbne⟩ := splitResultSetIntoBuckets_mem rows level buckets hsplit
    obtain ⟨-, hne2, -, -⟩ := splitResultSetIntoBuckets_ok rows level buckets
      (fun row hrow => (hcols row hrow).1) hsplit
    obtain ⟨children, hchildren⟩ := collectBuckets_total
      (fun bucket => makeResponseAggregationRecursiveAux other query fuel bucket (level + 1))
      buckets [] (by
        intro b hb2
        exact ih fuel b (level + 1) (by omega) (by omega) (by omega) (hne2 b hb2)
          (fun r hr => hsub r (hmem b hb2 r hr)))
    obtain ⟨name, hname, -⟩ := indexGoInt_of_lt query.AggregatorsNames level h0 (by omega)
    refine ⟨[[(name, ResponseValue.map [("buckets", ResponseValue.maps children)])]], ?_⟩
    rw [makeResponseAggregationRecursiveAux_deeper other query fuel rows level buckets hfin
      hsplit (hbne hne), hchildren, hname]
    rfl

/-- C22 (defect in the code): on an empty row list `MakeResponseAggregation` panics,
whatever the plan entry is: `makeResponseAggregationRecursive` returns no map for an empty
row list, and `MakeResponseAggregation` takes the element 0 of what it returns; the panic
is that of the index expression unless the result kind is the `nil` interface. -/
theorem MakeResponseAggregation_empty_rows (other : QueryTypeMethods)
    (query : QueryWithAggregation) :
    (∃ msg, MakeResponseAggregation other query [] = .error (.panic msg))
      ∧ (∀ isBucket, query.«Type».IsBucketAggregation other = .ok isBucket →
          makeResponseAggregationRecursive other query [] 0 = .ok []
          ∧ MakeResponseAggregation other query []
              = .error (.panic "index out of range [0] with length 0")) := by
  have key : ∀ finish, isFinishingLevel other query 0 = .ok finish →
      makeResponseAggregationRecursive other query [] 0 = .ok [] := by
    intro finish hfin
    unfold makeResponseAggregationRecursive
    rw [makeResponseAggregationRecursiveAux, hfin]
    cases finish <;> rfl
  have key2 : makeResponseAggregationRecursive other query [] 0 = .ok [] →
      MakeResponseAggregation other query []
        = .error (.panic "index out of range [0] with length 0") := by
    intro h
    unfold MakeResponseAggregation
    rw [h]
    rfl
  constructor
  · cases hfin : isFinishingLevel other query 0 with
    | error e =>
      refine ⟨e.msg, ?_⟩
      unfold MakeResponseAggregation makeResponseAggregationRecursive
      rw [makeResponseAggregationRecursiveAux, hfin]
      rfl
    | ok finish => exact ⟨_, key2 (key finish hfin)⟩
  · intro isBucket hb
    have h := key _ (isFinishingLevel_eq other query isBucket hb 0)
    exact ⟨h, key2 h⟩

/-- Witness of C22: the plan entry for the `stats` metric `s` under the bucket aggregation
`h`, with no rows. -/
theorem MakeResponseAggregation_empty_rows_witness :
    makeResponseAggregationRecursive sampleMethods statsUnderHistogram [] 0 = .ok []
      ∧ MakeResponseAggregation sampleMethods statsUnderHistogram []
          = .error (.panic "index out of range [0] with length 0") :=
  (MakeResponseAggregation_empty_rows sampleMethods statsUnderHistogram).2 false rfl

/-! ## Claims about the predicates and the bucket kinds -/

/-- C31: for every two predicates, `combineWheres` gives a predicate that can be parsed
exactly if both can, whose field name is that of the first predicate if it is not empty,
also when the second predicate has a field name, and that of the second otherwise. -/
theorem combineWheres_canParse_fieldName (cw : ClickhouseQueryTranslator)
    (where1 where2 : SimpleQuery) :
    (combineWheres cw where1 where2).CanParse = (where1.CanParse && where2.CanParse)
      ∧ (where1.FieldName ≠ "" →
          (combineWheres cw where1 where2).FieldName = where1.FieldName)
      ∧ (where1.FieldName = "" →
          (combineWheres cw where1 where2).FieldName = where2.FieldName)
      ∧ (combineWheres cw where1 where2).Sql = cw.and [where1.Sql, where2.Sql] := by
  refine ⟨rfl, ?_, ?_, rfl⟩
  · intro h
    have hl : 0 < where1.FieldName.length := by
      rcases Nat.eq_zero_or_pos where1.FieldName.length with h0 | h0
      · exact absurd (String.ext (List.length_eq_zero.mp h0)) h
      · exact h0
    simp [combineWheres, hl]
  · intro h
    simp [combineWheres, h]

/-- Witness of C31: two predicates with the field names `a` and `b` give the field name
`a`; a predicate without a field name joined with one for `b` gives `b`. -/
theorem combineWheres_canParse_fieldName_witness :
    (combineWheres sampleTranslator ⟨⟨"x"⟩, true, "a"⟩ ⟨⟨"y"⟩, true, "b"⟩).FieldName = "a"
      ∧ (combineWheres sampleTranslator ⟨⟨"x"⟩, true, ""⟩ ⟨⟨"y"⟩, false, "b"⟩).FieldName = "b"
      ∧ (combineWheres sampleTranslator ⟨⟨"x"⟩, true, ""⟩ ⟨⟨"y"⟩, false, "b"⟩).CanParse
          = false :=
  ⟨(combineWheres_canParse_fieldName sampleTranslator ⟨⟨"x"⟩, true, "a"⟩
      ⟨⟨"y"⟩, true, "b"⟩).2.1 (by decide),
    (combineWheres_canParse_fieldName sampleTranslator ⟨⟨"x"⟩, true, ""⟩
      ⟨⟨"y"⟩, false, "b"⟩).2.2.1 rfl,
    (combineWheres_canParse_fieldName sampleTranslator ⟨⟨"x"⟩, true, ""⟩
      ⟨⟨"y"⟩, false, "b"⟩).1⟩

theorem tryBucketAggregation_histogram (cw : ClickhouseQueryTranslator)
    (b : aggrQueryBuilder) (q params : QueryMap) (c : String) (i : Int)
    (hh : QueryMap.get q "histogram" = some (JsonValue.obj params))
    (hf : QueryMap.index params "field" = JsonValue.str c)
    (hi : histogramInterval (QueryMap.index params "interval") = .ok i) :
    tryBucketAggregation cw b q
      = .ok ({ b with
          «Type» := QueryType.Histogram
          GroupByFields := b.GroupByFields ++
            [histogramGroupBy (strconvQuote (cw.Table.ResolveField c)) i]
          NonSchemaFields := b.NonSchemaFields ++ [strconvQuote (cw.Table.ResolveField c)] },
        QueryMap.delete q "histogram", true, true) := by
  unfold tryBucketAggregation
  simp only [hh, JsonValue.asQueryMap, hf, JsonValue.asString, hi, bind, Except.bind, pure,
    Except.pure]
  unfold histogramGroupBy
  by_cases h1 : i = 1
  · simp [h1]
  · simp [h1]

/-- C33 (defect in the code): for a histogram node whose interval is a string,
`tryBucketAggregation` uses the interval 0 whenever the string is a decimal integer that
`strconv.Atoi` accepts, and the value that `strconv.Atoi` returns with its error otherwise
(0 for a string that is no number, the nearest bound of `int` for a number out of range):
the result of the conversion is stored only `if err != nil`. -/
theorem tryBucketAggregation_histogram_string (cw : ClickhouseQueryTranslator)
    (b : aggrQueryBuilder) (q params : QueryMap) (c s : String)
    (hh : QueryMap.get q "histogram" = some (JsonValue.obj params))
    (hf : QueryMap.index params "field" = JsonValue.str c)
    (hi : QueryMap.index params "interval" = JsonValue.str s) :
    ∃ b' q', tryBucketAggregation cw b q = .ok (b', q', true, true)
      ∧ ((strconvAtoi s).2 = false → b'.GroupByFields
          = b.GroupByFields ++ ["floor(" ++ strconvQuote (cw.Table.ResolveField c)
              ++ " / 0) * 0 AS " ++ strconvQuote (cw.Table.ResolveField c)])
      ∧ ((strconvAtoi s).2 = true → b'.GroupByFields
          = b.GroupByFields
            ++ [histogramGroupBy (strconvQuote (cw.Table.ResolveField c)) (strconvAtoi s).1]) := by
  have hint : histogramInterval (QueryMap.index params "interval")
      = .ok (if (strconvAtoi s).2 then (strconvAtoi s).1 else 0) := by
    rw [hi]
    show (match strconvAtoi s with
      | (v, err) => if err = true then (pure v : Except Panic Int) else pure 0) = _
    rcases hp : strconvAtoi s with ⟨v, err⟩
    cases err <;> rfl
  refine ⟨_, _, tryBucketAggregation_histogram cw b q params c _ hh hf hint, ?_, ?_⟩
  · intro h1
    simp only [h1, Bool.false_eq_true, if_false, histogramGroupBy]
    have e : ∀ x : String, "floor(" ++ x ++ " / " ++ toString (0 : Int) ++ ") * "
        ++ toString (0 : Int) ++ " AS " ++ x = "floor(" ++ x ++ " / 0) * 0 AS " ++ x := by
      intro x
      apply String.ext
      simp only [String.data_append, List.append_assoc]
      rfl
    simp [e]
  · intro h1
    simp only [h1, if_true]

/-- Witness of C33: the interval `"5"` gives the group-by expression
`floor("c" / 0) * 0 AS "c"`, the interval 5 gives `floor("c" / 5) * 5 AS "c"`. -/
theorem tryBucketAggregation_histogram_string_witness :
    (∃ b' q', tryBucketAggregation sampleTranslator aggrQueryBuilder.zero
          [("histogram", JsonValue.obj
            [("field", JsonValue.str "c"), ("interval", JsonValue.str "5")])]
          = .ok (b', q', true, true)
        ∧ ((strconvAtoi "5").2 = false → b'.GroupByFields
            = [] ++ ["floor(" ++ "\"c\"" ++ " / 0) * 0 AS " ++ "\"c\""])
        ∧ ((strconvAtoi "5").2 = true → b'.GroupByFields
            = [] ++ [histogramGroupBy "\"c\"" (strconvAtoi "5").1]))
      ∧ strconvAtoi "5" = (5, false)
      ∧ (∃ b', tryBucketAggregation sampleTranslator aggrQueryBuilder.zero
          [("histogram", JsonValue.obj
            [("field", JsonValue.str "c"), ("interval", JsonValue.str "5")])]
          = .ok (b', [], true, true)
        ∧ b'.GroupByFields = ["floor(\"c\" / 0) * 0 AS \"c\""])
      ∧ ∃ b', tryBucketAggregation sampleTranslator aggrQueryBuilder.zero
          [("histogram", JsonValue.obj
            [("field", JsonValue.str "c"), ("interval", JsonValue.float ⟨5, 0⟩)])]
          = .ok (b', [], true, true)
        ∧ b'.GroupByFields = ["floor(\"c\" / 5) * 5 AS \"c\""] :=
  ⟨tryBucketAggregation_histogram_string sampleTranslator aggrQueryBuilder.zero _
      [("field", JsonValue.str "c"), ("interval", JsonValue.str "5")] "c" "5" rfl rfl rfl,
    by decide, ⟨_, rfl, by decide⟩, ⟨_, rfl, by decide⟩⟩

/-- C34: on a node with a `sampler` or `random_sampler` key and none of `histogram`,
`date_histogram` and `terms`, whatever the state of the builder, `tryBucketAggregation`
changes nothing in the builder but the result kind, which becomes `Count`: the group-by
list, the select list and the WHERE are unchanged; it deletes the key, reports a bucket
aggregation and reports that no select field was added. -/
theorem tryBucketAggregation_sampler (cw : ClickhouseQueryTranslator) (b : aggrQueryBuilder)
    (q : QueryMap) (h1 : QueryMap.get q "histogram" = none)
    (h2 : QueryMap.get q "date_histogram" = none) (h3 : QueryMap.get q "terms" = none)
    (hs : (QueryMap.get q "sampler").isSome = true
      ∨ (QueryMap.get q "random_sampler").isSome = true) :
    ∃ b' q', tryBucketAggregation cw b q = .ok (b', q', true, false)
      ∧ b' = { b with «Type» := QueryType.Count }
      ∧ b'.GroupByFields = b.GroupByFields ∧ b'.Fields = b.Fields
      ∧ b'.NonSchemaFields = b.NonSchemaFields ∧ b'.whereBuilder = b.whereBuilder
      ∧ b'.«Type» = QueryType.Count
      ∧ (q' = QueryMap.delete q "sampler" ∨ q' = QueryMap.delete q "random_sampler") := by
  unfold tryBucketAggregation
  simp only [h1, h2, h3]
  cases h4 : QueryMap.get q "sampler" with
  | some v => exact ⟨_, _, rfl, rfl, rfl, rfl, rfl, rfl, rfl, Or.inl rfl⟩
  | none =>
    cases h5 : QueryMap.get q "random_sampler" with
    | some v => exact ⟨_, _, rfl, rfl, rfl, rfl, rfl, rfl, rfl, Or.inr rfl⟩
    | none =>
      rw [h4, h5] at hs
      simp at hs

/-- Witness of C34: a `sampler` node on a builder with one group-by expression. -/
theorem tryBucketAggregation_sampler_witness :
    ∃ b' q', tryBucketAggregation sampleTranslator hostBuilder samplerNode
        = .ok (b', q', true, false)
      ∧ b' = { hostBuilder with «Type» := QueryType.Count }
      ∧ b'.GroupByFields = hostBuilder.GroupByFields ∧ b'.Fields = hostBuilder.Fields
      ∧ b'.NonSchemaFields = hostBuilder.NonSchemaFields
      ∧ b'.whereBuilder = hostBuilder.whereBuilder
      ∧ b'.«Type» = QueryType.Count
      ∧ (q' = QueryMap.delete samplerNode "sampler"
          ∨ q' = QueryMap.delete samplerNode "random_sampler") :=
  tryBucketAggregation_sampler sampleTranslator hostBuilder samplerNode rfl rfl rfl
    (Or.inl rfl)

/-! ## Claims about the transformation pipeline -/

theorem transformLoop_eq_ok :
    ∀ (transformers : List QueryTransformer) (queries out : List Query),
      transformLoop transformers queries = .ok out ↔ AppliedInOrder transformers queries out := by
  intro transformers
  induction transformers with
  | nil =>
    intro queries out
    constructor
    · intro h
      simp only [transformLoop, pure, Except.pure, Except.ok.injEq] at h
      subst h
      exact AppliedInOrder.none queries
    · intro h
      cases h
      rfl
  | cons t rest ih =>
    intro queries out
    constructor
    · intro h
      unfold transformLoop at h
      obtain ⟨⟨mid, err⟩, ht, h⟩ := (bind_eq_ok _ _ _).mp h
      exact AppliedInOrder.step t rest queries mid out err ht ((ih mid out).mp h)
    · intro h
      cases h with
      | step _ _ _ mid _ err ht hrest =>
        unfold transformLoop
        rw [ht]
        exact (ih mid out).mpr hrest

theorem transformLoop_total :
    ∀ (transformers : List QueryTransformer) (queries : List Query),
      (∀ t ∈ transformers, ∀ qs, ∃ r, t.Transform qs = .ok r) →
      ∃ out, transformLoop transformers queries = .ok out := by
  intro transformers
  induction transformers with
  | nil => intro queries _; exact ⟨queries, rfl⟩
  | cons t rest ih =>
    intro queries h
    obtain ⟨⟨mid, err⟩, ht⟩ := h t (List.mem_cons_self _ _) queries
    obtain ⟨out, hout⟩ := ih mid (fun t2 ht2 => h t2 (List.mem_cons_of_mem _ ht2))
    refine ⟨out, ?_⟩
    unfold transformLoop
    rw [ht]
    exact hout

/-- C39: what `TransformationPipeline.Transform` returns is the queries that its
transformers give when they are applied in list order, each to the queries returned by the
one before it (the argument itself if there is no transformer), together with the error
`nil`, whatever errors the transformers return; and it returns if every call of a
transformer returns. -/
theorem TransformationPipeline_Transform (o : TransformationPipeline) (queries : List Query) :
    (∀ out err, o.Transform queries = .ok (out, err)
        ↔ err = none ∧ AppliedInOrder o.transformers queries out)
      ∧ (o.transformers = [] → o.Transform queries = .ok (queries, none))
      ∧ ((∀ t ∈ o.transformers, ∀ qs, ∃ r, t.Transform qs = .ok r) →
          ∃ out, o.Transform queries = .ok (out, none)) := by
  refine ⟨?_, ?_, ?_⟩
  · intro out err
    unfold TransformationPipeline.Transform
    constructor
    · intro h
      obtain ⟨out2, hloop, h⟩ := (bind_eq_ok _ _ _).mp h
      simp only [pure, Except.pure, Except.ok.injEq, Prod.mk.injEq] at h
      obtain ⟨rfl, rfl⟩ := h
      exact ⟨rfl, (transformLoop_eq_ok _ _ _).mp hloop⟩
    · rintro ⟨rfl, h⟩
      rw [(transformLoop_eq_ok _ _ _).mpr h]
      rfl
  · intro h
    unfold TransformationPipeline.Transform
    rw [h]
    rfl
  · intro h
    obtain ⟨out, hout⟩ := transformLoop_total o.transformers queries h
    refine ⟨out, ?_⟩
    unfold TransformationPipeline.Transform
    rw [hout]
    rfl

/-- Witness of C39: a transformer that doubles the list and returns an error, followed by
one that drops the first query, turn one query into one query, and the error is `nil`. -/
theorem TransformationPipeline_Transform_witness :
    TransformationPipeline.Transform ⟨[doublingTransformer, droppingTransformer]⟩ [sampleQuery]
        = .ok ([sampleQuery], none)
      ∧ AppliedInOrder [doublingTransformer, droppingTransformer] [sampleQuery] [sampleQuery]
      ∧ TransformationPipeline.Transform ⟨[]⟩ [sampleQuery] = .ok ([sampleQuery], none) :=
  ⟨rfl,
    (((TransformationPipeline_Transform ⟨[doublingTransformer, droppingTransformer]⟩
      [sampleQuery]).1 [sampleQuery] none).mp rfl).2,
    (TransformationPipeline_Transform ⟨[]⟩ [sampleQuery]).2.1 rfl⟩

/-! ## Claims about the rendering as a whole -/

/-- C36: `Query.String` is the reference rendering: `SELECT `, the rendered `Fields` and the
`NonSchemaFields` joined as one list by `, `, ` FROM ` and the FROM clause, ` WHERE ` and the
WHERE clause if it is not empty, a space and the suffix clauses joined by single spaces,
and ` GROUP BY (` with the group-by expressions joined by `, ` and `)` if the group-by
list is not empty. -/
theorem Query_String_reference (q : Query) : q.String = referenceRendering q := by
  rw [Query_String_eq]
  unfold referenceRendering stringsJoin
  by_cases hw : q.WhereClause = ""
  · by_cases hg : q.GroupByFields = []
    · simp [hw, hg, String.append_assoc]
    · simp [hw, hg, String.append_assoc]
  · by_cases hg : q.GroupByFields = []
    · simp [hw, hg, String.append_assoc]
    · simp [hw, hg, String.append_assoc]

/-- Witness of C36: the rendering of a query with every part, and of a query with no
fields on the table `t`, where nothing stands between `SELECT ` and ` FROM `. -/
theorem Query_String_reference_witness :
    sampleFullQuery.String
        = "SELECT \"host\", count(), avg(\"x\") FROM t WHERE \"x\">1 ORDER BY \"host\" GROUP BY (\"host\")"
      ∧ sampleFullQuery.String = referenceRendering sampleFullQuery
      ∧ referenceRendering { sampleQuery with Fields := [] } = "SELECT  FROM t " :=
  ⟨by decide, Query_String_reference sampleFullQuery, by decide⟩

/-! ## Claims about the depth of the recursion of the response -/

theorem makeResponseAggregationRecursiveAux_finish (other : QueryTypeMethods)
    (query : QueryWithAggregation) (fuel : Nat) (rows : List QueryResultRow) (level : Int)
    (hfin : isFinishingLevel other query level = .ok true) :
    makeResponseAggregationRecursiveAux other query (fuel + 1) rows level
      = liftPanic (finishMakeResponse other query rows level) := by
  rw [makeResponseAggregationRecursiveAux, hfin]
  rfl

theorem makeResponseAggregationRecursiveAux_finish_panic (other : QueryTypeMethods)
    (query : QueryWithAggregation) (fuel : Nat) (rows : List QueryResultRow) (level : Int)
    (e : Panic) (hfin : isFinishingLevel other query level = .error e) :
    makeResponseAggregationRecursiveAux other query (fuel + 1) rows level
      = .error (.panic e.msg) := by
  rw [makeResponseAggregationRecursiveAux, hfin]
  rfl

theorem makeResponseAggregationRecursiveAux_split_panic (other : QueryTypeMethods)
    (query : QueryWithAggregation) (fuel : Nat) (rows : List QueryResultRow) (level : Int)
    (e : Panic) (hfin : isFinishingLevel other query level = .ok false)
    (hsplit : splitResultSetIntoBuckets rows level = .error e) :
    makeResponseAggregationRecursiveAux other query (fuel + 1) rows level
      = .error (.panic e.msg) := by
  rw [makeResponseAggregationRecursiveAux, hfin, hsplit]
  rfl

theorem makeResponseAggregationRecursiveAux_no_bucket (other : QueryTypeMethods)
    (query : QueryWithAggregation) (fuel : Nat) (rows : List QueryResultRow) (level : Int)
    (hfin : isFinishingLevel other query level = .ok false)
    (hsplit : splitResultSetIntoBuckets rows level = .ok []) :
    makeResponseAggregationRecursiveAux other query (fuel + 1) rows level = .ok [] := by
  rw [makeResponseAggregationRecursiveAux, hfin, hsplit]
  rfl

theorem collectBuckets_mono
    (r1 r2 : List QueryResultRow → Except Abort (List JsonMap))
    (h : ∀ b, r1 b ≠ .error .outOfFuel → r2 b = r1 b) :
    ∀ (buckets : List (List QueryResultRow)) (acc : List JsonMap),
      collectBuckets r1 buckets acc ≠ .error .outOfFuel →
      collectBuckets r2 buckets acc = collectBuckets r1 buckets acc := by
  intro buckets
  induction buckets with
  | nil => intro acc _; rfl
  | cons b rest ih =>
    intro acc hne
    unfold collectBuckets at hne ⊢
    cases hb : r1 b with
    | error e =>
      rw [hb] at hne
      have he : r1 b ≠ .error .outOfFuel := by
        rw [hb]
        intro h2
        apply hne
        cases h2
        rfl
      rw [h b he, hb]
      rfl
    | ok sub =>
      rw [hb] at hne
      rw [h b (by rw [hb]; intro h2; cases h2), hb]
      exact ih _ hne

/-- More fuel than the recursion needs does not change its result. -/
theorem makeResponseAggregationRecursiveAux_succ_fuel (other : QueryTypeMethods)
    (query : QueryWithAggregation) :
    ∀ (fuel : Nat) (rows : List QueryResultRow) (level : Int),
      makeResponseAggregationRecursiveAux other query fuel rows level ≠ .error .outOfFuel →
      makeResponseAggregationRecursiveAux other query (fuel + 1) rows level
        = makeResponseAggregationRecursiveAux other query fuel rows level := by
  intro fuel
  induction fuel with
  | zero =>
    intro rows level h
    exact absurd rfl h
  | succ fuel ih =>
    intro rows level hne
    cases hfin : isFinishingLevel other query level with
    | error e =>
      rw [makeResponseAggregationRecursiveAux_finish_panic other query (fuel + 1) rows level e
        hfin, makeResponseAggregationRecursiveAux_finish_panic other query fuel rows level e hfin]
    | ok finish =>
      cases finish with
      | true =>
        rw [makeResponseAggregationRecursiveAux_finish other query (fuel + 1) rows level hfin,
          makeResponseAggregationRecursiveAux_finish other query fuel rows level hfin]
      | false =>
        cases hsplit : splitResultSetIntoBuckets rows level with
        | error e =>
          rw [makeResponseAggregationRecursiveAux_split_panic other query (fuel + 1) rows level
            e hfin hsplit,
            makeResponseAggregationRecursiveAux_split_panic other query fuel rows level e hfin
              hsplit]
        | ok buckets =>
          by_cases hb : buckets = []
          · subst hb
            rw [makeResponseAggregationRecursiveAux_no_bucket other query (fuel + 1) rows level
              hfin hsplit,
              makeResponseAggregationRecursiveAux_no_bucket other query fuel rows level hfin
                hsplit]
          · rw [makeResponseAggregationRecursiveAux_deeper other query fuel rows level buckets
              hfin hsplit hb] at hne
            rw [makeResponseAggregationRecursiveAux_deeper other query (fuel + 1) rows level
              buckets hfin hsplit hb,
              makeResponseAggregationRecursiveAux_deeper other query fuel rows level buckets
                hfin hsplit hb]
            have hcb : collectBuckets
                (fun bucket =>
                  makeResponseAggregationRecursiveAux other query fuel bucket (level + 1))
                buckets [] ≠ .error .outOfFuel := by
              intro h2
              apply hne
              rw [h2]
              rfl
            rw [collectBuckets_mono
              (fun bucket =>
                makeResponseAggregationRecursiveAux other query fuel bucket (level + 1))
              (fun bucket =>
                makeResponseAggregationRecursiveAux other query (fuel + 1) bucket (level + 1))
              (fun b hb2 => ih b (level + 1) hb2) buckets [] hcb]

theorem makeResponseAggregationRecursiveAux_add_fuel (other : QueryTypeMethods)
    (query : QueryWithAggregation) (fuel : Nat) (rows : List QueryResultRow) (level : Int)
    (h : makeResponseAggregationRecursiveAux other query fuel rows level ≠ .error .outOfFuel) :
    ∀ more : Nat, makeResponseAggregationRecursiveAux other query (fuel + more) rows level
      = makeResponseAggregationRecursiveAux other query fuel rows level := by
  intro more
  induction more with
  | zero => rfl
  | succ more ih =>
    have h2 : makeResponseAggregationRecursiveAux other query (fuel + more) rows level
        ≠ .error .outOfFuel := by
      rw [ih]
      exact h
    have h3 := makeResponseAggregationRecursiveAux_succ_fuel other query (fuel + more) rows
      level h2
    rw [← ih, ← h3]
    rfl

/-- From a level up to the length of the trail, the recursion needs no more nested calls
than there are levels left up to the length of the trail, whatever the rows are. -/
theorem makeResponseAggregationRecursiveAux_depth (other : QueryTypeMethods)
    (query : QueryWithAggregation) :
    ∀ (k fuel : Nat) (rows : List QueryResultRow) (level : Int),
      level + k = (query.AggregatorsNames.length : Int) → k + 1 ≤ fuel →
      makeResponseAggregationRecursiveAux other query fuel rows level ≠ .error .outOfFuel := by
  intro k
  induction k with
  | zero =>
    intro fuel rows level hk hfuel
    obtain ⟨fuel, rfl⟩ : ∃ f, fuel = f + 1 := ⟨fuel - 1, by omega⟩
    have hl : level = (query.AggregatorsNames.length : Int) := by omega
    have hfin : isFinishingLevel other query level = .ok true := by
      unfold isFinishingLevel
      rw [if_pos hl]
      rfl
    rw [makeResponseAggregationRecursiveAux_finish other query fuel rows level hfin]
    exact liftPanic_ne_outOfFuel _
  | succ k ih =>
    intro fuel rows level hk hfuel
    obtain ⟨fuel, rfl⟩ : ∃ f, fuel = f + 1 := ⟨fuel - 1, by omega⟩
    cases hfin : isFinishingLevel other query level with
    | error e =>
      rw [makeResponseAggregationRecursiveAux_finish_panic other query fuel rows level e hfin]
      intro h
      cases h
    | ok finish =>
      cases finish with
      | true =>
        rw [makeResponseAggregationRecursiveAux_finish other query fuel rows level hfin]
        exact liftPanic_ne_outOfFuel _
      | false =>
        cases hsplit : splitResultSetIntoBuckets rows level with
        | error e =>
          rw [makeResponseAggregationRecursiveAux_split_panic other query fuel rows level e hfin
            hsplit]
          intro h
          cases h
        | ok buckets =>
          by_cases hb : buckets = []
          · subst hb
            rw [makeResponseAggregationRecursiveAux_no_bucket other query fuel rows level hfin
              hsplit]
            intro h
            cases h
          · rw [makeResponseAggregationRecursiveAux_deeper other query fuel rows level buckets
              hfin hsplit hb]
            have hrec : ∀ b ∈ buckets,
                makeResponseAggregationRecursiveAux other query fuel b (level + 1)
                  ≠ .error .outOfFuel :=
              fun b _ => ih fuel b (level + 1) (by omega) (by omega)
            cases hcb : collectBuckets
                (fun bucket =>
                  makeResponseAggregationRecursiveAux other query fuel bucket (level + 1))
                buckets [] with
            | error e =>
              intro h
              have h2 : e = Abort.outOfFuel := by
                simp only [bind, Except.bind] at h
                cases h
                rfl
              rw [h2] at hcb
              exact collectBuckets_ne_outOfFuel _ buckets [] hrec hcb
            | ok maps =>
              cases hname : indexGoInt query.AggregatorsNames level with
              | error e =>
                intro h
                simp only [bind, Except.bind, liftPanic] at h
                cases h
              | ok name =>
                intro h
                simp only [bind, Except.bind, liftPanic, pure, Except.pure] at h
                cases h

/-- C38: started at level 0, `makeResponseAggregationRecursive` terminates, and its
recursion never goes deeper than the trail is long, whatever the plan entry and the rows
are: as many nested calls as the length of the trail plus one are enough for it to come to
its end, by a result or by a panic, and more fuel gives the same outcome. It ends with a
result on a row list that is not empty if the result kind is not the `nil` interface, every
row has at least as many columns as the trail is long, with values that Go can compare,
and `finishMakeResponse` returns at the finishing levels. -/
theorem makeResponseAggregationRecursive_depth (other : QueryTypeMethods)
    (query : QueryWithAggregation) (ResultSet : List QueryResultRow) :
    makeResponseAggregationRecursiveAux other query (query.AggregatorsNames.length + 1)
        ResultSet 0 ≠ .error .outOfFuel
      ∧ (∀ fuel, query.AggregatorsNames.length + 1 ≤ fuel →
          makeResponseAggregationRecursiveAux other query fuel ResultSet 0
            = makeResponseAggregationRecursiveAux other query
                (query.AggregatorsNames.length + 1) ResultSet 0)
      ∧ makeResponseAggregationRecursive other query ResultSet 0
          = makeResponseAggregationRecursiveAux other query
              (query.AggregatorsNames.length + 1) ResultSet 0
      ∧ (∀ isBucket, query.«Type».IsBucketAggregation other = .ok isBucket →
          ResultSet ≠ [] →
          (∀ row ∈ ResultSet, (query.AggregatorsNames.length : Int) ≤ row.Cols.length
            ∧ ComparableKey row ((query.AggregatorsNames.length : Int) - 1)) →
          (∀ (rows : List QueryResultRow) (level : Int), rows ≠ [] →
            (∀ r ∈ rows, r ∈ ResultSet) → isFinishingLevel other query level = .ok true →
            ∃ maps, finishMakeResponse other query rows level = .ok maps) →
          ∃ maps, makeResponseAggregationRecursive other query ResultSet 0 = .ok maps) := by
  have hdepth := makeResponseAggregationRecursiveAux_depth other query
    query.AggregatorsNames.length (query.AggregatorsNames.length + 1) ResultSet 0 (by omega)
    (le_refl _)
  have hmore : ∀ fuel, query.AggregatorsNames.length + 1 ≤ fuel →
      makeResponseAggregationRecursiveAux other query fuel ResultSet 0
        = makeResponseAggregationRecursiveAux other query
            (query.AggregatorsNames.length + 1) ResultSet 0 := by
    intro fuel hfuel
    obtain ⟨more, rfl⟩ : ∃ more, fuel = query.AggregatorsNames.length + 1 + more :=
      ⟨fuel - (query.AggregatorsNames.length + 1), by omega⟩
    exact makeResponseAggregationRecursiveAux_add_fuel other query _ ResultSet 0 hdepth more
  have heq : makeResponseAggregationRecursive other query ResultSet 0
      = makeResponseAggregationRecursiveAux other query
          (query.AggregatorsNames.length + 1) ResultSet 0 := by
    unfold makeResponseAggregationRecursive
    apply hmore
    have h1 := le_max_left (query.AggregatorsNames.length : Int) (maxWidth ResultSet)
    omega
  refine ⟨hdepth, hmore, heq, ?_⟩
  intro isBucket hb hrows hwide hfinish
  rw [heq]
  have hFn : finishingLevel query isBucket ≤ (query.AggregatorsNames.length : Int) := by
    unfold finishingLevel
    split <;> omega
  by_cases hF : 0 ≤ finishingLevel query isBucket
  · have hfinF : isFinishingLevel other query (finishingLevel query isBucket) = .ok true := by
      rw [isFinishingLevel_eq other query isBucket hb]
      simp
    exact makeResponseAggregationRecursiveAux_total other query isBucket hb ResultSet
      (fun row hrow => ⟨le_trans hFn (hwide row hrow).1,
        comparableKey_mono row _ _ (by omega) (hwide row hrow).2⟩)
      (fun rows hne hsub => hfinish rows _ hne hsub hfinF)
      (finishingLevel query isBucket).toNat _ ResultSet 0 (le_refl _) (by omega) (by omega)
      hrows (fun _ h => h)
  · have hn : (query.AggregatorsNames.length : Int) = 0 := by
      unfold finishingLevel at hF
      split at hF <;> omega
    have hfin0 : isFinishingLevel other query 0 = .ok true := by
      unfold isFinishingLevel
      rw [if_pos hn.symm]
      rfl
    obtain ⟨maps, hmaps⟩ := hfinish ResultSet 0 hrows (fun _ h => h) hfin0
    refine ⟨maps, ?_⟩
    rw [makeResponseAggregationRecursiveAux_finish other query _ ResultSet 0 hfin0, hmaps]
    rfl

/-- Witness of C38: for the `stats` metric `s` under the bucket aggregation `h`, a trail of
length 2, three nested calls give the result. -/
theorem makeResponseAggregationRecursive_depth_witness :
    makeResponseAggregationRecursiveAux sampleMethods statsUnderHistogram 3 statsRows 0
        = .ok [[("h", ResponseValue.map [("buckets", ResponseValue.maps
            [[("s", ResponseValue.map [("count", ResponseValue.value (Value.uint64 5))])],
             [("s", ResponseValue.map [("count", ResponseValue.value (Value.uint64 6))])]])])]]
      ∧ makeResponseAggregationRecursiveAux sampleMethods statsUnderHistogram
          (statsUnderHistogram.AggregatorsNames.length + 1) statsRows 0 ≠ .error .outOfFuel
      ∧ makeResponseAggregationRecursive sampleMethods statsUnderHistogram statsRows 0
          = makeResponseAggregationRecursiveAux sampleMethods statsUnderHistogram
              (statsUnderHistogram.AggregatorsNames.length + 1) statsRows 0
      ∧ makeResponseAggregationRecursiveAux sampleMethods statsUnderHistogram 1 statsRows 0
          = .error .outOfFuel :=
  ⟨rfl,
    (makeResponseAggregationRecursive_depth sampleMethods statsUnderHistogram statsRows).1,
    (makeResponseAggregationRecursive_depth sampleMethods statsUnderHistogram statsRows).2.2.1,
    rfl⟩

/-! ## Claims about the balance of the stacks -/

theorem parseAggregationAux_mark_panics (cw : ClickhouseQueryTranslator) (fuel : Nat)
    (b : aggrQueryBuilder) (q : QueryMap) (acc : List QueryWithAggregation)
    (m : metricsAggregation) (b1 : aggrQueryBuilder) (q1 : QueryMap)
    (acc1 : List QueryWithAggregation) (f1 : Bool) (b3 : aggrQueryBuilder) (q3 : QueryMap)
    (present : Bool) (hq : q ≠ [])
    (hm : tryMetricsAggregation cw q = .ok (m, false))
    (hf : parseFilterOnThisLevel cw b q acc = .ok (b1, q1, acc1, f1))
    (hb : tryBucketAggregation cw b1 (q1.delete "filters") = .ok (b3, q3, present, true))
    (h3 : b3.Aggregators = []) :
    parseAggregationAux cw (fuel + 1) b q acc
      = .error (.panic "index out of range [-1]") := by
  unfold parseAggregationAux
  have hlen : q.length ≠ 0 := by simpa using hq
  simp only [hlen, if_false, hm, hf, hb, liftPanic, bind, Except.bind, Bool.false_eq_true,
    if_true, markLastAggregatorNotEmpty, h3, List.getLast?_nil]

theorem parseAggregationAux_nested_panics (cw : ClickhouseQueryTranslator) (fuel : Nat)
    (b : aggrQueryBuilder) (q : QueryMap) (acc : List QueryWithAggregation)
    (m : metricsAggregation) (b1 : aggrQueryBuilder) (q1 : QueryMap)
    (acc1 : List QueryWithAggregation) (f1 : Bool) (b3 : aggrQueryBuilder) (q3 : QueryMap)
    (present : Bool) (e : Abort) (hq : q ≠ [])
    (hm : tryMetricsAggregation cw q = .ok (m, false))
    (hf : parseFilterOnThisLevel cw b q acc = .ok (b1, q1, acc1, f1))
    (hb : tryBucketAggregation cw b1 (q1.delete "filters") = .ok (b3, q3, present, false))
    (h5 : parseNestedAggs (parseAggregationAux cw fuel) b3 q3 acc1 = .error e) :
    parseAggregationAux cw (fuel + 1) b q acc = .error e := by
  unfold parseAggregationAux
  have hlen : q.length ≠ 0 := by simpa using hq
  simp only [hlen, if_false, hm, hf, hb, liftPanic, bind, Except.bind, Bool.false_eq_true,
    pure, Except.pure, h5]

/-- A well-formed node is planned from every builder, unless the trail is empty where the
trail element of a level is marked: then the index expression panics. -/
theorem parseAggregationAux_wellFormed_or_index (cw : ClickhouseQueryTranslator) (q : QueryMap)
    (hwf : WellFormedNode cw q) :
    ∀ (fuel : Nat) (b : aggrQueryBuilder) (acc : List QueryWithAggregation),
      JsonValue.mapDepth q < fuel →
      (∃ r, parseAggregationAux cw fuel b q acc = .ok r)
        ∨ (b.Aggregators = []
          ∧ parseAggregationAux cw fuel b q acc = .error (.panic "index out of range [-1]")) := by
  induction hwf with
  | empty =>
    intro fuel b acc hfuel
    cases fuel with
    | zero => omega
    | succ fuel => exact Or.inl ⟨(b, acc), by simp [parseAggregationAux, pure, Except.pure]⟩
  | metric k v hm =>
    intro fuel b acc hfuel
    cases fuel with
    | zero => omega
    | succ fuel =>
      obtain ⟨m, e, hm, he⟩ := wellFormedMetric_builds cw b k v hm
      exact Or.inl ⟨_, parseAggregationAux_metric cw fuel b k v acc m e hm he⟩
  | level q hnm hfilter hbuckets haggsObj haggsWf hnamedObj hnamedWf ih_aggs _ =>
    intro fuel b acc hfuel
    by_cases htrail : b.Aggregators = []
    swap
    · exact Or.inl (parseAggregationAux_wellFormed cw q
        (WellFormedNode.level q hnm hfilter hbuckets haggsObj haggsWf hnamedObj hnamedWf)
        fuel b acc hfuel htrail)
    cases fuel with
    | zero => omega
    | succ fuel =>
      by_cases hq : q = []
      · subst hq
        exact Or.inl ⟨(b, acc), by simp [parseAggregationAux, pure, Except.pure]⟩
      have hm := tryMetricsAggregation_not_metric cw q hnm
      obtain ⟨b1, acc1, f1, hf, hb1A⟩ := parseFilterOnThisLevel_total cw b q acc hfilter
      have hwb2 : WellFormedBuckets cw ((QueryMap.delete q "filter").delete "filters") :=
        wellFormedBuckets_delete cw _ _ (by decide)
          (wellFormedBuckets_delete cw _ _ (by decide) hbuckets)
      obtain ⟨b3, present, added, hb⟩ := tryBucketAggregation_total cw b1 _ hwb2
      obtain ⟨hsub3, haggs3, -, hb3A, -⟩ := tryBucketAggregation_ok cw _ _ _ _ _ _ hb
      have hb3nil : b3.Aggregators = [] := by rw [hb3A, hb1A]; exact htrail
      cases added with
      | true =>
        exact Or.inr ⟨htrail, parseAggregationAux_mark_panics cw fuel b q acc _ b1 _ acc1 f1 b3
          _ present hq hm hf hb hb3nil⟩
      | false =>
        have hsubq : ∀ x,
            x ∈ (match bucketKey ((QueryMap.delete q "filter").delete "filters") with
              | some k => QueryMap.delete ((QueryMap.delete q "filter").delete "filters") k
              | none => (QueryMap.delete q "filter").delete "filters") → x ∈ q :=
          fun x hx => QueryMap.delete_subset _ _ (QueryMap.delete_subset _ _ (hsub3 hx))
        have haggsq :
            QueryMap.get (match bucketKey ((QueryMap.delete q "filter").delete "filters") with
              | some k => QueryMap.delete ((QueryMap.delete q "filter").delete "filters") k
              | none => (QueryMap.delete q "filter").delete "filters") "aggs"
            = QueryMap.get q "aggs" :=
          haggs3.trans (by
            rw [QueryMap.get_delete_ne _ _ _ (by decide),
              QueryMap.get_delete_ne _ _ _ (by decide)])
        -- the node under `aggs`, on the same trail
        have h5 : (∃ b5 acc5, parseNestedAggs (parseAggregationAux cw fuel) b3
              (match bucketKey ((QueryMap.delete q "filter").delete "filters") with
                | some k => QueryMap.delete ((QueryMap.delete q "filter").delete "filters") k
                | none => (QueryMap.delete q "filter").delete "filters") acc1 = .ok (b5, acc5))
            ∨ parseNestedAggs (parseAggregationAux cw fuel) b3
              (match bucketKey ((QueryMap.delete q "filter").delete "filters") with
                | some k => QueryMap.delete ((QueryMap.delete q "filter").delete "filters") k
                | none => (QueryMap.delete q "filter").delete "filters") acc1
              = .error (.panic "index out of range [-1]") := by
          unfold parseNestedAggs
          rw [haggsq]
          cases hg : QueryMap.get q "aggs" with
          | none => exact Or.inl ⟨_, _, rfl⟩
          | some v =>
            obtain ⟨node, rfl⟩ := haggsObj v hg
            have hd := depth_le_mapDepth q "aggs" _ (QueryMap.get_mem q "aggs" _ hg)
            simp only [JsonValue.depth] at hd
            rcases ih_aggs node hg fuel b3 acc1 (by omega) with ⟨⟨b5, acc5⟩, h5⟩ | ⟨-, h5⟩
            · exact Or.inl ⟨b5, acc5, by
                simp only [JsonValue.asQueryMap, liftPanic, bind, Except.bind]
                exact h5⟩
            · right
              simp only [JsonValue.asQueryMap, liftPanic, bind, Except.bind]
              exact h5
        rcases h5 with ⟨b5, acc5, h5⟩ | h5
        swap
        · exact Or.inr ⟨htrail, parseAggregationAux_nested_panics cw fuel b q acc _ b1 _ acc1 f1
            b3 _ present _ hq hm hf hb h5⟩
        -- the named sub-aggregations, each on a trail with its name
        obtain ⟨⟨b7, acc7⟩, h7⟩ := parseNamedAggregations_total (parseAggregationAux cw fuel)
          (parseAggregationAux_frame cw fuel)
          (QueryMap.delete (match bucketKey ((QueryMap.delete q "filter").delete "filters") with
            | some k => QueryMap.delete ((QueryMap.delete q "filter").delete "filters") k
            | none => (QueryMap.delete q "filter").delete "filters") "aggs") b5
          (if present then acc5 ++ [buildBucketAggregation b5] else acc5)
          (by
            intro k v hmem
            obtain ⟨node, rfl⟩ := hnamedObj k v hmem
            refine ⟨node, rfl, ?_⟩
            intro b2 acc2 hb2
            have hd := depth_le_mapDepth q k _ (hsubq _ (QueryMap.delete_subset _ _ hmem))
            simp only [JsonValue.depth] at hd
            exact parseAggregationAux_wellFormed cw node (hnamedWf k node hmem) fuel b2 acc2
              (by omega) hb2)
        obtain ⟨b8, h8⟩ := restoreAfterNesting_total b7
          (f1 || (QueryMap.get (QueryMap.delete q "filter") "filters").isSome) b.whereBuilder
          false b.«Type» (by intro h; cases h)
        exact Or.inl ⟨_, parseAggregationAux_succ_of_steps cw fuel b q acc _ b1 _ acc1 f1 b3 _
          present false b3 b5 acc5 b7 acc7 b8 hq hm hf hb (by simp) h5 h7 h8⟩

theorem nodeS3_wellFormed (cw : ClickhouseQueryTranslator) : WellFormedNode cw nodeS3 := by
  obtain ⟨node, h, hwf⟩ := treeS3_wellFormed cw "hosts" (JsonValue.obj nodeS3)
    (by simp [treeS3, nodeS3])
  cases h
  exact hwf

/-- C37: the group-by stack and the select stack are balanced. Whenever `parseAggregation`
returns, the `GroupByFields` and the `NonSchemaFields` of the builder are what they were at
entry; and on a well-formed aggregation node no pop of an empty list is attempted,
whatever the state of the builder: the call returns if the trail is not empty, and it never
ends by the panic of a slice expression `xs[:len(xs)-1]` on an empty list. -/
theorem parseAggregation_stacks_balanced (cw : ClickhouseQueryTranslator)
    (b : aggrQueryBuilder) (q : QueryMap) (acc : List QueryWithAggregation)
    (hwf : WellFormedNode cw q) :
    (∀ b' acc', parseAggregation cw b q acc = .ok (b', acc') →
        b'.GroupByFields = b.GroupByFields ∧ b'.NonSchemaFields = b.NonSchemaFields)
      ∧ parseAggregation cw b q acc ≠ .error popOfEmptyList
      ∧ (b.Aggregators ≠ [] → ∃ r, parseAggregation cw b q acc = .ok r) := by
  refine ⟨?_, ?_, ?_⟩
  · intro b' acc' h
    obtain ⟨hf, -⟩ := parseAggregationAux_frame cw _ b q acc b' acc' h
    exact ⟨hf.2.1, hf.2.2.1⟩
  · unfold parseAggregation
    rcases parseAggregationAux_wellFormed_or_index cw q hwf _ b acc (Nat.lt_succ_self _) with
      ⟨r, hr⟩ | ⟨-, hr⟩
    · rw [hr]
      intro h
      cases h
    · rw [hr]
      intro h
      have h2 := Except.error.inj h
      unfold popOfEmptyList at h2
      have h3 := Abort.panic.inj h2
      exact absurd h3 (by decide)
  · intro htrail
    exact parseAggregationAux_wellFormed cw q hwf _ b acc (Nat.lt_succ_self _) htrail

/-- Witness of C37: the node of scenario S3, from a builder with the trail `hosts` and one
group-by expression. -/
theorem parseAggregation_stacks_balanced_witness :
    ∃ b' acc', parseAggregation sampleTranslator
        { hostBuilder with Aggregators := [NewAggregatorEmpty "hosts"] } nodeS3 [] = .ok (b', acc')
      ∧ b'.GroupByFields = ["\"host\""] ∧ b'.NonSchemaFields = ["\"host\""]
      ∧ acc'.length = 2 := by
  obtain ⟨⟨b', acc'⟩, h⟩ := (parseAggregation_stacks_balanced sampleTranslator
    { hostBuilder with Aggregators := [NewAggregatorEmpty "hosts"] } nodeS3 []
    (nodeS3_wellFormed sampleTranslator)).2.2 (by decide)
  have hbal := (parseAggregation_stacks_balanced sampleTranslator
    { hostBuilder with Aggregators := [NewAggregatorEmpty "hosts"] } nodeS3 []
    (nodeS3_wellFormed sampleTranslator)).1 b' acc' h
  refine ⟨b', acc', h, hbal.1, hbal.2, ?_⟩
  have hev : parseAggregation sampleTranslator
      { hostBuilder with Aggregators := [NewAggregatorEmpty "hosts"] } nodeS3 []
      = .ok (b', acc') := h
  have hlen : (parseAggregation sampleTranslator
      { hostBuilder with Aggregators := [NewAggregatorEmpty "hosts"] } nodeS3 []).toOption.map
        (fun r => r.2.length) = some 2 := by decide
  rw [hev] at hlen
  simpa [Except.toOption] using hlen

/-! ## Claims about the plan entries once they are emitted -/

theorem getD_set_ne {α : Type} (xs : List α) (i j : Nat) (x d : α) (h : i ≠ j) :
    (xs.set i x).getD j d = xs.getD j d := by
  rw [List.getD_eq_getElem?_getD, List.getD_eq_getElem?_getD, List.getElem?_set_ne h]

theorem getD_set_self {α : Type} (xs : List α) (i : Nat) (x d : α) (h : i < xs.length) :
    (xs.set i x).getD i d = x := by
  rw [List.getD_eq_getElem?_getD, List.getElem?_set_self h]
  rfl

theorem getD_append_of_lt {α : Type} (xs ys : List α) (i : Nat) (d : α) (h : i < xs.length) :
    (xs ++ ys).getD i d = xs.getD i d := by
  rw [List.getD_eq_getElem?_getD, List.getD_eq_getElem?_getD, List.getElem?_append_left h]

theorem getD_of_length_le {α : Type} (xs : List α) (i : Nat) (d : α) (h : xs.length ≤ i) :
    xs.getD i d = d := by
  rw [List.getD_eq_getElem?_getD, List.getElem?_eq_none h]
  rfl

theorem array_allocated_of_cap (heap : GoHeap) (s : GoSlice) (h : WellFormedSlice heap s)
    (hc : s.cap ≠ 0) : s.array < heap.length := by
  rcases Nat.lt_or_ge s.array heap.length with h1 | h1
  · exact h1
  · have h2 := h.2
    rw [getD_of_length_le heap s.array [] h1] at h2
    simp only [List.length_nil] at h2
    omega

theorem read_append_heap (heap ext : GoHeap) (s : GoSlice) (h : WellFormedSlice heap s) :
    GoHeap.read (heap ++ ext) s = GoHeap.read heap s := by
  unfold GoHeap.read
  by_cases hc : s.cap = 0
  · have hl : s.len = 0 := by have := h.1; omega
    rw [hl]
    rfl
  · rw [getD_append_of_lt heap ext s.array [] (array_allocated_of_cap heap s h hc)]

theorem wellFormedSlice_append_heap (heap ext : GoHeap) (s : GoSlice)
    (h : WellFormedSlice heap s) : WellFormedSlice (heap ++ ext) s := by
  refine ⟨h.1, ?_⟩
  by_cases hc : s.cap = 0
  · have h2 := h.2
    rcases Nat.lt_or_ge s.array heap.length with h1 | h1
    · rw [getD_append_of_lt heap ext s.array [] h1]
      exact h2
    · rw [getD_of_length_le heap s.array [] h1] at h2
      simp only [List.length_nil] at h2
      omega
  · rw [getD_append_of_lt heap ext s.array [] (array_allocated_of_cap heap s h hc)]
    exact h.2

theorem read_length (heap : GoHeap) (s : GoSlice) (h : WellFormedSlice heap s) :
    (GoHeap.read heap s).length = s.len := by
  unfold GoHeap.read
  rw [List.length_take, List.length_drop]
  have h1 := h.1
  have h2 := h.2
  omega

/-- The statements `q.X = make([]string, len(qwa.X))` and `copy(q.X, qwa.X)` together: the
memory gets one more backing array, with the elements of `qwa.X`. -/
theorem goMake_goCopy (heap : GoHeap) (s : GoSlice) (h : WellFormedSlice heap s) :
    goCopy (goMake heap s.len).1 (goMake heap s.len).2 s = heap ++ [GoHeap.read heap s] := by
  have hr : GoHeap.read (heap ++ [List.replicate s.len ""]) s = GoHeap.read heap s :=
    read_append_heap heap _ s h
  have hl := read_length heap s h
  unfold goCopy goMake
  simp only [hr]
  have ht : (GoHeap.read heap s).take s.len = GoHeap.read heap s := by
    rw [List.take_of_length_le (by omega)]
  rw [ht]
  have hg : (heap ++ [List.replicate s.len ""]).getD heap.length [] = List.replicate s.len "" := by
    rw [List.getD_eq_getElem?_getD, List.getElem?_append_right (le_refl _)]
    simp
  rw [hg, hl]
  simp only [List.take_zero, List.nil_append, Nat.zero_add]
  rw [List.drop_of_length_le (by simp), List.append_nil]
  rw [List.set_append_right _ _ (le_refl _)]
  simp

theorem goCopy_fresh (heap : GoHeap) (s : GoSlice) (h : WellFormedSlice heap s) :
    goCopy (heap ++ [List.replicate s.len ""]) ⟨heap.length, 0, s.len, s.len⟩ s
      = heap ++ [GoHeap.read heap s] :=
  goMake_goCopy heap s h

/-- What `CopyAggregationFields` does to the memory: four new backing arrays, each with
the elements of one list of the argument, and the four slices of the receiver are these
arrays in full. -/
theorem CopyAggregationFieldsHeap_eq (heap : GoHeap) (b : AggregationFields)
    (hb : ∀ field, WellFormedSlice heap (b.get field)) :
    CopyAggregationFieldsHeap heap b
      = (heap ++ [GoHeap.read heap b.GroupByFields, GoHeap.read heap b.Fields,
            GoHeap.read heap b.NonSchemaFields, GoHeap.read heap b.AggregatorsNames],
          { GroupByFields := ⟨heap.length, 0, b.GroupByFields.len, b.GroupByFields.len⟩,
            Fields := ⟨heap.length + 1, 0, b.Fields.len, b.Fields.len⟩,
            NonSchemaFields := ⟨heap.length + 2, 0, b.NonSchemaFields.len,
              b.NonSchemaFields.len⟩,
            AggregatorsNames := ⟨heap.length + 3, 0, b.AggregatorsNames.len,
              b.AggregatorsNames.len⟩ }) := by
  have hG : WellFormedSlice heap b.GroupByFields := hb .GroupByFields
  have hF : WellFormedSlice heap b.Fields := hb .Fields
  have hN : WellFormedSlice heap b.NonSchemaFields := hb .NonSchemaFields
  have hA : WellFormedSlice heap b.AggregatorsNames := hb .AggregatorsNames
  have hF1 := wellFormedSlice_append_heap heap [GoHeap.read heap b.GroupByFields] _ hF
  have hN1 := wellFormedSlice_append_heap heap [GoHeap.read heap b.GroupByFields] _ hN
  have hN2 := wellFormedSlice_append_heap _ [GoHeap.read heap b.Fields] _ hN1
  have hA1 := wellFormedSlice_append_heap heap [GoHeap.read heap b.GroupByFields] _ hA
  have hA2 := wellFormedSlice_append_heap _ [GoHeap.read heap b.Fields] _ hA1
  have hA3 := wellFormedSlice_append_heap _ [GoHeap.read heap b.NonSchemaFields] _ hA2
  have c1 := goCopy_fresh heap _ hG
  have c2 := goCopy_fresh _ _ hF1
  have c3 := goCopy_fresh _ _ hN2
  have c4 := goCopy_fresh _ _ hA3
  rw [read_append_heap heap _ _ hF] at c2
  rw [read_append_heap _ _ _ hN1, read_append_heap heap _ _ hN] at c3
  rw [read_append_heap _ _ _ hA2, read_append_heap _ _ _ hA1, read_append_heap heap _ _ hA] at c4
  unfold CopyAggregationFieldsHeap
  simp only [goMake]
  rw [c1, c2, c3, c4]
  simp only [List.length_append, List.length_singleton, List.append_assoc,
    List.singleton_append, List.cons_append, List.nil_append, List.length_cons,
    List.length_nil]

theorem get_put (b : AggregationFields) (field field2 : SliceField) (s : GoSlice) :
    (b.put field s).get field2 = if field2 = field then s else b.get field2 := by
  cases field <;> cases field2 <;> rfl

theorem read_write_other (heap : GoHeap) (a p : Nat) (v : String) (s : GoSlice)
    (h : s.array ≠ a) : GoHeap.read (heap.write a p v) s = GoHeap.read heap s := by
  unfold GoHeap.read GoHeap.write
  rw [getD_set_ne _ _ _ _ _ (Ne.symm h)]

/-- The state of the memory and of the builder after the copy and any statements of the
builder: the arrays with the numbers `first, ..., first + 3` are as they were, and no
slice of the builder with room for an element has one of them as its backing array. -/
def KeepsApart (first : Nat) (start heap : GoHeap) (b : AggregationFields) : Prop :=
  first + 4 ≤ heap.length
    ∧ (∀ a, first ≤ a → a < first + 4 → heap.getD a [] = start.getD a [])
    ∧ ∀ field, (b.get field).len ≤ (b.get field).cap
        ∧ ((b.get field).cap = 0 ∨ (b.get field).array < first
          ∨ first + 4 ≤ (b.get field).array)

theorem keepsApart_runStatement (grow : Nat → Nat) (first : Nat) (start heap : GoHeap)
    (b : AggregationFields) (statement : ListStatement) (heap2 : GoHeap)
    (b2 : AggregationFields) (hk : KeepsApart first start heap b)
    (h : runStatement grow heap b statement = .ok (heap2, b2)) :
    KeepsApart first start heap2 b2 := by
  obtain ⟨hlen, hsame, hb⟩ := hk
  cases statement with
  | append field v =>
    simp only [runStatement, pure, Except.pure, Except.ok.injEq, Prod.mk.injEq] at h
    obtain ⟨h1, h2⟩ := h
    obtain ⟨hle, hsep⟩ := hb field
    unfold goAppend at h1 h2
    by_cases hc : (b.get field).len < (b.get field).cap
    · simp only [hc, if_true] at h1 h2
      subst h1 h2
      have hne : ∀ a, first ≤ a → a < first + 4 → a ≠ (b.get field).array := by
        intro a h3 h4 h5
        rcases hsep with h6 | h6 | h6 <;> omega
      refine ⟨?_, ?_, ?_⟩
      · unfold GoHeap.write
        rw [List.length_set]
        exact hlen
      · intro a h3 h4
        unfold GoHeap.write
        rw [getD_set_ne _ _ _ _ _ (Ne.symm (hne a h3 h4))]
        exact hsame a h3 h4
      · intro field2
        rw [get_put]
        by_cases hf : field2 = field
        · rw [if_pos hf]
          exact ⟨by show (b.get field).len + 1 ≤ (b.get field).cap; omega, hsep⟩
        · rw [if_neg hf]
          exact hb field2
    · simp only [hc, if_false] at h1 h2
      subst h1 h2
      refine ⟨?_, ?_, ?_⟩
      · rw [List.length_append]
        omega
      · intro a h3 h4
        rw [getD_append_of_lt _ _ _ _ (by omega)]
        exact hsame a h3 h4
      · intro field2
        rw [get_put]
        by_cases hf : field2 = field
        · rw [if_pos hf]
          refine ⟨?_, Or.inr (Or.inr hlen)⟩
          show (b.get field).len + 1 ≤ max ((b.get field).len + 1) (grow (b.get field).cap)
          exact le_max_left _ _
        · rw [if_neg hf]
          exact hb field2
  | pop field =>
    simp only [runStatement] at h
    by_cases hc : (b.get field).len = 0
    · rw [if_pos hc] at h
      cases h
    · rw [if_neg hc] at h
      simp only [pure, Except.pure, Except.ok.injEq, Prod.mk.injEq] at h
      obtain ⟨h1, h2⟩ := h
      subst h1 h2
      refine ⟨hlen, hsame, ?_⟩
      intro field2
      rw [get_put]
      by_cases hf : field2 = field
      · rw [if_pos hf]
        obtain ⟨hle, hsep⟩ := hb field
        exact ⟨by show (b.get field).len - 1 ≤ (b.get field).cap; omega, hsep⟩
      · rw [if_neg hf]
        exact hb field2
  | assign field i v =>
    simp only [runStatement] at h
    by_cases hc : i < (b.get field).len
    · rw [if_pos hc] at h
      simp only [pure, Except.pure, Except.ok.injEq, Prod.mk.injEq] at h
      obtain ⟨h1, h2⟩ := h
      subst h1 h2
      obtain ⟨hle, hsep⟩ := hb field
      have hne : ∀ a, first ≤ a → a < first + 4 → a ≠ (b.get field).array := by
        intro a h3 h4 h5
        rcases hsep with h6 | h6 | h6 <;> omega
      refine ⟨?_, ?_, hb⟩
      · unfold GoHeap.write
        rw [List.length_set]
        exact hlen
      · intro a h3 h4
        unfold GoHeap.write
        rw [getD_set_ne _ _ _ _ _ (Ne.symm (hne a h3 h4))]
        exact hsame a h3 h4
    · rw [if_neg hc] at h
      cases h

theorem keepsApart_runStatements (grow : Nat → Nat) (first : Nat) (start : GoHeap) :
    ∀ (statements : List ListStatement) (heap : GoHeap) (b : AggregationFields)
      (heap2 : GoHeap) (b2 : AggregationFields), KeepsApart first start heap b →
      runStatements grow statements heap b = .ok (heap2, b2) →
      KeepsApart first start heap2 b2 := by
  intro statements
  induction statements with
  | nil =>
    intro heap b heap2 b2 hk h
    simp only [runStatements, pure, Except.pure, Except.ok.injEq, Prod.mk.injEq] at h
    obtain ⟨h1, h2⟩ := h
    subst h1 h2
    exact hk
  | cons statement rest ih =>
    intro heap b heap2 b2 hk h
    unfold runStatements at h
    obtain ⟨⟨heap1, b1⟩, h1, h⟩ := (bind_eq_ok _ _ _).mp h
    exact ih heap1 b1 heap2 b2 (keepsApart_runStatement grow first start heap b statement
      heap1 b1 hk h1) h

theorem read_of_same_array (heap heap2 : GoHeap) (s : GoSlice)
    (h : heap2.getD s.array [] = heap.getD s.array []) :
    GoHeap.read heap2 s = GoHeap.read heap s := by
  unfold GoHeap.read
  rw [h]

theorem read_fresh (pre : GoHeap) (xs : List String) (post : GoHeap) (a n : Nat)
    (ha : a = pre.length) (hn : xs.length = n) :
    GoHeap.read (pre ++ xs :: post) ⟨a, 0, n, n⟩ = xs := by
  subst ha
  unfold GoHeap.read
  rw [List.getD_eq_getElem?_getD, List.getElem?_append_right (le_refl _)]
  simp only [Nat.sub_self, List.getElem?_cons_zero, Option.getD_some, List.drop_zero]
  rw [List.take_of_length_le (by omega)]

/-- C35: plan entries are not changed once they are emitted. Whenever `parseAggregation`
returns, the accumulator before the call is a prefix of the accumulator after it: the same
entries in the same order. And the lists of an entry are its own: `CopyAggregationFields`,
which `buildAggregationCommon` calls on every entry, gives the entry the elements of the
group-by list, of the two select lists and of the trail of the builder in new backing
arrays, so that whatever the builder appends to its lists, pops from them or assigns to
their elements afterwards, the lists of the entry keep their elements. -/
theorem plan_entries_immutable (cw : ClickhouseQueryTranslator) (b : aggrQueryBuilder)
    (q : QueryMap) (acc : List QueryWithAggregation) (heap : GoHeap)
    (slices : AggregationFields) (hb : ∀ field, WellFormedSlice heap (slices.get field)) :
    (∀ b' acc', parseAggregation cw b q acc = .ok (b', acc') → ∃ rest, acc' = acc ++ rest)
      ∧ (∀ field, GoHeap.read (CopyAggregationFieldsHeap heap slices).1
            ((CopyAggregationFieldsHeap heap slices).2.get field)
          = GoHeap.read heap (slices.get field))
      ∧ (∀ field, GoHeap.read (CopyAggregationFieldsHeap heap slices).1 (slices.get field)
          = GoHeap.read heap (slices.get field))
      ∧ (∀ (grow : Nat → Nat) (statements : List ListStatement) (heap2 : GoHeap)
          (slices2 : AggregationFields),
          runStatements grow statements (CopyAggregationFieldsHeap heap slices).1 slices
            = .ok (heap2, slices2) →
          ∀ field, GoHeap.read heap2 ((CopyAggregationFieldsHeap heap slices).2.get field)
            = GoHeap.read heap (slices.get field)) := by
  have hcopy := CopyAggregationFieldsHeap_eq heap slices hb
  have hentry : ∀ field,
      heap.length ≤ ((CopyAggregationFieldsHeap heap slices).2.get field).array
        ∧ ((CopyAggregationFieldsHeap heap slices).2.get field).array < heap.length + 4
        ∧ GoHeap.read (CopyAggregationFieldsHeap heap slices).1
            ((CopyAggregationFieldsHeap heap slices).2.get field)
          = GoHeap.read heap (slices.get field) := by
    intro field
    rw [hcopy]
    have hl := fun f => read_length heap (slices.get f) (hb f)
    cases field
    · refine ⟨by simp [AggregationFields.get], by simp [AggregationFields.get], ?_⟩
      exact read_fresh heap _ _ _ _ rfl (hl .GroupByFields)
    · refine ⟨by simp [AggregationFields.get], by simp [AggregationFields.get], ?_⟩
      have e : heap ++ [GoHeap.read heap slices.GroupByFields, GoHeap.read heap slices.Fields,
            GoHeap.read heap slices.NonSchemaFields, GoHeap.read heap slices.AggregatorsNames]
          = (heap ++ [GoHeap.read heap slices.GroupByFields]) ++ GoHeap.read heap slices.Fields
            :: [GoHeap.read heap slices.NonSchemaFields,
                GoHeap.read heap slices.AggregatorsNames] := by simp
      rw [e]
      exact read_fresh _ _ _ _ _ (by simp) (hl .Fields)
    · refine ⟨by simp [AggregationFields.get], by simp [AggregationFields.get], ?_⟩
      have e : heap ++ [GoHeap.read heap slices.GroupByFields, GoHeap.read heap slices.Fields,
            GoHeap.read heap slices.NonSchemaFields, GoHeap.read heap slices.AggregatorsNames]
          = (heap ++ [GoHeap.read heap slices.GroupByFields, GoHeap.read heap slices.Fields])
            ++ GoHeap.read heap slices.NonSchemaFields
            :: [GoHeap.read heap slices.AggregatorsNames] := by simp
      rw [e]
      exact read_fresh _ _ _ _ _ (by simp) (hl .NonSchemaFields)
    · refine ⟨by simp [AggregationFields.get], by simp [AggregationFields.get], ?_⟩
      have e : heap ++ [GoHeap.read heap slices.GroupByFields, GoHeap.read heap slices.Fields,
            GoHeap.read heap slices.NonSchemaFields, GoHeap.read heap slices.AggregatorsNames]
          = (heap ++ [GoHeap.read heap slices.GroupByFields, GoHeap.read heap slices.Fields,
              GoHeap.read heap slices.NonSchemaFields])
            ++ GoHeap.read heap slices.AggregatorsNames :: [] := by simp
      rw [e]
      exact read_fresh _ _ _ _ _ (by simp) (hl .AggregatorsNames)
  refine ⟨?_, fun field => (hentry field).2.2, ?_, ?_⟩
  · intro b' acc' h
    obtain ⟨-, rest, hrest, -⟩ := parseAggregationAux_frame cw _ b q acc b' acc' h
    exact ⟨rest, hrest⟩
  · intro field
    rw [hcopy]
    exact read_append_heap heap _ _ (hb field)
  · intro grow statements heap2 slices2 hrun field
    have hstart : KeepsApart heap.length (CopyAggregationFieldsHeap heap slices).1
        (CopyAggregationFieldsHeap heap slices).1 slices := by
      refine ⟨?_, fun _ _ _ => rfl, ?_⟩
      · rw [hcopy]
        simp
      · intro f
        refine ⟨(hb f).1, ?_⟩
        by_cases hc : (slices.get f).cap = 0
        · exact Or.inl hc
        · exact Or.inr (Or.inl (array_allocated_of_cap heap _ (hb f) hc))
    obtain ⟨-, hsame, -⟩ := keepsApart_runStatements grow heap.length _ statements _ slices
      heap2 slices2 hstart hrun
    obtain ⟨h1, h2, h3⟩ := hentry field
    rw [read_of_same_array _ heap2 _ (hsame _ h1 h2), h3]

theorem sampleBuilderSlices_wellFormed :
    ∀ field, WellFormedSlice sampleHeap (sampleBuilderSlices.get field) := by
  intro field
  cases field <;> exact ⟨by decide, by decide⟩

/-- Witness of C35: in `sampleHeap`, after the copy, the builder appends, pops, appends
again, overwrites the name on its trail and appends a select expression; its own lists
change, the lists of the entry do not. -/
theorem plan_entries_immutable_witness :
    ∃ heap2 slices2,
      runStatements (fun cap => 2 * cap) sampleStatements
          (CopyAggregationFieldsHeap sampleHeap sampleBuilderSlices).1 sampleBuilderSlices
        = .ok (heap2, slices2)
      ∧ GoHeap.read heap2 slices2.GroupByFields = ["\"host\"", "\"code\""]
      ∧ GoHeap.read heap2 slices2.AggregatorsNames = ["codes"]
      ∧ GoHeap.read heap2 slices2.NonSchemaFields = ["\"host\"", "\"code\""]
      ∧ GoHeap.read sampleHeap sampleBuilderSlices.GroupByFields = ["\"host\""]
      ∧ GoHeap.read sampleHeap sampleBuilderSlices.AggregatorsNames = ["hosts"]
      ∧ GoHeap.read heap2
            ((CopyAggregationFieldsHeap sampleHeap sampleBuilderSlices).2.get
              SliceField.GroupByFields)
          = GoHeap.read sampleHeap (sampleBuilderSlices.get SliceField.GroupByFields)
      ∧ GoHeap.read heap2
            ((CopyAggregationFieldsHeap sampleHeap sampleBuilderSlices).2.get
              SliceField.Fields)
          = GoHeap.read sampleHeap (sampleBuilderSlices.get SliceField.Fields)
      ∧ GoHeap.read heap2
            ((CopyAggregationFieldsHeap sampleHeap sampleBuilderSlices).2.get
              SliceField.NonSchemaFields)
          = GoHeap.read sampleHeap (sampleBuilderSlices.get SliceField.NonSchemaFields)
      ∧ GoHeap.read heap2
            ((CopyAggregationFieldsHeap sampleHeap sampleBuilderSlices).2.get
              SliceField.AggregatorsNames)
          = GoHeap.read sampleHeap (sampleBuilderSlices.get SliceField.AggregatorsNames) :=
  ⟨_, _, rfl, by decide, by decide, by decide, by decide, by decide,
    (plan_entries_immutable sampleTranslator aggrQueryBuilder.zero [] [] sampleHeap
      sampleBuilderSlices sampleBuilderSlices_wellFormed).2.2.2 (fun cap => 2 * cap)
      sampleStatements _ _ rfl SliceField.GroupByFields,
    (plan_entries_immutable sampleTranslator aggrQueryBuilder.zero [] [] sampleHeap
      sampleBuilderSlices sampleBuilderSlices_wellFormed).2.2.2 (fun cap => 2 * cap)
      sampleStatements _ _ rfl SliceField.Fields,
    (plan_entries_immutable sampleTranslator aggrQueryBuilder.zero [] [] sampleHeap
      sampleBuilderSlices sampleBuilderSlices_wellFormed).2.2.2 (fun cap => 2 * cap)
      sampleStatements _ _ rfl SliceField.NonSchemaFields,
    (plan_entries_immutable sampleTranslator aggrQueryBuilder.zero [] [] sampleHeap
      sampleBuilderSlices sampleBuilderSlices_wellFormed).2.2.2 (fun cap => 2 * cap)
      sampleStatements _ _ rfl SliceField.AggregatorsNames⟩

end Quesma
